import Mathlib

/-! Xemu: MEGA65 SD-card controller (storage backend, command protocol, mount manager)
and VIC-I scanline renderer

A shallow embedding of `targets/mega65/sdcard.c` and `targets/cvic20/vic6561.c`.

Conventions of the embedding:

* C globals become fields of explicit state records that every operation
  takes and returns.
* `Uint8` / `Uint32` values are natural numbers; stores into a `Uint8` or a
  `Uint32` object carry an explicit `% 256` / `% 2 ^ 32` where the C
  conversion can truncate.
* Every operation runs in `Option`: `none` stands for "the C program has no
  defined result here" (a `FATAL` abort, an out-of-bounds array access, a
  dangling chunk pointer, or an exhausted iteration bound of the model).
* Chunks of the virtual disk live in a heap; chunk pointers are addresses
  (`0` is `NULL`, address `p + 1` is heap cell `p`).
-/

namespace Xemu

/-! ## Array access with bounds -/

/-- Read `xs[i]`; no result outside the array. -/
def arr_get {α : Type} (xs : List α) (i : Nat) : Option α := xs[i]?

/-- Store `xs[i] = v`; no result outside the array. -/
def arr_set {α : Type} (xs : List α) (i : Nat) (v : α) : Option (List α) :=
  if i < xs.length then some (xs.set i v) else none

/-- The C call `memcpy(dst, src, 512)` on a destination object of exactly 512 bytes:
the destination becomes the first 512 bytes of the source. -/
def memcpy512 (src : List Nat) : List Nat := src.take 512

/-- The C call `memset(dst, 0, 512)`. -/
def zero_block : List Nat := List.replicate 512 0

/-- Modelled from the spec: `has_block_nonzero_byte` (declared in xemu/emutools.h, its
body is not among the sources) tells whether any of the 512 bytes of the buffer is
non-zero ("a write whose full content is all-zero bytes may skip allocation"). -/
def has_block_nonzero_byte (buffer : List Nat) : Bool :=
  (buffer.take 512).any (fun x => x != 0)

/-! ## Virtual disk store -/

def RANGE_MAP_SIZE : Nat := 256

/-- One chunk (`struct virtdisk_chunk_st`). `base` is the data area, one entry per
512-byte slot; `list` is the block number list. Both have `blocks_per_chunk` entries;
`xemu_malloc` leaves them uninitialised, here they start zero-filled (no entry at an
index `>= used_blocks` is read before it is written). -/
structure virtdisk_chunk_st where
  next : Nat
  used_blocks : Nat
  block_no_min : Nat
  block_no_max : Nat
  base : List (List Nat)
  list : List Nat
deriving DecidableEq, Repr

/-- The store (`struct virtdisk_st`) together with the heap its chunks live in.
`allocation_size` and `base_offset` (byte sizes handed to `xemu_malloc`) have no
counterpart: a heap cell holds a whole chunk. -/
structure virtdisk_st where
  heap : List virtdisk_chunk_st
  head : Nat
  tail : Nat
  blocks_per_chunk : Nat
  all_chunks : Nat
  all_blocks : Nat
  range_map : List Nat
  range_map_divisor : Nat
  mode : Nat
deriving DecidableEq, Repr

/-- The chunk a pointer refers to. -/
def chunk_at (heap : List virtdisk_chunk_st) (p : Nat) : Option virtdisk_chunk_st :=
  if p = 0 then none else heap[p - 1]?

/-- State of the static `vdisk` object before any call (`.head = NULL`, rest zero). -/
def vdisk_static : virtdisk_st :=
  { heap := [], head := 0, tail := 0, blocks_per_chunk := 0, all_chunks := 0,
    all_blocks := 0, range_map := List.replicate RANGE_MAP_SIZE 0,
    range_map_divisor := 0, mode := 0 }

/-- `virtdisk_destroy`: every chunk is freed, counters and range map are reset. -/
def virtdisk_destroy (vd : virtdisk_st) : virtdisk_st :=
  { vd with heap := [], head := 0, tail := 0, all_chunks := 0, all_blocks := 0,
            range_map := List.replicate RANGE_MAP_SIZE 0 }

/-- `virtdisk_init ( blocks_per_chunk, total_number_of_blocks )`. -/
def virtdisk_init (vd : virtdisk_st) (blocks_per_chunk total_number_of_blocks : Nat) :
    virtdisk_st :=
  { virtdisk_destroy vd with
      blocks_per_chunk := blocks_per_chunk
      range_map_divisor := (total_number_of_blocks / (RANGE_MAP_SIZE * 8)) + 1 }

/-- The inner `for` loop of `virtdisk_search_block`: first index `a < used_blocks`
with `list[a] == block`. -/
def scan_chunk (v : virtdisk_chunk_st) (block : Nat) : Option Nat :=
  (List.range v.used_blocks).find? (fun a => v.list[a]? == some block)

/-- The body of the `do ... while (v)` loop for one chunk: the bounds test
`block >= v->block_no_min && block <= v->block_no_max` guarding the scan of the list. -/
def chunk_hit (v : virtdisk_chunk_st) (block : Nat) : Option Nat :=
  if v.block_no_min ≤ block ∧ block ≤ v.block_no_max then scan_chunk v block else none

/-- The `do ... while (v)` loop of `virtdisk_search_block`, started at chunk pointer `p`.
Outer `none`: dangling pointer or iteration bound exhausted. Inner result: the
storage location `(chunk pointer, slot)` for `v->base + (a << 9)`, or not found. -/
def search_chain (heap : List virtdisk_chunk_st) (block : Nat) :
    Nat → Nat → Option (Option (Nat × Nat))
  | 0, _ => none
  | fuel + 1, p =>
    match chunk_at heap p with
    | none => none
    | some v =>
      match chunk_hit v block with
      | some a => some (some (p, a))
      | none => if v.next = 0 then some none else search_chain heap block fuel v.next

/-- The range index `block / vdisk.range_map_divisor` of a block: the byte of the range
map (`range_index >> 3`) and the mask inside it (`1U << (range_index & 7U)`, a `Uint8`). -/
def range_byte (vd : virtdisk_st) (block : Nat) : Nat := (block / vd.range_map_divisor) >>> 3

def range_mask (vd : virtdisk_st) (block : Nat) : Nat :=
  (1 <<< ((block / vd.range_map_divisor) &&& 7)) % 256

/-- First part of `virtdisk_search_block`: the search guarded by
`vdisk.head && (vdisk.range_map[range_index] & range_mask)`. -/
def virtdisk_lookup (vd : virtdisk_st) (block : Nat) : Option (Option (Nat × Nat)) :=
  if vd.head ≠ 0 then do
    let m ← arr_get vd.range_map (range_byte vd block)
    if m &&& range_mask vd block ≠ 0 then search_chain vd.heap block vd.heap.length vd.head
    else pure none
  else pure none

/-- `vdisk.range_map[range_index] |= range_mask`. -/
def range_map_mark (vd : virtdisk_st) (block : Nat) : Option (List Nat) := do
  let m ← arr_get vd.range_map (range_byte vd block)
  arr_set vd.range_map (range_byte vd block) ((m ||| range_mask vd block) % 256)

/-- Second part of `virtdisk_search_block`: the block was not found and is allocated,
in the tail chunk if it has room, else in a new chunk linked after the tail. -/
def virtdisk_allocate (vd : virtdisk_st) (block : Nat) :
    Option (Option (Nat × Nat) × virtdisk_st) := do
  let room ←
    if vd.tail ≠ 0 then do
      let t ← chunk_at vd.heap vd.tail
      pure (decide (t.used_blocks < vd.blocks_per_chunk))
    else pure false
  if room then do
    let v ← chunk_at vd.heap vd.tail
    let range_map ← range_map_mark vd block
    let list ← arr_set v.list v.used_blocks block
    let v1 : virtdisk_chunk_st :=
      { v with
          block_no_min := if block < v.block_no_min then block else v.block_no_min
          block_no_max := if block > v.block_no_max then block else v.block_no_max
          list := list
          used_blocks := v.used_blocks + 1 }
    let heap ← arr_set vd.heap (vd.tail - 1) v1
    pure (some (vd.tail, v.used_blocks),
          { vd with heap := heap, all_blocks := vd.all_blocks + 1, range_map := range_map })
  else do
    let p := vd.heap.length + 1
    let list ← arr_set (List.replicate vd.blocks_per_chunk 0) 0 block
    let v : virtdisk_chunk_st :=
      { next := 0, used_blocks := 1, block_no_min := block, block_no_max := block,
        base := List.replicate vd.blocks_per_chunk zero_block, list := list }
    let heap0 ←
      if vd.tail ≠ 0 then do
        let t ← chunk_at vd.heap vd.tail
        arr_set vd.heap (vd.tail - 1) { t with next := p }
      else pure vd.heap
    let range_map ← range_map_mark vd block
    pure (some (p, 0),
          { vd with heap := heap0 ++ [v], all_chunks := vd.all_chunks + 1, tail := p,
                    head := if vd.head = 0 then p else vd.head,
                    range_map := range_map, all_blocks := vd.all_blocks + 1 })

/-- `virtdisk_search_block ( block, do_allocate )`: the storage location of the block
(or `NULL`), and the store after the call. -/
def virtdisk_search_block (vd : virtdisk_st) (block : Nat) (do_allocate : Bool) :
    Option (Option (Nat × Nat) × virtdisk_st) := do
  let found ← virtdisk_lookup vd block
  match found with
  | some loc => pure (some loc, vd)
  | none => if !do_allocate then pure (none, vd) else virtdisk_allocate vd block

/-- Store 512 bytes at a storage location (`memcpy(vbuf, buffer, 512)`). -/
def chunk_store (heap : List virtdisk_chunk_st) (loc : Nat × Nat) (data : List Nat) :
    Option (List virtdisk_chunk_st) := do
  let v ← chunk_at heap loc.1
  let base ← arr_set v.base loc.2 data
  arr_set heap (loc.1 - 1) { v with base := base }

/-- Load the 512 bytes at a storage location. -/
def chunk_load (heap : List virtdisk_chunk_st) (loc : Nat × Nat) : Option (List Nat) := do
  let v ← chunk_at heap loc.1
  arr_get v.base loc.2

/-- `virtdisk_write_block ( block, buffer )`. -/
def virtdisk_write_block (vd : virtdisk_st) (block : Nat) (buffer : List Nat) :
    Option virtdisk_st := do
  let (vbuf, vd1) ← virtdisk_search_block vd block (has_block_nonzero_byte buffer)
  match vbuf with
  | some loc =>
    let heap ← chunk_store vd1.heap loc (memcpy512 buffer)
    pure { vd1 with heap := heap }
  | none => pure vd1

/-- Overwrite the first bytes of a buffer with the given bytes. -/
def buffer_fill (buffer data : List Nat) : List Nat := data ++ buffer.drop data.length

/-- `virtdisk_read_block ( block, buffer )`: the buffer after the call and the store. -/
def virtdisk_read_block (vd : virtdisk_st) (block : Nat) (buffer : List Nat) :
    Option (List Nat × virtdisk_st) := do
  let (vbuf, vd1) ← virtdisk_search_block vd block false
  match vbuf with
  | some loc =>
    let data ← chunk_load vd1.heap loc
    pure (buffer_fill buffer (memcpy512 data), vd1)
  | none => pure (buffer_fill buffer zero_block, vd1)

/-! ## Constants declared outside the translated sources -/

/-- The status flag masks of `sdcard.h`, `XEMU_INFO_SDCARD_BLOCK_NO` of `sdcontent.h`
and `D81_SIZE` of `xemu/d81access.h`.
None of the headers is among the sources, so the values are parameters of the model.
`SD_ST_SDHC` is defined in `sdcard.c` itself, see below. -/
structure sd_consts where
  SD_ST_ERROR : Nat
  SD_ST_FSM_ERROR : Nat
  SD_ST_MAPPED : Nat
  SD_ST_RESET : Nat
  SD_ST_BUSY1 : Nat
  SD_ST_BUSY0 : Nat
  SD_ST_EXT_BUS : Nat
  XEMU_INFO_SDCARD_BLOCK_NO : Nat
  D81_SIZE : Nat
deriving DecidableEq, Repr

def SD_ST_SDHC : Nat := 0x10
def MIN_MOUNT_SECTOR_NO : Nat := 10
def SD_BUFFER_POS : Nat := 0x0E00
def FD_BUFFER_POS : Nat := 0x0C00

/-- The eight status flags in the order error, FSM error, SDHC, mapped, reset, busy1,
busy0, external bus. -/
def sd_consts.flags (K : sd_consts) : List Nat :=
  [K.SD_ST_ERROR, K.SD_ST_FSM_ERROR, SD_ST_SDHC, K.SD_ST_MAPPED, K.SD_ST_RESET,
   K.SD_ST_BUSY1, K.SD_ST_BUSY0, K.SD_ST_EXT_BUS]

/-- What is assumed of the missing flag values: they are non-zero masks inside a byte
and no two of them share a bit. -/
def sd_consts.WF (K : sd_consts) : Prop :=
  (∀ m ∈ K.flags, 0 < m ∧ m < 256) ∧ K.flags.Pairwise (fun a b => a &&& b = 0)

instance (K : sd_consts) : Decidable K.WF := by
  unfold sd_consts.WF; infer_instance

/-- `sd_status |= mask` on the `Uint8` status byte. -/
def st_set (status mask : Nat) : Nat := (status ||| mask) % 256

/-- `sd_status &= ~mask` on the `Uint8` status byte. -/
def st_clr (status mask : Nat) : Nat := status &&& (0xFF ^^^ (mask % 256))

/-- The C test `(sd_status & mask)`. -/
def st_tst (status mask : Nat) : Bool := status &&& mask != 0

/-! ## Host side -/

/-- What the host does during one controller operation: the button chosen in a
`QUESTION_WINDOW` dialog, should one be shown; the number of bytes a host
read or write call transfers before it fails (512 or more: no failure); the return
values of `d81access_attach_fsobj` (per unit and file name) and of
`d81access_create_image_file` (per file name); the HDOS root directory reported by
`hypervisor_hdos_virtualization_status`. -/
structure host_env where
  answer : Nat
  io_limit : Nat
  attach_fsobj : Nat → String → Int
  create_image_file : String → Int
  hdosroot : String

/-- Modelled from the spec: `xemu_safe_read` (xemu/emutools_files.h, body not among the
sources) on the image file, "positioned seek-then-read": the bytes delivered from file
position `pos` when `n` bytes are requested. A short result is an I/O failure. -/
def host_read (image : List Nat) (pos n io_limit : Nat) : List Nat :=
  ((image.drop pos).take n).take io_limit

/-- Modelled from the spec: `xemu_safe_write` (xemu/emutools_files.h, body not among the
sources) on the image file, "positioned seek-then-write": the file after `data` has been
written at position `pos`; a position beyond the end leaves a zero-filled gap. -/
def host_write (image : List Nat) (pos : Nat) (data : List Nat) : List Nat :=
  (image.take pos ++ List.replicate (pos - image.length) 0) ++ data
    ++ image.drop (pos + data.length)

/-! ## Controller state -/

/-- What the disk-image access layer (`d81access`, external) has attached to a unit. -/
inductive d81_attachment where
  | empty
  | fd (fd : Int) (offset : Nat) (mode : Nat)
  | fsobj (name : String) (mode : Nat)
deriving DecidableEq, Repr

/-- One entry of `mount_info[2]`. -/
structure mount_info_st where
  current_name : String
  internal : Int
  force_external_name : Option String
  at_sector : Nat
  at_sector_initial : Nat
  monitoring_initial : Nat
deriving DecidableEq, Repr

/-- All file-scope and function-static objects of `sdcard.c`, the image file behind
`sdfd` (content and file position) and the attachments of the two drive units. -/
structure sd_state where
  sd_regs : List Nat
  sdfd : Int
  sd_status : Nat
  sdhc_mode : Nat
  sdcard_size_in_blocks : Nat
  sdcard_bytes_read : Int
  sd_fill_mode : Nat
  sd_fill_value : Nat
  default_d81_is_from_sd : Nat
  sd_compressed : Int
  sd_bdata_start : Nat
  compressed_block : Nat
  sd_is_read_only : Int
  keep_busy : Nat
  disk_buffers : List Nat
  sd_fill_buffer : List Nat
  disk_buffer_cpu_view : Nat
  sd_reg9 : Nat
  mount_info : List mount_info_st
  vdisk : virtdisk_st
  protect_important_blocks : Nat
  multi_io_block : Nat
  sd_last_ok_cmd : Nat
  default_d81_path : List (Option String)
  sd_image : List Nat
  sd_image_pos : Nat
  d81 : List d81_attachment
deriving DecidableEq, Repr

/-- `U8A_TO_U32 ( a )` on the four bytes starting at index `i`. -/
def U8A_TO_U32 (a : List Nat) (i : Nat) : Option Nat := do
  let a0 ← arr_get a i
  let a1 ← arr_get a (i + 1)
  let a2 ← arr_get a (i + 2)
  let a3 ← arr_get a (i + 3)
  pure ((a0 ||| (a1 <<< 8) ||| (a2 <<< 16) ||| (a3 <<< 24)) % 2 ^ 32)

/-- `host_seek ( block )`: positions the image file; `FATAL` (no result) on a closed
descriptor or when the index entry of a compressed image cannot be read. -/
def host_seek (s : sd_state) (env : host_env) (block : Nat) : Option (Int × sd_state) :=
  if s.sdfd < 0 then none
  else if s.sd_compressed ≠ 0 then
    let offset := (block * 3 + 0x22) % 2 ^ 32
    let buf := host_read s.sd_image offset 3 env.io_limit
    match buf with
    | [b0, b1, b2] =>
      let compressed_block := b0 &&& 0x80
      let b0 := b0 &&& 0x7F
      let offset := (((b0 <<< 16) ||| (b1 <<< 8) ||| b2) <<< 9) + s.sd_bdata_start
      some (0, { s with compressed_block := compressed_block, sd_image_pos := offset })
    | _ => none
  else
    some (0, { s with sd_image_pos := block <<< 9 })

/-- `sdcard_read_block ( block, buffer )`: return value, state and buffer after the call. -/
def sdcard_read_block (s : sd_state) (env : host_env) (block : Nat) (buffer : List Nat) :
    Option (Int × sd_state × List Nat) :=
  if block ≥ s.sdcard_size_in_blocks then some (-1, s, buffer)
  else if s.vdisk.mode ≠ 0 then do
    let (buffer1, vd) ← virtdisk_read_block s.vdisk block buffer
    pure (0, { s with vdisk := vd }, buffer1)
  else do
    let (r, s1) ← host_seek s env block
    if r ≠ 0 then pure (-1, s1, buffer)
    else
      let data := host_read s1.sd_image s1.sd_image_pos 512 env.io_limit
      let s2 := { s1 with sd_image_pos := s1.sd_image_pos + data.length }
      if data.length = 512 then pure (0, s2, buffer_fill buffer data)
      else pure (-1, s2, buffer_fill buffer data)

/-- `sdcard_write_block ( block, buffer )`: return value and state after the call. -/
def sdcard_write_block (s : sd_state) (env : host_env) (block : Nat) (buffer : List Nat) :
    Option (Int × sd_state) :=
  if block ≥ s.sdcard_size_in_blocks then some (-1, s)
  else if s.sd_is_read_only ≠ 0 then some (-1, s)
  else if s.vdisk.mode ≠ 0 then do
    let vd ← virtdisk_write_block s.vdisk block buffer
    pure (0, { s with vdisk := vd })
  else do
    let (r, s1) ← host_seek s env block
    if r ≠ 0 then pure (-1, s1)
    else
      let data := (buffer.take 512).take env.io_limit
      let s2 := { s1 with sd_image := host_write s1.sd_image s1.sd_image_pos data
                          sd_image_pos := s1.sd_image_pos + data.length }
      if data.length = 512 then pure (0, s2) else pure (-1, s2)

/-! ## Controller -/

/-- `sdcard_read_status`: the value returned and the state after the read. -/
def sdcard_read_status (K : sd_consts) (s : sd_state) : Nat × sd_state :=
  let ret := s.sd_status
  let ret := if st_tst ret K.SD_ST_EXT_BUS then st_set ret (K.SD_ST_BUSY1 ||| K.SD_ST_BUSY0) else ret
  let s1 := if s.keep_busy = 0
            then { s with sd_status := st_clr s.sd_status (K.SD_ST_BUSY1 ||| K.SD_ST_BUSY0) }
            else s
  (ret, s1)

/-- The `error:` exit of `sdcard_block_io`. -/
def block_io_error (K : sd_consts) (s : sd_state) : sd_state :=
  { s with
      sd_status := st_set (st_set s.sd_status (K.SD_ST_ERROR ||| K.SD_ST_FSM_ERROR))
                     (K.SD_ST_BUSY1 ||| K.SD_ST_BUSY0)
      sdcard_bytes_read := 0 }

/-- The part of `sdcard_block_io` after the protection of important blocks. -/
def block_io_transfer (K : sd_consts) (s : sd_state) (env : host_env) (block : Nat)
    ( is_write : Bool) : Option sd_state :=
  if st_tst s.sd_status K.SD_ST_EXT_BUS then
    some { s with
             sd_status := st_set s.sd_status
               (K.SD_ST_ERROR ||| K.SD_ST_FSM_ERROR ||| K.SD_ST_BUSY1 ||| K.SD_ST_BUSY0)
             keep_busy := 1 }
  else do
    -- get_buffer_memory(is_write)
    let use_fill := is_write && s.sd_fill_mode != 0
    let buffer := if use_fill then s.sd_fill_buffer else s.disk_buffers.drop SD_BUFFER_POS
    let (ret, s1) ←
      if is_write then sdcard_write_block s env block buffer
      else do
        let (r, s1, buffer1) ← sdcard_read_block s env block buffer
        pure (r, { s1 with disk_buffers := s1.disk_buffers.take SD_BUFFER_POS ++ buffer1 })
    if ret ≠ 0 ∨ s1.sdhc_mode = 0 then pure (block_io_error K s1)
    else
      pure { s1 with
               sd_status := st_clr s1.sd_status (K.SD_ST_ERROR ||| K.SD_ST_FSM_ERROR)
               sdcard_bytes_read := 512 }

/-- `sdcard_block_io ( block, is_write )`. The `QUESTION_WINDOW` buttons are
"Reject this|Reject all|Allow this|Allow all" (0 to 3). -/
def sdcard_block_io (K : sd_consts) (s : sd_state) (env : host_env) (block : Nat)
    ( is_write : Bool) : Option sd_state :=
  if is_write ∧ (block = 0 ∨ block = K.XEMU_INFO_SDCARD_BLOCK_NO) ∧ 0 ≤ s.sdfd
      ∧ s.protect_important_blocks ≠ 0 then
    if s.protect_important_blocks = 2 then some (block_io_error K s)
    else
      match env.answer with
      | 0 => some (block_io_error K s)
      | 1 => some (block_io_error K { s with protect_important_blocks := 2 })
      | 2 => block_io_transfer K s env block is_write
      | 3 => block_io_transfer K { s with protect_important_blocks := 0 } env block is_write
      | _ => block_io_transfer K s env block is_write
  else block_io_transfer K s env block is_write

/-- The `switch (cmd)` of `sdcard_command`. -/
def sdcard_command_switch (K : sd_consts) (s : sd_state) (env : host_env) (cmd : Nat) :
    Option sd_state :=
  let bad_sequence : sd_state :=
    { s with sd_status := st_set s.sd_status (K.SD_ST_ERROR ||| K.SD_ST_FSM_ERROR) }
  match cmd with
  | 0x00 | 0x10 => do
    let r1 ← arr_set s.sd_regs 1 0
    let r2 ← arr_set r1 2 0
    let r3 ← arr_set r2 3 0
    let r4 ← arr_set r3 4 0
    pure { s with
             sd_status := (K.SD_ST_RESET ||| (s.sd_status &&& K.SD_ST_EXT_BUS)) % 256
             sd_regs := r4
             sdhc_mode := 1 }
  | 0x01 | 0x11 =>
    some { s with sd_status := st_clr s.sd_status
                     (K.SD_ST_RESET ||| K.SD_ST_ERROR ||| K.SD_ST_FSM_ERROR) }
  | 0x57 => some s
  | 0x02 => do
    let block ← U8A_TO_U32 s.sd_regs 1
    sdcard_block_io K s env block false
  | 0x03 => do
    let block ← U8A_TO_U32 s.sd_regs 1
    sdcard_block_io K s env block true
  | 0x04 =>
    if s.sd_last_ok_cmd ≠ 0x04 then do
      let block ← U8A_TO_U32 s.sd_regs 1
      sdcard_block_io K { s with multi_io_block := block } env block true
    else some bad_sequence
  | 0x05 =>
    if s.sd_last_ok_cmd = 0x04 ∨ s.sd_last_ok_cmd = 0x05 ∨ s.sd_last_ok_cmd = 0x57 then
      let block := (s.multi_io_block + 1) % 2 ^ 32
      sdcard_block_io K { s with multi_io_block := block } env block true
    else some bad_sequence
  | 0x06 =>
    if s.sd_last_ok_cmd = 0x04 ∨ s.sd_last_ok_cmd = 0x05 ∨ s.sd_last_ok_cmd = 0x57 then
      let block := (s.multi_io_block + 1) % 2 ^ 32
      sdcard_block_io K { s with multi_io_block := block } env block true
    else some bad_sequence
  | 0x0C => some s
  | 0x40 => some { s with sd_status := st_clr s.sd_status SD_ST_SDHC, sdhc_mode := 0 }
  | 0x41 => some { s with sd_status := st_set s.sd_status SD_ST_SDHC, sdhc_mode := 1 }
  | 0x44 => some s
  | 0x45 => some s
  | 0x81 =>
    some { s with sd_status := st_clr (st_set s.sd_status K.SD_ST_MAPPED)
                     (K.SD_ST_ERROR ||| K.SD_ST_FSM_ERROR) }
  | 0x82 =>
    some { s with sd_status := st_clr s.sd_status
                     (K.SD_ST_MAPPED ||| K.SD_ST_ERROR ||| K.SD_ST_FSM_ERROR) }
  | 0x83 => some { s with sd_fill_mode := 1 }
  | 0x84 => some { s with sd_fill_mode := 0 }
  | 0xC0 => some { s with sd_status := st_clr s.sd_status K.SD_ST_EXT_BUS }
  | 0xC1 => some { s with sd_status := st_set s.sd_status K.SD_ST_EXT_BUS }
  | _ => some { s with sd_status := st_set s.sd_status K.SD_ST_ERROR }

/-- `sdcard_command ( cmd )`. -/
def sdcard_command (K : sd_consts) (s : sd_state) (env : host_env) (cmd : Nat) :
    Option sd_state := do
  let s0 := { s with sd_status := st_clr s.sd_status (K.SD_ST_BUSY1 ||| K.SD_ST_BUSY0)
                     keep_busy := 0 }
  let s1 ← sdcard_command_switch K s0 env cmd
  if st_tst s1.sd_status (K.SD_ST_ERROR ||| K.SD_ST_FSM_ERROR) then
    pure { s1 with sd_last_ok_cmd := 0xFF }
  else
    pure { s1 with sd_last_ok_cmd := cmd }

/-- `sdcard_read_register ( reg )`: the value returned and the state after the read. -/
def sdcard_read_register (K : sd_consts) (s : sd_state) (reg : Nat) : Option (Nat × sd_state) := do
  let data ← arr_get s.sd_regs reg
  match reg with
  | 0 => pure (sdcard_read_status K s)
  | 8 => pure ((s.sdcard_bytes_read % 256).toNat, s)
  | 9 => pure (s.sd_reg9, s)
  | _ => pure (data, s)

/-! ## Mount manager -/

/-- Update `mount_info[unit]`. -/
def mount_update (s : sd_state) (unit : Nat) (f : mount_info_st → mount_info_st) :
    Option sd_state := do
  let m ← arr_get s.mount_info unit
  let mi ← arr_set s.mount_info unit (f m)
  pure { s with mount_info := mi }

/-- `d81access_close ( unit )` of the external image access layer. -/
def d81access_close (s : sd_state) (unit : Nat) : Option sd_state := do
  let d ← arr_set s.d81 unit d81_attachment.empty
  pure { s with d81 := d }

def default_d81_basename : List String := ["mega65.d81", "mega65_9.d81"]

/-- The text `sprintf` produces for `%X`. -/
def hex_upper (n : Nat) : String := (String.mk (Nat.toDigits 16 n)).toUpper

/-- The type of `internal_mount`, `some_mount`, ... : return value and state. -/
abbrev mount_fn := sd_state → host_env → Nat → Option (Int × sd_state)

/-- `some_mount ( unit )`, given `internal_mount`. -/
def some_mount_body (im : mount_fn) (s : sd_state) (env : host_env) (unit : Nat) :
    Option (Int × sd_state) := do
  let m ← arr_get s.mount_info unit
  match m.force_external_name with
  | some extfn =>
    if m.current_name ≠ extfn then
      if env.attach_fsobj unit extfn ≠ 0 then do
        let s1 ← d81access_close s unit
        let s2 ← mount_update s1 unit (fun m => { m with current_name := "" })
        pure (-1, s2)
      else do
        let d ← arr_set s.d81 unit (d81_attachment.fsobj extfn 0)
        let s1 ← mount_update { s with d81 := d } unit
                   (fun m => { m with current_name := extfn, internal := 0 })
        pure (0, s1)
    else do
      let s1 ← mount_update s unit (fun m => { m with internal := 0 })
      pure (0, s1)
  | none => do
    let (r, s1) ← im s env unit
    if r = 0 then do
      let s2 ← d81access_close s1 unit
      let s3 ← mount_update s2 unit (fun m => { m with current_name := "", internal := -1 })
      pure (0, s3)
    else pure (0, s1)

/-- `sdcard_force_external_mount ( unit, filename, cry )`, given `internal_mount`;
`filename = none` is the `NULL` pointer. -/
def sdcard_force_external_mount_body (im : mount_fn) (s : sd_state) (env : host_env)
    (unit : Nat) (filename : Option String) : Option (Int × sd_state) := do
  let s1 ←
    match filename with
    | some fn =>
      if fn ≠ "" then mount_update s unit (fun m => { m with force_external_name := some fn })
      else mount_update s unit (fun m => { m with force_external_name := none })
    | none => mount_update s unit (fun m => { m with force_external_name := none })
  let (r, s2) ← some_mount_body im s1 env unit
  if r ≠ 0 then do
    let s3 ← d81access_close s2 unit
    let s4 ← mount_update s3 unit
               (fun m => { m with current_name := "", force_external_name := none })
    pure (-1, s4)
  else pure (0, s2)

/-- `do_default_d81_mount_hack ( unit )`, given `internal_mount`. -/
def do_default_d81_mount_hack_body (im : mount_fn) (s : sd_state) (env : host_env)
    (unit : Nat) : Option (Int × sd_state) := do
  let cached ← arr_get s.default_d81_path unit
  let basename ← arr_get default_d81_basename unit
  let path := match cached with
    | some p => p
    | none => env.hdosroot ++ basename
  let paths ← arr_set s.default_d81_path unit (some path)
  let s1 := { s with default_d81_path := paths }
  if env.create_image_file path = -1 then pure (-1, s1)
  else sdcard_force_external_mount_body im s1 env unit (some path)

/-- `internal_mount ( unit )`, given the `internal_mount` that a nested call reaches
through `do_default_d81_mount_hack`. -/
def internal_mount_body (K : sd_consts) (im : mount_fn) (s : sd_state) (env : host_env)
    (unit : Nat) : Option (Int × sd_state) := do
  let regB ← arr_get s.sd_regs 0xB
  let enabled ←
    if unit = 0 then do
      let m ← arr_get s.mount_info 0
      pure (decide (¬ ((regB &&& 0x03) ≠ 0x03 ∨ m.force_external_name.isSome)))
    else do
      let m ← arr_get s.mount_info 1
      pure (decide (¬ ((regB &&& 0x18) ≠ 0x18 ∨ m.force_external_name.isSome)))
  if !enabled then pure (0, s)
  else do
    let ro_flag : Bool := s.sd_is_read_only != 0
    let at_sector ← U8A_TO_U32 s.sd_regs (if unit = 0 then 0x0C else 0x10)
    if at_sector < MIN_MOUNT_SECTOR_NO
        ∨ (at_sector + (K.D81_SIZE >>> 9)) % 2 ^ 32 ≥ s.sdcard_size_in_blocks then do
      let s1 ← d81access_close s unit
      let s2 ← mount_update s1 unit (fun m => { m with current_name := "", internal := -1 })
      pure (-1, s2)
    else do
      let s1 ← mount_update s unit (fun m =>
        { m with
            at_sector := at_sector
            at_sector_initial :=
              if m.monitoring_initial ≠ 0 ∧ m.at_sector_initial = 0 then at_sector
              else m.at_sector_initial })
      let m1 ← arr_get s1.mount_info unit
      let attach_internal (s1 : sd_state) : Option (Int × sd_state) := do
        let d ← arr_set s1.d81 unit (d81_attachment.fd s1.sdfd (at_sector <<< 9) (if ro_flag then 1 else 0))
        let name := "<SD@$" ++ hex_upper at_sector ++ ":" ++ (if ro_flag then "RO" else "RW") ++ ">"
        let s2 ← mount_update { s1 with d81 := d } unit
                   (fun m => { m with current_name := name, internal := 1 })
        pure (1, s2)
      if at_sector = m1.at_sector_initial ∧ s1.default_d81_is_from_sd = 0 then do
        let (r, s2) ← do_default_d81_mount_hack_body im s1 env unit
        if r = 0 then pure (1, s2) else attach_internal s2
      else attach_internal s1

/-- The recursion `internal_mount` -> `do_default_d81_mount_hack` ->
`sdcard_force_external_mount` -> `some_mount` -> `internal_mount`, cut after `depth`
nested calls. -/
def internal_mount_depth (K : sd_consts) : Nat → mount_fn
  | 0 => fun _ _ _ => none
  | depth + 1 => internal_mount_body K (internal_mount_depth K depth)

/-- `internal_mount ( unit )`. The nested call reached through the default image
always has a forced external name, so `some_mount` does not recurse any further. -/
def internal_mount (K : sd_consts) : mount_fn := internal_mount_depth K 2

/-- `some_mount ( unit )`. -/
def some_mount (K : sd_consts) : mount_fn := some_mount_body (internal_mount K)

/-- `sdcard_force_external_mount ( unit, filename, cry )`. -/
def sdcard_force_external_mount (K : sd_consts) (s : sd_state) (env : host_env) (unit : Nat)
    (filename : Option String) : Option (Int × sd_state) :=
  sdcard_force_external_mount_body (internal_mount K) s env unit filename

/-- `sdcard_unmount ( unit )`. -/
def sdcard_unmount (s : sd_state) (unit : Nat) : Option (Int × sd_state) := do
  let s1 ← d81access_close s unit
  let s2 ← mount_update s1 unit
             (fun m => { m with internal := 0, current_name := "<EMPTY>",
                                force_external_name := none })
  pure (0, s2)

/-- `sdcard_notify_system_start_begin`. -/
def sdcard_notify_system_start_begin (s : sd_state) : Option sd_state := do
  let s1 ← mount_update s 0 (fun m => { m with at_sector_initial := 0, monitoring_initial := 1 })
  mount_update s1 1 (fun m => { m with at_sector_initial := 0, monitoring_initial := 1 })

/-- `sdcard_notify_system_start_end`. -/
def sdcard_notify_system_start_end (s : sd_state) : Option sd_state := do
  let s1 ← mount_update s 0 (fun m => { m with monitoring_initial := 0 })
  mount_update s1 1 (fun m => { m with monitoring_initial := 0 })

/-! ## Register interface -/

/-- `sdcard_write_register ( reg, data )`; `data` is a `Uint8` argument. -/
def sdcard_write_register (K : sd_consts) (s : sd_state) (env : host_env) (reg data : Nat) :
    Option sd_state := do
  let data := data % 256
  let prev_data ← arr_get s.sd_regs reg
  let regs ← arr_set s.sd_regs reg data
  let s := { s with sd_regs := regs }
  match reg with
  | 0x00 => sdcard_command K s env data
  | 0x06 => do
    let first ← arr_get s.sd_fill_buffer 0
    pure { s with
             sd_fill_value := data
             sd_fill_buffer := if data ≠ first then List.replicate 512 data
                               else s.sd_fill_buffer }
  | 0x09 => do
    let r9 ← arr_get s.sd_regs 9
    pure { s with disk_buffer_cpu_view :=
                    if r9 &&& 0x80 ≠ 0 then SD_BUFFER_POS else FD_BUFFER_POS }
  | 0x0B => do
    let s1 ← if (data ^^^ prev_data) &&& 0x07 ≠ 0 then (some_mount K s env 0).map Prod.snd
             else pure s
    if (data ^^^ prev_data) &&& 0x38 ≠ 0 then (some_mount K s1 env 1).map Prod.snd
    else pure s1
  | 0x0C | 0x0D | 0x0E | 0x0F =>
    if data ≠ prev_data then (internal_mount K s env 0).map Prod.snd else pure s
  | 0x10 | 0x11 | 0x12 | 0x13 =>
    if data ≠ prev_data then (internal_mount K s env 1).map Prod.snd else pure s
  | _ => pure s

/-! ## Initialisation -/

/-- Values of headers that are not among the sources: `O_RDONLY` of `<fcntl.h>`,
`MEMCONTENT_VERSION_ID`, and whether `SD_CONTENT_SUPPORT` is defined.
`COMPRESSED_SD` and `USE_KEEP_BUSY` are defined in `sdcard.c`; `VIRTUAL_DISK_IMAGE_SUPPORT`
is taken as defined (the virtual disk is part of the embedding). -/
structure init_consts where
  O_RDONLY : Int
  MEMCONTENT_VERSION_ID : Int
  SD_CONTENT_SUPPORT : Bool

def VIRTUAL_DISK_BLOCKS_PER_CHUNK : Nat := 2048
def VIRTUAL_DISK_SIZE_IN_BLOCKS : Nat := 8388608

/-- A window shown to the user by `ERROR_WINDOW` or `INFO_WINDOW`, with its text. -/
inductive ui_window where
  | error (text : String)
  | info (text : String)
deriving DecidableEq, Repr

/-- The array `compressed_marker`: the text "XemuBlockCompressedImage000" and its
terminating NUL, 28 bytes (`sizeof compressed_marker`). -/
def compressed_marker : List Nat :=
  [0x58, 0x65, 0x6D, 0x75, 0x42, 0x6C, 0x6F, 0x63, 0x6B, 0x43, 0x6F, 0x6D, 0x70, 0x72, 0x65,
   0x73, 0x73, 0x65, 0x64, 0x49, 0x6D, 0x61, 0x67, 0x65, 0x30, 0x30, 0x30, 0x00]

/-- `detect_compressed_image ( fd )`: return value, state and windows shown.
`seek_ok` tells whether the `lseek` to offset 0 succeeds, `io_limit` how many bytes the
host read transfers (512 or more: all). `buf` has 512 entries where it is indexed. -/
def detect_compressed_image (C : init_consts) (s : sd_state) (seek_ok : Bool) (io_limit : Nat) :
    Int × sd_state × List ui_window :=
  if !seek_ok then (-1, s, [])
  else
    let buf := host_read s.sd_image 0 512 io_limit
    let s1 := { s with sd_image_pos := buf.length }
    if buf.length ≠ 512 then (-1, s1, [])
    else if buf.take 28 ≠ compressed_marker then (0, s1, [])
    else if ((buf.getD 0x1C 0 <<< 16) ||| (buf.getD 0x1D 0 <<< 8) ||| buf.getD 0x1E 0) ≠ 3 then
      (-1, s1, [ui_window.error "Invalid/unknown compressed image format"])
    else
      let size := ((buf.getD 0x1F 0 <<< 16) ||| (buf.getD 0x20 0 <<< 8) ||| buf.getD 0x21 0)
                    % 2 ^ 32
      (1, { s1 with
              sdcard_size_in_blocks := size
              sd_bdata_start := (3 * size + 0x22) % 2 ^ 32
              sd_is_read_only := C.O_RDONLY }, [])

/-- `sdcard_get_size`. -/
def sdcard_get_size (s : sd_state) : Nat := s.sdcard_size_in_blocks

/-- The descriptor `sdcard_init` gives both units. -/
def mount_init : mount_info_st :=
  { current_name := "<INIT>", internal := -1, force_external_name := none, at_sector := 0,
    at_sector_initial := 0, monitoring_initial := 0 }

/-- One pass through the `retry:` label of `sdcard_init` as the host decides it: the
result of `xemu_open_file ( fn, O_RDWR, &sd_is_read_only, fnbuf )` (descriptor, whether the
mode reported back is `XEMU_OPEN_FILE_FIRST_MODE_USED`, the name in `fnbuf`, the content
of the file opened), and for a failed open whether `errno` is `ENOENT`, the text of
`strerror`, the button chosen in the "No|Yes" dialog and the result of
`xemu_create_large_empty_file` with its error text. -/
structure open_attempt where
  fd : Int
  first_mode_used : Bool
  fnbuf : String
  image : List Nat
  enoent : Bool
  strerror : String
  create_answer : Nat
  create_result : Int
  create_strerror : String

/-- What the host does during `sdcard_init`: the passes through `retry:`; the file name
`fn` and whether it equals `SDCARD_NAME`; whether `xemu_safe_file_size_by_fd` succeeds
(the size is then the length of the content) and the error text if not; the behaviour of
the seek and of the read in `detect_compressed_image`; the return values of
`sdcontent_handle` and `sdcontent_check_xemu_signature`; and what the external
`sdcontent` calls leave in the storage behind the block functions. -/
structure init_host where
  attempts : List open_attempt
  fn : String
  fn_is_default : Bool
  size_known : Bool
  size_strerror : String
  seek_ok : Bool
  io_limit : Nat
  sdcontent_handle : Int
  signature : Int
  storage : sd_state → sd_state

/-- The state `s` with the storage behind the block functions (virtual store, image file
content and position, `compressed_block`) taken from `t`: the part of the state code
outside `sdcard.c` can reach, through `sdcard_read_block` and `sdcard_write_block`. -/
def with_storage (s t : sd_state) : sd_state :=
  { s with vdisk := t.vdisk, sd_image := t.sd_image, sd_image_pos := t.sd_image_pos,
           compressed_block := t.compressed_block }

/-- The end of `sdcard_init`, from `if (sdfd >= 0)` on. -/
def sdcard_init_tail (C : init_consts) (H : init_host) (virtsd_flag : Bool) (s : sd_state)
    (just_created : Bool) (log : List ui_window) : Int × sd_state × List ui_window :=
  if s.sdfd ≥ 0 then
    let log1 :=
      if just_created ∧ H.sdcontent_handle = 0 then
        log ++ [ui_window.info
          "Your just created SD-card image file has\nbeen auto-fdisk/format'ed by Xemu. Great :)."]
      else log
    if !virtsd_flag then
      let msg := " on the SD-card image.\nPlease use UI menu: Disks -> SD-card -> Update files ...\nUI can be accessed with right mouse click into the emulator window."
      let r := H.signature
      let log2 :=
        if r < 0 then
          log1 ++ [ui_window.error "Warning! Cannot read SD-card to get Xemu signature!"]
        else if r = 0 then log1 ++ [ui_window.info ("Cannot find Xemu's signature" ++ msg)]
        else if r < C.MEMCONTENT_VERSION_ID then
          log1 ++ [ui_window.info ("Xemu's singature is too old" ++ msg ++ " to upgrade")]
        else if r > C.MEMCONTENT_VERSION_ID then
          log1 ++ [ui_window.info ("Xemu's signature is too new" ++ msg ++ " to DOWNgrade")]
        else log1
      (s.sdfd, with_storage s (H.storage s), log2)
    else
      (s.sdfd, if just_created then with_storage s (H.storage s) else s, log1)
  else (s.sdfd, s, log)

/-- The part of `sdcard_init` from the `retry:` label on, for the open attempts the host
still has; no result when the attempts are used up. -/
def sdcard_init_open (C : init_consts) (H : init_host) (virtsd_flag : Bool) :
    List open_attempt → Bool → sd_state → List ui_window →
      Option (Int × sd_state × List ui_window)
  | [], _, _, _ => none
  | a :: rest, just_created, s, log =>
    let s := { s with sdfd := a.fd, sd_is_read_only := if a.first_mode_used then 0 else 1 }
    if a.fd < 0 then
      let log := log ++ [ui_window.error ("Cannot open SD-card image " ++ a.fnbuf
        ++ ", SD-card access won't work! ERROR: " ++ a.strerror)]
      if a.enoent ∧ H.fn_is_default then
        if a.create_answer ≠ 0 then
          if a.create_result ≠ 0 then
            some (sdcard_init_tail C H virtsd_flag s just_created
              (log ++ [ui_window.error
                ("Couldn't create SD-card image file (hint: do you have enough space?)\nError message was: "
                  ++ a.create_strerror)]))
          else sdcard_init_open C H virtsd_flag rest true s log
        else some (sdcard_init_tail C H virtsd_flag s just_created log)
      else some (sdcard_init_tail C H virtsd_flag s just_created log)
    else
      let s := { s with sd_image := a.image, sd_image_pos := 0 }
      let log :=
        if s.sd_is_read_only ≠ 0 then
          log ++ [ui_window.info ("SDCARD: image file " ++ a.fnbuf
            ++ " could be open only in R/O mode!")]
        else log
      if !H.size_known then
        some (-1, { s with sdfd := -1 },
          log ++ [ui_window.error ("Cannot query the size of the SD-card image " ++ H.fn
            ++ ", SD-card access won't work! ERROR: " ++ H.size_strerror)])
      else
        let size_in_bytes := a.image.length
        let d := detect_compressed_image C s H.seek_ok H.io_limit
        let s := { d.2.1 with sd_compressed := d.1 }
        let log := log ++ d.2.2
        let s := if d.1 < 0 then { s with sdcard_size_in_blocks := 0 } else s
        let log :=
          if d.1 < 0 then
            log ++ [ui_window.error "Error while trying to detect compressed SD-image"]
          else log
        let s := { s with sdcard_size_in_blocks := (size_in_bytes >>> 9) % 2 ^ 32 }
        if size_in_bytes < 67108864 then
          some (-1, { s with sdfd := -1 },
            log ++ [ui_window.error "SD-card image is too small! Min required size is 64Mbytes!"])
        else if size_in_bytes &&& 511 ≠ 0 then
          some (-1, { s with sdfd := -1 },
            log ++ [ui_window.error "SD-card image size is not multiple of 512 bytes!!"])
        else if size_in_bytes > 34359738368 then
          some (-1, { s with sdfd := -1 },
            log ++ [ui_window.error "SD-card image is too large! Max allowed size is 32Gbytes!"])
        else some (sdcard_init_tail C H virtsd_flag s just_created log)

/-- `sdcard_init ( fn, virtsd_flag, default_d81_is_from_sd_in )`: return value, state and
the windows shown, in order. `d81access_init` (external, called only when `virtsd_flag`
is clear: it is the `else` branch of the `if`) leaves both units without attachment;
`fdc_init`, `atexit` and the copy into `D6XX_registers` act outside the embedded state. -/
def sdcard_init (C : init_consts) (H : init_host) (s : sd_state) (virtsd_flag : Bool)
    (default_d81_is_from_sd_in : Nat) : Option (Int × sd_state × List ui_window) :=
  let regs := List.replicate 0x30 0
  let s := { s with
      default_d81_is_from_sd := default_d81_is_from_sd_in
      sd_regs := regs
      disk_buffer_cpu_view :=
        if regs.getD 9 0 &&& 0x80 ≠ 0 then SD_BUFFER_POS else FD_BUFFER_POS
      mount_info := [mount_init, mount_init] }
  let s :=
    if virtsd_flag then
      { s with vdisk := { virtdisk_init s.vdisk VIRTUAL_DISK_BLOCKS_PER_CHUNK
                            VIRTUAL_DISK_SIZE_IN_BLOCKS with mode := 1 } }
    else { s with d81 := [d81_attachment.empty, d81_attachment.empty] }
  let s := { s with keep_busy := 0, sd_status := 0,
                    sd_fill_buffer := List.replicate 512 s.sd_fill_value }
  if s.vdisk.mode ≠ 0 then
    let s := { s with sdfd := -1, sd_is_read_only := 0,
                      sdcard_size_in_blocks := VIRTUAL_DISK_SIZE_IN_BLOCKS, sd_compressed := 0 }
    some (0, if C.SD_CONTENT_SUPPORT then with_storage s (H.storage s) else s, [])
  else sdcard_init_open C H virtsd_flag H.attempts false s []

/-! ## VIC-I video chip

A shallow embedding of `targets/cvic20/vic6561.c`. The texture the renderer writes to is
a map from `Uint32` positions to pixel values, the `pixels` pointer a position in it.
`int` variables that the program only ever gives non-negative values are natural numbers;
an `int` has 32 bits. -/

/-- The macros of `vic6561.h`, which is not among the sources: their values are
parameters of the model. -/
structure vic_consts where
  SCREEN_ORIGIN_DOTPOS : Nat
  SCREEN_ORIGIN_SCANLINE : Nat
  SCREEN_FIRST_VISIBLE_DOTPOS : Nat
  SCREEN_LAST_VISIBLE_DOTPOS : Nat
  SCREEN_FIRST_VISIBLE_SCANLINE : Nat
  SCREEN_LAST_VISIBLE_SCANLINE : Nat
  CYCLES_PER_SCANLINE : Nat

/-- The objects of `vic6561.c`. `lo8 a` and `hi4 a`, for `a < 16384`, are the bytes the
kilobyte pointers handed to `vic_init` hold for VIC address `a` (pointer `a >> 10`, offset
`a & 1023`); `texture` is the pixel memory `pixels` points into. -/
structure vic_state where
  vic_palette : List Nat
  scanline : Nat
  lo8 : Nat → Nat
  hi4 : Nat → Nat
  vic_registers : List Nat
  charline : Nat
  pixels : Nat
  texture : Nat → Nat
  pixels_tail : Nat
  first_active_scanline : Nat
  vic_vertical_area : Nat
  vic_cpal : List Nat
  char_height_minus_one : Nat
  char_height_shift : Nat
  first_active_dotpos : Nat
  text_columns : Nat
  text_rows : Nat
  sram_colour_index : Nat
  vic_vid_addr : Nat
  vic_vid_addr_bit9 : Nat
  vic_chr_addr : Nat
  vic_vid_counter : Nat
  vic_row_counter : Nat

/-- `cpu_vic_reg_read ( addr )`; "addr must be 0 ... 15". The result is a `Uint8`. -/
def cpu_vic_reg_read (s : vic_state) (addr : Nat) : Option Nat :=
  if addr = 4 then some ((s.scanline >>> 1) % 256)
  else if addr = 3 then do
    let r ← arr_get s.vic_registers 3
    pure (((r &&& 0x7F) ||| (if s.scanline &&& 1 ≠ 0 then 0x80 else 0)) % 256)
  else arr_get s.vic_registers addr

/-- `cpu_vic_reg_write ( addr, data )`; `data` is converted to `Uint8` by the call. -/
def cpu_vic_reg_write (K : vic_consts) (s : vic_state) (addr : Nat) (data : Nat) :
    Option vic_state := do
  let data := data % 256
  let regs ← arr_set s.vic_registers addr data
  let s := { s with vic_registers := regs }
  match addr with
  | 0 => pure { s with first_active_dotpos := (data &&& 0x7F) * 4 + K.SCREEN_ORIGIN_DOTPOS }
  | 1 => pure { s with first_active_scanline := (data <<< 1) + K.SCREEN_ORIGIN_SCANLINE }
  | 2 =>
    let text_columns := data &&& 0x7F
    let text_columns := if text_columns > 32 then 32 else text_columns
    let bit9 := if data &&& 128 ≠ 0 then 0x200 else 0
    pure { s with text_columns := text_columns
                  vic_vid_addr_bit9 := bit9
                  vic_vid_addr := (s.vic_vid_addr &&& 0xFDFF) ||| bit9 }
  | 3 =>
    let text_rows := (data >>> 1) &&& 0x3F
    pure { s with char_height_minus_one := if data &&& 1 ≠ 0 then 15 else 7
                  char_height_shift := if data &&& 1 ≠ 0 then 4 else 3
                  text_rows := if text_rows > 32 then 32 else text_rows }
  | 5 =>
    pure { s with vic_chr_addr := (data &&& 15) <<< 10
                  vic_vid_addr := ((data &&& 0xF0) <<< 6) ||| s.vic_vid_addr_bit9 }
  | 14 => do
    let c ← arr_get s.vic_palette (data >>> 4)
    let cpal ← arr_set s.vic_cpal 3 c
    pure { s with vic_cpal := cpal }
  | 15 => do
    let b ← arr_get s.vic_palette (data &&& 7)
    let cpal ← arr_set s.vic_cpal 1 b
    let c ← arr_get s.vic_palette (data >>> 4)
    if data &&& 8 ≠ 0 then do
      let cpal ← arr_set cpal 0 c
      pure { s with vic_cpal := cpal, sram_colour_index := 2 }
    else do
      let cpal ← arr_set cpal 2 c
      pure { s with vic_cpal := cpal, sram_colour_index := 0 }
  | _ => pure s

/-- `vic_vsync ( relock_texture )`. `xemu_start_pixel_buffer_access` (external) returns
the start of the texture, position 0 here, and stores the tail it reports. -/
def vic_vsync (s : vic_state) (relock_texture : Bool) (tail : Nat) : vic_state :=
  let s := if relock_texture then { s with pixels := 0, pixels_tail := tail } else s
  { s with scanline := 0, charline := 0, vic_vertical_area := 1, vic_vid_counter := 0,
           vic_row_counter := 0 }

/-- The loop of `vic_init` from index `a` on, `n` iterations: the register writes. The
address space pointers are set by `vic_init` below, they do not depend on the loop. -/
def vic_init_loop (K : vic_consts) : Nat → Nat → vic_state → Option vic_state
  | 0, _, s => some s
  | n + 1, a, s => do
    let s1 ← cpu_vic_reg_write K s (a &&& 15) 0
    vic_init_loop K n (a + 1) s1

/-- `vic_init ( lo8_pointers, hi4_pointers )`. -/
def vic_init (K : vic_consts) (s : vic_state) (lo8 hi4 : Nat → Nat) (tail : Nat) :
    Option vic_state := do
  let s1 ← vic_init_loop K (16 + 3) 0 (vic_vsync s true tail)
  pure { s1 with lo8 := lo8, hi4 := hi4 }

/-- `vic_read_mem_lo8 ( addr )`: the argument is converted to `Uint16`; the pointer array
has 16 + 3 entries, entry `a` being the pointer of kilobyte `a & 15` moved back by
`a << 10`. -/
def vic_read_mem_lo8 (s : vic_state) (addr : Nat) : Option Nat :=
  let addr := addr % 65536
  if addr >>> 10 < 16 + 3 then
    some (s.lo8 ((((addr >>> 10) &&& 15) <<< 10) + (addr - ((addr >>> 10) <<< 10))) % 256)
  else none

/-- `vic_read_mem_hi4 ( addr )`. -/
def vic_read_mem_hi4 (s : vic_state) (addr : Nat) : Option Nat :=
  let addr := addr % 65536
  if addr >>> 10 < 16 + 3 then
    some (s.hi4 ((((addr >>> 10) &&& 15) <<< 10) + (addr - ((addr >>> 10) <<< 10))) % 256)
  else none

/-- The store `*(pixels++) = c`. -/
def put_pixel (s : vic_state) (c : Nat) : vic_state :=
  { s with texture := Function.update s.texture s.pixels c, pixels := s.pixels + 1 }

/-- The local variables of `vic_render_line` that live across the dots of a scanline. -/
structure dot_locals where
  dotpos : Nat
  bitp : Nat
  v_columns : Nat
  v_vid : Nat
deriving DecidableEq, Repr

/-- The border pixel of a dot outside the cells: `if (visible_dotpos) *(pixels++) =
BORDER_COLOUR;`. -/
def dot_border (s : vic_state) (visible_dotpos : Bool) : Option vic_state :=
  if visible_dotpos then do
    let border ← arr_get s.vic_cpal 1
    pure (put_pixel s border)
  else pure s

/-- What the first statements of the cell branch of the loop body leave: the state, the
locals `chr` and `mcm` of the body, and `bitp` and `v_vid`. -/
structure dot_fetched where
  s : vic_state
  chr : Nat
  mcm : Nat
  bitp : Nat
  v_vid : Nat

/-- The declarations of `chr` and `mcm` and the statement `if (bitp == 128) ...` of the
loop body. `chr` and `mcm` are declared in the body, so both are read again for every dot,
at the current `v_vid`; `mcm` is masked with 8 only inside the `if`. -/
def dot_fetch (s : vic_state) (l : dot_locals) : Option dot_fetched := do
  let vb ← vic_read_mem_lo8 s (s.vic_vid_addr + l.v_vid)
  let chr ← vic_read_mem_lo8 s ((vb <<< s.char_height_shift) + s.vic_chr_addr + s.charline)
  let mcm ← vic_read_mem_hi4 s (s.vic_vid_addr + l.v_vid)
  if l.bitp = 128 then do
    let c ← arr_get s.vic_palette (mcm &&& 7)
    let cpal ← arr_set s.vic_cpal s.sram_colour_index c
    let mcm := mcm &&& 8
    pure { s := { s with vic_cpal := cpal }, chr := chr, mcm := mcm,
           bitp := if mcm ≠ 0 then 6 else l.bitp, v_vid := l.v_vid + 1 }
  else pure { s := s, chr := chr, mcm := mcm, bitp := l.bitp, v_vid := l.v_vid }

/-- The statement `if (visible_dotpos) ...` of the cell branch: the pixels stored and the
value of `dotpos` after it. A shift `chr >> bitp` by 32 or more has no defined result. -/
def dot_emit (f : dot_fetched) (visible_dotpos : Bool) (dotpos : Nat) :
    Option (vic_state × Nat) :=
  if visible_dotpos then
    if f.mcm ≠ 0 then
      if f.bitp ≥ 32 then none
      else do
        let c ← arr_get f.s.vic_cpal ((f.chr >>> f.bitp) &&& 3)
        pure (put_pixel (put_pixel f.s c) c, dotpos + 1)
    else do
      let c ← arr_get f.s.vic_cpal (if f.chr &&& f.bitp ≠ 0 then 2 else 0)
      pure (put_pixel f.s c, dotpos)
  else pure (f.s, dotpos)

/-- The statement `if (bitp <= 1) ... else ...` of the cell branch: the locals after the
body. -/
def dot_advance (f : dot_fetched) (v_columns dotpos : Nat) : dot_locals :=
  if f.bitp ≤ 1 then
    { dotpos := dotpos, bitp := 128, v_columns := v_columns - 1, v_vid := f.v_vid }
  else
    { dotpos := dotpos, bitp := if f.mcm ≠ 0 then f.bitp - 2 else f.bitp >>> 1,
      v_columns := v_columns, v_vid := f.v_vid }

/-- Whether `visible_dotpos` holds for a dot. -/
def visible_dot (K : vic_consts) (visible_scanline : Bool) (dotpos : Nat) : Bool :=
  decide (dotpos ≥ K.SCREEN_FIRST_VISIBLE_DOTPOS ∧ dotpos ≤ K.SCREEN_LAST_VISIBLE_DOTPOS)
    && visible_scanline

/-- The body of the `for` loop of `vic_render_line` for one value of `dotpos`, without the
`dotpos++` of the loop header. -/
def render_dot (K : vic_consts) (visible_scanline : Bool) (s : vic_state) (l : dot_locals) :
    Option (vic_state × dot_locals) :=
  if l.dotpos < s.first_active_dotpos then
    (dot_border s (visible_dot K visible_scanline l.dotpos)).map (fun s1 => (s1, l))
  else if l.v_columns ≠ 0 then do
    let f ← dot_fetch s l
    let e ← dot_emit f (visible_dot K visible_scanline l.dotpos) l.dotpos
    pure (e.1, dot_advance f l.v_columns e.2)
  else (dot_border s (visible_dot K visible_scanline l.dotpos)).map (fun s1 => (s1, l))

/-- The `for (dotpos = 0; dotpos < CYCLES_PER_SCANLINE * 4; dotpos++)` loop of
`vic_render_line`, entered with the locals `l`, for at most `fuel` iterations; every
iteration raises `dotpos`, so `CYCLES_PER_SCANLINE * 4` iterations are enough. -/
def render_dots (K : vic_consts) (visible_scanline : Bool) :
    Nat → vic_state → dot_locals → Option (vic_state × dot_locals)
  | 0, s, l => if l.dotpos < K.CYCLES_PER_SCANLINE * 4 then none else some (s, l)
  | fuel + 1, s, l =>
    if l.dotpos < K.CYCLES_PER_SCANLINE * 4 then do
      let (s1, l1) ← render_dot K visible_scanline s l
      render_dots K visible_scanline fuel s1 { l1 with dotpos := l1.dotpos + 1 }
    else some (s, l)

/-- The loop `while (v_columns--) *(pixels++) = BORDER_COLOUR;`. -/
def fill_border (border : Nat) : Nat → vic_state → vic_state
  | 0, s => s
  | n + 1, s => fill_border border n (put_pixel s border)

/-- The first statement of `vic_render_line`: the vertical area the scanline is rendered
in. -/
def vic_area_step (s : vic_state) : Nat :=
  if s.vic_row_counter ≥ s.text_rows ∧ s.vic_vertical_area = 0 then 2
  else if s.scanline = s.first_active_scanline ∧ s.vic_vertical_area = 1 then 0
  else s.vic_vertical_area

/-- The last statements of `vic_render_line`: the character line and the counters after
an active scanline, and the texture tail. -/
def vic_line_end (s : vic_state) : vic_state :=
  let s :=
    if s.charline ≥ s.char_height_minus_one then
      { s with charline := 0, vic_vid_counter := s.vic_vid_counter + s.text_columns,
               vic_row_counter := s.vic_row_counter + 1 }
    else { s with charline := s.charline + 1 }
  { s with pixels := s.pixels + s.pixels_tail }

/-- `vic_render_line ( )`. In a border area a visible scanline is filled with
`SCREEN_LAST_VISIBLE_DOTPOS - SCREEN_FIRST_VISIBLE_DOTPOS + 1` border pixels (no defined
result when that count is negative). -/
def vic_render_line (K : vic_consts) (s : vic_state) : Option vic_state :=
  let s := { s with vic_vertical_area := vic_area_step s }
  let visible_scanline : Bool :=
    decide (s.scanline ≥ K.SCREEN_FIRST_VISIBLE_SCANLINE
      ∧ s.scanline ≤ K.SCREEN_LAST_VISIBLE_SCANLINE)
  if s.vic_vertical_area ≠ 0 then
    if visible_scanline then
      if K.SCREEN_LAST_VISIBLE_DOTPOS + 1 < K.SCREEN_FIRST_VISIBLE_DOTPOS then none
      else do
        let border ← arr_get s.vic_cpal 1
        let s1 := fill_border border
          (K.SCREEN_LAST_VISIBLE_DOTPOS + 1 - K.SCREEN_FIRST_VISIBLE_DOTPOS) s
        pure { s1 with pixels := s1.pixels + s1.pixels_tail }
    else pure s
  else do
    let (s1, _) ← render_dots K visible_scanline (K.CYCLES_PER_SCANLINE * 4) s
      { dotpos := 0, bitp := 128, v_columns := s.text_columns, v_vid := s.vic_vid_counter }
    pure (vic_line_end s1)

/-! ## Definitions used to state the properties -/

/-- The range-map bit of a block number is set. -/
def range_bit_set (vd : virtdisk_st) (block : Nat) : Prop :=
  ∃ m, vd.range_map[range_byte vd block]? = some m ∧ m &&& range_mask vd block ≠ 0

/-- What holds of every chunk of a store. -/
structure chunk_ok (total : Nat) (vd : virtdisk_st) (v : virtdisk_chunk_st) : Prop where
  used_pos : 1 ≤ v.used_blocks
  used_le : v.used_blocks ≤ vd.blocks_per_chunk
  list_len : v.list.length = vd.blocks_per_chunk
  base_len : v.base.length = vd.blocks_per_chunk
  tags : ∀ a, a < v.used_blocks → ∃ b, v.list[a]? = some b ∧ b < total ∧ range_bit_set vd b ∧
            v.block_no_min ≤ b ∧ b ≤ v.block_no_max

/-- The chunks of the heap form one chain in allocation order. -/
def well_linked (heap : List virtdisk_chunk_st) : Prop :=
  ∀ i v, heap[i]? = some v → v.next = if i + 1 < heap.length then i + 2 else 0

/-- Invariant of the store for a declared capacity `total`. -/
structure vdisk_inv (total : Nat) (vd : virtdisk_st) : Prop where
  bpc_pos : 1 ≤ vd.blocks_per_chunk
  map_len : vd.range_map.length = RANGE_MAP_SIZE
  div_ok : ∀ b, b < total → range_byte vd b < RANGE_MAP_SIZE
  head_eq : vd.head = if vd.heap = [] then 0 else 1
  tail_eq : vd.tail = vd.heap.length
  linked : well_linked vd.heap
  chunks : ∀ v, v ∈ vd.heap → chunk_ok total vd v

/-- Search of a list of chunks in order, the first chunk having pointer `p`. -/
def list_search (block : Nat) : List virtdisk_chunk_st → Nat → Option (Nat × Nat)
  | [], _ => none
  | v :: vs, p =>
    match chunk_hit v block with
    | some a => some (p, a)
    | none => list_search block vs (p + 1)

/-- Block `b` is recorded in the list of chunk `v`. -/
def stored_in (v : virtdisk_chunk_st) (b : Nat) : Prop :=
  ∃ a, a < v.used_blocks ∧ v.list[a]? = some b

/-- Block `b` is recorded in some chunk of the store. -/
def stored (vd : virtdisk_st) (b : Nat) : Prop := ∃ v, v ∈ vd.heap ∧ stored_in v b

/-- Every recorded block number lies inside the bounds of its chunk. -/
def tags_bounded (v : virtdisk_chunk_st) : Prop :=
  ∀ a b, a < v.used_blocks → v.list[a]? = some b → v.block_no_min ≤ b ∧ b ≤ v.block_no_max

/-- The tail chunk after block `b` has been appended to it. -/
def chunk_push (t : virtdisk_chunk_st) (b : Nat) : virtdisk_chunk_st :=
  { t with
      block_no_min := if b < t.block_no_min then b else t.block_no_min
      block_no_max := if b > t.block_no_max then b else t.block_no_max
      list := t.list.set t.used_blocks b
      used_blocks := t.used_blocks + 1 }

/-- A fresh chunk holding block `b` in its first slot. -/
def chunk_fresh (bpc b : Nat) : virtdisk_chunk_st :=
  { next := 0, used_blocks := 1, block_no_min := b, block_no_max := b,
    base := List.replicate bpc zero_block, list := (List.replicate bpc 0).set 0 b }

/-- What an allocation of block `b` establishes. -/
structure alloc_post (total : Nat) (vd : virtdisk_st) (b : Nat) (loc : Nat × Nat)
    (vd1 : virtdisk_st) : Prop where
  inv : vdisk_inv total vd1
  found : list_search b vd1.heap 1 = some loc
  count : vd1.all_blocks = vd.all_blocks + 1
  others : ∀ b1, b1 ≠ b → list_search b1 vd1.heap 1 = list_search b1 vd.heap 1
  data : ∀ loc1 d, chunk_load vd.heap loc1 = some d → chunk_load vd1.heap loc1 = some d
  mode_eq : vd1.mode = vd.mode
  bpc_eq : vd1.blocks_per_chunk = vd.blocks_per_chunk
  div_eq : vd1.range_map_divisor = vd.range_map_divisor

/-- The 512 bytes the store holds for block `b`: the data at the location found by the
search, or zeros when the block is not stored. -/
def vdisk_block (vd : virtdisk_st) (b : Nat) : List Nat :=
  match list_search b vd.heap 1 with
  | some loc =>
    match chunk_load vd.heap loc with
    | some d => memcpy512 d
    | none => []
  | none => zero_block

/-- What a write of `X` to block `b` establishes. -/
structure write_post (total : Nat) (vd : virtdisk_st) (b : Nat) (X : List Nat)
    (vd1 : virtdisk_st) : Prop where
  inv : vdisk_inv total vd1
  content : 512 ≤ X.length → vdisk_block vd1 b = memcpy512 X
  others : ∀ b1, b1 ≠ b → vdisk_block vd1 b1 = vdisk_block vd b1
  search_others : ∀ b1, b1 ≠ b → list_search b1 vd1.heap 1 = list_search b1 vd.heap 1
  mode_eq : vd1.mode = vd.mode
  bpc_eq : vd1.blocks_per_chunk = vd.blocks_per_chunk
  div_eq : vd1.range_map_divisor = vd.range_map_divisor
  count_stored : stored vd b → vd1.all_blocks = vd.all_blocks ∧ vd1.all_chunks = vd.all_chunks
    ∧ vd1.range_map = vd.range_map
  unchanged_zero : ¬ stored vd b → has_block_nonzero_byte X = false → vd1 = vd
  count_new : ¬ stored vd b → has_block_nonzero_byte X = true →
    vd1.all_blocks = vd.all_blocks + 1 ∧ stored vd1 b

/-- The stores reachable from `virtdisk_init ( blocks_per_chunk, total )` by block writes
and block reads of block numbers below the declared capacity. -/
inductive vdisk_reachable (bpc total : Nat) : virtdisk_st → Prop where
  | init (vd0 : virtdisk_st) : vdisk_reachable bpc total (virtdisk_init vd0 bpc total)
  | write {vd vd1 : virtdisk_st} (b : Nat) (X : List Nat) :
      vdisk_reachable bpc total vd → b < total →
      virtdisk_write_block vd b X = some vd1 → vdisk_reachable bpc total vd1
  | read {vd vd1 : virtdisk_st} (b : Nat) (buffer buffer1 : List Nat) :
      vdisk_reachable bpc total vd → b < total →
      virtdisk_read_block vd b buffer = some (buffer1, vd1) → vdisk_reachable bpc total vd1

/-- A flag assignment satisfying `sd_consts.WF` (one bit per flag, `SD_ST_SDHC` being
`0x10`), with the Xemu info block at block 1 and an 819200-byte disk image. -/
def K_ref : sd_consts :=
  { SD_ST_ERROR := 0x40, SD_ST_FSM_ERROR := 0x20, SD_ST_MAPPED := 0x08, SD_ST_RESET := 0x04,
    SD_ST_BUSY1 := 0x02, SD_ST_BUSY0 := 0x01, SD_ST_EXT_BUS := 0x80,
    XEMU_INFO_SDCARD_BLOCK_NO := 1, D81_SIZE := 819200 }

/-- A host on which every call succeeds and every dialog is answered "Allow this". -/
def env_ok : host_env :=
  { answer := 2, io_limit := 512, attach_fsobj := fun _ _ => 0,
    create_image_file := fun _ => 0, hdosroot := "/" }

/-- A host whose dialog answer is "Reject this". -/
def env_reject : host_env := { env_ok with answer := 0 }

/-- The controller state `sdcard_init` leaves when the in-memory virtual disk is
selected (`virtsd_flag` set): `virtdisk_init(2048, 8388608)`, `vdisk.mode = 1`,
`sdfd = -1`, writable, all registers and the status byte zero. -/
def sd_virtual_boot : sd_state :=
  { sd_regs := List.replicate 0x30 0, sdfd := -1, sd_status := 0, sdhc_mode := 1,
    sdcard_size_in_blocks := 8388608, sdcard_bytes_read := 0, sd_fill_mode := 0,
    sd_fill_value := 0, default_d81_is_from_sd := 0, sd_compressed := 0, sd_bdata_start := 0,
    compressed_block := 0, sd_is_read_only := 0, keep_busy := 0,
    disk_buffers := List.replicate 0x1000 0, sd_fill_buffer := List.replicate 512 0,
    disk_buffer_cpu_view := FD_BUFFER_POS, sd_reg9 := 0,
    mount_info := [mount_init, mount_init],
    vdisk := virtdisk_init { vdisk_static with mode := 1 } 2048 8388608,
    protect_important_blocks := 1, multi_io_block := 0, sd_last_ok_cmd := 0,
    default_d81_path := [none, none], sd_image := [], sd_image_pos := 0,
    d81 := [d81_attachment.empty, d81_attachment.empty] }

/-- A controller state with an open, writable, uncompressed image file of 16 blocks
(a small stand-in for an image; all blocks zero). -/
def sd_file_small : sd_state :=
  { sd_virtual_boot with
      sdfd := 3, sdcard_size_in_blocks := 16, vdisk := vdisk_static,
      sd_image := List.replicate (16 * 512) 0 }

/-- A small store: `virtdisk_init(2, 64)`. -/
def vd_small : virtdisk_st := virtdisk_init vdisk_static 2 64

/-- The small store after 512 bytes of value 7 have been written to block 5. -/
def vd_small_written : virtdisk_st :=
  { heap := [{ next := 0, used_blocks := 1, block_no_min := 5, block_no_max := 5,
               base := [List.replicate 512 7, List.replicate 512 0], list := [5, 0] }],
    head := 1, tail := 1, blocks_per_chunk := 2, all_chunks := 1, all_blocks := 1,
    range_map := 32 :: List.replicate 255 0, range_map_divisor := 1, mode := 0 }

/-- Two controller states agree on everything but the storage behind the block backend
(virtual store, image file content and position, `compressed_block`). -/
def ctrl_eq (s s1 : sd_state) : Prop :=
  s1 = { s with vdisk := s1.vdisk, sd_image := s1.sd_image, sd_image_pos := s1.sd_image_pos,
                compressed_block := s1.compressed_block }

/-- The backends the multi-block property is proved for: the virtual store in a
reachable state, or an open uncompressed image file. -/
def backend_ok (bpc : Nat) (s : sd_state) : Prop :=
  (s.vdisk.mode ≠ 0 ∧ vdisk_reachable bpc s.sdcard_size_in_blocks s.vdisk) ∨
  (s.vdisk.mode = 0 ∧ 0 ≤ s.sdfd ∧ s.sd_compressed = 0)

/-- The 512 bytes stored for block `b`: the content of the virtual store, or the
512 bytes at byte offset `b * 512` of an open uncompressed image file. -/
def block_content (s : sd_state) (b : Nat) : Option (List Nat) :=
  if b ≥ s.sdcard_size_in_blocks then none
  else if s.vdisk.mode ≠ 0 then some (vdisk_block s.vdisk b)
  else if s.sdfd < 0 ∨ s.sd_compressed ≠ 0 then none
  else if ((s.sd_image.drop (b * 512)).take 512).length = 512
       then some ((s.sd_image.drop (b * 512)).take 512)
       else none

/-- A read of block `b` succeeds and delivers `D`, whatever the buffer held before, as
long as the host transfers whole blocks. -/
def reads_as (s : sd_state) (b : Nat) (D : List Nat) : Prop :=
  ∀ (env : host_env) (buffer : List Nat), 512 ≤ env.io_limit → buffer.length = 512 →
    ∃ s2, sdcard_read_block s env b buffer = some (0, s2, D)

/-- The buffer `get_buffer_memory(1)` selects for a write: the fill buffer in fill mode,
else the SD buffer inside `disk_buffers`. -/
def write_buffer (s : sd_state) : List Nat :=
  if s.sd_fill_mode ≠ 0 then s.sd_fill_buffer else s.disk_buffers.drop SD_BUFFER_POS

/-- The host behaviour the multi-block property needs during one command: with an image
file backend the host write transfers the whole block, and with an open image file a
dialog of the protection of important blocks is answered by one of the "Allow" buttons. -/
def env_good (s : sd_state) (env : host_env) : Prop :=
  (s.vdisk.mode = 0 → 512 ≤ env.io_limit) ∧ (0 ≤ s.sdfd → env.answer ≠ 0 ∧ env.answer ≠ 1)

/-- What a multi-block write sequence keeps true between its commands, for a fixed
capacity `size`, write buffer content `B`, backend mode `m` and descriptor `fd`. -/
structure multi_ready (K : sd_consts) (bpc size : Nat) (B : List Nat) (m : Nat) (fd : Int)
    (s : sd_state) : Prop where
  internal : st_tst s.sd_status K.SD_ST_EXT_BUS = false
  sdhc : s.sdhc_mode ≠ 0
  writable : s.sd_is_read_only = 0
  size_eq : s.sdcard_size_in_blocks = size
  mode_eq : s.vdisk.mode = m
  fd_eq : s.sdfd = fd
  backend : backend_ok bpc s
  buffer : write_buffer s = B
  regs_len : s.sd_regs.length = 0x30
  protect : s.sdfd < 0 ∨ s.protect_important_blocks ≠ 2

/-- What a successful block write command establishes. -/
structure write_cmd_post (K : sd_consts) (bpc size : Nat) (B : List Nat) (m : Nat) (fd : Int)
    (s : sd_state) (b : Nat) (s1 : sd_state) : Prop where
  ready : multi_ready K bpc size B m fd s1
  no_error : st_tst s1.sd_status (K.SD_ST_ERROR ||| K.SD_ST_FSM_ERROR) = false
  content : block_content s1 b = some B
  others : ∀ b1 D, b1 ≠ b → block_content s b1 = some D → block_content s1 b1 = some D

/-- Run a driver program, a list of register writes `(host behaviour, register, data)`:
the states after each write and the final state, or no result if some write has none. -/
def run_trace (K : sd_consts) :
    sd_state → List (host_env × Nat × Nat) → Option (List sd_state × sd_state)
  | s, [] => some ([], s)
  | s, (env, reg, data) :: rest =>
    (sdcard_write_register K s env reg data).bind
      (fun s1 => (run_trace K s1 rest).map (fun r => (s1 :: r.1, r.2)))

/-- Every write of the list goes to one of the sector registers 1..4. -/
def sector_only (ws : List (host_env × Nat × Nat)) : Prop :=
  ∀ w, w ∈ ws → 1 ≤ w.2.1 ∧ w.2.1 ≤ 4

/-- The "continue" part of a multi-block write: for each continue command the sector
register writes made before it, then command 0x05. -/
def continue_steps :
    List (List (host_env × Nat × Nat) × host_env) → List (host_env × Nat × Nat)
  | [] => []
  | (ws, e) :: rest => ws ++ (e, 0, 5) :: continue_steps rest

/-- A multi-block write: first (0x04), `conts.length` times continue (0x05), last (0x06),
with sector register writes between the commands. -/
def multi_block_program (first : host_env)
    (conts : List (List (host_env × Nat × Nat) × host_env))
    (last_ws : List (host_env × Nat × Nat)) (last_env : host_env) :
    List (host_env × Nat × Nat) :=
  (first, 0, 4) :: (continue_steps conts ++ (last_ws ++ [(last_env, 0, 6)]))

/-- The second state equals the first one but for the content of the registers. -/
def regs_only (s s1 : sd_state) : Prop :=
  s1 = { s with sd_regs := s1.sd_regs } ∧ s1.sd_regs.length = s.sd_regs.length

/-- A controller state with an open, writable, uncompressed image file of 64 MiB
(131072 blocks, all zero), as `sdcard_init` leaves it for such a file. -/
def sd_file_boot : sd_state :=
  { sd_virtual_boot with
      sdfd := 3, sdcard_size_in_blocks := 131072, vdisk := vdisk_static,
      sd_image := List.replicate 67108864 0 }

/-- What every command keeps or establishes. -/
structure cmd_frame (K : sd_consts) (s s1 : sd_state) : Prop where
  regs_len : s1.sd_regs.length = s.sd_regs.length
  status_lt : s.sd_status < 256 → s1.sd_status < 256
  latch : s1.keep_busy = s.keep_busy
    ∨ st_tst s1.sd_status (K.SD_ST_ERROR ||| K.SD_ST_FSM_ERROR) = true

/-- The state command 0x41 (SDHC mode on) leaves when issued in `sd_virtual_boot`. -/
def sd_after_sdhc_on : sd_state :=
  { sd_virtual_boot with sd_status := 0x10, sd_last_ok_cmd := 0x41 }

/-- The state reached from `sd_virtual_boot` by writing 7 to register 6 (fill byte), then
commands 0x83 (fill mode on) and 0x57 (write sector gate). -/
def sd_after_gate : sd_state :=
  { sd_virtual_boot with
      sd_regs := ((List.replicate 0x30 0).set 6 7).set 0 0x57
      sd_fill_value := 7, sd_fill_buffer := List.replicate 512 7, sd_fill_mode := 1
      sd_last_ok_cmd := 0x57 }

/-- The status byte a failed block command leaves, as a function of the status byte
before the command. -/
def error_status (K : sd_consts) (st : Nat) : Nat :=
  st_set (st_set (st_clr st (K.SD_ST_BUSY1 ||| K.SD_ST_BUSY0))
    (K.SD_ST_ERROR ||| K.SD_ST_FSM_ERROR)) (K.SD_ST_BUSY1 ||| K.SD_ST_BUSY0)

/-- The three causes of a failing block command `cmd` (2: read, 3: write) on block
`block`: the block number is out of range; the backend is read-only (writes); the host
I/O call on the open, uncompressed image file transfers less than 512 bytes. -/
def io_cause (s : sd_state) (env : host_env) (cmd block : Nat) : Prop :=
  s.sdcard_size_in_blocks ≤ block
  ∨ (cmd = 3 ∧ block < s.sdcard_size_in_blocks ∧ s.sd_is_read_only ≠ 0)
  ∨ (block < s.sdcard_size_in_blocks ∧ s.vdisk.mode = 0 ∧ 0 ≤ s.sdfd ∧ s.sd_compressed = 0
      ∧ ((cmd = 2 ∧ (host_read s.sd_image (block * 512) 512 env.io_limit).length ≠ 512)
         ∨ (cmd = 3 ∧ s.sd_is_read_only = 0 ∧ env.io_limit < 512)))

/-- A state whose sector registers hold block number 0x01000000, beyond the capacity. -/
def sd_far_sector : sd_state :=
  { sd_virtual_boot with sd_regs := (List.replicate 0x30 0).set 4 1 }

/-- A state with the external bus selected, the stored busy bits clear and the keep-busy
latch not engaged. -/
def sd_external_idle : sd_state := { sd_virtual_boot with sd_status := 0x80 }

/-- The state command 0x03 (write block) leaves when issued in `sd_far_sector`: the block
number is beyond the capacity, the error exit sets both error flags and both busy bits. -/
def sd_after_failed_write : sd_state :=
  { sd_far_sector with
      sd_regs := ((List.replicate 0x30 0).set 4 1).set 0 3
      sd_status := 0x63, sd_last_ok_cmd := 0xFF }

/-- The commands `sdcard_command` implements. -/
def implemented_commands : List Nat :=
  [0x00, 0x01, 0x02, 0x03, 0x04, 0x05, 0x06, 0x0C, 0x10, 0x11, 0x40, 0x41, 0x44, 0x45, 0x57,
   0x81, 0x82, 0x83, 0x84, 0xC0, 0xC1]

/-- The mask of the two enable bits of a unit in register 0x0B. -/
def enable_mask (unit : Nat) : Nat := if unit = 0 then 0x03 else 0x18

/-- The first of the four mount-sector registers of a unit. -/
def sector_reg (unit : Nat) : Nat := if unit = 0 then 0x0C else 0x10

/-- A state whose unit 0 has both enable bits set and mount sector 2. -/
def sd_low_sector : sd_state :=
  { sd_virtual_boot with
      sd_regs := ((List.replicate 0x30 0).set 0xB 3).set 0xC 2 }

/-- A state whose unit 0 has both enable bits set and mount sector 0xFFFFFA00. -/
def sd_wrap_sector : sd_state :=
  { sd_virtual_boot with
      sd_regs := ((((List.replicate 0x30 0).set 0xB 3).set 0xD 0xFA).set 0xE 0xFF).set 0xF 0xFF }

/-- What the mount manager relies on: the sizes of the arrays it works on, and no cached
default image path is the empty string (a cached path is the HDOS root followed by a
non-empty base name). -/
structure mount_wf (s : sd_state) : Prop where
  regs_len : s.sd_regs.length = 0x30
  info_len : s.mount_info.length = 2
  d81_len : s.d81.length = 2
  path_len : s.default_d81_path.length = 2
  paths_ok : ∀ v : Nat, s.default_d81_path[v]? ≠ some (some "")

/-- The state `s` with the descriptor, the attachment and the cached default image path
of unit `u` replaced. -/
def mount_out (s : sd_state) (u : Nat) (m : mount_info_st) (d : d81_attachment)
    (p : Option String) : sd_state :=
  { s with mount_info := s.mount_info.set u m, d81 := s.d81.set u d,
           default_d81_path := s.default_d81_path.set u p }

/-- The descriptor, attachment and cached path of unit `u` are `m`, `d` and `p`. -/
def unit_is (s : sd_state) (u : Nat) (m : mount_info_st) (d : d81_attachment)
    (p : Option String) : Prop :=
  s.mount_info[u]? = some m ∧ s.d81[u]? = some d ∧ s.default_d81_path[u]? = some p

/-- The path `do_default_d81_mount_hack` uses for a unit: the cached one, else the HDOS
root followed by the base name of the unit. -/
def default_path (env : host_env) (u : Nat) (p : Option String) : String :=
  match p with
  | some q => q
  | none => env.hdosroot ++ (default_d81_basename[u]?).getD ""

/-- The mount sector passes the validation of `internal_mount`. -/
def sector_valid (K : sd_consts) (s : sd_state) (sector : Nat) : Prop :=
  MIN_MOUNT_SECTOR_NO ≤ sector
  ∧ (sector + (K.D81_SIZE >>> 9)) % 2 ^ 32 < s.sdcard_size_in_blocks

/-- The descriptor after `internal_mount` has recorded a validated mount sector. -/
def with_sector (m : mount_info_st) (sector : Nat) : mount_info_st :=
  { m with
      at_sector := sector
      at_sector_initial :=
        if m.monitoring_initial ≠ 0 ∧ m.at_sector_initial = 0 then sector
        else m.at_sector_initial }

/-- The display name of an internal mount. -/
def internal_name (s : sd_state) (sector : Nat) : String :=
  "<SD@$" ++ hex_upper sector ++ ":" ++ (if (s.sd_is_read_only != 0) = true then "RO" else "RW")
    ++ ">"

/-- The attachment of an internal mount: the image file descriptor at the byte offset of
the mount sector. -/
def internal_attachment (s : sd_state) (sector : Nat) : d81_attachment :=
  d81_attachment.fd s.sdfd (sector <<< 9) (if (s.sd_is_read_only != 0) = true then 1 else 0)

/-- How one mount operation on unit `u` may change the boot-time fields of the
descriptor: the monitoring flag stays, and the initial mount sector either stays or, while
monitoring with no sector captured yet, becomes the validated sector held by the
mount-sector registers of the unit. -/
def desc_rel (s : sd_state) (u : Nat) (m m1 : mount_info_st) : Prop :=
  m1.monitoring_initial = m.monitoring_initial
  ∧ (m1.at_sector_initial = m.at_sector_initial
      ∨ (m.monitoring_initial ≠ 0 ∧ m.at_sector_initial = 0
          ∧ U8A_TO_U32 s.sd_regs (sector_reg u) = some m1.at_sector_initial
          ∧ MIN_MOUNT_SECTOR_NO ≤ m1.at_sector_initial))

/-- A forced external name of unit `u` stays, and its origin stays or becomes external. -/
def forced_kept (u : Nat) (s s1 : sd_state) : Prop :=
  ∀ m fn, s.mount_info[u]? = some m → m.force_external_name = some fn →
    ∃ m1, s1.mount_info[u]? = some m1 ∧ m1.force_external_name = some fn
      ∧ (m1.internal = m.internal ∨ m1.internal = 0)

/-- The boot-time fields of unit `u` change at most by the end of monitoring or by the
capture of a validated sector while monitoring with no sector captured yet. -/
def initial_kept (u : Nat) (s s1 : sd_state) : Prop :=
  ∀ m, s.mount_info[u]? = some m →
    ∃ m1, s1.mount_info[u]? = some m1
      ∧ (m1.monitoring_initial = m.monitoring_initial ∨ m1.monitoring_initial = 0)
      ∧ (m1.at_sector_initial = m.at_sector_initial
          ∨ (m.monitoring_initial ≠ 0 ∧ m.at_sector_initial = 0
              ∧ MIN_MOUNT_SECTOR_NO ≤ m1.at_sector_initial))

/-- One step of the mount manager: the state reached is well formed, the registers are
as before, forced external names and the boot-time fields are kept. -/
structure mount_kept (s s1 : sd_state) : Prop where
  wf : mount_wf s1
  regs : s1.sd_regs = s.sd_regs
  initial : ∀ u, initial_kept u s s1
  forced : ∀ u, forced_kept u s s1

/-- The descriptor of a unit with the forced external name "disk.d81" attached. -/
def forced_desc : mount_info_st :=
  { current_name := "disk.d81", internal := 0, force_external_name := some "disk.d81",
    at_sector := 0, at_sector_initial := 0, monitoring_initial := 0 }

/-- A state whose unit 0 has the forced external name "disk.d81" attached, both enable
bits of both units set and mount sector 0x1000 for unit 0. -/
def sd_forced_external : sd_state :=
  { sd_virtual_boot with
      sd_regs := ((List.replicate 0x30 0).set 0xB 0x1B).set 0xD 0x10
      mount_info := [forced_desc, mount_init]
      d81 := [d81_attachment.fsobj "disk.d81" 0, d81_attachment.empty] }

/-- The mount manager's objects are untouched. -/
def mount_same (s s1 : sd_state) : Prop :=
  s1.mount_info = s.mount_info ∧ s1.d81 = s.d81 ∧ s1.default_d81_path = s.default_d81_path

/-- The part of `some_mount` that runs for a unit without forced external name: the
mount is decided by `internal_mount`. -/
def some_mount_fallback (K : sd_consts) (s : sd_state) (env : host_env) (u : Nat) :
    Option (Int × sd_state) := do
  let (r, s1) ← internal_mount K s env u
  if r = 0 then do
    let s2 ← d81access_close s1 u
    let s3 ← mount_update s2 u (fun m => { m with current_name := "", internal := -1 })
    pure (0, s3)
  else pure (0, s1)

/-- The operations that reach the mount manager: a register write, a forced external
mount, an unmount, and the begin and the end of the system start window. -/
inductive mount_op where
  | write (env : host_env) (reg data : Nat)
  | force_external (env : host_env) (unit : Nat) (filename : Option String)
  | unmount (unit : Nat)
  | start_begin
  | start_end

/-- The operation is `sdcard_notify_system_start_begin`. -/
def mount_op.is_begin : mount_op → Bool
  | mount_op.start_begin => true
  | _ => false

/-- One operation. -/
def mount_step (K : sd_consts) (s : sd_state) : mount_op → Option sd_state
  | mount_op.write env reg data => sdcard_write_register K s env reg data
  | mount_op.force_external env unit filename =>
    (sdcard_force_external_mount K s env unit filename).map Prod.snd
  | mount_op.unmount unit => (sdcard_unmount s unit).map Prod.snd
  | mount_op.start_begin => sdcard_notify_system_start_begin s
  | mount_op.start_end => sdcard_notify_system_start_end s

/-- A sequence of operations. -/
def run_ops (K : sd_consts) : sd_state → List mount_op → Option sd_state
  | s, [] => some s
  | s, op :: rest => (mount_step K s op).bind (fun s1 => run_ops K s1 rest)

/-- The three windows of the size validation of `sdcard_init`. -/
def msg_too_small : ui_window :=
  ui_window.error "SD-card image is too small! Min required size is 64Mbytes!"

def msg_misaligned : ui_window :=
  ui_window.error "SD-card image size is not multiple of 512 bytes!!"

def msg_too_large : ui_window :=
  ui_window.error "SD-card image is too large! Max allowed size is 32Gbytes!"

/-- The size checks of `sdcard_init`, in their order: the window shown for a file of `n`
bytes, if any. -/
def size_window (n : Nat) : Option ui_window :=
  if n < 67108864 then some msg_too_small
  else if n &&& 511 ≠ 0 then some msg_misaligned
  else if n > 34359738368 then some msg_too_large
  else none

/-- The state at program start: every object of `sdcard.c` as its initialiser or the zero
initialisation leaves it. -/
def sd_static : sd_state :=
  { sd_regs := List.replicate 0x30 0, sdfd := 0, sd_status := 0, sdhc_mode := 1,
    sdcard_size_in_blocks := 0, sdcard_bytes_read := 0, sd_fill_mode := 0,
    sd_fill_value := 0, default_d81_is_from_sd := 0, sd_compressed := 0, sd_bdata_start := 0,
    compressed_block := 0, sd_is_read_only := 0, keep_busy := 0,
    disk_buffers := List.replicate 0x1000 0, sd_fill_buffer := List.replicate 512 0,
    disk_buffer_cpu_view := 0, sd_reg9 := 0,
    mount_info := [{ current_name := "", internal := 0, force_external_name := none,
                     at_sector := 0, at_sector_initial := 0, monitoring_initial := 0 },
                   { current_name := "", internal := 0, force_external_name := none,
                     at_sector := 0, at_sector_initial := 0, monitoring_initial := 0 }],
    vdisk := vdisk_static,
    protect_important_blocks := 1, multi_io_block := 0, sd_last_ok_cmd := 0,
    default_d81_path := [none, none], sd_image := [], sd_image_pos := 0,
    d81 := [d81_attachment.empty, d81_attachment.empty] }

/-- Header values for concrete runs: `O_RDONLY` is 0 as in the `<fcntl.h>` of Linux,
macOS and Windows. -/
def C_ref : init_consts :=
  { O_RDONLY := 0, MEMCONTENT_VERSION_ID := 1, SD_CONTENT_SUPPORT := false }

/-- An open attempt that succeeds read-write with descriptor 3 on a file of the given
content. -/
def plain_attempt (image : List Nat) : open_attempt :=
  { fd := 3, first_mode_used := true, fnbuf := "sd.img", image := image,
    enoent := false, strerror := "", create_answer := 0, create_result := 0,
    create_strerror := "" }

/-- A host on which the image file with the given content opens read-write at the first
attempt, every call succeeds and the external content code leaves the storage alone. -/
def host_plain (image : List Nat) : init_host :=
  { attempts := [plain_attempt image],
    fn := "sd.img", fn_is_default := false, size_known := true, size_strerror := "",
    seek_ok := true, io_limit := 512, sdcontent_handle := 0, signature := 1,
    storage := fun s => s }

/-- The 3-byte big-endian value at offset `off` of a header. -/
def be24 (hdr : List Nat) (off : Nat) : Nat :=
  hdr.getD off 0 * 65536 + hdr.getD (off + 1) 0 * 256 + hdr.getD (off + 2) 0

/-- A well-formed compressed-image header declaring 5 blocks: the marker, version 3, the
count, zero filled to 512 bytes. -/
def header_five : List Nat :=
  compressed_marker ++ [0, 0, 3, 0, 0, 5] ++ List.replicate 478 0

/-- The file of the counterexample of the declared capacity: the header declaring 5
blocks, zero filled to 64 MiB. -/
def image_five : List Nat := header_five ++ List.replicate 67108352 0

/-- An open, writable, uncompressed image file of 16 blocks whose block 0 holds the byte 7
throughout; register 9 is zero, so the CPU sees the window at `FD_BUFFER_POS`. -/
def sd_file_sevens : sd_state :=
  { sd_file_small with sd_image := List.replicate 512 7 ++ List.replicate (15 * 512) 0 }

/-- The chain of chunks reached from chunk pointer `p` through the `next` pointers, as the
loop `while (v) { next = v->next; ...; v = next; }` of `virtdisk_destroy` walks it. No
result on a dangling pointer or when the iteration bound is exhausted. -/
def chain_from (heap : List virtdisk_chunk_st) : Nat → Nat → Option (List virtdisk_chunk_st)
  | 0, p => if p = 0 then some [] else none
  | fuel + 1, p =>
    if p = 0 then some []
    else
      match chunk_at heap p with
      | none => none
      | some v => (chain_from heap fuel v.next).map (fun l => v :: l)

/-- The chain of the store, from `vdisk.head`. -/
def vdisk_chain (vd : virtdisk_st) : Option (List virtdisk_chunk_st) :=
  chain_from vd.heap vd.heap.length vd.head

/-- The counters of the store agree with its chunks: every chunk but the last allocated
is full, `all_blocks` is the sum of the `used_blocks`, `all_chunks` the number of chunks. -/
structure count_inv (vd : virtdisk_st) : Prop where
  full : ∀ i v, vd.heap[i]? = some v → i + 1 < vd.heap.length →
    v.used_blocks = vd.blocks_per_chunk
  blocks : vd.all_blocks = (vd.heap.map (fun v => v.used_blocks)).sum
  chunks : vd.all_chunks = vd.heap.length

/-- The heap with the `next` pointer of its last chunk set, as a new chunk is linked. -/
def relink (heap : List virtdisk_chunk_st) : List virtdisk_chunk_st :=
  match heap[heap.length - 1]? with
  | some t => heap.set (heap.length - 1) { t with next := heap.length + 1 }
  | none => heap

/-- The test of `internal_mount` that sends a validated request for `sector` to the default
external image, in terms of the descriptor `m` before the call: the policy is active, and
the sector is the captured one or is being captured by this very call (monitoring is on
and nothing has been captured). -/
def substitution_due (s : sd_state) (m : mount_info_st) (sector : Nat) : Prop :=
  s.default_d81_is_from_sd = 0
  ∧ (m.at_sector_initial = sector ∨ (m.monitoring_initial ≠ 0 ∧ m.at_sector_initial = 0))

/-- The descriptor of a unit inside the boot monitoring window, nothing captured yet. -/
def monitoring_desc : mount_info_st := { mount_init with monitoring_initial := 1 }

/-- A state inside the boot monitoring window (`sdcard_notify_system_start_begin` has run,
no sector captured), default external image policy active, both enable bits of unit 0 set
and mount sector 0x1000 for unit 0. -/
def sd_boot_request : sd_state :=
  { sd_virtual_boot with
      sd_regs := ((List.replicate 0x30 0).set 0xB 0x03).set 0xD 0x10
      mount_info := [monitoring_desc, mount_init] }

/-- A sequence of register writes `(addr, data)`, in order. -/
def vic_run_writes (K : vic_consts) : vic_state → List (Nat × Nat) → Option vic_state
  | s, [] => some s
  | s, w :: ws => do
    let s1 ← cpu_vic_reg_write K s w.1 w.2
    vic_run_writes K s1 ws

/-- The byte last written to register `r` by a sequence of writes, `init` if none was. -/
def last_written (ws : List (Nat × Nat)) (r : Nat) (init : Nat) : Nat :=
  ws.foldl (fun acc w => if w.1 = r then w.2 % 256 else acc) init

/-- The sizes of the arrays of `vic6561.c`: 16 registers, 16 palette entries, 4 colour
slots, and `sram_colour_index` inside the slots. -/
structure vic_wf (s : vic_state) : Prop where
  regs_len : s.vic_registers.length = 16
  palette_len : s.vic_palette.length = 16
  cpal_len : s.vic_cpal.length = 4
  sram_lt : s.sram_colour_index < 4

/-- The cached fields that depend on registers below `n` are the functions of the
register file that `cpu_vic_reg_write` computes (`n = 16`: all of them). -/
structure derived_upto (K : vic_consts) (n : Nat) (s : vic_state) : Prop where
  dotpos : 0 < n → s.first_active_dotpos
    = (s.vic_registers.getD 0 0 &&& 0x7F) * 4 + K.SCREEN_ORIGIN_DOTPOS
  scan : 1 < n →
    s.first_active_scanline = s.vic_registers.getD 1 0 * 2 + K.SCREEN_ORIGIN_SCANLINE
  columns : 2 < n → s.text_columns = min (s.vic_registers.getD 2 0 &&& 0x7F) 32
  rows : 3 < n → s.text_rows = min ((s.vic_registers.getD 3 0 >>> 1) &&& 0x3F) 32
  height : 3 < n →
    s.char_height_minus_one = if s.vic_registers.getD 3 0 &&& 1 ≠ 0 then 15 else 7
  shift : 3 < n → s.char_height_shift = if s.vic_registers.getD 3 0 &&& 1 ≠ 0 then 4 else 3
  chr : 5 < n → s.vic_chr_addr = (s.vic_registers.getD 5 0 &&& 0x0F) <<< 10
  vid : 5 < n → s.vic_vid_addr = ((s.vic_registers.getD 5 0 &&& 0xF0) <<< 6)
    ||| (if s.vic_registers.getD 2 0 &&& 0x80 ≠ 0 then 0x200 else 0)
  bit9 : 2 < n →
    s.vic_vid_addr_bit9 = if s.vic_registers.getD 2 0 &&& 0x80 ≠ 0 then 0x200 else 0
  bytes : ∀ r, r < n → s.vic_registers.getD r 0 < 256

/-- What `cpu_vic_reg_write ( addr, data )` leaves in `s1`, `d` being the byte written. -/
structure vic_write_post (K : vic_consts) (s : vic_state) (addr d : Nat) (s1 : vic_state) :
    Prop where
  regs : s1.vic_registers = s.vic_registers.set addr d
  wf : vic_wf s1
  scanline_eq : s1.scanline = s.scanline
  area_eq : s1.vic_vertical_area = s.vic_vertical_area
  charline_eq : s1.charline = s.charline
  vid_counter_eq : s1.vic_vid_counter = s.vic_vid_counter
  row_counter_eq : s1.vic_row_counter = s.vic_row_counter
  lo8_eq : s1.lo8 = s.lo8
  hi4_eq : s1.hi4 = s.hi4
  palette_eq : s1.vic_palette = s.vic_palette
  dotpos : s1.first_active_dotpos
    = if addr = 0 then (d &&& 0x7F) * 4 + K.SCREEN_ORIGIN_DOTPOS else s.first_active_dotpos
  scan : s1.first_active_scanline
    = if addr = 1 then (d <<< 1) + K.SCREEN_ORIGIN_SCANLINE else s.first_active_scanline
  columns : s1.text_columns
    = if addr = 2 then (if d &&& 0x7F > 32 then 32 else d &&& 0x7F) else s.text_columns
  bit9 : s1.vic_vid_addr_bit9
    = if addr = 2 then (if d &&& 128 ≠ 0 then 0x200 else 0) else s.vic_vid_addr_bit9
  vid : s1.vic_vid_addr
    = if addr = 2 then (s.vic_vid_addr &&& 0xFDFF) ||| (if d &&& 128 ≠ 0 then 0x200 else 0)
      else if addr = 5 then ((d &&& 0xF0) <<< 6) ||| s.vic_vid_addr_bit9
      else s.vic_vid_addr
  rows : s1.text_rows
    = if addr = 3 then (if (d >>> 1) &&& 0x3F > 32 then 32 else (d >>> 1) &&& 0x3F)
      else s.text_rows
  height : s1.char_height_minus_one
    = if addr = 3 then (if d &&& 1 ≠ 0 then 15 else 7) else s.char_height_minus_one
  shift : s1.char_height_shift
    = if addr = 3 then (if d &&& 1 ≠ 0 then 4 else 3) else s.char_height_shift
  chr : s1.vic_chr_addr = if addr = 5 then (d &&& 15) <<< 10 else s.vic_chr_addr

/-- Values of the `vic6561.h` macros for concrete runs: 71 cycles (284 dots) per scanline,
dots 38..261 and scanlines 28..311 visible, screen origin at dot 12 and scanline 0. -/
def K_vic : vic_consts :=
  { SCREEN_ORIGIN_DOTPOS := 12, SCREEN_ORIGIN_SCANLINE := 0,
    SCREEN_FIRST_VISIBLE_DOTPOS := 38, SCREEN_LAST_VISIBLE_DOTPOS := 261,
    SCREEN_FIRST_VISIBLE_SCANLINE := 28, SCREEN_LAST_VISIBLE_SCANLINE := 311,
    CYCLES_PER_SCANLINE := 71 }

/-- The objects of `vic6561.c` at program start (zero-initialised), with a palette in
which colour `i` has the pixel value `i + 1`, and empty video memory. -/
def vic_static : vic_state :=
  { vic_palette := [1, 2, 3, 4, 5, 6, 7, 8, 9, 10, 11, 12, 13, 14, 15, 16],
    scanline := 0, lo8 := fun _ => 0, hi4 := fun _ => 0,
    vic_registers := [0, 0, 0, 0, 0, 0, 0, 0, 0, 0, 0, 0, 0, 0, 0, 0],
    charline := 0, pixels := 0, texture := fun _ => 0, pixels_tail := 0,
    first_active_scanline := 0, vic_vertical_area := 0, vic_cpal := [0, 0, 0, 0],
    char_height_minus_one := 0, char_height_shift := 0, first_active_dotpos := 0,
    text_columns := 0, text_rows := 0, sram_colour_index := 0, vic_vid_addr := 0,
    vic_vid_addr_bit9 := 0, vic_chr_addr := 0, vic_vid_counter := 0, vic_row_counter := 0 }

/-- Register writes that set up a 22 x 23 screen: origin, columns, rows, memory bases and
the colours (normal mode). -/
def writes_22x23 : List (Nat × Nat) :=
  [(0, 12), (1, 38), (2, 0x96), (3, 0x2E), (5, 0xF0), (14, 0x20), (15, 0x1B)]

/-- The dot loop changes only the texture, the `pixels` pointer and the colour slots,
and keeps the number of colour slots. -/
def render_frame (s s1 : vic_state) : Prop :=
  s1 = { s with texture := s1.texture, pixels := s1.pixels, vic_cpal := s1.vic_cpal }
  ∧ s1.vic_cpal.length = s.vic_cpal.length

/-- The renderer state is in range for the dot loop: array sizes, a height shift of at
most 4, a character base of at most 15 KiB and a character line of at most 15, so that
every character-generator address stays inside the 16 + 3 kilobyte pointers. -/
structure dots_ok (s : vic_state) : Prop where
  palette_len : 8 ≤ s.vic_palette.length
  cpal_len : s.vic_cpal.length = 4
  sram_lt : s.sram_colour_index < 4
  shift_le : s.char_height_shift ≤ 4
  chr_le : s.vic_chr_addr ≤ 15360
  charline_le : s.charline ≤ 15

/-- No pixel of the scanline needs a shift by 32 or more: the scanline is not visible, or
the colour memory is zero (hires cells of colour 0 only), or every colour byte has bit 3
set (multicolour cells only). -/
def shift_safe (v : Bool) (s : vic_state) : Prop :=
  v = false ∨ (∀ a, s.hi4 a % 256 = 0) ∨ (∀ a, (s.hi4 a % 256) &&& 8 ≠ 0)

/-- The invariant of the locals of the dot loop. -/
structure locals_ok (v : Bool) (s : vic_state) (l : dot_locals) : Prop where
  bitp_le : l.bitp ≤ 128
  addr : s.vic_vid_addr + l.v_vid + l.v_columns ≤ 19455 + (if l.bitp = 128 then 0 else 1)
  multi : v = true → (∀ a, (s.hi4 a % 256) &&& 8 ≠ 0) → l.bitp = 128 ∨ l.bitp ≤ 6

/-- Whether `visible_scanline` holds. -/
def visible_line (K : vic_consts) (s : vic_state) : Bool :=
  decide (s.scanline ≥ K.SCREEN_FIRST_VISIBLE_SCANLINE
    ∧ s.scanline ≤ K.SCREEN_LAST_VISIBLE_SCANLINE)

/-- The character line and the two counters after a scanline rendered in the area `area`,
as the bookkeeping at the end of `vic_render_line` leaves them. -/
def line_counters (s s1 : vic_state) (area : Nat) : Prop :=
  (area = 0 → s.char_height_minus_one ≤ s.charline →
    s1.charline = 0 ∧ s1.vic_vid_counter = s.vic_vid_counter + s.text_columns
      ∧ s1.vic_row_counter = s.vic_row_counter + 1)
  ∧ (area = 0 → s.charline < s.char_height_minus_one →
    s1.charline = s.charline + 1 ∧ s1.vic_vid_counter = s.vic_vid_counter
      ∧ s1.vic_row_counter = s.vic_row_counter)
  ∧ (area ≠ 0 → s1.charline = s.charline ∧ s1.vic_vid_counter = s.vic_vid_counter
      ∧ s1.vic_row_counter = s.vic_row_counter)

/-- A visible scanline in the active area of a 22 x 23 screen (the state the writes
`writes_22x23` set up, in the third text row, last character line), hires cells of colour
0 throughout: cell 0 shows character 1, whose character-generator byte on this line is
0xFF, every other cell character 0 with byte 0. -/
def vic_hires_line : vic_state :=
  { vic_static with
      scanline := 100, first_active_scanline := 76, vic_vertical_area := 0,
      vic_cpal := [2, 4, 1, 3], char_height_minus_one := 7, char_height_shift := 3,
      first_active_dotpos := 60, text_columns := 22, text_rows := 23, sram_colour_index := 2,
      vic_vid_addr := 0x3E00, vic_vid_addr_bit9 := 0x200, vic_chr_addr := 0,
      charline := 7, vic_vid_counter := 44, vic_row_counter := 2,
      vic_registers := [12, 38, 0x96, 0x2E, 0, 0xF0, 0, 0, 0, 0, 0, 0, 0, 0, 0x20, 0x1B],
      lo8 := fun a => if a = 0x3E00 + 44 then 1 else if a = 8 + 7 then 0xFF else 0 }

/-- The same screen in the top border, on the scanline that starts the active area. -/
def vic_top_line : vic_state :=
  { vic_hires_line with scanline := 76, vic_vertical_area := 1, charline := 0,
                        vic_vid_counter := 0, vic_row_counter := 0 }

/-- The registers, the colour slots and the cached fields of a state, in one list. -/
def vic_setup_fields (s : vic_state) : List Nat :=
  s.vic_registers ++ s.vic_cpal ++
    [s.sram_colour_index, s.first_active_dotpos, s.first_active_scanline, s.text_columns,
     s.text_rows, s.char_height_minus_one, s.char_height_shift, s.vic_chr_addr, s.vic_vid_addr,
     s.vic_vid_addr_bit9]

/-- The scanline `vic_hires_line` with multicolour cells throughout (every colour byte is
8): cell 0 shows character 1, whose character-generator byte on this line is 0xE4 (bit
pairs 3, 2, 1, 0), every other cell character 0 with byte 0. -/
def vic_multi_line : vic_state :=
  { vic_hires_line with
      hi4 := fun _ => 8,
      lo8 := fun a => if a = 0x3E00 + 44 then 1 else if a = 8 + 7 then 0xE4 else 0 }

/-- The locals of the dot loop at the second dot of cell 0 of `vic_hires_line`. -/
def second_dot : dot_locals := { dotpos := 61, bitp := 64, v_columns := 22, v_vid := 45 }

/-- The ten pixels of the texture from position `p` on. -/
def texture_row (s : vic_state) (p : Nat) : List Nat :=
  (List.range 10).map (fun i => s.texture (p + i))

/-- The block numbers recorded in a chunk: the first `used_blocks` entries of its list. -/
def chunk_tags (v : virtdisk_chunk_st) : List Nat := v.list.take v.used_blocks

/-- The block numbers recorded in a list of chunks, chunk by chunk. -/
def heap_tags : List virtdisk_chunk_st → List Nat
  | [] => []
  | v :: vs => chunk_tags v ++ heap_tags vs

/-- The block numbers recorded in the store, over the lists of all chunks in allocation
order. -/
def vdisk_tags (vd : virtdisk_st) : List Nat := heap_tags vd.heap

/-- The 23-bit payload pointer of a 3-byte index entry: the low 7 bits of the first byte
and the two following bytes, big-endian. -/
def index_pointer (b0 b1 b2 : Nat) : Nat := (b0 % 128) * 65536 + b1 * 256 + b2

/-- A controller state with an open compressed image of 16 declared blocks whose index
entry for block 1 is `80 00 02`: flagged compressed, payload pointer 2. -/
def sd_index_small : sd_state :=
  { sd_file_small with
      sd_compressed := 1, sd_bdata_start := 0x22 + 3 * 16,
      sd_image := List.replicate 0x25 0 ++ [0x80, 0, 2] ++ List.replicate 100 0 }

/-- `n` reads of register 0 in a row: the values returned, in order, and the state after
the last read. -/
def status_reads (K : sd_consts) : Nat → sd_state → Option (List Nat × sd_state)
  | 0, s => some ([], s)
  | n + 1, s => do
    let (v, s1) ← sdcard_read_register K s 0
    let (vs, s2) ← status_reads K n s1
    pure (v :: vs, s2)

/-- The block number a block command addresses: the sector registers for 0x02, 0x03 and
0x04, the block after the last one of the sequence for 0x05 and 0x06. -/
def command_block (s : sd_state) (cmd : Nat) : Option Nat :=
  if cmd = 5 ∨ cmd = 6 then some ((s.multi_io_block + 1) % 2 ^ 32) else U8A_TO_U32 s.sd_regs 1

/-- A block command reaches the transfer stage of `sdcard_block_io`: it is 0x02 or 0x03 or
a multi-block command at an accepted place of its sequence, and the protection of
important blocks does not take the error exit (it does not apply to this command, or its
dialog is answered by one of the "Allow" buttons). -/
def reaches_transfer (K : sd_consts) (s : sd_state) (env : host_env) (cmd block : Nat) : Prop :=
  (cmd = 2 ∨ cmd = 3 ∨ (cmd = 4 ∧ s.sd_last_ok_cmd ≠ 4)
    ∨ ((cmd = 5 ∨ cmd = 6)
        ∧ (s.sd_last_ok_cmd = 4 ∨ s.sd_last_ok_cmd = 5 ∨ s.sd_last_ok_cmd = 0x57)))
  ∧ (cmd = 2
      ∨ ¬ ((block = 0 ∨ block = K.XEMU_INFO_SDCARD_BLOCK_NO) ∧ 0 ≤ s.sdfd
            ∧ s.protect_important_blocks ≠ 0)
      ∨ (s.protect_important_blocks ≠ 2 ∧ env.answer ≠ 0 ∧ env.answer ≠ 1))

/-- The controller after boot of the virtual disk with the external bus selected and the
sector registers addressing block 5. -/
def sd_external_sector : sd_state :=
  { sd_virtual_boot with sd_status := 0x80, sd_regs := (List.replicate 0x30 0).set 1 5 }

/-- The controller on a small virtual disk (`virtdisk_init(2, 64)`, 64 blocks, all zero),
SDHC mode on, internal bus, the sector registers addressing block 5 and the SD buffer
holding the byte 7 throughout. -/
def sd_small_sevens : sd_state :=
  { sd_virtual_boot with
      sdcard_size_in_blocks := 64, vdisk := { vd_small with mode := 1 },
      sd_regs := (List.replicate 0x30 0).set 1 5,
      disk_buffers := List.replicate SD_BUFFER_POS 0 ++ List.replicate 512 7 }

/-- The fill buffer consists of 512 copies of the fill value. -/
def fill_inv (s : sd_state) : Prop := s.sd_fill_buffer = List.replicate 512 s.sd_fill_value

/-- The fill buffer and the fill value are untouched. -/
def fill_kept (s s1 : sd_state) : Prop :=
  s1.sd_fill_buffer = s.sd_fill_buffer ∧ s1.sd_fill_value = s.sd_fill_value

/-- The state `sdcard_init` has set up when it reaches `if (vdisk.mode)`: the first
statements of `sdcard_init`, as in its definition. -/
def sdcard_init_setup (s : sd_state) (virtsd_flag : Bool) (default_d81_is_from_sd_in : Nat) :
    sd_state :=
  let regs := List.replicate 0x30 0
  let s := { s with
      default_d81_is_from_sd := default_d81_is_from_sd_in
      sd_regs := regs
      disk_buffer_cpu_view :=
        if regs.getD 9 0 &&& 0x80 ≠ 0 then SD_BUFFER_POS else FD_BUFFER_POS
      mount_info := [mount_init, mount_init] }
  let s :=
    if virtsd_flag then
      { s with vdisk := { virtdisk_init s.vdisk VIRTUAL_DISK_BLOCKS_PER_CHUNK
                            VIRTUAL_DISK_SIZE_IN_BLOCKS with mode := 1 } }
    else { s with d81 := [d81_attachment.empty, d81_attachment.empty] }
  { s with keep_busy := 0, sd_status := 0,
           sd_fill_buffer := List.replicate 512 s.sd_fill_value }

/-- The byte last written to register 6 by a driver program, `init` if none was. -/
def last_fill_write (ws : List (host_env × Nat × Nat)) (init : Nat) : Nat :=
  ws.foldl (fun acc w => if w.2.1 = 6 then w.2.2 % 256 else acc) init

/-- The virtual-disk controller after the driver wrote 7 to register 6. -/
def sd_value_seven : sd_state :=
  { sd_virtual_boot with
      sd_regs := (List.replicate 0x30 0).set 6 7,
      sd_fill_value := 7, sd_fill_buffer := List.replicate 512 7 }

/-- The virtual-disk controller after the driver wrote 7 to register 6 and then issued
command 0x83. -/
def sd_fill_sevens : sd_state :=
  { sd_virtual_boot with
      sd_regs := ((List.replicate 0x30 0).set 6 7).set 0 0x83,
      sd_fill_value := 7, sd_fill_buffer := List.replicate 512 7, sd_fill_mode := 1,
      sd_last_ok_cmd := 0x83 }

/-- A call of `vic_render_line` changes only the texture, the `pixels` pointer, the
colour slots, the vertical area, the character line and the two counters, and keeps the
number of colour slots. -/
def line_frame (s s1 : vic_state) : Prop :=
  s1 = { s with texture := s1.texture, pixels := s1.pixels, vic_cpal := s1.vic_cpal,
                vic_vertical_area := s1.vic_vertical_area, charline := s1.charline,
                vic_vid_counter := s1.vic_vid_counter, vic_row_counter := s1.vic_row_counter }
  ∧ s1.vic_cpal.length = s.vic_cpal.length

/-- The states of the video chip reachable from `vic_init`: register writes with a
register index in 0..15, `vic_vsync`, `vic_render_line`, and the emulator changing the
scanline counter and the memory behind the kilobyte pointers. -/
inductive vic_reachable (K : vic_consts) : vic_state → Prop where
  | init (s : vic_state) (lo8 hi4 : Nat → Nat) (tail : Nat) (s1 : vic_state) :
      vic_wf s → vic_init K s lo8 hi4 tail = some s1 → vic_reachable K s1
  | write (s : vic_state) (addr data : Nat) (s1 : vic_state) :
      vic_reachable K s → addr < 16 → cpu_vic_reg_write K s addr data = some s1 →
      vic_reachable K s1
  | vsync (s : vic_state) (relock : Bool) (tail : Nat) :
      vic_reachable K s → vic_reachable K (vic_vsync s relock tail)
  | render (s s1 : vic_state) :
      vic_reachable K s → vic_render_line K s = some s1 → vic_reachable K s1
  | emulator (s : vic_state) (n : Nat) (lo8 hi4 : Nat → Nat) :
      vic_reachable K s → vic_reachable K { s with scanline := n, lo8 := lo8, hi4 := hi4 }

/-- The states and locals with which the body of the dot loop is entered during the call
of `vic_render_line` on `s`. -/
inductive dot_reached (K : vic_consts) (s : vic_state) : vic_state → dot_locals → Prop where
  | first : vic_area_step s = 0 →
      dot_reached K s { s with vic_vertical_area := vic_area_step s }
        { dotpos := 0, bitp := 128, v_columns := s.text_columns, v_vid := s.vic_vid_counter }
  | next (t : vic_state) (l : dot_locals) (t1 : vic_state) (l1 : dot_locals) :
      dot_reached K s t l → l.dotpos < K.CYCLES_PER_SCANLINE * 4 →
      render_dot K (visible_line K s) t l = some (t1, l1) →
      dot_reached K s t1 { l1 with dotpos := l1.dotpos + 1 }

/-- The addresses the cell branch of the loop body passes to `vic_read_mem_lo8` and
`vic_read_mem_hi4`: the video address (twice, for the character code and the colour
byte) and the character-generator address computed from the character code. -/
def fetch_addresses (s : vic_state) (l : dot_locals) : List Nat :=
  match vic_read_mem_lo8 s (s.vic_vid_addr + l.v_vid) with
  | some vb =>
    [s.vic_vid_addr + l.v_vid, (vb <<< s.char_height_shift) + s.vic_chr_addr + s.charline,
     s.vic_vid_addr + l.v_vid]
  | none => [s.vic_vid_addr + l.v_vid]

/-- What holds in every reachable state of the video chip. -/
structure fetch_inv (K : vic_consts) (s : vic_state) : Prop where
  wf : vic_wf s
  derived : derived_upto K 16 s
  charline_le : s.charline ≤ 15
  row_le : s.vic_row_counter ≤ 32
  vid_le : s.vic_vid_counter ≤ 32 * s.vic_row_counter
  top : s.vic_vertical_area = 1 → s.vic_row_counter = 0 ∧ s.vic_vid_counter = 0

/-- The state `vic_init` leaves when called at program start with empty memory. -/
def vic_booted : vic_state :=
  { vic_static with
      vic_vertical_area := 1, first_active_dotpos := 12, char_height_minus_one := 7,
      char_height_shift := 3, vic_cpal := [0, 1, 1, 1] }

/-- The state after `vic_init` and the write of 22 to register 2 (22 text columns). -/
def vic_columns_22 : vic_state :=
  { vic_booted with
      vic_registers := [0, 0, 22, 0, 0, 0, 0, 0, 0, 0, 0, 0, 0, 0, 0, 0], text_columns := 22 }

/-- Modelled from the spec: the emulator calls `vic_render_line` once for each scanline
and increments the scanline counter after each call (the counter "must be maintained by
the emulator"). `vic_run_lines K n s` makes `n` such calls from `s`; the list holds the
vertical area each of the scanlines was rendered in. -/
def vic_run_lines (K : vic_consts) : Nat → vic_state → Option (List Nat × vic_state)
  | 0, s => some ([], s)
  | n + 1, s => do
    let s1 ← vic_render_line K s
    let r ← vic_run_lines K n { s1 with scanline := s1.scanline + 1 }
    pure (s1.vic_vertical_area :: r.1, r.2)

/-- The vertical area of scanline `i` in a frame whose active display starts at scanline
`fas` and is `N` scanlines high. -/
def line_area (fas N i : Nat) : Nat :=
  if i < fas then 1 else if i < fas + N then 0 else 2

/-- The number of scanlines rendered in the active display: the text rows times the
character height, and one scanline when there are no text rows. -/
def active_height (s : vic_state) : Nat :=
  max 1 (s.text_rows * (s.char_height_minus_one + 1))

/-- Where the renderer is when scanline `i` of a frame is about to be rendered: in the
top border up to the first active scanline, then in the active display with the row
counter and character line counting the scanlines done, then in the bottom border. -/
structure line_phase (fas rows h i : Nat) (s : vic_state) : Prop where
  scan : s.scanline = i
  fas_eq : s.first_active_scanline = fas
  rows_eq : s.text_rows = rows
  h_eq : s.char_height_minus_one + 1 = h
  phase : (i ≤ fas ∧ s.vic_vertical_area = 1 ∧ s.charline = 0 ∧ s.vic_row_counter = 0)
    ∨ (fas < i ∧ s.vic_vertical_area = 0
        ∧ s.vic_row_counter * h + s.charline = i - fas ∧ s.charline < h)
    ∨ (s.vic_vertical_area = 2 ∧ fas + max 1 (rows * h) < i)

/-- The state after `vic_init` and the writes of 1 to register 1 (first active scanline
2) and of 2 to register 3 (one text row of 8 scanlines). -/
def vic_one_row : vic_state :=
  { vic_booted with
      vic_registers := [0, 1, 0, 2, 0, 0, 0, 0, 0, 0, 0, 0, 0, 0, 0, 0],
      first_active_scanline := 2, text_rows := 1 }

/-- From `s` to `s1` the `pixels` pointer has advanced by `n` and the texture has changed
at most at the `n` positions from the old pointer on. -/
def pixels_written (s s1 : vic_state) (n : Nat) : Prop :=
  s1.pixels = s.pixels + n
  ∧ ∀ q, q < s.pixels ∨ s.pixels + n ≤ q → s1.texture q = s.texture q

/-- The number of visible dots below dot position `d` of a scanline. -/
def visible_count (K : vic_consts) (v : Bool) (d : Nat) : Nat :=
  if v then min d (K.SCREEN_LAST_VISIBLE_DOTPOS + 1) - min d K.SCREEN_FIRST_VISIBLE_DOTPOS
  else 0

/-- The invariant of the dot loop of a scanline entered in state `s0`: only texture,
`pixels` and colour slots differ from `s0`; as many pixels are written as there are
visible dots below `dotpos`; and a visible dot of a cell at an odd position is a hires
dot (the colour byte read for it is 0) or has a shift of 32 or more. -/
structure dots_inv (K : vic_consts) (v : Bool) (s0 s : vic_state) (l : dot_locals) :
    Prop where
  frame : render_frame s0 s
  written : pixels_written s0 s (visible_count K v l.dotpos)
  parity : v = true → K.SCREEN_FIRST_VISIBLE_DOTPOS ≤ l.dotpos →
    l.dotpos ≤ K.SCREEN_LAST_VISIBLE_DOTPOS → s0.first_active_dotpos ≤ l.dotpos →
    l.v_columns ≠ 0 → l.dotpos % 2 = 1 →
    vic_read_mem_hi4 s0 (s0.vic_vid_addr + l.v_vid) = some 0 ∨ (32 ≤ l.bitp ∧ l.bitp ≠ 128)

/-! ## Properties -/

theorem tb_of_lt256 {n i : Nat} (h : n < 256) (hi : 8 ≤ i) : n.testBit i = false := by
  apply Nat.testBit_lt_two_pow
  calc n < 2 ^ 8 := h
    _ ≤ 2 ^ i := Nat.pow_le_pow_right (by decide) hi

theorem tb_disj {m n : Nat} (h : m &&& n = 0) (i : Nat) :
    (m.testBit i && n.testBit i) = false := by
  rw [← Nat.testBit_and, h, Nat.zero_testBit]

theorem tb_255 (i : Nat) : Nat.testBit 255 i = decide (i < 8) :=
  Nat.testBit_two_pow_sub_one 8 i

theorem st_set_lt (s m : Nat) : st_set s m < 256 := Nat.mod_lt _ (by decide)

theorem st_clr_le (s m : Nat) : st_clr s m ≤ s := Nat.and_le_left

theorem st_clr_lt (s m : Nat) (h : s < 256) : st_clr s m < 256 :=
  Nat.lt_of_le_of_lt (st_clr_le s m) h

theorem st_set_testBit (s m i : Nat) :
    (st_set s m).testBit i = (decide (i < 8) && (s.testBit i || m.testBit i)) := by
  simp only [st_set, show (256:Nat) = 2 ^ 8 from rfl, Nat.testBit_mod_two_pow, Nat.testBit_or]

theorem st_clr_testBit (s m i : Nat) :
    (st_clr s m).testBit i = (s.testBit i && decide (i < 8) && !m.testBit i) := by
  simp only [st_clr, show (256:Nat) = 2 ^ 8 from rfl, Nat.testBit_and, Nat.testBit_xor,
    Nat.testBit_mod_two_pow, tb_255]
  by_cases h : i < 8 <;> simp [h]

theorem st_tst_eq_true {s m : Nat} : st_tst s m = true ↔ s &&& m ≠ 0 := by
  simp [st_tst]

theorem and_ne_zero_of_testBit {s m i : Nat} (h1 : s.testBit i = true) (h2 : m.testBit i = true) :
    s &&& m ≠ 0 := by
  intro h
  have := tb_disj h i
  simp [h1, h2] at this

/-- a mask below 256 that is non-zero has a bit below 8 -/
theorem exists_bit {m : Nat} (h0 : 0 < m) (h : m < 256) : ∃ i, i < 8 ∧ m.testBit i = true := by
  obtain ⟨i, hi⟩ := Nat.ne_zero_implies_bit_true (Nat.pos_iff_ne_zero.mp h0)
  refine ⟨i, ?_, hi⟩
  by_contra hge
  rw [tb_of_lt256 h (by omega)] at hi
  exact Bool.noConfusion hi

theorem st_tst_set_left (s a b : Nat) (h0 : 0 < a) (h : a < 256) :
    st_tst (st_set s (a ||| b)) a = true := by
  obtain ⟨i, hi8, hi⟩ := exists_bit h0 h
  rw [st_tst_eq_true]
  apply and_ne_zero_of_testBit (i := i) _ hi
  simp [st_set_testBit, hi8, hi, Nat.testBit_or]

theorem st_tst_clr_sub (s m a : Nat) (hsub : ∀ i, a.testBit i = true → m.testBit i = true) :
    st_tst (st_clr s m) a = false := by
  simp only [st_tst, bne_eq_false_iff_eq]
  apply Nat.eq_of_testBit_eq
  intro i
  rw [Nat.testBit_and, st_clr_testBit, Nat.zero_testBit]
  cases ha : a.testBit i
  · simp
  · simp [hsub i ha]

theorem st_clr_and_disj (s m n : Nat) (hs : s < 256) (h : m &&& n = 0) :
    st_clr s m &&& n = s &&& n := by
  apply Nat.eq_of_testBit_eq
  intro i
  rw [Nat.testBit_and, Nat.testBit_and, st_clr_testBit]
  have hd := tb_disj h i
  by_cases h8 : i < 8
  · cases hm : m.testBit i <;> cases hn : n.testBit i <;> simp_all
  · simp [tb_of_lt256 hs (by omega : 8 ≤ i)]

theorem st_set_and_disj (s m n : Nat) (hs : s < 256) (h : m &&& n = 0) :
    st_set s m &&& n = s &&& n := by
  apply Nat.eq_of_testBit_eq
  intro i
  rw [Nat.testBit_and, Nat.testBit_and, st_set_testBit]
  have hd := tb_disj h i
  by_cases h8 : i < 8
  · cases hm : m.testBit i <;> cases hn : n.testBit i <;> simp_all
  · simp [tb_of_lt256 hs (by omega : 8 ≤ i), h8]

theorem or_and_disj {a b n : Nat} (h1 : a &&& n = 0) (h2 : b &&& n = 0) : (a ||| b) &&& n = 0 := by
  apply Nat.eq_of_testBit_eq
  intro i
  have := tb_disj h1 i
  have := tb_disj h2 i
  rw [Nat.testBit_and, Nat.testBit_or, Nat.zero_testBit]
  cases ha : a.testBit i <;> cases hb : b.testBit i <;> cases hn : n.testBit i <;> simp_all

/-! ## Invariant of the virtual disk store -/

theorem search_chain_eq_list_search (heap : List virtdisk_chunk_st) (block : Nat)
    (hl : well_linked heap) :
    ∀ n i, i + n = heap.length → 0 < n →
      search_chain heap block n (i + 1) = some (list_search block (heap.drop i) (i + 1)) := by
  intro n
  induction n with
  | zero => intro i _ h; exact absurd h (by decide)
  | succ n ih =>
    intro i hlen _
    have hi : i < heap.length := by omega
    have hget : heap[i]? = some heap[i] := List.getElem?_eq_getElem hi
    have hdrop : heap.drop i = heap[i] :: heap.drop (i + 1) := (List.drop_eq_getElem_cons hi)
    rw [hdrop]
    simp only [search_chain, chunk_at, Nat.add_sub_cancel, hget, list_search]
    simp only [Nat.add_one_ne_zero, if_false]
    cases hh : chunk_hit heap[i] block with
    | some a => rfl
    | none =>
      simp only
      rw [hl i _ hget]
      by_cases hlast : i + 1 < heap.length
      · simp only [hlast, if_true, Nat.add_one_ne_zero, if_false]
        exact ih (i + 1) (by omega) (by omega)
      · have : heap.drop (i + 1) = [] := List.drop_eq_nil_of_le (by omega)
        simp [hlast, this, list_search]

/-! ### Arrays -/

@[simp] theorem arr_get_eq {α : Type} (xs : List α) (i : Nat) : arr_get xs i = xs[i]? := rfl

theorem arr_set_eq_some {α : Type} {xs : List α} {i : Nat} (v : α) (h : i < xs.length) :
    arr_set xs i v = some (xs.set i v) := by
  simp [arr_set, h]

theorem arr_set_some_iff {α : Type} {xs ys : List α} {i : Nat} {v : α} :
    arr_set xs i v = some ys ↔ i < xs.length ∧ ys = xs.set i v := by
  unfold arr_set
  split <;> simp_all [eq_comm]

/-! ### Range map -/

theorem range_mask_bit (vd : virtdisk_st) (b : Nat) :
    ∃ k, k < 8 ∧ range_mask vd b = 2 ^ k := by
  refine ⟨(b / vd.range_map_divisor) &&& 7, ?_, ?_⟩
  · exact Nat.lt_of_le_of_lt Nat.and_le_right (by decide)
  · have hk : (b / vd.range_map_divisor) &&& 7 < 8 :=
      Nat.lt_of_le_of_lt Nat.and_le_right (by decide)
    unfold range_mask
    rw [Nat.shiftLeft_eq, Nat.one_mul]
    apply Nat.mod_eq_of_lt
    calc 2 ^ (b / vd.range_map_divisor &&& 7) < 2 ^ 8 :=
          Nat.pow_lt_pow_right (by decide) hk
      _ = 256 := rfl

theorem range_mask_lt (vd : virtdisk_st) (b : Nat) : range_mask vd b < 256 :=
  Nat.mod_lt _ (by decide)

theorem mark_and_self (m : Nat) (vd : virtdisk_st) (b : Nat) :
    ((m ||| range_mask vd b) % 256) &&& range_mask vd b ≠ 0 := by
  obtain ⟨k, hk, hm⟩ := range_mask_bit vd b
  apply and_ne_zero_of_testBit (i := k)
  · have := st_set_testBit m (range_mask vd b) k
    unfold st_set at this
    rw [this, hm]
    simp [hk, Nat.testBit_two_pow_self]
  · rw [hm]; exact Nat.testBit_two_pow_self

theorem mark_and_mono (m mask mask2 : Nat) (h2 : mask2 < 256) (h : m &&& mask2 ≠ 0) :
    ((m ||| mask) % 256) &&& mask2 ≠ 0 := by
  obtain ⟨i, hi⟩ := Nat.ne_zero_implies_bit_true h
  rw [Nat.testBit_and] at hi
  have h1 : m.testBit i = true := by
    cases hm : m.testBit i <;> simp_all
  have h3 : mask2.testBit i = true := by
    cases hm : mask2.testBit i <;> simp_all
  have hi8 : i < 8 := by
    by_contra hge
    rw [tb_of_lt256 h2 (by omega)] at h3
    exact Bool.noConfusion h3
  apply and_ne_zero_of_testBit (i := i) _ h3
  have := st_set_testBit m mask i
  unfold st_set at this
  rw [this]
  simp [hi8, h1]

/-! ### Searching one chunk -/

theorem scan_chunk_eq_some {v : virtdisk_chunk_st} {b a : Nat} :
    scan_chunk v b = some a ↔
      (v.list[a]? = some b ∧ a < v.used_blocks ∧ ∀ j, j < a → v.list[j]? ≠ some b) := by
  unfold scan_chunk
  simp [List.find?_range_eq_some]

theorem scan_chunk_eq_none {v : virtdisk_chunk_st} {b : Nat} :
    scan_chunk v b = none ↔ ¬ stored_in v b := by
  unfold scan_chunk stored_in
  simp [List.find?_range_eq_none]

theorem chunk_ok.bounded {total : Nat} {vd : virtdisk_st} {v : virtdisk_chunk_st}
    (h : chunk_ok total vd v) :
    tags_bounded v := by
  intro a b ha hb
  obtain ⟨b', hb', _, _, h1, h2⟩ := h.tags a ha
  rw [hb] at hb'
  cases hb'
  exact ⟨h1, h2⟩

theorem chunk_hit_eq_scan {v : virtdisk_chunk_st} (h : tags_bounded v) (b : Nat) :
    chunk_hit v b = scan_chunk v b := by
  unfold chunk_hit
  split
  · rfl
  · rename_i hnb
    symm
    rw [scan_chunk_eq_none]
    rintro ⟨a, ha, hb⟩
    exact hnb (h a b ha hb)

theorem chunk_hit_eq_none {v : virtdisk_chunk_st} (h : tags_bounded v) (b : Nat) :
    chunk_hit v b = none ↔ ¬ stored_in v b := by
  rw [chunk_hit_eq_scan h, scan_chunk_eq_none]

theorem chunk_hit_some {v : virtdisk_chunk_st} {b a : Nat} (h : chunk_hit v b = some a) :
    a < v.used_blocks ∧ v.list[a]? = some b := by
  unfold chunk_hit at h
  split at h
  · rw [scan_chunk_eq_some] at h
    exact ⟨h.2.1, h.1⟩
  · cases h

/-! ### Searching the chain -/

theorem list_search_eq_none {b : Nat} {l : List virtdisk_chunk_st} {p : Nat} :
    list_search b l p = none ↔ ∀ v, v ∈ l → chunk_hit v b = none := by
  induction l generalizing p with
  | nil => simp [list_search]
  | cons v vs ih =>
    simp only [list_search, List.mem_cons, forall_eq_or_imp]
    cases hv : chunk_hit v b with
    | some a => simp
    | none => simpa using ih

theorem list_search_append (b : Nat) (l1 l2 : List virtdisk_chunk_st) (p : Nat) :
    list_search b (l1 ++ l2) p = (list_search b l1 p).or (list_search b l2 (p + l1.length)) := by
  induction l1 generalizing p with
  | nil => simp [list_search]
  | cons v vs ih =>
    simp only [List.cons_append, list_search, List.length_cons]
    cases hv : chunk_hit v b with
    | some a => simp
    | none =>
      show list_search b (vs ++ l2) (p + 1) = _
      rw [ih]
      congr 2
      omega

theorem list_search_some {b : Nat} {l : List virtdisk_chunk_st} {p q a : Nat}
    (h : list_search b l p = some (q, a)) :
    ∃ i v, q = p + i ∧ l[i]? = some v ∧ chunk_hit v b = some a := by
  induction l generalizing p with
  | nil => simp [list_search] at h
  | cons v vs ih =>
    simp only [list_search] at h
    cases hv : chunk_hit v b with
    | some a' =>
      rw [hv] at h
      simp only [Option.some.injEq, Prod.mk.injEq] at h
      exact ⟨0, v, by omega, by simp, by rw [hv, h.2]⟩
    | none =>
      rw [hv] at h
      obtain ⟨i, w, hq, hw, hh⟩ := ih h
      exact ⟨i + 1, w, by omega, by simpa using hw, hh⟩

/-- Replacing a chunk by one that answers the search for `b` alike does not change
the search. -/
theorem list_search_set (b : Nat) (l : List virtdisk_chunk_st) (p i : Nat)
    (v1 : virtdisk_chunk_st)
    (h : ∀ v, l[i]? = some v → chunk_hit v1 b = chunk_hit v b) :
    list_search b (l.set i v1) p = list_search b l p := by
  induction l generalizing p i with
  | nil => simp
  | cons v vs ih =>
    cases i with
    | zero =>
      simp only [List.set_cons_zero, list_search]
      rw [h v (by simp)]
    | succ i =>
      simp only [List.set_cons_succ, list_search]
      rw [ih (p + 1) i (fun w hw => h w (by simpa using hw))]

/-- Replacing a chunk by one that holds `b`, when no chunk held it. -/
theorem list_search_set_new (b : Nat) (l : List virtdisk_chunk_st) (p i a : Nat)
    (v1 : virtdisk_chunk_st) (hi : i < l.length)
    (hnone : ∀ v, v ∈ l → chunk_hit v b = none)
    (h1 : chunk_hit v1 b = some a) :
    list_search b (l.set i v1) p = some (p + i, a) := by
  induction l generalizing p i with
  | nil => simp at hi
  | cons v vs ih =>
    cases i with
    | zero => simp [list_search, h1]
    | succ i =>
      simp only [List.set_cons_succ, list_search]
      rw [hnone v (by simp)]
      simp only
      rw [ih (p + 1) i (by simpa using hi) (fun w hw => hnone w (by simp [hw]))]
      congr 2
      omega

/-! ### Lookup -/

theorem inv_heap_nil_of_head {total : Nat} {vd : virtdisk_st} (h : vdisk_inv total vd)
    (h0 : vd.head = 0) : vd.heap = [] := by
  have := h.head_eq
  by_contra hne
  rw [if_neg hne, h0] at this
  exact absurd this (by decide)

theorem inv_head_one {total : Nat} {vd : virtdisk_st} (h : vdisk_inv total vd)
    (h0 : vd.head ≠ 0) : vd.head = 1 ∧ vd.heap ≠ [] := by
  have := h.head_eq
  by_cases hne : vd.heap = []
  · rw [if_pos hne] at this; exact absurd this h0
  · rw [if_neg hne] at this; exact ⟨this, hne⟩

theorem not_stored_of_bit_clear {total : Nat} {vd : virtdisk_st} (h : vdisk_inv total vd)
    {b m : Nat} (hm : vd.range_map[range_byte vd b]? = some m)
    (hclear : ¬ (m &&& range_mask vd b ≠ 0)) : ¬ stored vd b := by
  rintro ⟨v, hv, a, ha, hb⟩
  obtain ⟨b', hb', _, ⟨m', hm', hbit⟩, _, _⟩ := (h.chunks v hv).tags a ha
  rw [hb] at hb'
  cases hb'
  rw [hm] at hm'
  cases hm'
  exact hclear hbit

theorem list_search_none_of_not_stored {total : Nat} {vd : virtdisk_st}
    (h : vdisk_inv total vd) {b : Nat} (hns : ¬ stored vd b) (p : Nat) :
    list_search b vd.heap p = none := by
  rw [list_search_eq_none]
  intro v hv
  rw [chunk_hit_eq_none (h.chunks v hv).bounded]
  exact fun hs => hns ⟨v, hv, hs⟩

theorem list_search_none_iff_not_stored {total : Nat} {vd : virtdisk_st}
    (h : vdisk_inv total vd) (b p : Nat) :
    list_search b vd.heap p = none ↔ ¬ stored vd b := by
  constructor
  · intro hn
    rw [list_search_eq_none] at hn
    rintro ⟨v, hv, hs⟩
    exact (chunk_hit_eq_none (h.chunks v hv).bounded b).mp (hn v hv) hs
  · exact fun hns => list_search_none_of_not_stored h hns p

/-- Under the invariant the guarded pointer walk is the search of the chain in order. -/
theorem virtdisk_lookup_eq {total : Nat} {vd : virtdisk_st} (h : vdisk_inv total vd)
    {b : Nat} (hb : b < total) :
    virtdisk_lookup vd b = some (list_search b vd.heap 1) := by
  unfold virtdisk_lookup
  by_cases h0 : vd.head = 0
  · simp [h0, inv_heap_nil_of_head h h0, list_search]
  · obtain ⟨h1, hne⟩ := inv_head_one h h0
    have hlt : range_byte vd b < vd.range_map.length := by
      rw [h.map_len]; exact h.div_ok b hb
    have hget : vd.range_map[range_byte vd b]? = some vd.range_map[range_byte vd b] :=
      List.getElem?_eq_getElem hlt
    simp only [ne_eq, h0, not_false_eq_true, if_true, arr_get_eq, hget, Option.bind_eq_bind,
      Option.some_bind]
    split
    · rw [h1]
      have := search_chain_eq_list_search vd.heap b h.linked vd.heap.length 0 (by omega)
        (List.length_pos.mpr hne)
      simpa using this
    · rename_i hclear
      have hns := not_stored_of_bit_clear h hget hclear
      rw [list_search_none_of_not_stored h hns]
      rfl

/-! ### Storage locations -/

theorem chunk_at_succ (heap : List virtdisk_chunk_st) (i : Nat) :
    chunk_at heap (i + 1) = heap[i]? := by
  simp [chunk_at]

/-- A location returned by the search holds data. -/
theorem search_loc_valid {total : Nat} {vd : virtdisk_st} (h : vdisk_inv total vd)
    {b : Nat} {loc : Nat × Nat} (hs : list_search b vd.heap 1 = some loc) :
    ∃ i v, loc.1 = i + 1 ∧ vd.heap[i]? = some v ∧ loc.2 < v.used_blocks
      ∧ v.list[loc.2]? = some b ∧ loc.2 < v.base.length := by
  obtain ⟨q, a⟩ := loc
  obtain ⟨i, v, hq, hv, hh⟩ := list_search_some hs
  have hmem : v ∈ vd.heap := List.getElem?_mem hv
  have hok := h.chunks v hmem
  obtain ⟨ha, hl⟩ := chunk_hit_some hh
  exact ⟨i, v, by simp [hq]; omega, hv, ha, hl, by rw [hok.base_len]; exact Nat.lt_of_lt_of_le ha hok.used_le⟩

/-! ### Marking the range map -/

theorem range_map_mark_spec {total : Nat} {vd : virtdisk_st} (h : vdisk_inv total vd)
    {b : Nat} (hb : b < total) :
    ∃ rm, range_map_mark vd b = some rm ∧ rm.length = RANGE_MAP_SIZE ∧
      ∀ vd1 : virtdisk_st, vd1.range_map = rm → vd1.range_map_divisor = vd.range_map_divisor →
        range_bit_set vd1 b ∧ ∀ b1, range_bit_set vd b1 → range_bit_set vd1 b1 := by
  have hlt : range_byte vd b < vd.range_map.length := by
    rw [h.map_len]; exact h.div_ok b hb
  obtain ⟨m0, hget⟩ : ∃ m0, vd.range_map[range_byte vd b]? = some m0 :=
    ⟨_, List.getElem?_eq_getElem hlt⟩
  refine ⟨vd.range_map.set (range_byte vd b) ((m0 ||| range_mask vd b) % 256), ?_, ?_, ?_⟩
  · simp [range_map_mark, hget, arr_set_eq_some _ hlt]
  · simp [h.map_len]
  · intro vd1 hrm hdiv
    have hbyte : ∀ x, range_byte vd1 x = range_byte vd x := fun x => by simp [range_byte, hdiv]
    have hmask : ∀ x, range_mask vd1 x = range_mask vd x := fun x => by simp [range_mask, hdiv]
    constructor
    · refine ⟨(m0 ||| range_mask vd b) % 256, ?_, ?_⟩
      · rw [hrm, hbyte, List.getElem?_set_self hlt]
      · rw [hmask]; exact mark_and_self _ vd b
    · rintro b1 ⟨m, hm, hbit⟩
      by_cases hsame : range_byte vd b = range_byte vd b1
      · refine ⟨(m0 ||| range_mask vd b) % 256, ?_, ?_⟩
        · rw [hrm, hbyte, ← hsame, List.getElem?_set_self hlt]
        · rw [hmask]
          rw [← hsame, hget] at hm
          cases hm
          exact mark_and_mono _ _ _ (range_mask_lt vd b1) hbit
      · refine ⟨m, ?_, ?_⟩
        · rw [hrm, hbyte, List.getElem?_set_ne hsame]; exact hm
        · rw [hmask]; exact hbit

theorem chunk_ok_mono {total : Nat} {vd vd1 : virtdisk_st} {v : virtdisk_chunk_st}
    (h : chunk_ok total vd v)
    (hbpc : vd1.blocks_per_chunk = vd.blocks_per_chunk)
    (hbits : ∀ b, range_bit_set vd b → range_bit_set vd1 b) : chunk_ok total vd1 v where
  used_pos := h.used_pos
  used_le := by rw [hbpc]; exact h.used_le
  list_len := by rw [hbpc]; exact h.list_len
  base_len := by rw [hbpc]; exact h.base_len
  tags := fun a ha => by
    obtain ⟨b, hb, hlt, hbit, h1, h2⟩ := h.tags a ha
    exact ⟨b, hb, hlt, hbits b hbit, h1, h2⟩

/-- The tail pointer refers to the last chunk. -/
theorem inv_tail_chunk {total : Nat} {vd : virtdisk_st} (h : vdisk_inv total vd)
    (ht : vd.tail ≠ 0) :
    ∃ t, chunk_at vd.heap vd.tail = some t ∧ vd.heap[vd.heap.length - 1]? = some t
      ∧ t ∈ vd.heap ∧ 0 < vd.heap.length := by
  have hlen : 0 < vd.heap.length := by have := h.tail_eq; omega
  have hget : vd.heap[vd.heap.length - 1]? = some vd.heap[vd.heap.length - 1] :=
    List.getElem?_eq_getElem (by omega)
  refine ⟨vd.heap[vd.heap.length - 1], ?_, hget, List.getElem?_mem hget, hlen⟩
  rw [chunk_at, h.tail_eq, if_neg (by omega)]
  exact hget

/-! ### Allocation -/

theorem allocate_tail_eq {total : Nat} {vd : virtdisk_st} (h : vdisk_inv total vd)
    {b : Nat} (hb : b < total) {t : virtdisk_chunk_st}
    (ht : vd.heap[vd.heap.length - 1]? = some t) (hlen : 0 < vd.heap.length)
    (hroom : t.used_blocks < vd.blocks_per_chunk) :
    ∃ rm, range_map_mark vd b = some rm ∧
      virtdisk_allocate vd b = some (some (vd.heap.length, t.used_blocks),
        { vd with heap := vd.heap.set (vd.heap.length - 1) (chunk_push t b)
                  all_blocks := vd.all_blocks + 1, range_map := rm }) := by
  obtain ⟨rm, hrm, -, -⟩ := range_map_mark_spec h hb
  refine ⟨rm, hrm, ?_⟩
  have htail : vd.tail ≠ 0 := by rw [h.tail_eq]; omega
  have hc : chunk_at vd.heap vd.tail = some t := by
    rw [chunk_at, h.tail_eq, if_neg (by omega)]; exact ht
  have hll : t.used_blocks < t.list.length := by
    rw [(h.chunks t (List.getElem?_mem ht)).list_len]; exact hroom
  unfold virtdisk_allocate
  simp only [ne_eq, htail, not_false_eq_true, if_true, hc, Option.bind_eq_bind, Option.some_bind,
    Option.pure_def, hroom, decide_True, hrm, arr_set_eq_some _ hll]
  rw [h.tail_eq, arr_set_eq_some _ (by omega)]
  rfl

theorem allocate_fresh_eq {total : Nat} {vd : virtdisk_st} (h : vdisk_inv total vd)
    {b : Nat} (hb : b < total)
    (hfull : ∀ t, vd.heap[vd.heap.length - 1]? = some t → ¬ t.used_blocks < vd.blocks_per_chunk) :
    ∃ rm, range_map_mark vd b = some rm ∧
      virtdisk_allocate vd b = some (some (vd.heap.length + 1, 0),
        { vd with
            heap := (match vd.heap[vd.heap.length - 1]? with
                     | some t => vd.heap.set (vd.heap.length - 1)
                                   { t with next := vd.heap.length + 1 }
                     | none => vd.heap) ++ [chunk_fresh vd.blocks_per_chunk b]
            all_chunks := vd.all_chunks + 1, tail := vd.heap.length + 1
            head := if vd.head = 0 then vd.heap.length + 1 else vd.head
            range_map := rm, all_blocks := vd.all_blocks + 1 }) := by
  obtain ⟨rm, hrm, -, -⟩ := range_map_mark_spec h hb
  refine ⟨rm, hrm, ?_⟩
  have hbpc : 0 < (List.replicate vd.blocks_per_chunk 0).length := by
    simp; exact h.bpc_pos
  unfold virtdisk_allocate
  by_cases htail : vd.tail = 0
  · have hnil : vd.heap = [] := by
      have := h.tail_eq; rw [htail] at this
      exact List.length_eq_zero.mp this.symm
    simp [htail, hrm, arr_set_eq_some _ hbpc, hnil, chunk_fresh]
  · obtain ⟨t, hc, ht, -, hlen⟩ := inv_tail_chunk h htail
    have hfull' := hfull t ht
    simp only [ne_eq, htail, not_false_eq_true, if_true, hc, Option.bind_eq_bind,
      Option.some_bind, Option.pure_def, hfull', decide_False, hrm, arr_set_eq_some _ hbpc, ht,
      Bool.false_eq_true, if_false]
    rw [h.tail_eq, @arr_set_eq_some _ vd.heap _ _ (by omega)]
    rfl

theorem chunk_push_list_get (t : virtdisk_chunk_st) (b a : Nat) (hl : t.used_blocks < t.list.length) :
    (chunk_push t b).list[a]? = if a = t.used_blocks then some b else t.list[a]? := by
  simp only [chunk_push, List.getElem?_set, hl, if_true]
  by_cases h : t.used_blocks = a
  · simp [h]
  · simp [h, Ne.symm h]

theorem chunk_push_ok {total : Nat} {vd1 : virtdisk_st} {t : virtdisk_chunk_st} {b : Nat}
    (h : chunk_ok total vd1 t) (hroom : t.used_blocks < vd1.blocks_per_chunk)
    (hb : b < total) (hbit : range_bit_set vd1 b) : chunk_ok total vd1 (chunk_push t b) where
  used_pos := by simp [chunk_push]
  used_le := by simp only [chunk_push]; omega
  list_len := by simp [chunk_push, h.list_len]
  base_len := by simp only [chunk_push]; exact h.base_len
  tags := fun a ha => by
    have hl : t.used_blocks < t.list.length := by rw [h.list_len]; exact hroom
    rw [chunk_push_list_get t b a hl]
    by_cases hau : a = t.used_blocks
    · refine ⟨b, by simp [hau], hb, hbit, ?_, ?_⟩
      · simp only [chunk_push]; split <;> omega
      · simp only [chunk_push]; split <;> omega
    · have ha' : a < t.used_blocks := by simp only [chunk_push] at ha; omega
      obtain ⟨b1, hb1, hlt1, hbit1, h1, h2⟩ := h.tags a ha'
      refine ⟨b1, by simp [hau, hb1], hlt1, hbit1, ?_, ?_⟩
      · simp only [chunk_push]; split <;> omega
      · simp only [chunk_push]; split <;> omega

theorem chunk_push_hit_self {t : virtdisk_chunk_st} {b : Nat}
    (hb : tags_bounded (chunk_push t b)) (hl : t.used_blocks < t.list.length)
    (hns : ¬ stored_in t b) : chunk_hit (chunk_push t b) b = some t.used_blocks := by
  rw [chunk_hit_eq_scan hb, scan_chunk_eq_some]
  refine ⟨by rw [chunk_push_list_get t b _ hl]; simp, by simp [chunk_push], ?_⟩
  intro j hj hjb
  rw [chunk_push_list_get t b _ hl, if_neg (by omega)] at hjb
  exact hns ⟨j, hj, hjb⟩

theorem chunk_push_hit_other {t : virtdisk_chunk_st} {b b1 : Nat}
    (hb : tags_bounded (chunk_push t b)) (ht : tags_bounded t)
    (hl : t.used_blocks < t.list.length) (hne : b1 ≠ b) :
    chunk_hit (chunk_push t b) b1 = chunk_hit t b1 := by
  rw [chunk_hit_eq_scan hb, chunk_hit_eq_scan ht]
  apply Option.ext
  intro a
  rw [Option.mem_def, Option.mem_def, scan_chunk_eq_some, scan_chunk_eq_some]
  have hget := chunk_push_list_get t b
  constructor
  · rintro ⟨h1, h2, h3⟩
    have hau : a ≠ t.used_blocks := by
      intro hau
      rw [hget _ hl, if_pos hau] at h1
      exact hne (Option.some.inj h1).symm
    have ha : a < t.used_blocks := by simp only [chunk_push] at h2; omega
    refine ⟨by rw [hget _ hl, if_neg hau] at h1; exact h1, ha, ?_⟩
    intro j hj
    have := h3 j hj
    rw [hget _ hl, if_neg (by omega)] at this
    exact this
  · rintro ⟨h1, h2, h3⟩
    refine ⟨by rw [hget _ hl, if_neg (by omega)]; exact h1, by simp only [chunk_push]; omega, ?_⟩
    intro j hj
    rw [hget _ hl, if_neg (by omega)]
    exact h3 j hj

theorem chunk_fresh_list_zero {bpc : Nat} (b : Nat) (hbpc : 1 ≤ bpc) :
    (chunk_fresh bpc b).list[0]? = some b := by
  simp only [chunk_fresh]
  rw [List.getElem?_set_self (by simp; omega)]

theorem chunk_fresh_ok {total : Nat} {vd1 : virtdisk_st} {b : Nat}
    (hbpc : 1 ≤ vd1.blocks_per_chunk) (hb : b < total)
    (hbit : range_bit_set vd1 b) : chunk_ok total vd1 (chunk_fresh vd1.blocks_per_chunk b) where
  used_pos := by simp [chunk_fresh]
  used_le := by simp only [chunk_fresh]; exact hbpc
  list_len := by simp [chunk_fresh]
  base_len := by simp [chunk_fresh]
  tags := fun a ha => by
    have ha0 : a = 0 := by simp only [chunk_fresh] at ha; omega
    subst ha0
    exact ⟨b, chunk_fresh_list_zero b hbpc, hb, hbit, by simp [chunk_fresh], by simp [chunk_fresh]⟩

theorem chunk_fresh_hit_self {bpc : Nat} (b : Nat) (hbpc : 1 ≤ bpc) :
    chunk_hit (chunk_fresh bpc b) b = some 0 := by
  have : chunk_hit (chunk_fresh bpc b) b = scan_chunk (chunk_fresh bpc b) b := by
    simp [chunk_hit, chunk_fresh]
  rw [this, scan_chunk_eq_some]
  exact ⟨chunk_fresh_list_zero b hbpc, by simp [chunk_fresh], fun j hj => absurd hj (by omega)⟩

theorem chunk_fresh_hit_other {bpc : Nat} {b b1 : Nat} (hbpc : 1 ≤ bpc) (hne : b1 ≠ b) :
    chunk_hit (chunk_fresh bpc b) b1 = none := by
  unfold chunk_hit
  split
  · rw [scan_chunk_eq_none]
    rintro ⟨a, ha, hb⟩
    have ha0 : a = 0 := by simp only [chunk_fresh] at ha; omega
    subst ha0
    rw [chunk_fresh_list_zero b hbpc] at hb
    exact hne (Option.some.inj hb).symm
  · rfl

theorem chunk_hit_next (t : virtdisk_chunk_st) (p b : Nat) :
    chunk_hit { t with next := p } b = chunk_hit t b := rfl

theorem chunk_hit_base (t : virtdisk_chunk_st) (base : List (List Nat)) (b : Nat) :
    chunk_hit { t with base := base } b = chunk_hit t b := rfl

theorem chunk_load_eq (heap : List virtdisk_chunk_st) (loc : Nat × Nat) :
    chunk_load heap loc = (chunk_at heap loc.1).bind (fun v => v.base[loc.2]?) := rfl

theorem chunk_at_set (heap : List virtdisk_chunk_st) (i p : Nat) (v1 : virtdisk_chunk_st)
    (hi : i < heap.length) :
    chunk_at (heap.set i v1) p = if p = i + 1 then some v1 else chunk_at heap p := by
  unfold chunk_at
  by_cases hp : p = 0
  · simp [hp]
  · simp only [hp, if_false, List.getElem?_set, hi, if_true]
    by_cases h : i = p - 1
    · have : p = i + 1 := by omega
      subst this
      simp
    · have : p ≠ i + 1 := by omega
      simp [h, this]

theorem chunk_load_set_same_base {heap : List virtdisk_chunk_st} {i : Nat}
    {t v1 : virtdisk_chunk_st} (ht : heap[i]? = some t) (hbase : v1.base = t.base)
    (loc : Nat × Nat) : chunk_load (heap.set i v1) loc = chunk_load heap loc := by
  have hi : i < heap.length := (List.getElem?_eq_some.mp ht).1
  rw [chunk_load_eq, chunk_load_eq, chunk_at_set _ _ _ _ hi]
  by_cases hp : loc.1 = i + 1
  · simp [hp, chunk_at, ht, hbase]
  · simp [hp]

theorem chunk_at_append {heap : List virtdisk_chunk_st} {p : Nat} {v : virtdisk_chunk_st}
    (h : chunk_at heap p = some v) (l : List virtdisk_chunk_st) :
    chunk_at (heap ++ l) p = some v := by
  unfold chunk_at at h ⊢
  by_cases hp : p = 0
  · simp [hp] at h
  · simp only [hp, if_false] at h ⊢
    rw [List.getElem?_append_left (List.getElem?_eq_some.mp h).1]
    exact h

theorem chunk_load_append {heap : List virtdisk_chunk_st} {loc : Nat × Nat} {d : List Nat}
    (h : chunk_load heap loc = some d) (l : List virtdisk_chunk_st) :
    chunk_load (heap ++ l) loc = some d := by
  rw [chunk_load_eq] at h ⊢
  cases hc : chunk_at heap loc.1 with
  | none => simp [hc] at h
  | some v =>
    rw [chunk_at_append hc]
    rw [hc] at h
    exact h

theorem well_linked_set {heap : List virtdisk_chunk_st} (hl : well_linked heap) {i : Nat}
    {t v1 : virtdisk_chunk_st} (ht : heap[i]? = some t) (hnext : v1.next = t.next) :
    well_linked (heap.set i v1) := by
  intro j v hv
  rw [List.length_set]
  rw [List.getElem?_set] at hv
  by_cases hij : i = j
  · subst hij
    have hi : i < heap.length := (List.getElem?_eq_some.mp ht).1
    simp only [if_true, hi] at hv
    cases hv
    rw [hnext]
    exact hl i t ht
  · simp only [hij, if_false] at hv
    exact hl j v hv

/-- Linking a new chunk after the tail keeps the chain in allocation order. -/
theorem well_linked_snoc {heap : List virtdisk_chunk_st} (hl : well_linked heap)
    (vnew : virtdisk_chunk_st) (hnew : vnew.next = 0) :
    well_linked ((match heap[heap.length - 1]? with
                  | some t => heap.set (heap.length - 1) { t with next := heap.length + 1 }
                  | none => heap) ++ [vnew]) := by
  intro j v hv
  cases hlast : heap[heap.length - 1]? with
  | none =>
    have hnil : heap.length = 0 := by
      by_contra hne
      have := List.getElem?_eq_none_iff.mp hlast
      omega
    have hnil' : heap = [] := List.length_eq_zero.mp hnil
    subst hnil'
    simp only [hlast] at hv ⊢
    simp only [List.nil_append, List.length_singleton] at hv ⊢
    have hj : j = 0 := by
      rcases Nat.eq_zero_or_pos j with h0 | hpos
      · exact h0
      · rw [List.getElem?_eq_none (by simp; omega)] at hv; cases hv
    subst hj
    simp at hv
    subst hv
    simp [hnew]
  | some t =>
    have hn : 0 < heap.length := by
      have := (List.getElem?_eq_some.mp hlast).1
      omega
    simp only [hlast] at hv ⊢
    simp only [List.length_append, List.length_set, List.length_singleton] at hv ⊢
    by_cases hj : j < heap.length
    · rw [List.getElem?_append_left (by simpa using hj), List.getElem?_set] at hv
      by_cases hjl : heap.length - 1 = j
      · have : heap.length - 1 < heap.length := by omega
        simp only [hjl, if_true, hj] at hv
        cases hv
        simp only
        rw [if_pos (by omega)]
        omega
      · simp only [hjl, if_false] at hv
        rw [hl j v hv, if_pos (by omega), if_pos (by omega)]
    · rw [List.getElem?_append_right (by simpa using Nat.le_of_not_lt hj)] at hv
      simp only [List.length_set] at hv
      have hj0 : j - heap.length = 0 := by
        rcases Nat.eq_zero_or_pos (j - heap.length) with h0 | hpos
        · exact h0
        · rw [List.getElem?_eq_none (by simp; omega)] at hv; cases hv
      rw [hj0] at hv
      simp at hv
      subst hv
      rw [hnew, if_neg (by omega)]

theorem allocate_tail_post_aux {total : Nat} {vd : virtdisk_st} (h : vdisk_inv total vd)
    {b : Nat} (hb : b < total) (hns : ¬ stored vd b) {t : virtdisk_chunk_st}
    (ht : vd.heap[vd.heap.length - 1]? = some t) (hlen : 0 < vd.heap.length)
    (hroom : t.used_blocks < vd.blocks_per_chunk) {rm : List Nat}
    (hrm : range_map_mark vd b = some rm) (vd1 : virtdisk_st)
    (hheap : vd1.heap = vd.heap.set (vd.heap.length - 1) (chunk_push t b))
    (hhead : vd1.head = vd.head) (htail : vd1.tail = vd.tail)
    (hbpc : vd1.blocks_per_chunk = vd.blocks_per_chunk)
    (hcount : vd1.all_blocks = vd.all_blocks + 1) (hmap : vd1.range_map = rm)
    (hdiv : vd1.range_map_divisor = vd.range_map_divisor) (hmode : vd1.mode = vd.mode) :
    alloc_post total vd b (vd.heap.length, t.used_blocks) vd1 := by
  obtain ⟨rm', hrm', hrmlen, hbits⟩ := range_map_mark_spec h hb
  rw [hrm] at hrm'; cases hrm'
  have htmem : t ∈ vd.heap := List.getElem?_mem ht
  have htok := h.chunks t htmem
  have hl : t.used_blocks < t.list.length := by rw [htok.list_len]; exact hroom
  obtain ⟨hbit, hmono⟩ := hbits vd1 hmap hdiv
  have hok1 : ∀ v, v ∈ vd.heap → chunk_ok total vd1 v :=
    fun v hv => chunk_ok_mono (h.chunks v hv) hbpc hmono
  have hpush := chunk_push_ok (hok1 t htmem) (by rw [hbpc]; exact hroom) hb hbit
  have hnone : ∀ v, v ∈ vd.heap → chunk_hit v b = none := fun v hv =>
    (chunk_hit_eq_none (h.chunks v hv).bounded b).mpr (fun hs => hns ⟨v, hv, hs⟩)
  constructor
  · constructor
    · rw [hbpc]; exact h.bpc_pos
    · rw [hmap]; exact hrmlen
    · intro x hx
      have : range_byte vd1 x = range_byte vd x := by simp [range_byte, hdiv]
      rw [this]; exact h.div_ok x hx
    · rw [hhead, hheap, h.head_eq]
      have h1 : vd.heap ≠ [] := List.length_pos.mp hlen
      have h2 : vd.heap.set (vd.heap.length - 1) (chunk_push t b) ≠ [] := by
        intro hnil
        have := congrArg List.length hnil
        rw [List.length_set] at this
        exact h1 (List.length_eq_zero.mp this)
      simp [h1, h2]
    · rw [htail, hheap, List.length_set]; exact h.tail_eq
    · rw [hheap]; exact well_linked_set h.linked ht rfl
    · intro v hv
      rw [hheap] at hv
      rcases List.mem_or_eq_of_mem_set hv with hmem | heq1
      · exact hok1 v hmem
      · rw [heq1]; exact hpush
  · rw [hheap, list_search_set_new b vd.heap 1 (vd.heap.length - 1) t.used_blocks _ (by omega)
      hnone (chunk_push_hit_self hpush.bounded hl (fun hs => hns ⟨t, htmem, hs⟩))]
    have : 1 + (vd.heap.length - 1) = vd.heap.length := by omega
    rw [this]
  · exact hcount
  · intro b1 hne
    rw [hheap]
    apply list_search_set
    intro v hv
    rw [ht] at hv; cases hv
    exact chunk_push_hit_other hpush.bounded htok.bounded hl hne
  · intro loc1 d hd
    rw [hheap, @chunk_load_set_same_base _ _ _ (chunk_push t b) ht rfl]
    exact hd
  · exact hmode
  · exact hbpc
  · exact hdiv

theorem allocate_fresh_post_aux {total : Nat} {vd : virtdisk_st} (h : vdisk_inv total vd)
    {b : Nat} (hb : b < total) (hns : ¬ stored vd b) {rm : List Nat}
    (hrm : range_map_mark vd b = some rm) (vd1 : virtdisk_st)
    (hheap : vd1.heap = (match vd.heap[vd.heap.length - 1]? with
                     | some t => vd.heap.set (vd.heap.length - 1)
                                   { t with next := vd.heap.length + 1 }
                     | none => vd.heap) ++ [chunk_fresh vd.blocks_per_chunk b])
    (hhead : vd1.head = if vd.head = 0 then vd.heap.length + 1 else vd.head)
    (htail : vd1.tail = vd.heap.length + 1)
    (hbpc : vd1.blocks_per_chunk = vd.blocks_per_chunk)
    (hcount : vd1.all_blocks = vd.all_blocks + 1) (hmap : vd1.range_map = rm)
    (hdiv : vd1.range_map_divisor = vd.range_map_divisor) (hmode : vd1.mode = vd.mode) :
    alloc_post total vd b (vd.heap.length + 1, 0) vd1 := by
  obtain ⟨rm', hrm', hrmlen, hbits⟩ := range_map_mark_spec h hb
  rw [hrm] at hrm'; cases hrm'
  obtain ⟨hbit, hmono⟩ := hbits vd1 hmap hdiv
  have hok1 : ∀ v, v ∈ vd.heap → chunk_ok total vd1 v :=
    fun v hv => chunk_ok_mono (h.chunks v hv) hbpc hmono
  have hnone : ∀ v, v ∈ vd.heap → chunk_hit v b = none := fun v hv =>
    (chunk_hit_eq_none (h.chunks v hv).bounded b).mpr (fun hs => hns ⟨v, hv, hs⟩)
  have hfresh : chunk_ok total vd1 (chunk_fresh vd.blocks_per_chunk b) := by
    have := @chunk_fresh_ok total vd1 b (by rw [hbpc]; exact h.bpc_pos) hb hbit
    rw [hbpc] at this; exact this
  -- the old chunks, the tail relinked
  have hold : ∃ heap0, vd1.heap = heap0 ++ [chunk_fresh vd.blocks_per_chunk b]
      ∧ heap0.length = vd.heap.length
      ∧ (∀ v, v ∈ heap0 → chunk_ok total vd1 v)
      ∧ (∀ b1 p, list_search b1 heap0 p = list_search b1 vd.heap p)
      ∧ (∀ loc1, chunk_load heap0 loc1 = chunk_load vd.heap loc1) := by
    cases hlast : vd.heap[vd.heap.length - 1]? with
    | none =>
      rw [hlast] at hheap
      exact ⟨vd.heap, hheap, rfl, hok1, fun _ _ => rfl, fun _ => rfl⟩
    | some t =>
      rw [hlast] at hheap
      refine ⟨_, hheap, by simp, ?_, ?_, ?_⟩
      · intro v hv
        rcases List.mem_or_eq_of_mem_set hv with hmem | heq1
        · exact hok1 v hmem
        · have := hok1 t (List.getElem?_mem hlast)
          rw [heq1]
          exact ⟨this.used_pos, this.used_le, this.list_len, this.base_len, this.tags⟩
      · intro b1 p
        apply list_search_set
        intro v hv
        rw [hlast] at hv; cases hv
        rfl
      · intro loc1
        exact @chunk_load_set_same_base _ _ _ { t with next := vd.heap.length + 1 } hlast rfl loc1
  obtain ⟨heap0, hheap0, hlen0, hok0, hsearch0, hload0⟩ := hold
  constructor
  · constructor
    · rw [hbpc]; exact h.bpc_pos
    · rw [hmap]; exact hrmlen
    · intro x hx
      have : range_byte vd1 x = range_byte vd x := by simp [range_byte, hdiv]
      rw [this]; exact h.div_ok x hx
    · rw [hhead, hheap0, h.head_eq]
      by_cases hnil : vd.heap = []
      · simp [hnil]
      · simp [hnil]
    · rw [htail, hheap0]; simp [hlen0]
    · rw [hheap]; exact well_linked_snoc h.linked _ rfl
    · intro v hv
      rw [hheap0] at hv
      rcases List.mem_append.mp hv with hmem | hmem
      · exact hok0 v hmem
      · rw [List.mem_singleton.mp hmem]; exact hfresh
  · rw [hheap0, list_search_append, hsearch0, list_search_eq_none.mpr hnone, hlen0]
    simp [list_search, chunk_fresh_hit_self b h.bpc_pos]
    omega
  · exact hcount
  · intro b1 hne
    rw [hheap0, list_search_append, hsearch0]
    simp [list_search, chunk_fresh_hit_other h.bpc_pos hne]
  · intro loc1 d hd
    rw [hheap0]
    apply chunk_load_append
    rw [hload0]; exact hd
  · exact hmode
  · exact hbpc
  · exact hdiv

/-- Allocation of a block that is not stored: it succeeds, keeps the invariant, makes
the block findable at the returned location and disturbs no other block. -/
theorem allocate_spec {total : Nat} {vd : virtdisk_st} (h : vdisk_inv total vd)
    {b : Nat} (hb : b < total) (hns : ¬ stored vd b) :
    ∃ loc vd1, virtdisk_allocate vd b = some (some loc, vd1) ∧ alloc_post total vd b loc vd1 := by
  by_cases hroom : ∃ t, vd.heap[vd.heap.length - 1]? = some t ∧ t.used_blocks < vd.blocks_per_chunk
  · obtain ⟨t, ht, hr⟩ := hroom
    have hlen : 0 < vd.heap.length := by
      have := (List.getElem?_eq_some.mp ht).1; omega
    obtain ⟨rm, hrm, heq⟩ := allocate_tail_eq h hb ht hlen hr
    exact ⟨_, _, heq, allocate_tail_post_aux h hb hns ht hlen hr hrm _ rfl rfl rfl rfl rfl rfl rfl rfl⟩
  · have hfull : ∀ t, vd.heap[vd.heap.length - 1]? = some t →
        ¬ t.used_blocks < vd.blocks_per_chunk := fun t ht hr => hroom ⟨t, ht, hr⟩
    obtain ⟨rm, hrm, heq⟩ := allocate_fresh_eq h hb hfull
    exact ⟨_, _, heq, allocate_fresh_post_aux h hb hns hrm _ rfl rfl rfl rfl rfl rfl rfl rfl⟩

/-! ### Block content -/

theorem search_block_noalloc {total : Nat} {vd : virtdisk_st} (h : vdisk_inv total vd)
    {b : Nat} (hb : b < total) :
    virtdisk_search_block vd b false = some (list_search b vd.heap 1, vd) := by
  unfold virtdisk_search_block
  rw [virtdisk_lookup_eq h hb]
  cases list_search b vd.heap 1 <;> rfl

theorem search_block_found {total : Nat} {vd : virtdisk_st} (h : vdisk_inv total vd)
    {b : Nat} (hb : b < total) {loc : Nat × Nat} (hs : list_search b vd.heap 1 = some loc)
    (alloc : Bool) : virtdisk_search_block vd b alloc = some (some loc, vd) := by
  unfold virtdisk_search_block
  rw [virtdisk_lookup_eq h hb, hs]
  rfl

theorem search_block_alloc {total : Nat} {vd : virtdisk_st} (h : vdisk_inv total vd)
    {b : Nat} (hb : b < total) (hs : list_search b vd.heap 1 = none) :
    virtdisk_search_block vd b true = virtdisk_allocate vd b := by
  unfold virtdisk_search_block
  rw [virtdisk_lookup_eq h hb, hs]
  rfl

/-- Reading never changes the store and returns the content of the block. -/
theorem virtdisk_read_block_eq {total : Nat} {vd : virtdisk_st} (h : vdisk_inv total vd)
    {b : Nat} (hb : b < total) (buffer : List Nat) :
    virtdisk_read_block vd b buffer = some (buffer_fill buffer (vdisk_block vd b), vd) := by
  unfold virtdisk_read_block vdisk_block
  rw [search_block_noalloc h hb]
  cases hs : list_search b vd.heap 1 with
  | none => rfl
  | some loc =>
    obtain ⟨i, v, hi, hv, _, _, hlt⟩ := search_loc_valid h hs
    have hload : chunk_load vd.heap loc = some v.base[loc.2] := by
      rw [chunk_load_eq, hi, chunk_at_succ, hv]
      exact List.getElem?_eq_getElem hlt
    simp [hload]

/-- Storing data at a location found by the search. -/
theorem chunk_store_spec {total : Nat} {vd : virtdisk_st} (h : vdisk_inv total vd)
    {b : Nat} {loc : Nat × Nat} (hs : list_search b vd.heap 1 = some loc) (data : List Nat) :
    ∃ heap1, chunk_store vd.heap loc data = some heap1
      ∧ vdisk_inv total { vd with heap := heap1 }
      ∧ (∀ b1 p, list_search b1 heap1 p = list_search b1 vd.heap p)
      ∧ chunk_load heap1 loc = some data
      ∧ (∀ loc1, loc1 ≠ loc → chunk_load heap1 loc1 = chunk_load vd.heap loc1) := by
  obtain ⟨i, v, hi, hv, _, _, hlt⟩ := search_loc_valid h hs
  have hilt : i < vd.heap.length := (List.getElem?_eq_some.mp hv).1
  have hlen : 0 < vd.heap.length := by omega
  refine ⟨vd.heap.set i { v with base := v.base.set loc.2 data }, ?_, ?_, ?_, ?_, ?_⟩
  · unfold chunk_store
    rw [hi, chunk_at_succ, hv]
    simp [arr_set_eq_some _ hlt, arr_set_eq_some _ hilt]
  · constructor
    · exact h.bpc_pos
    · exact h.map_len
    · exact h.div_ok
    · show vd.head = if vd.heap.set i _ = [] then 0 else 1
      rw [h.head_eq]
      have h1 : vd.heap ≠ [] := List.length_pos.mp hlen
      have h2 : vd.heap.set i { v with base := v.base.set loc.2 data } ≠ [] := by
        intro hnil
        have := congrArg List.length hnil
        rw [List.length_set] at this
        exact h1 (List.length_eq_zero.mp this)
      simp [h1, h2]
    · show vd.tail = (vd.heap.set i _).length
      rw [List.length_set]; exact h.tail_eq
    · exact well_linked_set h.linked hv rfl
    · intro w hw
      rcases List.mem_or_eq_of_mem_set hw with hmem | heq1
      · have := h.chunks w hmem
        exact ⟨this.used_pos, this.used_le, this.list_len, this.base_len, this.tags⟩
      · have := h.chunks v (List.getElem?_mem hv)
        rw [heq1]
        exact ⟨this.used_pos, this.used_le, this.list_len,
          by simp only [List.length_set]; exact this.base_len, this.tags⟩
  · intro b1 p
    apply list_search_set
    intro w hw
    rw [hv] at hw; cases hw
    rfl
  · rw [chunk_load_eq, hi, chunk_at_set _ _ _ _ hilt, if_pos rfl]
    simp [List.getElem?_set_self hlt]
  · intro loc1 hne
    rw [chunk_load_eq, chunk_load_eq, chunk_at_set _ _ _ _ hilt]
    by_cases hp : loc1.1 = i + 1
    · have h2 : loc.2 ≠ loc1.2 := by
        intro h2
        apply hne
        exact Prod.ext (by rw [hp, hi]) h2.symm
      simp [hp, chunk_at_succ, hv, List.getElem?_set_ne h2]
    · simp [hp]

theorem search_loc_distinct {total : Nat} {vd : virtdisk_st} (h : vdisk_inv total vd)
    {b b1 : Nat} {loc loc1 : Nat × Nat} (hs : list_search b vd.heap 1 = some loc)
    (hs1 : list_search b1 vd.heap 1 = some loc1) (hne : b1 ≠ b) : loc1 ≠ loc := by
  intro heq
  subst heq
  obtain ⟨i, v, hi, hv, _, hl, _⟩ := search_loc_valid h hs
  obtain ⟨i1, v1, hi1, hv1, _, hl1, _⟩ := search_loc_valid h hs1
  have : i1 = i := by omega
  subst this
  rw [hv] at hv1; cases hv1
  rw [hl] at hl1
  exact hne (Option.some.inj hl1).symm

theorem memcpy512_idem (X : List Nat) : memcpy512 (memcpy512 X) = memcpy512 X := by
  simp [memcpy512, List.take_take]

theorem memcpy512_of_zero {X : List Nat} (hX : 512 ≤ X.length)
    (hz : has_block_nonzero_byte X = false) : memcpy512 X = zero_block := by
  unfold memcpy512 zero_block
  rw [List.eq_replicate_iff]
  refine ⟨by simp; omega, ?_⟩
  intro x hx
  unfold has_block_nonzero_byte at hz
  rw [List.any_eq_false] at hz
  simpa using hz x hx

theorem vdisk_block_store {total : Nat} {vd : virtdisk_st} (h : vdisk_inv total vd)
    {b : Nat} {loc : Nat × Nat} (hs : list_search b vd.heap 1 = some loc) (data : List Nat)
    {heap1 : List virtdisk_chunk_st}
    (hsearch : ∀ b1 p, list_search b1 heap1 p = list_search b1 vd.heap p)
    (hload : chunk_load heap1 loc = some data)
    (hother : ∀ loc1, loc1 ≠ loc → chunk_load heap1 loc1 = chunk_load vd.heap loc1) :
    vdisk_block { vd with heap := heap1 } b = memcpy512 data
    ∧ ∀ b1, b1 ≠ b → vdisk_block { vd with heap := heap1 } b1 = vdisk_block vd b1 := by
  constructor
  · simp only [vdisk_block, hsearch, hs, hload]
  · intro b1 hne
    simp only [vdisk_block, hsearch]
    cases hs1 : list_search b1 vd.heap 1 with
    | none => rfl
    | some loc1 => simp only [hother loc1 (search_loc_distinct h hs hs1 hne)]

/-- `virtdisk_write_block` on a store that satisfies the invariant. -/
theorem virtdisk_write_block_spec {total : Nat} {vd : virtdisk_st} (h : vdisk_inv total vd)
    {b : Nat} (hb : b < total) (X : List Nat) :
    ∃ vd1, virtdisk_write_block vd b X = some vd1 ∧ write_post total vd b X vd1 := by
  cases hs : list_search b vd.heap 1 with
  | some loc =>
    have hst : stored vd b := by
      by_contra hns
      rw [list_search_none_of_not_stored h hns] at hs
      cases hs
    obtain ⟨heap1, hstore, hinv1, hsearch, hload, hother⟩ := chunk_store_spec h hs (memcpy512 X)
    obtain ⟨hc, ho⟩ := vdisk_block_store h hs (memcpy512 X) hsearch hload hother
    refine ⟨{ vd with heap := heap1 }, ?_, ?_⟩
    · unfold virtdisk_write_block
      rw [search_block_found h hb hs]
      simp [hstore]
    · exact ⟨hinv1, fun _ => by rw [hc, memcpy512_idem], ho, fun b1 _ => hsearch b1 1, rfl, rfl, rfl,
        fun _ => ⟨rfl, rfl, rfl⟩, fun hns => absurd hst hns, fun hns => absurd hst hns⟩
  | none =>
    have hns : ¬ stored vd b := (list_search_none_iff_not_stored h b 1).mp hs
    cases hz : has_block_nonzero_byte X with
    | false =>
      refine ⟨vd, ?_, ?_⟩
      · unfold virtdisk_write_block
        rw [hz, search_block_noalloc h hb, hs]
        rfl
      · refine ⟨h, ?_, fun _ _ => rfl, fun _ _ => rfl, rfl, rfl, rfl,
          fun hst => absurd hst hns, fun _ _ => rfl, fun _ hnz => (by rw [hz] at hnz; cases hnz)⟩
        intro hX
        simp only [vdisk_block, hs]
        exact (memcpy512_of_zero hX hz).symm
    | true =>
      obtain ⟨loc, vd1, halloc, hpost⟩ := allocate_spec h hb hns
      obtain ⟨heap1, hstore, hinv1, hsearch, hload, hother⟩ :=
        chunk_store_spec hpost.inv hpost.found (memcpy512 X)
      obtain ⟨hc, ho⟩ := vdisk_block_store hpost.inv hpost.found (memcpy512 X) hsearch hload hother
      refine ⟨{ vd1 with heap := heap1 }, ?_, ?_⟩
      · unfold virtdisk_write_block
        rw [hz, search_block_alloc h hb hs, halloc]
        simp [hstore]
      · refine ⟨hinv1, fun _ => by rw [hc, memcpy512_idem], ?_, ?_, hpost.mode_eq, hpost.bpc_eq,
          hpost.div_eq, fun hst => absurd hst hns, fun _ hnz => (by rw [hz] at hnz; cases hnz),
          fun _ _ => ⟨hpost.count, ?_⟩⟩
        · intro b1 hne
          rw [ho b1 hne]
          simp only [vdisk_block, hpost.others b1 hne]
          cases hs1 : list_search b1 vd.heap 1 with
          | none => rfl
          | some loc1 =>
            obtain ⟨i, v, hi, hv, _, _, hlt⟩ := search_loc_valid h hs1
            have hl : chunk_load vd.heap loc1 = some v.base[loc1.2] := by
              rw [chunk_load_eq, hi, chunk_at_succ, hv]
              exact List.getElem?_eq_getElem hlt
            simp only [hl, hpost.data loc1 _ hl]
        · intro b1 hne
          show list_search b1 heap1 1 = _
          rw [hsearch b1 1, hpost.others b1 hne]
        · by_contra hns1
          have := list_search_none_of_not_stored hinv1 hns1 1
          rw [show ({ vd1 with heap := heap1 } : virtdisk_st).heap = heap1 from rfl, hsearch,
            hpost.found] at this
          cases this

/-! ### Reachable stores -/

theorem range_index_lt (total b : Nat) (hb : b < total) :
    b / (total / (RANGE_MAP_SIZE * 8) + 1) < RANGE_MAP_SIZE * 8 := by
  have h8 : RANGE_MAP_SIZE * 8 = 2048 := rfl
  rw [h8, Nat.div_lt_iff_lt_mul (by omega)]
  have := Nat.div_add_mod total 2048
  have := Nat.mod_lt total (show 2048 > 0 by decide)
  rw [Nat.mul_add, Nat.mul_one, Nat.mul_comm]
  omega

theorem virtdisk_init_inv (vd0 : virtdisk_st) (bpc total : Nat) (hbpc : 0 < bpc) :
    vdisk_inv total (virtdisk_init vd0 bpc total) where
  bpc_pos := hbpc
  map_len := by simp [virtdisk_init, virtdisk_destroy]
  div_ok := fun b hb => by
    have h := range_index_lt total b hb
    have h8 : RANGE_MAP_SIZE * 8 = 2048 := rfl
    have h256 : RANGE_MAP_SIZE = 256 := rfl
    simp only [range_byte, virtdisk_init, Nat.shiftRight_eq_div_pow]
    rw [h8] at h
    rw [h256]
    have h2 : (2:Nat) ^ 3 = 8 := rfl
    have h3 : (256:Nat) * 8 = 2048 := rfl
    rw [h2, h3]
    omega
  head_eq := by simp [virtdisk_init, virtdisk_destroy]
  tail_eq := by simp [virtdisk_init, virtdisk_destroy]
  linked := fun i v hv => by simp [virtdisk_init, virtdisk_destroy] at hv
  chunks := fun v hv => by simp [virtdisk_init, virtdisk_destroy] at hv

/-- Every reachable store satisfies the invariant. -/
theorem vdisk_reachable_inv {bpc total : Nat} (hbpc : 0 < bpc) {vd : virtdisk_st}
    (h : vdisk_reachable bpc total vd) : vdisk_inv total vd := by
  induction h with
  | init vd0 => exact virtdisk_init_inv vd0 bpc total hbpc
  | write b X _ hb hw ih =>
    obtain ⟨vd1, hw1, hpost⟩ := virtdisk_write_block_spec ih hb X
    rw [hw1] at hw
    cases hw
    exact hpost.inv
  | read b buffer buffer1 _ hb hr ih =>
    rw [virtdisk_read_block_eq ih hb] at hr
    cases hr
    exact ih

theorem buffer_fill_of_length {buffer X : List Nat} (hb : buffer.length = 512)
    (hX : X.length = 512) : buffer_fill buffer X = X := by
  unfold buffer_fill
  rw [hX, List.drop_eq_nil_of_le (by omega), List.append_nil]

theorem memcpy512_of_length {X : List Nat} (hX : X.length = 512) : memcpy512 X = X := by
  unfold memcpy512
  exact List.take_of_length_le (by omega)

theorem virtdisk_lookup_sound {total : Nat} {vd : virtdisk_st} (h : vdisk_inv total vd)
    {b : Nat} {loc : Nat × Nat} (hl : virtdisk_lookup vd b = some (some loc)) :
    list_search b vd.heap 1 = some loc := by
  unfold virtdisk_lookup at hl
  by_cases h0 : vd.head = 0
  · simp [h0] at hl
  · obtain ⟨h1, hne⟩ := inv_head_one h h0
    simp only [ne_eq, h0, not_false_eq_true, if_true, arr_get_eq, Option.bind_eq_bind] at hl
    cases hget : vd.range_map[range_byte vd b]? with
    | none => simp [hget] at hl
    | some m =>
      simp only [hget, Option.some_bind] at hl
      split at hl
      · rw [h1] at hl
        have := search_chain_eq_list_search vd.heap b h.linked vd.heap.length 0 (by omega)
          (List.length_pos.mpr hne)
        simp only [Nat.zero_add, List.drop_zero] at this
        rw [this] at hl
        exact Option.some.inj hl
      · simp at hl

theorem stored_lt {total : Nat} {vd : virtdisk_st} (h : vdisk_inv total vd) {b : Nat}
    (hs : stored vd b) : b < total := by
  obtain ⟨v, hv, a, ha, hb⟩ := hs
  obtain ⟨b', hb', hlt, _⟩ := (h.chunks v hv).tags a ha
  rw [hb] at hb'
  cases hb'
  exact hlt

/-- The guarded search finds a block exactly when it is recorded in some chunk. -/
theorem search_block_iff_stored {total : Nat} {vd : virtdisk_st} (h : vdisk_inv total vd)
    (b : Nat) :
    (∃ loc vd1, virtdisk_search_block vd b false = some (some loc, vd1)) ↔ stored vd b := by
  constructor
  · rintro ⟨loc, vd1, hs⟩
    unfold virtdisk_search_block at hs
    cases hl : virtdisk_lookup vd b with
    | none => simp [hl] at hs
    | some found =>
      cases found with
      | none => simp [hl] at hs
      | some loc1 =>
        have := virtdisk_lookup_sound h hl
        by_contra hns
        rw [list_search_none_of_not_stored h hns] at this
        cases this
  · intro hs
    have hb := stored_lt h hs
    cases hls : list_search b vd.heap 1 with
    | none => exact absurd hs ((list_search_none_iff_not_stored h b 1).mp hls)
    | some loc => exact ⟨loc, vd, search_block_found h hb hls false⟩

theorem has_nonzero_true_of_exists {X : List Nat} (hX : X.length = 512)
    (hnz : ∃ x, x ∈ X ∧ x ≠ 0) : has_block_nonzero_byte X = true := by
  obtain ⟨x, hx, hx0⟩ := hnz
  unfold has_block_nonzero_byte
  rw [List.take_of_length_le (by omega), List.any_eq_true]
  exact ⟨x, hx, by simpa using hx0⟩

theorem has_nonzero_false_of_zero {X : List Nat} (hz : ∀ x, x ∈ X → x = 0) :
    has_block_nonzero_byte X = false := by
  unfold has_block_nonzero_byte
  rw [List.any_eq_false]
  intro x hx
  simp [hz x (List.mem_of_mem_take hx)]

/-- C4. Presence bitmap never gives a false negative: in every store reachable from
`virtdisk_init`, every recorded block number of every chunk has its range-map bit set and
lies inside the bounds of its chunk; the bitmap-and-bounds lookup
`virtdisk_search_block(b, 0)` returns a storage location exactly when `b` is recorded in
the list of some chunk, and for `b` below the capacity it always returns, leaving the
store as it was. -/
theorem presence_bitmap_no_false_negative (bpc total : Nat) (hbpc : 0 < bpc)
    (vd : virtdisk_st) (hreach : vdisk_reachable bpc total vd) :
    (∀ v, v ∈ vd.heap → ∀ a, a < v.used_blocks →
      ∃ t, v.list[a]? = some t ∧ range_bit_set vd t ∧ v.block_no_min ≤ t ∧ t ≤ v.block_no_max)
    ∧ (∀ b, (∃ loc vd1, virtdisk_search_block vd b false = some (some loc, vd1)) ↔ stored vd b)
    ∧ (∀ b, b < total → ∃ r, virtdisk_search_block vd b false = some (r, vd)) := by
  have hinv := vdisk_reachable_inv hbpc hreach
  refine ⟨?_, search_block_iff_stored hinv, fun b hb => ⟨_, search_block_noalloc hinv hb⟩⟩
  intro v hv a ha
  obtain ⟨t, ht, _, hbit, h1, h2⟩ := (hinv.chunks v hv).tags a ha
  exact ⟨t, ht, hbit, h1, h2⟩

/-- C5. Zero-write elision: in a reachable store, writing an all-zero buffer (512 zero
bytes in particular) to a block that is not stored leaves the whole store (counters,
chunk chain, range map) as it was, and a following read of the block yields 512 zero
bytes. -/
theorem zero_write_elision (bpc total : Nat) (hbpc : 0 < bpc) (vd : virtdisk_st)
    (hreach : vdisk_reachable bpc total vd) (b : Nat) (hb : b < total)
    (hns : ¬ stored vd b) (X : List Nat) (hz : ∀ x, x ∈ X → x = 0)
    (buffer : List Nat) (hbuf : buffer.length = 512) :
    virtdisk_write_block vd b X = some vd
    ∧ virtdisk_read_block vd b buffer = some (List.replicate 512 0, vd) := by
  have hinv := vdisk_reachable_inv hbpc hreach
  obtain ⟨vd1, hw, hpost⟩ := virtdisk_write_block_spec hinv hb X
  have heq := hpost.unchanged_zero hns (has_nonzero_false_of_zero hz)
  subst heq
  refine ⟨hw, ?_⟩
  rw [virtdisk_read_block_eq hinv hb]
  have hnone := list_search_none_of_not_stored hinv hns 1
  have hblk : vdisk_block vd1 b = zero_block := by simp only [vdisk_block, hnone]
  rw [hblk, buffer_fill_of_length (X := zero_block) hbuf (List.length_replicate 512 0)]
  rfl

/-- C6. Non-zero write allocates: in a reachable store, writing 512 bytes with at least
one non-zero byte to a block that is not stored raises `all_blocks` by exactly one, makes
the block findable, and a following read of the block yields the written bytes. -/
theorem nonzero_write_allocates (bpc total : Nat) (hbpc : 0 < bpc) (vd : virtdisk_st)
    (hreach : vdisk_reachable bpc total vd) (b : Nat) (hb : b < total)
    (hns : ¬ stored vd b) (X : List Nat) (hX : X.length = 512)
    (hnz : ∃ x, x ∈ X ∧ x ≠ 0) (buffer : List Nat) (hbuf : buffer.length = 512) :
    ∃ vd1, virtdisk_write_block vd b X = some vd1
      ∧ vd1.all_blocks = vd.all_blocks + 1
      ∧ stored vd1 b
      ∧ (∃ loc, virtdisk_search_block vd1 b false = some (some loc, vd1))
      ∧ virtdisk_read_block vd1 b buffer = some (X, vd1) := by
  have hinv := vdisk_reachable_inv hbpc hreach
  obtain ⟨vd1, hw, hpost⟩ := virtdisk_write_block_spec hinv hb X
  obtain ⟨hcount, hst⟩ := hpost.count_new hns (has_nonzero_true_of_exists hX hnz)
  refine ⟨vd1, hw, hcount, hst, ?_, ?_⟩
  · cases hls : list_search b vd1.heap 1 with
    | none => exact absurd hst ((list_search_none_iff_not_stored hpost.inv b 1).mp hls)
    | some loc => exact ⟨loc, search_block_found hpost.inv hb hls false⟩
  · rw [virtdisk_read_block_eq hpost.inv hb, hpost.content (by omega),
      memcpy512_of_length hX, buffer_fill_of_length hbuf hX]

/-! ### Concrete states used to instantiate the properties -/

/-! ### Block backend -/

theorem read_block_out_of_range (s : sd_state) (env : host_env) (b : Nat)
    (hb : s.sdcard_size_in_blocks ≤ b) (buffer : List Nat) :
    sdcard_read_block s env b buffer = some (-1, s, buffer) := by
  unfold sdcard_read_block
  rw [if_pos hb]

theorem write_block_out_of_range (s : sd_state) (env : host_env) (b : Nat)
    (hb : s.sdcard_size_in_blocks ≤ b) (buffer : List Nat) :
    sdcard_write_block s env b buffer = some (-1, s) := by
  unfold sdcard_write_block
  rw [if_pos hb]

theorem write_block_read_only (s : sd_state) (env : host_env) (b : Nat) (buffer : List Nat)
    (hro : s.sd_is_read_only ≠ 0) : sdcard_write_block s env b buffer = some (-1, s) := by
  unfold sdcard_write_block
  by_cases h : b ≥ s.sdcard_size_in_blocks
  · rw [if_pos h]
  · rw [if_neg h, if_pos hro]

/-- C2. Range check: for every block number at or above `sdcard_size_in_blocks`, both
`sdcard_read_block` and `sdcard_write_block` return -1 and leave the whole state (so the
virtual store, the image file and its position) and the caller's buffer unchanged. -/
theorem range_check_rejects (s : sd_state) (env : host_env) (b : Nat)
    (hb : s.sdcard_size_in_blocks ≤ b) (buffer : List Nat) :
    sdcard_read_block s env b buffer = some (-1, s, buffer)
    ∧ sdcard_write_block s env b buffer = some (-1, s) :=
  ⟨read_block_out_of_range s env b hb buffer, write_block_out_of_range s env b hb buffer⟩

theorem range_check_rejects_witness :
    sdcard_read_block sd_virtual_boot env_ok 8388608 [] = some (-1, sd_virtual_boot, [])
    ∧ sdcard_write_block sd_virtual_boot env_ok 8388608 [] = some (-1, sd_virtual_boot) :=
  range_check_rejects sd_virtual_boot env_ok 8388608 (Nat.le_refl _) []

/-- C3. Read-only enforcement: whenever `sd_is_read_only` is non-zero, `sdcard_write_block`
returns -1 for every block number and buffer and leaves the whole state unchanged. -/
theorem read_only_enforcement (s : sd_state) (env : host_env) (b : Nat) (buffer : List Nat)
    (hro : s.sd_is_read_only ≠ 0) : sdcard_write_block s env b buffer = some (-1, s) :=
  write_block_read_only s env b buffer hro

theorem read_only_enforcement_witness :
    sdcard_write_block { sd_virtual_boot with sd_is_read_only := 1 } env_ok 5
      (List.replicate 512 7) = some (-1, { sd_virtual_boot with sd_is_read_only := 1 }) :=
  read_only_enforcement { sd_virtual_boot with sd_is_read_only := 1 } env_ok 5
    (List.replicate 512 7) (by decide)

/-- C1. Virtual-disk round trip: with the virtual backend active and writable, in every
store reachable from `virtdisk_init`, for every block number below the capacity and every
512-byte content `X`, `sdcard_write_block(b, X)` returns 0 and the following
`sdcard_read_block(b)` returns 0 and fills the 512-byte buffer with exactly `X`. -/
theorem virtual_disk_round_trip (bpc : Nat) (hbpc : 0 < bpc) (s : sd_state)
    (env1 env2 : host_env) (hmode : s.vdisk.mode ≠ 0) (hrw : s.sd_is_read_only = 0)
    (hreach : vdisk_reachable bpc s.sdcard_size_in_blocks s.vdisk)
    (b : Nat) (hb : b < s.sdcard_size_in_blocks) (X : List Nat) (hX : X.length = 512)
    (buffer : List Nat) (hbuf : buffer.length = 512) :
    ∃ s1, sdcard_write_block s env1 b X = some (0, s1)
      ∧ ∃ s2, sdcard_read_block s1 env2 b buffer = some (0, s2, X) := by
  have hinv := vdisk_reachable_inv hbpc hreach
  obtain ⟨vd1, hw, hpost⟩ := virtdisk_write_block_spec hinv hb X
  refine ⟨{ s with vdisk := vd1 }, ?_, { s with vdisk := vd1 }, ?_⟩
  · unfold sdcard_write_block
    rw [if_neg (by omega), if_neg (by simp [hrw]), if_pos hmode, hw]
    rfl
  · unfold sdcard_read_block
    have hm1 : vd1.mode ≠ 0 := by rw [hpost.mode_eq]; exact hmode
    rw [if_neg (by simp only [ge_iff_le]; omega), if_pos hm1]
    simp only [virtdisk_read_block_eq hpost.inv hb, hpost.content (by omega),
      memcpy512_of_length hX, buffer_fill_of_length hbuf hX]
    rfl

theorem virtual_disk_round_trip_witness :
    ∃ s1, sdcard_write_block sd_virtual_boot env_ok 5 (List.replicate 512 7) = some (0, s1)
      ∧ ∃ s2, sdcard_read_block s1 env_ok 5 (List.replicate 512 0)
          = some (0, s2, List.replicate 512 7) :=
  virtual_disk_round_trip 2048 (by decide) sd_virtual_boot env_ok env_ok (by decide) rfl
    (vdisk_reachable.init _) 5 (by decide) (List.replicate 512 7) (List.length_replicate _ _)
    (List.replicate 512 0) (List.length_replicate _ _)

set_option maxRecDepth 100000 in
theorem vd_small_write :
    virtdisk_write_block vd_small 5 (List.replicate 512 7) = some vd_small_written := by
  decide

theorem vd_small_written_reachable : vdisk_reachable 2 64 vd_small_written :=
  vdisk_reachable.write 5 (List.replicate 512 7) (vdisk_reachable.init vdisk_static)
    (by decide) vd_small_write

theorem vd_small_written_not_stored_6 : ¬ stored vd_small_written 6 := by
  rintro ⟨v, hv, a, ha, hb⟩
  simp only [vd_small_written, List.mem_singleton] at hv
  subst hv
  have ha0 : a = 0 := by simp only at ha; omega
  subst ha0
  simp at hb

theorem vd_small_not_stored (b : Nat) : ¬ stored vd_small b := by
  rintro ⟨v, hv, _⟩
  simp [vd_small, virtdisk_init, virtdisk_destroy] at hv

theorem presence_bitmap_no_false_negative_witness :
    0 < 2 ∧ vdisk_reachable 2 64 vd_small_written ∧
    ((∀ v, v ∈ vd_small_written.heap → ∀ a, a < v.used_blocks →
      ∃ t, v.list[a]? = some t ∧ range_bit_set vd_small_written t
        ∧ v.block_no_min ≤ t ∧ t ≤ v.block_no_max)
    ∧ (∀ b, (∃ loc vd1, virtdisk_search_block vd_small_written b false = some (some loc, vd1))
        ↔ stored vd_small_written b)
    ∧ (∀ b, b < 64 → ∃ r, virtdisk_search_block vd_small_written b false
        = some (r, vd_small_written))) :=
  ⟨by decide, vd_small_written_reachable,
   presence_bitmap_no_false_negative 2 64 (by decide) vd_small_written
     vd_small_written_reachable⟩

theorem zero_write_elision_witness :
    virtdisk_write_block vd_small_written 6 (List.replicate 512 0) = some vd_small_written
    ∧ virtdisk_read_block vd_small_written 6 (List.replicate 512 9)
        = some (List.replicate 512 0, vd_small_written) :=
  zero_write_elision 2 64 (by decide) vd_small_written vd_small_written_reachable 6 (by decide)
    vd_small_written_not_stored_6 (List.replicate 512 0)
    (fun _ hx => (List.mem_replicate.mp hx).2) (List.replicate 512 9) (List.length_replicate _ _)

theorem nonzero_write_allocates_witness :
    ∃ vd1, virtdisk_write_block vd_small 5 (List.replicate 512 7) = some vd1
      ∧ vd1.all_blocks = vd_small.all_blocks + 1
      ∧ stored vd1 5
      ∧ (∃ loc, virtdisk_search_block vd1 5 false = some (some loc, vd1))
      ∧ virtdisk_read_block vd1 5 (List.replicate 512 0) = some (List.replicate 512 7, vd1) :=
  nonzero_write_allocates 2 64 (by decide) vd_small (vdisk_reachable.init vdisk_static) 5
    (by decide) (vd_small_not_stored 5) (List.replicate 512 7) (List.length_replicate _ _)
    ⟨7, List.mem_replicate.mpr ⟨by decide, rfl⟩, by decide⟩ (List.replicate 512 0)
    (List.length_replicate _ _)

/-! ### Image file -/

theorem host_write_getElem? (image : List Nat) (pos : Nat) (data : List Nat) (j : Nat) :
    (host_write image pos data)[j]? =
      if j < pos then (if j < image.length then image[j]? else some 0)
      else if j < pos + data.length then data[j - pos]?
      else image[j]? := by
  unfold host_write
  have hlen1 : (image.take pos ++ List.replicate (pos - image.length) 0).length = pos := by
    simp only [List.length_append, List.length_take, List.length_replicate]
    omega
  by_cases h1 : j < pos
  · rw [if_pos h1, List.append_assoc, List.getElem?_append_left (by rw [hlen1]; exact h1)]
    by_cases h2 : j < image.length
    · rw [if_pos h2, List.getElem?_append_left (by simp only [List.length_take]; omega),
        List.getElem?_take_of_lt h1]
    · rw [if_neg h2, List.getElem?_append_right (by simp only [List.length_take]; omega)]
      rw [List.getElem?_replicate, if_pos (by simp only [List.length_take]; omega)]
  · rw [if_neg h1]
    by_cases h2 : j < pos + data.length
    · rw [if_pos h2, List.getElem?_append_left (by simp only [List.length_append, hlen1]; omega),
        List.getElem?_append_right (by rw [hlen1]; omega), hlen1]
    · rw [if_neg h2, List.getElem?_append_right (by simp only [List.length_append, hlen1]; omega)]
      simp only [List.length_append, hlen1, List.getElem?_drop]
      congr 1
      omega

theorem host_read_full (image : List Nat) (pos n limit : Nat) (hl : n ≤ limit) :
    host_read image pos n limit = (image.drop pos).take n := by
  unfold host_read
  rw [List.take_take, Nat.min_eq_right hl]

/-- After 512 bytes have been written at a position, the 512 bytes there are the data. -/
theorem host_write_read_same (image : List Nat) (pos : Nat) (data : List Nat)
    (hd : data.length = 512) :
    ((host_write image pos data).drop pos).take 512 = data := by
  apply List.ext_getElem?
  intro j
  by_cases hj : j < 512
  · rw [List.getElem?_take_of_lt hj, List.getElem?_drop, host_write_getElem?,
      if_neg (by omega), if_pos (by omega)]
    congr 1
    omega
  · rw [List.getElem?_eq_none (by simp only [List.length_take]; omega),
      List.getElem?_eq_none (by omega)]

/-- A write of 512 bytes at one block position leaves the 512 bytes at another block
position as they were, when all of them were inside the file. -/
theorem host_write_read_other (image : List Nat) (b b1 : Nat) (data D : List Nat)
    (hd : data.length = 512) (hne : b1 ≠ b) (hD : D.length = 512)
    (hr : (image.drop (b1 * 512)).take 512 = D) :
    ((host_write image (b * 512) data).drop (b1 * 512)).take 512 = D := by
  have hlen : b1 * 512 + 512 ≤ image.length := by
    have := congrArg List.length hr
    simp only [List.length_take, List.length_drop, hD] at this
    omega
  rw [← hr]
  apply List.ext_getElem?
  intro j
  by_cases hj : j < 512
  · rw [List.getElem?_take_of_lt hj, List.getElem?_take_of_lt hj, List.getElem?_drop,
      List.getElem?_drop, host_write_getElem?]
    rcases Nat.lt_or_gt_of_ne hne with hlt | hgt
    · rw [if_pos (by omega), if_pos (by omega)]
    · rw [if_neg (by omega), if_neg (by omega)]
  · rw [List.getElem?_eq_none (by simp only [List.length_take]; omega),
      List.getElem?_eq_none (by simp only [List.length_take]; omega)]

/-! ### Block backend: frame and content -/

theorem ctrl_eq_refl (s : sd_state) : ctrl_eq s s := rfl

theorem ctrl_eq_trans {s s1 s2 : sd_state} (h1 : ctrl_eq s s1) (h2 : ctrl_eq s1 s2) :
    ctrl_eq s s2 := by
  unfold ctrl_eq at *
  rw [h2, h1]

theorem host_seek_frame {s s1 : sd_state} {env : host_env} {b : Nat} {r : Int}
    (h : host_seek s env b = some (r, s1)) : ctrl_eq s s1 ∧ r = 0 ∧ s1.sd_image = s.sd_image := by
  unfold host_seek at h
  split at h
  · cases h
  · split at h
    · simp only at h
      split at h
      · cases h; exact ⟨rfl, rfl, rfl⟩
      · cases h
    · cases h; exact ⟨rfl, rfl, rfl⟩

theorem sdcard_write_block_frame {s s1 : sd_state} {env : host_env} {b : Nat}
    {buffer : List Nat} {r : Int} (h : sdcard_write_block s env b buffer = some (r, s1)) :
    ctrl_eq s s1 := by
  unfold sdcard_write_block at h
  split at h
  · cases h; rfl
  · split at h
    · cases h; rfl
    · split at h
      · cases hw : virtdisk_write_block s.vdisk b buffer with
        | none => simp [hw] at h
        | some vd =>
          simp only [hw, Option.bind_eq_bind, Option.some_bind, Option.pure_def,
            Option.some.injEq, Prod.mk.injEq] at h
          rw [← h.2]; rfl
      · cases hs : host_seek s env b with
        | none => simp [hs] at h
        | some p =>
          obtain ⟨r1, s0⟩ := p
          obtain ⟨hf, hr0, _⟩ := host_seek_frame hs
          simp only [hs, Option.bind_eq_bind, Option.some_bind, Option.pure_def, hr0,
            ne_eq, not_true_eq_false, if_false] at h
          split at h
          · cases h; exact ctrl_eq_trans hf rfl
          · cases h; exact ctrl_eq_trans hf rfl

theorem sdcard_read_block_frame {s s1 : sd_state} {env : host_env} {b : Nat}
    {buffer buffer1 : List Nat} {r : Int}
    (h : sdcard_read_block s env b buffer = some (r, s1, buffer1)) :
    ctrl_eq s s1 ∧ s1.sd_image = s.sd_image := by
  unfold sdcard_read_block at h
  split at h
  · cases h; exact ⟨rfl, rfl⟩
  · split at h
    · cases hw : virtdisk_read_block s.vdisk b buffer with
      | none => simp [hw] at h
      | some p =>
        obtain ⟨d, vd⟩ := p
        simp only [hw, Option.bind_eq_bind, Option.some_bind, Option.pure_def,
          Option.some.injEq, Prod.mk.injEq] at h
        rw [← h.2.1]; exact ⟨rfl, rfl⟩
    · cases hs : host_seek s env b with
      | none => simp [hs] at h
      | some p =>
        obtain ⟨r1, s0⟩ := p
        obtain ⟨hf, hr0, himg⟩ := host_seek_frame hs
        simp only [hs, Option.bind_eq_bind, Option.some_bind, Option.pure_def, hr0,
          ne_eq, not_true_eq_false, if_false] at h
        split at h
        · cases h; exact ⟨ctrl_eq_trans hf rfl, himg⟩
        · cases h; exact ⟨ctrl_eq_trans hf rfl, himg⟩

theorem shl9 (b : Nat) : b <<< 9 = b * 512 := by
  rw [Nat.shiftLeft_eq]

theorem vdisk_reachable_size {bpc : Nat} {s s1 : sd_state}
    (h : vdisk_reachable bpc s.sdcard_size_in_blocks s1.vdisk) (hc : ctrl_eq s s1) :
    vdisk_reachable bpc s1.sdcard_size_in_blocks s1.vdisk := by
  have : s1.sdcard_size_in_blocks = s.sdcard_size_in_blocks := by rw [hc]
  rw [this]; exact h

/-- A write through the block backend, on a supported writable backend whose host
transfers whole blocks: it returns 0, the block then holds the data and every other
block holds what it held. -/
theorem backend_write_ok {bpc : Nat} (hbpc : 0 < bpc) {s : sd_state} (env : host_env)
    {b : Nat} {X : List Nat} (hok : backend_ok bpc s) (hro : s.sd_is_read_only = 0)
    (hb : b < s.sdcard_size_in_blocks) (hX : X.length = 512)
    (hio : s.vdisk.mode = 0 → 512 ≤ env.io_limit) :
    ∃ s1, sdcard_write_block s env b X = some (0, s1) ∧ ctrl_eq s s1 ∧ backend_ok bpc s1
      ∧ block_content s1 b = some X
      ∧ ∀ b1 D, b1 ≠ b → block_content s b1 = some D → block_content s1 b1 = some D := by
  rcases hok with ⟨hmode, hreach⟩ | ⟨hmode, hfd, hcomp⟩
  · have hinv := vdisk_reachable_inv hbpc hreach
    obtain ⟨vd1, hw, hpost⟩ := virtdisk_write_block_spec hinv hb X
    have hrun : sdcard_write_block s env b X = some (0, { s with vdisk := vd1 }) := by
      unfold sdcard_write_block
      rw [if_neg (by omega), if_neg (by simp [hro]), if_pos hmode, hw]
      rfl
    have hm1 : vd1.mode ≠ 0 := by rw [hpost.mode_eq]; exact hmode
    refine ⟨_, hrun, rfl, Or.inl ⟨hm1, vdisk_reachable.write b X hreach hb hw⟩, ?_, ?_⟩
    · unfold block_content
      rw [if_neg (by simp only [ge_iff_le]; omega), if_pos hm1, hpost.content (by omega),
        memcpy512_of_length hX]
    · intro b1 D hne hD
      unfold block_content at hD ⊢
      by_cases hb1 : b1 ≥ s.sdcard_size_in_blocks
      · rw [if_pos hb1] at hD; cases hD
      · rw [if_neg hb1, if_pos hmode] at hD
        rw [if_neg hb1, if_pos hm1]
        show some (vdisk_block vd1 b1) = some D
        rw [hpost.others b1 hne]
        exact hD
  · have hl := hio hmode
    have hdata : (X.take 512).take env.io_limit = X := by
      rw [List.take_take, List.take_of_length_le (by omega)]
    have hrun : sdcard_write_block s env b X = some (0,
        { s with sd_image := host_write s.sd_image (b * 512) X
                 sd_image_pos := b * 512 + 512 }) := by
      unfold sdcard_write_block host_seek
      rw [if_neg (by omega), if_neg (by simp [hro]), if_neg (by simp [hmode]),
        if_neg (by omega), if_neg (by simp [hcomp])]
      simp only [Option.bind_eq_bind, Option.some_bind, Option.pure_def, ne_eq,
        not_true_eq_false, if_false, hdata, hX, if_true, shl9]
    refine ⟨_, hrun, rfl, Or.inr ⟨hmode, hfd, hcomp⟩, ?_, ?_⟩
    · unfold block_content
      rw [if_neg (by simp only [ge_iff_le]; omega), if_neg (by simp [hmode]),
        if_neg (by simp only [hcomp]; omega)]
      simp only [host_write_read_same s.sd_image (b * 512) X hX, hX, if_true]
    · intro b1 D hne hD
      unfold block_content at hD ⊢
      by_cases hb1 : b1 ≥ s.sdcard_size_in_blocks
      · rw [if_pos hb1] at hD; cases hD
      · rw [if_neg hb1, if_neg (by simp [hmode]), if_neg (by simp only [hcomp]; omega)] at hD
        rw [if_neg hb1, if_neg (by simp [hmode]), if_neg (by simp only [hcomp]; omega)]
        split at hD
        · rename_i hlen
          have hDe := Option.some.inj hD
          have hDl : D.length = 512 := by rw [← hDe]; exact hlen
          simp only [host_write_read_other s.sd_image b b1 X D hX hne hDl hDe, hDl, if_true]
        · cases hD

/-- The content of a block is what a read of it delivers. -/
theorem block_content_reads {bpc : Nat} (hbpc : 0 < bpc) {s : sd_state}
    (hok : backend_ok bpc s) {b : Nat} {D : List Nat} (hD : D.length = 512)
    (hc : block_content s b = some D) : reads_as s b D := by
  intro env buffer hio hbuf
  unfold block_content at hc
  by_cases hb : b ≥ s.sdcard_size_in_blocks
  · rw [if_pos hb] at hc; cases hc
  · rw [if_neg hb] at hc
    rcases hok with ⟨hmode, hreach⟩ | ⟨hmode, hfd, hcomp⟩
    · rw [if_pos hmode] at hc
      have hinv := vdisk_reachable_inv hbpc hreach
      refine ⟨s, ?_⟩
      unfold sdcard_read_block
      rw [if_neg hb, if_pos hmode]
      simp only [virtdisk_read_block_eq hinv (by omega : b < s.sdcard_size_in_blocks),
        Option.some.inj hc, buffer_fill_of_length hbuf hD]
      rfl
    · rw [if_neg (by simp [hmode]), if_neg (by simp only [hcomp]; omega)] at hc
      split at hc
      · have hDe := Option.some.inj hc
        refine ⟨{ s with sd_image_pos := b * 512 + 512 }, ?_⟩
        unfold sdcard_read_block host_seek
        rw [if_neg hb, if_neg (by simp [hmode]), if_neg (by omega), if_neg (by simp [hcomp])]
        simp only [Option.bind_eq_bind, Option.some_bind, Option.pure_def, ne_eq,
          not_true_eq_false, if_false, shl9, host_read_full _ _ _ _ hio, hDe, hD, if_true,
          buffer_fill_of_length hbuf hD]
      · cases hc

/-! ### Block write commands -/

theorem st_tst_clr_of_false {s n : Nat} (m : Nat) (h : st_tst s n = false) :
    st_tst (st_clr s m) n = false := by
  simp only [st_tst, bne_eq_false_iff_eq] at h ⊢
  apply Nat.eq_of_testBit_eq
  intro i
  have := tb_disj h i
  rw [Nat.testBit_and, st_clr_testBit, Nat.zero_testBit]
  cases hs : s.testBit i <;> cases hn : n.testBit i <;> simp_all

theorem st_tst_clr_self (s m : Nat) : st_tst (st_clr s m) m = false :=
  st_tst_clr_sub s m m (fun _ h => h)

theorem backend_ok_congr {bpc : Nat} {s s1 : sd_state} (h : backend_ok bpc s)
    (h1 : s1.vdisk = s.vdisk) (h2 : s1.sdcard_size_in_blocks = s.sdcard_size_in_blocks)
    (h3 : s1.sdfd = s.sdfd) (h4 : s1.sd_compressed = s.sd_compressed) : backend_ok bpc s1 := by
  unfold backend_ok at *
  rw [h1, h2, h3, h4]
  exact h

theorem block_content_congr {s s1 : sd_state} (b : Nat)
    (h1 : s1.vdisk = s.vdisk) (h2 : s1.sdcard_size_in_blocks = s.sdcard_size_in_blocks)
    (h3 : s1.sdfd = s.sdfd) (h4 : s1.sd_compressed = s.sd_compressed)
    (h5 : s1.sd_image = s.sd_image) : block_content s1 b = block_content s b := by
  unfold block_content
  rw [h1, h2, h3, h4, h5]

/-- The transfer stage of a block write on a ready controller: it succeeds, clears the
error flags and stores the write buffer at the target. -/
theorem block_io_transfer_write_ok {bpc : Nat} (hbpc : 0 < bpc) (K : sd_consts)
    {size : Nat} {B : List Nat} {m : Nat} {fd : Int} {s : sd_state} (env : host_env) {b : Nat}
    (hr : multi_ready K bpc size B m fd s) (hB : B.length = 512) (hb : b < size)
    (hio : s.vdisk.mode = 0 → 512 ≤ env.io_limit) :
    ∃ s1, block_io_transfer K s env b true = some s1
      ∧ multi_ready K bpc size B m fd s1
      ∧ st_tst s1.sd_status (K.SD_ST_ERROR ||| K.SD_ST_FSM_ERROR) = false
      ∧ s1.sd_last_ok_cmd = s.sd_last_ok_cmd ∧ s1.multi_io_block = s.multi_io_block
      ∧ s1.keep_busy = s.keep_busy
      ∧ block_content s1 b = some B
      ∧ ∀ b1 D, b1 ≠ b → block_content s b1 = some D → block_content s1 b1 = some D := by
  have hbuf : (if (true && s.sd_fill_mode != 0) = true then s.sd_fill_buffer
      else s.disk_buffers.drop SD_BUFFER_POS) = B := by
    rw [← hr.buffer]
    unfold write_buffer
    by_cases hf : s.sd_fill_mode = 0 <;> simp [hf]
  obtain ⟨s1, hw, hc, hok1, hcont, hothers⟩ :=
    backend_write_ok hbpc env hr.backend hr.writable (by rw [hr.size_eq]; exact hb) hB hio
  have hfields : s1.sd_status = s.sd_status ∧ s1.sdhc_mode = s.sdhc_mode
      ∧ s1.sd_is_read_only = s.sd_is_read_only
      ∧ s1.sdcard_size_in_blocks = s.sdcard_size_in_blocks ∧ s1.sdfd = s.sdfd
      ∧ s1.sd_fill_mode = s.sd_fill_mode ∧ s1.sd_fill_buffer = s.sd_fill_buffer
      ∧ s1.disk_buffers = s.disk_buffers ∧ s1.sd_regs = s.sd_regs
      ∧ s1.protect_important_blocks = s.protect_important_blocks
      ∧ s1.sd_last_ok_cmd = s.sd_last_ok_cmd ∧ s1.multi_io_block = s.multi_io_block
      ∧ s1.keep_busy = s.keep_busy ∧ s1.sd_compressed = s.sd_compressed := by
    unfold ctrl_eq at hc
    rw [hc]
    exact ⟨rfl, rfl, rfl, rfl, rfl, rfl, rfl, rfl, rfl, rfl, rfl, rfl, rfl, rfl⟩
  obtain ⟨f1, f2, f3, f4, f5, f6, f7, f8, f9, f10, f11, f12, f13, f14⟩ := hfields
  have hmode1 : s1.vdisk.mode = s.vdisk.mode := by
    rcases hr.backend with ⟨hm, hreach⟩ | ⟨hm, _, _⟩
    · have hinv := vdisk_reachable_inv hbpc hreach
      obtain ⟨vd1, hw1, hpost⟩ := virtdisk_write_block_spec hinv
        (by rw [hr.size_eq]; exact hb : b < s.sdcard_size_in_blocks) B
      unfold sdcard_write_block at hw
      rw [if_neg (by rw [hr.size_eq]; omega), if_neg (by simp [hr.writable]), if_pos hm,
        hw1] at hw
      simp only [Option.bind_eq_bind, Option.some_bind, Option.pure_def, Option.some.injEq,
        Prod.mk.injEq, true_and] at hw
      rw [← hw]
      exact hpost.mode_eq
    · rcases hok1 with ⟨hm1, _⟩ | ⟨hm1, _, _⟩
      · unfold sdcard_write_block at hw
        rw [if_neg (by rw [hr.size_eq]; omega), if_neg (by simp [hr.writable]),
          if_neg (by simp [hm])] at hw
        cases hs : host_seek s env b with
        | none => simp [hs] at hw
        | some p =>
          obtain ⟨r1, s0⟩ := p
          simp only [hs, Option.bind_eq_bind, Option.some_bind, Option.pure_def] at hw
          have hv0 : s0.vdisk = s.vdisk := by
            unfold host_seek at hs
            split at hs
            · cases hs
            · split at hs
              · simp only at hs
                split at hs
                · cases hs; rfl
                · cases hs
              · cases hs; rfl
          split at hw
          · cases hw
          · split at hw
            · cases hw
              exact absurd (by rw [← hv0] at hm; exact hm) hm1
            · cases hw
      · rw [hm1, hm]
  refine ⟨{ s1 with sd_status := st_clr s1.sd_status (K.SD_ST_ERROR ||| K.SD_ST_FSM_ERROR)
                    sdcard_bytes_read := 512 }, ?_, ?_, ?_, f11, f12, f13, ?_, ?_⟩
  · unfold block_io_transfer
    rw [if_neg (by simp [hr.internal])]
    simp only [Option.bind_eq_bind, Option.pure_def, if_true, hbuf, hw, Option.some_bind]
    rw [if_neg (by simp only [f2, ne_eq, not_true_eq_false, false_or]; exact hr.sdhc)]
  · exact
      { internal := by
          show st_tst (st_clr s1.sd_status _) _ = false
          rw [f1]; exact st_tst_clr_of_false _ hr.internal
        sdhc := by show s1.sdhc_mode ≠ 0; rw [f2]; exact hr.sdhc
        writable := by show s1.sd_is_read_only = 0; rw [f3]; exact hr.writable
        size_eq := by show s1.sdcard_size_in_blocks = size; rw [f4]; exact hr.size_eq
        mode_eq := by show s1.vdisk.mode = m; rw [hmode1]; exact hr.mode_eq
        fd_eq := by show s1.sdfd = fd; rw [f5]; exact hr.fd_eq
        backend := backend_ok_congr hok1 rfl rfl rfl rfl
        buffer := by
          rw [← hr.buffer]
          show (if s1.sd_fill_mode ≠ 0 then s1.sd_fill_buffer
            else s1.disk_buffers.drop SD_BUFFER_POS) = write_buffer s
          rw [f6, f7, f8]; rfl
        regs_len := by show s1.sd_regs.length = 0x30; rw [f9]; exact hr.regs_len
        protect := by
          show s1.sdfd < 0 ∨ s1.protect_important_blocks ≠ 2
          rw [f5, f10]; exact hr.protect }
  · exact st_tst_clr_self _ _
  · rw [block_content_congr b rfl rfl rfl rfl rfl]; exact hcont
  · intro b1 D hne hD
    rw [block_content_congr b1 rfl rfl rfl rfl rfl]; exact hothers b1 D hne hD

theorem multi_ready_congr {K : sd_consts} {bpc size : Nat} {B : List Nat} {m : Nat} {fd : Int}
    {s s1 : sd_state} (hr : multi_ready K bpc size B m fd s)
    (h1 : st_tst s1.sd_status K.SD_ST_EXT_BUS = false)
    (h2 : s1.sdhc_mode = s.sdhc_mode) (h3 : s1.sd_is_read_only = s.sd_is_read_only)
    (h4 : s1.sdcard_size_in_blocks = s.sdcard_size_in_blocks) (h5 : s1.vdisk = s.vdisk)
    (h6 : s1.sdfd = s.sdfd) (h7 : s1.sd_compressed = s.sd_compressed)
    (h8 : s1.sd_fill_mode = s.sd_fill_mode) (h9 : s1.sd_fill_buffer = s.sd_fill_buffer)
    (h10 : s1.disk_buffers = s.disk_buffers) (h11 : s1.sd_regs.length = s.sd_regs.length)
    (h12 : s1.sdfd < 0 ∨ s1.protect_important_blocks ≠ 2) :
    multi_ready K bpc size B m fd s1 where
  internal := h1
  sdhc := by rw [h2]; exact hr.sdhc
  writable := by rw [h3]; exact hr.writable
  size_eq := by rw [h4]; exact hr.size_eq
  mode_eq := by rw [h5]; exact hr.mode_eq
  fd_eq := by rw [h6]; exact hr.fd_eq
  backend := backend_ok_congr hr.backend h5 h4 h6 h7
  buffer := by rw [← hr.buffer]; unfold write_buffer; rw [h8, h9, h10]
  regs_len := by rw [h11]; exact hr.regs_len
  protect := h12

/-- `sdcard_block_io` for a write on a ready controller whose host behaves. -/
theorem block_io_write_ok {bpc : Nat} (hbpc : 0 < bpc) (K : sd_consts)
    {size : Nat} {B : List Nat} {m : Nat} {fd : Int} {s : sd_state} (env : host_env) {b : Nat}
    (hr : multi_ready K bpc size B m fd s) (hB : B.length = 512) (hb : b < size)
    (henv : env_good s env) :
    ∃ s1, sdcard_block_io K s env b true = some s1
      ∧ write_cmd_post K bpc size B m fd s b s1
      ∧ s1.sd_last_ok_cmd = s.sd_last_ok_cmd ∧ s1.multi_io_block = s.multi_io_block := by
  have plain : ∃ s1, block_io_transfer K s env b true = some s1
      ∧ write_cmd_post K bpc size B m fd s b s1
      ∧ s1.sd_last_ok_cmd = s.sd_last_ok_cmd ∧ s1.multi_io_block = s.multi_io_block := by
    obtain ⟨s1, h1, h2, h3, h4, h5, _, h7, h8⟩ :=
      block_io_transfer_write_ok hbpc K env hr hB hb henv.1
    exact ⟨s1, h1, ⟨h2, h3, h7, h8⟩, h4, h5⟩
  unfold sdcard_block_io
  split
  · rename_i hguard
    obtain ⟨_, _, hfd, hp0⟩ := hguard
    have hp2 : s.protect_important_blocks ≠ 2 := by
      rcases hr.protect with h | h
      · omega
      · exact h
    obtain ⟨ha0, ha1⟩ := henv.2 hfd
    rw [if_neg hp2]
    split
    · rename_i h0; exact absurd h0 ha0
    · rename_i h1; exact absurd h1 ha1
    · exact plain
    · have hr0 : multi_ready K bpc size B m fd { s with protect_important_blocks := 0 } :=
        multi_ready_congr hr hr.internal rfl rfl rfl rfl rfl rfl rfl rfl rfl rfl
          (Or.inr (show (0:Nat) ≠ 2 by decide))
      obtain ⟨s1, h1, h2, h3, h4, h5, _, h7, h8⟩ :=
        block_io_transfer_write_ok hbpc K env hr0 hB hb henv.1
      refine ⟨s1, h1, ⟨h2, h3, h7, ?_⟩, h4, h5⟩
      intro b1 D hne hD
      apply h8 b1 D hne
      rw [block_content_congr b1 rfl rfl rfl rfl rfl]
      exact hD
    · exact plain
  · exact plain

theorem U8A_TO_U32_set_zero (regs : List Nat) (v : Nat) :
    U8A_TO_U32 (regs.set 0 v) 1 = U8A_TO_U32 regs 1 := by
  unfold U8A_TO_U32
  simp only [arr_get_eq]
  rw [List.getElem?_set_ne (by decide), List.getElem?_set_ne (by decide),
    List.getElem?_set_ne (by decide), List.getElem?_set_ne (by decide)]

theorem env_good_congr {s s1 : sd_state} {env : host_env} (h : env_good s env)
    (h1 : s1.vdisk.mode = s.vdisk.mode) (h2 : s1.sdfd = s.sdfd) : env_good s1 env := by
  unfold env_good at *
  rw [h1, h2]
  exact h

/-- Writing a command to register 0 runs `sdcard_command` on the state with the
register stored. -/
theorem write_register_zero (K : sd_consts) (s : sd_state) (env : host_env) (cmd : Nat)
    (hlen : s.sd_regs.length = 0x30) (hc : cmd < 256) :
    sdcard_write_register K s env 0 cmd
      = sdcard_command K { s with sd_regs := s.sd_regs.set 0 cmd } env cmd := by
  unfold sdcard_write_register
  have h0 : 0 < s.sd_regs.length := by rw [hlen]; decide
  have hget : s.sd_regs[0]? = some s.sd_regs[0] := List.getElem?_eq_getElem h0
  simp only [Nat.mod_eq_of_lt hc, arr_get_eq, hget, Option.bind_eq_bind, Option.some_bind,
    arr_set_eq_some _ h0]

/-- A block write issued by `sdcard_command`: the frame around `sdcard_block_io`. -/
theorem command_block_write {bpc : Nat} (hbpc : 0 < bpc) (K : sd_consts)
    {size : Nat} {B : List Nat} {m : Nat} {fd : Int} {s : sd_state} (env : host_env)
    (cmd b : Nat) (hr : multi_ready K bpc size B m fd s) (hB : B.length = 512) (hb : b < size)
    (henv : env_good s env) (regs : List Nat) (hregs : regs.length = 0x30) :
    ∃ s1, (do
        let s1 ← sdcard_block_io K
          { s with sd_regs := regs
                   sd_status := st_clr s.sd_status (K.SD_ST_BUSY1 ||| K.SD_ST_BUSY0)
                   keep_busy := 0, multi_io_block := b } env b true
        if st_tst s1.sd_status (K.SD_ST_ERROR ||| K.SD_ST_FSM_ERROR) then
          pure { s1 with sd_last_ok_cmd := 0xFF }
        else
          pure { s1 with sd_last_ok_cmd := cmd }) = some s1
      ∧ write_cmd_post K bpc size B m fd s b s1
      ∧ s1.sd_last_ok_cmd = cmd ∧ s1.multi_io_block = b := by
  have hr0 : multi_ready K bpc size B m fd
      { s with sd_regs := regs
               sd_status := st_clr s.sd_status (K.SD_ST_BUSY1 ||| K.SD_ST_BUSY0)
               keep_busy := 0, multi_io_block := b } :=
    multi_ready_congr hr (st_tst_clr_of_false _ hr.internal) rfl rfl rfl rfl rfl rfl rfl rfl rfl
      (by rw [hregs]; exact hr.regs_len.symm) hr.protect
  obtain ⟨s1, hio, hpost, _, hmb⟩ :=
    block_io_write_ok hbpc K env hr0 hB hb (env_good_congr henv rfl rfl)
  refine ⟨{ s1 with sd_last_ok_cmd := cmd }, ?_, ?_, rfl, hmb⟩
  · simp only [hio, Option.bind_eq_bind, Option.some_bind, hpost.no_error, Option.pure_def]
    rfl
  · refine ⟨multi_ready_congr hpost.ready hpost.ready.internal rfl rfl rfl rfl rfl rfl rfl rfl
      rfl rfl hpost.ready.protect, hpost.no_error, ?_, ?_⟩
    · rw [block_content_congr b rfl rfl rfl rfl rfl]; exact hpost.content
    · intro b1 D hne hD
      rw [block_content_congr b1 rfl rfl rfl rfl rfl]
      apply hpost.others b1 D hne
      rw [block_content_congr b1 rfl rfl rfl rfl rfl]
      exact hD

/-- Command 0x04 (first sector of a multi-block write) on a ready controller. -/
theorem cmd_first_ok {bpc : Nat} (hbpc : 0 < bpc) (K : sd_consts)
    {size : Nat} {B : List Nat} {m : Nat} {fd : Int} {s : sd_state} (env : host_env) {A : Nat}
    (hr : multi_ready K bpc size B m fd s) (hB : B.length = 512)
    (hlast : s.sd_last_ok_cmd ≠ 4) (hA : U8A_TO_U32 s.sd_regs 1 = some A) (hb : A < size)
    (henv : env_good s env) :
    ∃ s1, sdcard_write_register K s env 0 4 = some s1
      ∧ write_cmd_post K bpc size B m fd s A s1
      ∧ s1.sd_last_ok_cmd = 4 ∧ s1.multi_io_block = A := by
  obtain ⟨s1, hrun, hpost, hl, hmb⟩ :=
    command_block_write hbpc K env 4 A hr hB hb henv (s.sd_regs.set 0 4)
      (by rw [List.length_set]; exact hr.regs_len)
  refine ⟨s1, ?_, hpost, hl, hmb⟩
  rw [write_register_zero K s env 4 hr.regs_len (by decide), ← hrun]
  unfold sdcard_command
  simp only [sdcard_command_switch, hlast, ne_eq, not_false_eq_true, if_true,
    U8A_TO_U32_set_zero, hA, Option.bind_eq_bind, Option.some_bind]

/-- Commands 0x05 and 0x06 (further sectors of a multi-block write) on a ready controller,
after an accepted 0x04, 0x05 or 0x57. -/
theorem cmd_next_ok {bpc : Nat} (hbpc : 0 < bpc) (K : sd_consts)
    {size : Nat} {B : List Nat} {m : Nat} {fd : Int} {s : sd_state} (env : host_env) (cmd : Nat)
    (hcmd : cmd = 5 ∨ cmd = 6)
    (hr : multi_ready K bpc size B m fd s) (hB : B.length = 512)
    (hlast : s.sd_last_ok_cmd = 4 ∨ s.sd_last_ok_cmd = 5 ∨ s.sd_last_ok_cmd = 0x57)
    (hb : s.multi_io_block + 1 < size) (hsize : size ≤ 2 ^ 32) (henv : env_good s env) :
    ∃ s1, sdcard_write_register K s env 0 cmd = some s1
      ∧ write_cmd_post K bpc size B m fd s (s.multi_io_block + 1) s1
      ∧ s1.sd_last_ok_cmd = cmd ∧ s1.multi_io_block = s.multi_io_block + 1 := by
  have hmod : (s.multi_io_block + 1) % 2 ^ 32 = s.multi_io_block + 1 :=
    Nat.mod_eq_of_lt (by omega)
  have hacc := hlast
  obtain ⟨s1, hrun, hpost, hl, hmb⟩ :=
    command_block_write hbpc K env cmd (s.multi_io_block + 1) hr hB hb henv (s.sd_regs.set 0 cmd)
      (by rw [List.length_set]; exact hr.regs_len)
  refine ⟨s1, ?_, hpost, hl, hmb⟩
  rw [write_register_zero K s env cmd hr.regs_len (by rcases hcmd with h | h <;> omega), ← hrun]
  unfold sdcard_command
  rcases hcmd with h | h <;> subst h <;>
    simp only [sdcard_command_switch, hacc, if_true, hmod, Option.bind_eq_bind]

/-! ### Driver programs -/

theorem regs_only_refl (s : sd_state) : regs_only s s := ⟨rfl, rfl⟩

theorem regs_only_trans {s s1 s2 : sd_state} (h1 : regs_only s s1) (h2 : regs_only s1 s2) :
    regs_only s s2 := by
  obtain ⟨e1, l1⟩ := h1
  obtain ⟨e2, l2⟩ := h2
  refine ⟨?_, by rw [l2, l1]⟩
  rw [e2, e1]

/-- A write to one of the sector registers only stores the byte. -/
theorem sector_write_eq (K : sd_consts) (s : sd_state) (env : host_env) (reg data : Nat)
    (hreg : 1 ≤ reg ∧ reg ≤ 4) (hlen : s.sd_regs.length = 0x30) :
    sdcard_write_register K s env reg data
      = some { s with sd_regs := s.sd_regs.set reg (data % 256) } := by
  have hr : reg < s.sd_regs.length := by rw [hlen]; omega
  have hget : s.sd_regs[reg]? = some s.sd_regs[reg] := List.getElem?_eq_getElem hr
  obtain ⟨h1, h4⟩ := hreg
  have hcases : reg = 1 ∨ reg = 2 ∨ reg = 3 ∨ reg = 4 := by omega
  unfold sdcard_write_register
  rcases hcases with h | h | h | h <;> subst h <;>
    simp only [arr_get_eq, hget, Option.bind_eq_bind, Option.some_bind, arr_set_eq_some _ hr,
      Option.pure_def]

theorem run_sector_writes (K : sd_consts) (ws rest : List (host_env × Nat × Nat)) :
    ∀ s : sd_state, sector_only ws → s.sd_regs.length = 0x30 →
      ∃ s1 tr1, regs_only s s1 ∧ (∀ st, st ∈ tr1 → regs_only s st)
        ∧ run_trace K s (ws ++ rest)
            = (run_trace K s1 rest).map (fun r => (tr1 ++ r.1, r.2)) := by
  induction ws with
  | nil =>
    intro s _ _
    exact ⟨s, [], regs_only_refl s, fun _ h => absurd h (List.not_mem_nil _), by simp⟩
  | cons w ws ih =>
    intro s hso hlen
    obtain ⟨env, reg, data⟩ := w
    have hreg := hso (env, reg, data) (List.mem_cons_self _ _)
    have hstep : regs_only s { s with sd_regs := s.sd_regs.set reg (data % 256) } :=
      ⟨rfl, by simp⟩
    obtain ⟨s1, tr1, hro, htr, hrun⟩ := ih { s with sd_regs := s.sd_regs.set reg (data % 256) }
      (fun w hw => hso w (List.mem_cons_of_mem _ hw)) (by simp [hlen])
    refine ⟨s1, { s with sd_regs := s.sd_regs.set reg (data % 256) } :: tr1,
      regs_only_trans hstep hro, ?_, ?_⟩
    · intro st hst
      rcases List.mem_cons.mp hst with h | h
      · rw [h]; exact hstep
      · exact regs_only_trans hstep (htr st h)
    · have hcons : run_trace K s ((env, reg, data) :: ws ++ rest)
          = (run_trace K { s with sd_regs := s.sd_regs.set reg (data % 256) } (ws ++ rest)).map
              (fun r => ({ s with sd_regs := s.sd_regs.set reg (data % 256) } :: r.1, r.2)) := by
        show (sdcard_write_register K s env reg data).bind _ = _
        rw [sector_write_eq K s env reg data hreg hlen]
        rfl
      rw [hcons, hrun, Option.map_map]
      rfl

theorem multi_ready_regs_only {K : sd_consts} {bpc size : Nat} {B : List Nat} {m : Nat}
    {fd : Int} {s s1 : sd_state} (hr : multi_ready K bpc size B m fd s) (h : regs_only s s1) :
    multi_ready K bpc size B m fd s1 := by
  obtain ⟨e, l⟩ := h
  have hf : s1.sd_status = s.sd_status ∧ s1.sdhc_mode = s.sdhc_mode
      ∧ s1.sd_is_read_only = s.sd_is_read_only
      ∧ s1.sdcard_size_in_blocks = s.sdcard_size_in_blocks ∧ s1.vdisk = s.vdisk
      ∧ s1.sdfd = s.sdfd ∧ s1.sd_compressed = s.sd_compressed
      ∧ s1.sd_fill_mode = s.sd_fill_mode ∧ s1.sd_fill_buffer = s.sd_fill_buffer
      ∧ s1.disk_buffers = s.disk_buffers
      ∧ s1.protect_important_blocks = s.protect_important_blocks := by
    rw [e]; exact ⟨rfl, rfl, rfl, rfl, rfl, rfl, rfl, rfl, rfl, rfl, rfl⟩
  obtain ⟨f1, f2, f3, f4, f5, f6, f7, f8, f9, f10, f11⟩ := hf
  exact multi_ready_congr hr (by rw [f1]; exact hr.internal) f2 f3 f4 f5 f6 f7 f8 f9 f10 l
    (by rw [f6, f11]; exact hr.protect)

theorem regs_only_fields {s s1 : sd_state} (h : regs_only s s1) :
    s1.sd_status = s.sd_status ∧ s1.sd_last_ok_cmd = s.sd_last_ok_cmd
      ∧ s1.multi_io_block = s.multi_io_block ∧ s1.vdisk = s.vdisk ∧ s1.sdfd = s.sdfd
      ∧ (∀ b, block_content s1 b = block_content s b) := by
  obtain ⟨e, _⟩ := h
  have hf : s1.sd_status = s.sd_status ∧ s1.sd_last_ok_cmd = s.sd_last_ok_cmd
      ∧ s1.multi_io_block = s.multi_io_block ∧ s1.vdisk = s.vdisk ∧ s1.sdfd = s.sdfd
      ∧ s1.sdcard_size_in_blocks = s.sdcard_size_in_blocks
      ∧ s1.sd_compressed = s.sd_compressed ∧ s1.sd_image = s.sd_image := by
    rw [e]; exact ⟨rfl, rfl, rfl, rfl, rfl, rfl, rfl, rfl⟩
  obtain ⟨f1, f2, f3, f4, f5, f6, f7, f8⟩ := hf
  exact ⟨f1, f2, f3, f4, f5, fun b => block_content_congr b f4 f6 f5 f7 f8⟩

theorem run_trace_cons (K : sd_consts) (s s1 : sd_state) (env : host_env) (reg data : Nat)
    (rest : List (host_env × Nat × Nat))
    (h : sdcard_write_register K s env reg data = some s1) :
    run_trace K s ((env, reg, data) :: rest)
      = (run_trace K s1 rest).map (fun r => (s1 :: r.1, r.2)) := by
  show (sdcard_write_register K s env reg data).bind _ = _
  rw [h]
  rfl

/-- The commands after the first one of a multi-block write, by induction on the
number of continue commands. -/
theorem run_multi_tail {bpc : Nat} (hbpc : 0 < bpc) (K : sd_consts) {size : Nat}
    {B : List Nat} {m : Nat} {fd : Int} (hB : B.length = 512) (hsize : size ≤ 2 ^ 32)
    (s0 : sd_state) (hm0 : s0.vdisk.mode = m) (hfd0 : s0.sdfd = fd) (A : Nat)
    (last_ws : List (host_env × Nat × Nat)) (last_env : host_env)
    (hlw : sector_only last_ws) (hle : env_good s0 last_env) :
    ∀ (conts : List (List (host_env × Nat × Nat) × host_env)) (s : sd_state) (j : Nat),
      multi_ready K bpc size B m fd s →
      st_tst s.sd_status (K.SD_ST_ERROR ||| K.SD_ST_FSM_ERROR) = false →
      (s.sd_last_ok_cmd = 4 ∨ s.sd_last_ok_cmd = 5) →
      s.multi_io_block = A + j →
      A + j + conts.length + 1 < size →
      (∀ i, i ≤ j → block_content s (A + i) = some B) →
      (∀ c, c ∈ conts → sector_only c.1 ∧ env_good s0 c.2) →
      ∃ tr final, run_trace K s (continue_steps conts ++ (last_ws ++ [(last_env, 0, 6)]))
            = some (tr, final)
        ∧ (∀ st, st ∈ tr → st_tst st.sd_status (K.SD_ST_ERROR ||| K.SD_ST_FSM_ERROR) = false)
        ∧ multi_ready K bpc size B m fd final
        ∧ (∀ i, i ≤ j + conts.length + 1 → block_content final (A + i) = some B) := by
  intro conts
  induction conts with
  | nil =>
    intro s j hr hne hlast hmb hlt hcont _
    obtain ⟨s1, tr1, hro, htr1, hrun⟩ := run_sector_writes K last_ws [(last_env, 0, 6)] s hlw
      hr.regs_len
    obtain ⟨f1, f2, f3, f4, f5, f6⟩ := regs_only_fields hro
    have hr1 := multi_ready_regs_only hr hro
    have henv1 : env_good s1 last_env :=
      env_good_congr hle (by rw [hr1.mode_eq, hm0]) (by rw [hr1.fd_eq, hfd0])
    obtain ⟨s2, hw, hpost, _, _⟩ := cmd_next_ok hbpc K last_env 6 (Or.inr rfl) hr1 hB
      (by rw [f2]; exact hlast.elim Or.inl (fun h => Or.inr (Or.inl h)))
      (by rw [f3, hmb]; simp only [List.length_nil] at hlt; omega) hsize henv1
    refine ⟨tr1 ++ [s2], s2, ?_, ?_, hpost.ready, ?_⟩
    · show run_trace K s (last_ws ++ [(last_env, 0, 6)]) = _
      rw [hrun, run_trace_cons K s1 s2 last_env 0 6 [] hw]
      rfl
    · intro st hst
      rcases List.mem_append.mp hst with h | h
      · rw [(regs_only_fields (htr1 st h)).1]; exact hne
      · rw [List.mem_singleton.mp h]; exact hpost.no_error
    · intro i hi
      simp only [List.length_nil, Nat.add_zero] at hi
      by_cases hij : i = j + 1
      · rw [hij, ← Nat.add_assoc, ← hmb, ← f3]
        exact hpost.content
      · apply hpost.others (A + i) B (by rw [f3, hmb]; omega)
        rw [f6]
        exact hcont i (by omega)
  | cons c rest ih =>
    intro s j hr hne hlast hmb hlt hcont hcs
    obtain ⟨ws, e⟩ := c
    obtain ⟨hws, hce⟩ := hcs (ws, e) (List.mem_cons_self _ _)
    simp only [List.length_cons] at hlt
    obtain ⟨s1, tr1, hro, htr1, hrun⟩ := run_sector_writes K ws
      ((e, 0, 5) :: (continue_steps rest ++ (last_ws ++ [(last_env, 0, 6)]))) s hws hr.regs_len
    obtain ⟨f1, f2, f3, f4, f5, f6⟩ := regs_only_fields hro
    have hr1 := multi_ready_regs_only hr hro
    have henv1 : env_good s1 e :=
      env_good_congr hce (by rw [hr1.mode_eq, hm0]) (by rw [hr1.fd_eq, hfd0])
    obtain ⟨s2, hw, hpost, hl2, hmb2⟩ := cmd_next_ok hbpc K e 5 (Or.inl rfl) hr1 hB
      (by rw [f2]; exact hlast.elim Or.inl (fun h => Or.inr (Or.inl h)))
      (by rw [f3, hmb]; omega) hsize henv1
    have hcont2 : ∀ i, i ≤ j + 1 → block_content s2 (A + i) = some B := by
      intro i hi
      by_cases hij : i = j + 1
      · rw [hij, ← Nat.add_assoc, ← hmb, ← f3]
        exact hpost.content
      · apply hpost.others (A + i) B (by rw [f3, hmb]; omega)
        rw [f6]
        exact hcont i (by omega)
    obtain ⟨tr2, final, hrun2, hne2, hrf, hcf⟩ := ih s2 (j + 1) hpost.ready hpost.no_error
      (Or.inr hl2) (by rw [hmb2, f3, hmb]; omega) (by omega) hcont2
      (fun c hc => hcs c (List.mem_cons_of_mem _ hc))
    refine ⟨tr1 ++ (s2 :: tr2), final, ?_, ?_, hrf, ?_⟩
    · show run_trace K s ((ws ++ (e, 0, 5) :: continue_steps rest)
          ++ (last_ws ++ [(last_env, 0, 6)])) = _
      rw [List.append_assoc, List.cons_append, hrun, run_trace_cons K s1 s2 e 0 5 _ hw, hrun2]
      rfl
    · intro st hst
      rcases List.mem_append.mp hst with h | h
      · rw [(regs_only_fields (htr1 st h)).1]; exact hne
      · rcases List.mem_cons.mp h with h | h
        · rw [h]; exact hpost.no_error
        · exact hne2 st h
    · intro i hi
      exact hcf i (by simp only [List.length_cons] at hi; omega)

/-- `U8A_TO_U32` is the little-endian value of four bytes. -/
theorem U8A_TO_U32_little_endian (a : List Nat) (i a0 a1 a2 a3 : Nat)
    (h0 : a[i]? = some a0) (h1 : a[i + 1]? = some a1) (h2 : a[i + 2]? = some a2)
    (h3 : a[i + 3]? = some a3)
    (b0 : a0 < 256) (b1 : a1 < 256) (b2 : a2 < 256) (b3 : a3 < 256) :
    U8A_TO_U32 a i = some (a0 + 256 * a1 + 65536 * a2 + 16777216 * a3) := by
  unfold U8A_TO_U32
  simp only [arr_get_eq, h0, h1, h2, h3, Option.bind_eq_bind, Option.some_bind, Option.pure_def,
    Option.some.injEq]
  have e1 : a0 ||| a1 <<< 8 = 2 ^ 8 * a1 + a0 := by
    rw [Nat.shiftLeft_eq, Nat.or_comm, Nat.mul_comm]
    exact (Nat.mul_add_lt_is_or (i := 8) b0 a1).symm
  have e2 : (2 ^ 8 * a1 + a0) ||| a2 <<< 16 = 2 ^ 16 * a2 + (2 ^ 8 * a1 + a0) := by
    rw [Nat.shiftLeft_eq, Nat.or_comm, Nat.mul_comm]
    exact (Nat.mul_add_lt_is_or (i := 16) (by omega) a2).symm
  have e3 : (2 ^ 16 * a2 + (2 ^ 8 * a1 + a0)) ||| a3 <<< 24
      = 2 ^ 24 * a3 + (2 ^ 16 * a2 + (2 ^ 8 * a1 + a0)) := by
    rw [Nat.shiftLeft_eq, Nat.or_comm, Nat.mul_comm]
    exact (Nat.mul_add_lt_is_or (i := 24) (by omega) a3).symm
  rw [e1, e2, e3]
  omega

theorem write_buffer_length (s : sd_state) (hbufs : s.disk_buffers.length = 0x1000)
    (hfill : s.sd_fill_buffer.length = 512) : (write_buffer s).length = 512 := by
  unfold write_buffer
  split
  · exact hfill
  · rw [List.length_drop, hbufs]
    rfl

/-- C7 (amended). Multi-block write sequence: on a writable backend (the virtual store, or
an open uncompressed image file whose host writes transfer whole blocks and whose
protection of important blocks does not reject a write) with the internal bus selected
and SDHC mode on, starting from a state whose last accepted command is not 0x04, the
sequence first (0x04), continue (0x05) `conts.length` times, last (0x06) has a result, no
state of the run has an error flag set, and afterwards each of the consecutive blocks
`A, A+1, ..., A+conts.length+1` reads back as the write buffer, `A` being the
little-endian value of sector registers 1..4 at the first command; arbitrary writes to
the sector registers between the commands do not change this. -/
theorem multi_block_write_sequence (K : sd_consts) (bpc : Nat) (hbpc : 0 < bpc) (s : sd_state)
    (A : Nat) (first : host_env) (conts : List (List (host_env × Nat × Nat) × host_env))
    (last_ws : List (host_env × Nat × Nat)) (last_env : host_env)
    (hint : st_tst s.sd_status K.SD_ST_EXT_BUS = false) (hsdhc : s.sdhc_mode ≠ 0)
    (hrw : s.sd_is_read_only = 0) (hlast : s.sd_last_ok_cmd ≠ 4)
    (hregs : s.sd_regs.length = 0x30) (hbufs : s.disk_buffers.length = 0x1000)
    (hfill : s.sd_fill_buffer.length = 512) (hsize : s.sdcard_size_in_blocks ≤ 2 ^ 32)
    (r1 r2 r3 r4 : Nat) (hr1 : s.sd_regs[1]? = some r1) (hr2 : s.sd_regs[2]? = some r2)
    (hr3 : s.sd_regs[3]? = some r3) (hr4 : s.sd_regs[4]? = some r4)
    (hb1 : r1 < 256) (hb2 : r2 < 256) (hb3 : r3 < 256) (hb4 : r4 < 256)
    (hA : A = r1 + 256 * r2 + 65536 * r3 + 16777216 * r4)
    (htargets : A + conts.length + 1 < s.sdcard_size_in_blocks)
    (hbackend : backend_ok bpc s)
    (hprot : s.sdfd < 0 ∨ s.protect_important_blocks ≠ 2)
    (hfirst : env_good s first)
    (hconts : ∀ c, c ∈ conts → sector_only c.1 ∧ env_good s c.2)
    (hlw : sector_only last_ws) (hle : env_good s last_env) :
    ∃ tr final,
      run_trace K s (multi_block_program first conts last_ws last_env) = some (tr, final)
      ∧ (∀ st, st ∈ tr → st_tst st.sd_status (K.SD_ST_ERROR ||| K.SD_ST_FSM_ERROR) = false)
      ∧ (∀ i, i ≤ conts.length + 1 → reads_as final (A + i) (write_buffer s)) := by
  have hB := write_buffer_length s hbufs hfill
  have hA : U8A_TO_U32 s.sd_regs 1 = some A := by
    rw [hA]
    exact U8A_TO_U32_little_endian s.sd_regs 1 r1 r2 r3 r4 hr1 hr2 hr3 hr4 hb1 hb2 hb3 hb4
  have hr : multi_ready K bpc s.sdcard_size_in_blocks (write_buffer s) s.vdisk.mode s.sdfd s :=
    ⟨hint, hsdhc, hrw, rfl, rfl, rfl, hbackend, rfl, hregs, hprot⟩
  obtain ⟨s1, hw, hpost, hl1, hmb1⟩ := cmd_first_ok hbpc K first hr hB hlast hA (by omega) hfirst
  obtain ⟨tr, final, hrun, hne, hrf, hcf⟩ := run_multi_tail hbpc K hB hsize s rfl rfl A last_ws
    last_env hlw hle conts s1 0 hpost.ready hpost.no_error (Or.inl hl1) (by rw [hmb1]; rfl)
    (by omega) (fun i hi => by
      have : i = 0 := by omega
      subst this
      exact hpost.content) hconts
  refine ⟨s1 :: tr, final, ?_, ?_, ?_⟩
  · unfold multi_block_program
    rw [run_trace_cons K s s1 first 0 4 _ hw, hrun]
    rfl
  · intro st hst
    rcases List.mem_cons.mp hst with h | h
    · rw [h]; exact hpost.no_error
    · exact hne st h
  · intro i hi
    exact block_content_reads hbpc hrf.backend hB (hcf i (by omega))

theorem multi_block_write_sequence_witness :
    ∃ tr final,
      run_trace K_ref sd_virtual_boot
        (multi_block_program env_ok [([(env_ok, 1, 9)], env_ok)] [] env_ok) = some (tr, final)
      ∧ (∀ st, st ∈ tr →
          st_tst st.sd_status (K_ref.SD_ST_ERROR ||| K_ref.SD_ST_FSM_ERROR) = false)
      ∧ (∀ i, i ≤ [([(env_ok, 1, 9)], env_ok)].length + 1 →
          reads_as final (0 + i) (write_buffer sd_virtual_boot)) :=
  multi_block_write_sequence K_ref 2048 (by decide) sd_virtual_boot 0 env_ok
    [([(env_ok, 1, 9)], env_ok)] [] env_ok (by decide) (by decide) rfl (by decide)
    (List.length_replicate _ _) (List.length_replicate _ _) (List.length_replicate _ _)
    (by decide) 0 0 0 0 (by decide) (by decide) (by decide) (by decide)
    (by decide) (by decide) (by decide) (by decide) rfl (by decide)
    (Or.inl ⟨by decide, vdisk_reachable.init _⟩) (Or.inl (by decide))
    ⟨fun h => absurd h (by decide), fun h => absurd h (by decide)⟩
    (fun c hc => by
      rw [List.mem_singleton.mp hc]
      refine ⟨fun w hw => ?_, fun h => absurd h (by decide), fun h => absurd h (by decide)⟩
      rw [List.mem_singleton.mp hw]
      exact ⟨by decide, by decide⟩)
    (fun w hw => absurd hw (List.not_mem_nil _))
    ⟨fun h => absurd h (by decide), fun h => absurd h (by decide)⟩

/-- C7, counterexample to the claim as stated: with an open writable image file, the
internal bus, SDHC mode on, no command accepted before and sector registers 0 (targets 0
and 1 of 131072 blocks), the first command (0x04) targets block 0; the protection of
important blocks asks, the answer is "Reject this", and the command ends with both error
flags set. -/
theorem multi_block_write_rejected :
    st_tst sd_file_boot.sd_status K_ref.SD_ST_EXT_BUS = false
    ∧ sd_file_boot.sdhc_mode = 1 ∧ sd_file_boot.sd_is_read_only = 0
    ∧ sd_file_boot.sd_last_ok_cmd ≠ 4
    ∧ U8A_TO_U32 sd_file_boot.sd_regs 1 = some 0
    ∧ 0 + 0 + 1 < sd_file_boot.sdcard_size_in_blocks
    ∧ (sdcard_write_register K_ref sd_file_boot env_reject 0 4).map
        (fun s1 => (st_tst s1.sd_status K_ref.SD_ST_ERROR,
                    st_tst s1.sd_status K_ref.SD_ST_FSM_ERROR, s1.sd_last_ok_cmd))
      = some (true, true, 0xFF) := by
  decide

/-! ### Status byte after a command -/

theorem st_tst_set_of_bit {s m n i : Nat} (hi : i < 8) (hm : m.testBit i = true)
    (hn : n.testBit i = true) : st_tst (st_set s m) n = true := by
  rw [st_tst_eq_true]
  apply and_ne_zero_of_testBit (i := i) _ hn
  rw [st_set_testBit]
  simp [hi, hm]

theorem st_tst_set_mono {s m : Nat} (n : Nat) (hm : m < 256) (h : st_tst s m = true) :
    st_tst (st_set s n) m = true := by
  rw [st_tst_eq_true] at h
  obtain ⟨i, hi⟩ := Nat.ne_zero_implies_bit_true h
  rw [Nat.testBit_and] at hi
  have h1 : s.testBit i = true := by cases hs : s.testBit i <;> simp_all
  have h2 : m.testBit i = true := by cases hs : m.testBit i <;> simp_all
  have hi8 : i < 8 := by
    by_contra hge
    rw [tb_of_lt256 hm (by omega)] at h2
    exact Bool.noConfusion h2
  rw [st_tst_eq_true]
  apply and_ne_zero_of_testBit (i := i) _ h2
  rw [st_set_testBit]
  simp [hi8, h1]

theorem sd_consts.WF.error {K : sd_consts} (h : K.WF) :
    0 < K.SD_ST_ERROR ∧ K.SD_ST_ERROR < 256 :=
  h.1 _ (by simp [sd_consts.flags])

theorem sd_consts.WF.fsm_error {K : sd_consts} (h : K.WF) :
    0 < K.SD_ST_FSM_ERROR ∧ K.SD_ST_FSM_ERROR < 256 :=
  h.1 _ (by simp [sd_consts.flags])

theorem sd_consts.WF.busy1 {K : sd_consts} (h : K.WF) :
    0 < K.SD_ST_BUSY1 ∧ K.SD_ST_BUSY1 < 256 :=
  h.1 _ (by simp [sd_consts.flags])

theorem sd_consts.WF.busy0 {K : sd_consts} (h : K.WF) :
    0 < K.SD_ST_BUSY0 ∧ K.SD_ST_BUSY0 < 256 :=
  h.1 _ (by simp [sd_consts.flags])

/-- Setting the two error flags, possibly with further flags, makes the error test and
the test of either flag succeed. -/
theorem st_tst_error_set {K : sd_consts} (hK : K.WF) (s extra : Nat) :
    st_tst (st_set s (K.SD_ST_ERROR ||| K.SD_ST_FSM_ERROR ||| extra))
        (K.SD_ST_ERROR ||| K.SD_ST_FSM_ERROR) = true
    ∧ st_tst (st_set s (K.SD_ST_ERROR ||| K.SD_ST_FSM_ERROR ||| extra)) K.SD_ST_ERROR = true
    ∧ st_tst (st_set s (K.SD_ST_ERROR ||| K.SD_ST_FSM_ERROR ||| extra)) K.SD_ST_FSM_ERROR
        = true := by
  obtain ⟨i, hi8, hi⟩ := exists_bit hK.error.1 hK.error.2
  obtain ⟨j, hj8, hj⟩ := exists_bit hK.fsm_error.1 hK.fsm_error.2
  refine ⟨st_tst_set_of_bit hi8 ?_ ?_, st_tst_set_of_bit hi8 ?_ hi, st_tst_set_of_bit hj8 ?_ hj⟩
  · simp [Nat.testBit_or, hi]
  · simp [Nat.testBit_or, hi]
  · simp [Nat.testBit_or, hi]
  · simp [Nat.testBit_or, hj]

theorem st_set_zero_extra (s m : Nat) : st_set s (m ||| 0) = st_set s m := by
  rw [Nat.or_zero]

/-- The status byte the `error:` exit of `sdcard_block_io` leaves. -/
theorem block_io_error_status {K : sd_consts} (hK : K.WF) (s : sd_state) :
    st_tst (block_io_error K s).sd_status (K.SD_ST_ERROR ||| K.SD_ST_FSM_ERROR) = true
    ∧ st_tst (block_io_error K s).sd_status K.SD_ST_ERROR = true
    ∧ st_tst (block_io_error K s).sd_status K.SD_ST_FSM_ERROR = true := by
  have h := st_tst_error_set hK s.sd_status 0
  rw [st_set_zero_extra] at h
  have hE := hK.error.2
  have hF := hK.fsm_error.2
  have hEF : K.SD_ST_ERROR ||| K.SD_ST_FSM_ERROR < 256 := Nat.or_lt_two_pow (n := 8) hE hF
  exact ⟨st_tst_set_mono _ hEF h.1, st_tst_set_mono _ hE h.2.1, st_tst_set_mono _ hF h.2.2⟩

theorem cmd_frame_refl (K : sd_consts) (s : sd_state) : cmd_frame K s s :=
  ⟨rfl, fun h => h, Or.inl rfl⟩

theorem cmd_frame_error {K : sd_consts} (hK : K.WF) {s s1 : sd_state}
    (hregs : s1.sd_regs.length = s.sd_regs.length) : cmd_frame K s (block_io_error K s1) :=
  ⟨hregs, fun _ => st_set_lt _ _, Or.inr (block_io_error_status hK s1).1⟩

theorem block_io_transfer_frame {K : sd_consts} (hK : K.WF) {s s1 : sd_state} {env : host_env}
    {b : Nat} {w : Bool} (h : block_io_transfer K s env b w = some s1) : cmd_frame K s s1 := by
  unfold block_io_transfer at h
  split at h
  · cases h
    refine ⟨rfl, fun _ => st_set_lt _ _, Or.inr ?_⟩
    have := (st_tst_error_set hK s.sd_status (K.SD_ST_BUSY1 ||| K.SD_ST_BUSY0)).1
    rw [← Nat.or_assoc] at this
    exact this
  · simp only [Option.bind_eq_bind, Option.pure_def] at h
    generalize (if (w && s.sd_fill_mode != 0) = true then s.sd_fill_buffer
      else s.disk_buffers.drop SD_BUFFER_POS) = buf at h
    cases w with
    | true =>
      rw [if_pos rfl] at h
      cases hw : sdcard_write_block s env b buf with
      | none => rw [hw] at h; cases h
      | some p =>
        obtain ⟨r, s2⟩ := p
        have hc := sdcard_write_block_frame hw
        have hf : s2.sd_regs = s.sd_regs ∧ s2.sd_status = s.sd_status
            ∧ s2.keep_busy = s.keep_busy := by
          unfold ctrl_eq at hc; rw [hc]; exact ⟨rfl, rfl, rfl⟩
        rw [hw] at h
        simp only [Option.some_bind] at h
        split at h
        · cases h
          exact cmd_frame_error hK (by rw [hf.1])
        · cases h
          exact ⟨by rw [← hf.1], fun hlt => Nat.lt_of_le_of_lt (st_clr_le _ _)
            (by rw [hf.2.1]; exact hlt), Or.inl hf.2.2⟩
    | false =>
      rw [if_neg (by decide)] at h
      cases hw : sdcard_read_block s env b buf with
      | none => rw [hw] at h; cases h
      | some p =>
        obtain ⟨r, s2, buf1⟩ := p
        have hc := (sdcard_read_block_frame hw).1
        have hf : s2.sd_regs = s.sd_regs ∧ s2.sd_status = s.sd_status
            ∧ s2.keep_busy = s.keep_busy := by
          unfold ctrl_eq at hc; rw [hc]; exact ⟨rfl, rfl, rfl⟩
        rw [hw] at h
        simp only [Option.some_bind] at h
        split at h
        · cases h
          exact cmd_frame_error hK (by show s2.sd_regs.length = _; rw [hf.1])
        · cases h
          exact ⟨by show s2.sd_regs.length = _; rw [hf.1],
            fun hlt => Nat.lt_of_le_of_lt (st_clr_le _ _)
              (by show s2.sd_status < 256; rw [hf.2.1]; exact hlt), Or.inl hf.2.2⟩

theorem sdcard_block_io_frame {K : sd_consts} (hK : K.WF) {s s1 : sd_state} {env : host_env}
    {b : Nat} {w : Bool} (h : sdcard_block_io K s env b w = some s1) : cmd_frame K s s1 := by
  unfold sdcard_block_io at h
  split at h
  · split at h
    · cases h; exact cmd_frame_error hK rfl
    · split at h
      · cases h; exact cmd_frame_error hK rfl
      · cases h; exact cmd_frame_error hK rfl
      · exact block_io_transfer_frame hK h
      · have := block_io_transfer_frame hK h
        exact ⟨this.regs_len, this.status_lt, this.latch⟩
      · exact block_io_transfer_frame hK h
  · exact block_io_transfer_frame hK h

theorem cmd_frame_status {K : sd_consts} (s : sd_state) (st : Nat) (hst : st < 256) :
    cmd_frame K s { s with sd_status := st } :=
  ⟨rfl, fun _ => hst, Or.inl rfl⟩

theorem cmd_frame_clr {K : sd_consts} (s : sd_state) (m : Nat) :
    cmd_frame K s { s with sd_status := st_clr s.sd_status m } :=
  ⟨rfl, fun h => st_clr_lt _ _ h, Or.inl rfl⟩

theorem cmd_frame_bind_io {K : sd_consts} (hK : K.WF) {s s0 s1 : sd_state} {env : host_env}
    {w : Bool} {ob : Option Nat}
    (h0 : s0.sd_regs = s.sd_regs ∧ s0.sd_status = s.sd_status ∧ s0.keep_busy = s.keep_busy)
    (h : (ob.bind fun block => sdcard_block_io K s0 env block w) = some s1) :
    cmd_frame K s s1 := by
  cases ob with
  | none => cases h
  | some block =>
    have := sdcard_block_io_frame hK (show sdcard_block_io K s0 env block w = some s1 from h)
    exact ⟨by rw [this.regs_len, h0.1], fun hlt => this.status_lt (by rw [h0.2.1]; exact hlt),
      by rw [← h0.2.2]; exact this.latch⟩

theorem cmd_frame_bad_sequence {K : sd_consts} (hK : K.WF) (s : sd_state) :
    cmd_frame K s
      { s with sd_status := st_set s.sd_status (K.SD_ST_ERROR ||| K.SD_ST_FSM_ERROR) } := by
  have h := (st_tst_error_set hK s.sd_status 0).1
  rw [st_set_zero_extra] at h
  exact ⟨rfl, fun _ => st_set_lt _ _, Or.inr h⟩

theorem sdcard_command_switch_frame {K : sd_consts} (hK : K.WF) {s s1 : sd_state}
    {env : host_env} {cmd : Nat} (h : sdcard_command_switch K s env cmd = some s1) :
    cmd_frame K s s1 := by
  unfold sdcard_command_switch at h
  split at h
  · -- 0x00
    simp only [Option.bind_eq_bind, Option.pure_def] at h
    cases h1 : arr_set s.sd_regs 1 0 with
    | none => rw [h1] at h; cases h
    | some r1 =>
      cases h2 : arr_set r1 2 0 with
      | none => rw [h1] at h; simp only [Option.some_bind, h2] at h; cases h
      | some r2 =>
        cases h3 : arr_set r2 3 0 with
        | none => rw [h1] at h; simp only [Option.some_bind, h2, h3] at h; cases h
        | some r3 =>
          cases h4 : arr_set r3 4 0 with
          | none => rw [h1] at h; simp only [Option.some_bind, h2, h3, h4] at h; cases h
          | some r4 =>
            rw [h1] at h
            simp only [Option.some_bind, h2, h3, h4, Option.some.injEq] at h
            rw [← h]
            refine ⟨?_, fun _ => Nat.mod_lt _ (by decide), Or.inl rfl⟩
            rw [arr_set_some_iff] at h1 h2 h3 h4
            show r4.length = _
            rw [h4.2, List.length_set, h3.2, List.length_set, h2.2, List.length_set, h1.2,
              List.length_set]
  · -- 0x10
    simp only [Option.bind_eq_bind, Option.pure_def] at h
    cases h1 : arr_set s.sd_regs 1 0 with
    | none => rw [h1] at h; cases h
    | some r1 =>
      cases h2 : arr_set r1 2 0 with
      | none => rw [h1] at h; simp only [Option.some_bind, h2] at h; cases h
      | some r2 =>
        cases h3 : arr_set r2 3 0 with
        | none => rw [h1] at h; simp only [Option.some_bind, h2, h3] at h; cases h
        | some r3 =>
          cases h4 : arr_set r3 4 0 with
          | none => rw [h1] at h; simp only [Option.some_bind, h2, h3, h4] at h; cases h
          | some r4 =>
            rw [h1] at h
            simp only [Option.some_bind, h2, h3, h4, Option.some.injEq] at h
            rw [← h]
            refine ⟨?_, fun _ => Nat.mod_lt _ (by decide), Or.inl rfl⟩
            rw [arr_set_some_iff] at h1 h2 h3 h4
            show r4.length = _
            rw [h4.2, List.length_set, h3.2, List.length_set, h2.2, List.length_set, h1.2,
              List.length_set]
  · cases h; exact cmd_frame_clr s _
  · cases h; exact cmd_frame_clr s _
  · cases h; exact cmd_frame_refl K s
  · exact cmd_frame_bind_io hK ⟨rfl, rfl, rfl⟩ h
  · exact cmd_frame_bind_io hK ⟨rfl, rfl, rfl⟩ h
  · -- 0x04
    split at h
    · simp only [Option.bind_eq_bind] at h
      cases hb : U8A_TO_U32 s.sd_regs 1 with
      | none => rw [hb] at h; cases h
      | some block =>
        rw [hb] at h
        have := sdcard_block_io_frame hK
          (show sdcard_block_io K { s with multi_io_block := block } env block true = some s1
            from h)
        exact ⟨this.regs_len, this.status_lt, this.latch⟩
    · cases h; exact cmd_frame_bad_sequence hK s
  · -- 0x05
    split at h
    · have := sdcard_block_io_frame hK h
      exact ⟨this.regs_len, this.status_lt, this.latch⟩
    · cases h; exact cmd_frame_bad_sequence hK s
  · -- 0x06
    split at h
    · have := sdcard_block_io_frame hK h
      exact ⟨this.regs_len, this.status_lt, this.latch⟩
    · cases h; exact cmd_frame_bad_sequence hK s
  · cases h; exact cmd_frame_refl K s
  · cases h; exact ⟨rfl, fun hlt => st_clr_lt _ _ hlt, Or.inl rfl⟩
  · cases h; exact ⟨rfl, fun _ => st_set_lt _ _, Or.inl rfl⟩
  · cases h; exact cmd_frame_refl K s
  · cases h; exact cmd_frame_refl K s
  · cases h; exact ⟨rfl, fun _ => Nat.lt_of_le_of_lt (st_clr_le _ _) (st_set_lt _ _), Or.inl rfl⟩
  · cases h; exact cmd_frame_clr s _
  · cases h; exact ⟨rfl, fun hlt => hlt, Or.inl rfl⟩
  · cases h; exact ⟨rfl, fun hlt => hlt, Or.inl rfl⟩
  · cases h; exact cmd_frame_clr s _
  · cases h; exact ⟨rfl, fun _ => st_set_lt _ _, Or.inl rfl⟩
  · cases h; exact ⟨rfl, fun _ => st_set_lt _ _, Or.inl rfl⟩

/-- After every command that has a result: the register file keeps its length, the
status byte is a byte, and the keep-busy latch is engaged only together with an error
flag. -/
theorem sdcard_command_frame {K : sd_consts} (hK : K.WF) {s s1 : sd_state} {env : host_env}
    {cmd : Nat} (h : sdcard_command K s env cmd = some s1) :
    s1.sd_regs.length = s.sd_regs.length ∧ s1.sd_status < 256
    ∧ (s1.keep_busy = 0 ∨ st_tst s1.sd_status (K.SD_ST_ERROR ||| K.SD_ST_FSM_ERROR) = true) := by
  unfold sdcard_command at h
  simp only [Option.bind_eq_bind, Option.pure_def] at h
  cases hs : sdcard_command_switch K
      { s with sd_status := st_clr s.sd_status (K.SD_ST_BUSY1 ||| K.SD_ST_BUSY0)
               keep_busy := 0 } env cmd with
  | none => rw [hs] at h; cases h
  | some s2 =>
    have hf := sdcard_command_switch_frame hK hs
    have hlt : s2.sd_status < 256 := hf.status_lt (by
      show st_clr s.sd_status _ < 256
      unfold st_clr
      exact Nat.lt_of_le_of_lt Nat.and_le_right
        (Nat.xor_lt_two_pow (n := 8) (by decide) (Nat.mod_lt _ (by decide))))
    rw [hs] at h
    simp only [Option.some_bind] at h
    split at h
    · cases h
      exact ⟨hf.regs_len, hlt, hf.latch⟩
    · cases h
      exact ⟨hf.regs_len, hlt, hf.latch⟩

/-! ### Status reads -/

theorem st_clr_idem (s m : Nat) : st_clr (st_clr s m) m = st_clr s m := by
  apply Nat.eq_of_testBit_eq
  intro i
  rw [st_clr_testBit, st_clr_testBit]
  cases s.testBit i <;> cases m.testBit i <;> by_cases h : i < 8 <;> simp [h]

theorem st_tst_sub_left (s a b : Nat) : st_tst (st_clr s (a ||| b)) a = false :=
  st_tst_clr_sub s (a ||| b) a (fun i h => by simp [Nat.testBit_or, h])

theorem st_tst_sub_right (s a b : Nat) : st_tst (st_clr s (a ||| b)) b = false :=
  st_tst_clr_sub s (a ||| b) b (fun i h => by simp [Nat.testBit_or, h])

theorem sdcard_read_register_zero (K : sd_consts) (s : sd_state) (h : 0 < s.sd_regs.length) :
    sdcard_read_register K s 0 = some (sdcard_read_status K s) := by
  unfold sdcard_read_register
  simp only [arr_get_eq, List.getElem?_eq_getElem h, Option.bind_eq_bind, Option.some_bind,
    Option.pure_def]

theorem sdcard_read_register_zero_status (K : sd_consts) (s : sd_state) (st : Nat)
    (h : 0 < s.sd_regs.length) :
    sdcard_read_register K { s with sd_status := st } 0
      = some (sdcard_read_status K { s with sd_status := st }) :=
  sdcard_read_register_zero K { s with sd_status := st } h

/-- C10 (amended). Status read side effect: after any command that ends with no error flag
set, the keep-busy latch is not engaged; the first read of register 0 leaves both busy
bits cleared in the stored status; a second immediate read of register 0 leaves the state
as it is and, when the internal bus is selected, returns a value with both busy bits
clear; a status read changes no status bit other than the two busy bits and nothing
else in the state. The read itself, in every state `t` (also one whose stored busy bits
are set, as an error exit leaves them): it returns the stored status byte, with both busy
bits forced on when the external bus is selected; with the keep-busy latch off it stores
the status byte with both busy bits cleared and changes nothing else, so the busy bits
are clear in the stored status afterwards whatever they were; with the latch engaged it
leaves the state as it is. -/
theorem status_read_side_effect (K : sd_consts) (hK : K.WF) (s0 : sd_state) (env : host_env)
    (cmd : Nat) (s1 : sd_state) (hregs : s0.sd_regs.length = 0x30)
    (hcmd : sdcard_command K s0 env cmd = some s1)
    (hok : st_tst s1.sd_status (K.SD_ST_ERROR ||| K.SD_ST_FSM_ERROR) = false) :
    s1.keep_busy = 0
    ∧ (∃ v1 s2 v2, sdcard_read_register K s1 0 = some (v1, s2)
      ∧ sdcard_read_register K s2 0 = some (v2, s2)
      ∧ st_tst s2.sd_status K.SD_ST_BUSY1 = false
      ∧ st_tst s2.sd_status K.SD_ST_BUSY0 = false
      ∧ (st_tst s1.sd_status K.SD_ST_EXT_BUS = false →
          st_tst v2 K.SD_ST_BUSY1 = false ∧ st_tst v2 K.SD_ST_BUSY0 = false)
      ∧ s2 = { s1 with sd_status := s2.sd_status }
      ∧ (∀ i, (K.SD_ST_BUSY1 ||| K.SD_ST_BUSY0).testBit i = false →
          s2.sd_status.testBit i = s1.sd_status.testBit i))
    ∧ (∀ t : sd_state, 0 < t.sd_regs.length →
        ∃ v t1, sdcard_read_register K t 0 = some (v, t1)
          ∧ v = (if st_tst t.sd_status K.SD_ST_EXT_BUS
                 then st_set t.sd_status (K.SD_ST_BUSY1 ||| K.SD_ST_BUSY0) else t.sd_status)
          ∧ (t.keep_busy = 0 →
              t1 = { t with sd_status := st_clr t.sd_status (K.SD_ST_BUSY1 ||| K.SD_ST_BUSY0) }
              ∧ st_tst t1.sd_status K.SD_ST_BUSY1 = false
              ∧ st_tst t1.sd_status K.SD_ST_BUSY0 = false)
          ∧ (t.keep_busy ≠ 0 → t1 = t)) := by
  obtain ⟨hlen, hlt, hlatch⟩ := sdcard_command_frame hK hcmd
  have hkb : s1.keep_busy = 0 := by
    rcases hlatch with h | h
    · exact h
    · rw [hok] at h; cases h
  have hpos : 0 < s1.sd_regs.length := by rw [hlen, hregs]; decide
  refine ⟨hkb, ?_, ?_⟩
  · refine ⟨(sdcard_read_status K s1).1,
      { s1 with sd_status := st_clr s1.sd_status (K.SD_ST_BUSY1 ||| K.SD_ST_BUSY0) },
      (sdcard_read_status K
        { s1 with sd_status := st_clr s1.sd_status (K.SD_ST_BUSY1 ||| K.SD_ST_BUSY0) }).1,
      ?_, ?_, st_tst_sub_left _ _ _, st_tst_sub_right _ _ _, ?_, rfl, ?_⟩
    · rw [sdcard_read_register_zero K s1 hpos]
      simp only [sdcard_read_status, hkb, if_true]
    · rw [sdcard_read_register_zero_status K s1 _ hpos]
      simp only [sdcard_read_status, hkb, if_true, st_clr_idem]
    · intro hint
      have h2 := st_tst_clr_of_false (K.SD_ST_BUSY1 ||| K.SD_ST_BUSY0) hint
      simp only [sdcard_read_status, h2, Bool.false_eq_true, if_false]
      exact ⟨st_tst_sub_left _ _ _, st_tst_sub_right _ _ _⟩
    · intro i hi
      show (st_clr s1.sd_status _).testBit i = _
      rw [st_clr_testBit, hi]
      by_cases h8 : i < 8
      · simp [h8]
      · simp [tb_of_lt256 hlt (by omega : 8 ≤ i)]
  · intro t ht
    refine ⟨(sdcard_read_status K t).1, (sdcard_read_status K t).2,
      sdcard_read_register_zero K t ht, rfl, ?_, ?_⟩
    · intro hk
      have e : (sdcard_read_status K t).2
          = { t with sd_status := st_clr t.sd_status (K.SD_ST_BUSY1 ||| K.SD_ST_BUSY0) } := by
        simp only [sdcard_read_status, hk, if_true]
      rw [e]
      exact ⟨rfl, st_tst_sub_left _ _ _, st_tst_sub_right _ _ _⟩
    · intro hk
      simp only [sdcard_read_status, hk, if_false]

theorem sd_after_sdhc_on_eq :
    sdcard_command K_ref sd_virtual_boot env_ok 0x41 = some sd_after_sdhc_on := by
  rfl

set_option maxRecDepth 100000 in
theorem status_read_side_effect_witness :
    (sd_after_sdhc_on.keep_busy = 0
      ∧ ∃ v1 s2 v2, sdcard_read_register K_ref sd_after_sdhc_on 0 = some (v1, s2)
        ∧ sdcard_read_register K_ref s2 0 = some (v2, s2)
        ∧ st_tst s2.sd_status K_ref.SD_ST_BUSY1 = false
        ∧ st_tst s2.sd_status K_ref.SD_ST_BUSY0 = false
        ∧ (st_tst sd_after_sdhc_on.sd_status K_ref.SD_ST_EXT_BUS = false →
            st_tst v2 K_ref.SD_ST_BUSY1 = false ∧ st_tst v2 K_ref.SD_ST_BUSY0 = false)
        ∧ s2 = { sd_after_sdhc_on with sd_status := s2.sd_status }
        ∧ (∀ i, (K_ref.SD_ST_BUSY1 ||| K_ref.SD_ST_BUSY0).testBit i = false →
            s2.sd_status.testBit i = sd_after_sdhc_on.sd_status.testBit i))
    ∧ (sd_after_failed_write.sd_status = 0x63 ∧ sd_after_failed_write.keep_busy = 0
      ∧ st_tst sd_after_failed_write.sd_status K_ref.SD_ST_BUSY1 = true
      ∧ st_tst sd_after_failed_write.sd_status K_ref.SD_ST_BUSY0 = true
      ∧ ∃ t1, sdcard_read_register K_ref sd_after_failed_write 0 = some (0x63, t1)
        ∧ t1 = { sd_after_failed_write with sd_status := 0x60 }
        ∧ st_tst t1.sd_status K_ref.SD_ST_BUSY1 = false
        ∧ st_tst t1.sd_status K_ref.SD_ST_BUSY0 = false) :=
  have h := status_read_side_effect K_ref (by decide) sd_virtual_boot env_ok 0x41
    sd_after_sdhc_on (List.length_replicate _ _) sd_after_sdhc_on_eq (by decide)
  have ⟨v, t1, h1, h2, h3, _⟩ := h.2.2 sd_after_failed_write (by decide)
  ⟨⟨h.1, h.2.1⟩, rfl, rfl, by decide, by decide, t1, by rw [h1, h2]; rfl, (h3 rfl).1,
    (h3 rfl).2.1, (h3 rfl).2.2⟩

/-- C10, counterexample to the claim as stated: command 0xC1 (select the external bus)
ends with no error flag set and the keep-busy latch not engaged, yet the second of two
immediate reads of register 0 returns both busy bits set. -/
theorem status_read_busy_on_external_bus :
    (sdcard_command K_ref sd_virtual_boot env_ok 0xC1).bind (fun s1 =>
      (sdcard_read_register K_ref s1 0).bind (fun r1 =>
        (sdcard_read_register K_ref r1.2 0).map (fun r2 =>
          (st_tst s1.sd_status (K_ref.SD_ST_ERROR ||| K_ref.SD_ST_FSM_ERROR), s1.keep_busy,
           st_tst r2.1 K_ref.SD_ST_BUSY1, st_tst r2.1 K_ref.SD_ST_BUSY0))))
      = some (false, 0, true, true) := by
  decide

/-! ### Ordering of multi-block commands -/

theorem sdcard_command_last_ok (K : sd_consts) {s s1 : sd_state} {env : host_env} {cmd : Nat}
    (h : sdcard_command K s env cmd = some s1) :
    s1.sd_last_ok_cmd
      = if st_tst s1.sd_status (K.SD_ST_ERROR ||| K.SD_ST_FSM_ERROR) then 0xFF else cmd := by
  unfold sdcard_command at h
  simp only [Option.bind_eq_bind, Option.pure_def] at h
  cases hs : sdcard_command_switch K
      { s with sd_status := st_clr s.sd_status (K.SD_ST_BUSY1 ||| K.SD_ST_BUSY0)
               keep_busy := 0 } env cmd with
  | none => rw [hs] at h; cases h
  | some s2 =>
    rw [hs] at h
    simp only [Option.some_bind] at h
    split at h
    · rename_i ht
      cases h
      show 0xFF = if st_tst s2.sd_status _ = true then 0xFF else cmd
      rw [if_pos ht]
    · rename_i ht
      cases h
      show cmd = if st_tst s2.sd_status _ = true then 0xFF else cmd
      rw [if_neg ht]

/-- A continue or last command that does not follow first, continue or the write
sector gate is rejected without any block access. -/
theorem command_bad_sequence {K : sd_consts} (hK : K.WF) (s : sd_state) (env : host_env)
    (cmd : Nat) (hcmd : cmd = 5 ∨ cmd = 6)
    (hlast : ¬ (s.sd_last_ok_cmd = 4 ∨ s.sd_last_ok_cmd = 5 ∨ s.sd_last_ok_cmd = 0x57)) :
    sdcard_command K s env cmd = some
      { s with sd_status := st_set (st_clr s.sd_status (K.SD_ST_BUSY1 ||| K.SD_ST_BUSY0))
                              (K.SD_ST_ERROR ||| K.SD_ST_FSM_ERROR)
               keep_busy := 0, sd_last_ok_cmd := 0xFF } := by
  have h := (st_tst_error_set hK (st_clr s.sd_status (K.SD_ST_BUSY1 ||| K.SD_ST_BUSY0)) 0).1
  rw [st_set_zero_extra] at h
  unfold sdcard_command
  rcases hcmd with hc | hc <;> subst hc <;>
    simp only [sdcard_command_switch, hlast, if_false, Option.bind_eq_bind, Option.some_bind,
      h, if_true, Option.pure_def]

/-- C8 (amended). Multi-block ordering is enforced: in every controller state whose
remembered last accepted command is none of first (0x04), continue (0x05), last (0x06)
and write sector gate (0x57), issuing continue (0x05) or last (0x06) sets the error flag
and leaves the stored blocks (virtual store and image file) unchanged; and after any
command that ends with the error or FSM-error flag set the remembered last accepted
command is the sentinel 0xFF, otherwise it is the command just executed. -/
theorem multi_block_ordering (K : sd_consts) (hK : K.WF) (s : sd_state) (env : host_env)
    (cmd : Nat) (hcmd : cmd = 5 ∨ cmd = 6)
    (h4 : s.sd_last_ok_cmd ≠ 4) (h5 : s.sd_last_ok_cmd ≠ 5) (_h6 : s.sd_last_ok_cmd ≠ 6)
    (h57 : s.sd_last_ok_cmd ≠ 0x57)
    (t : sd_state) (env2 : host_env) (cmd2 : Nat) (t1 : sd_state)
    (hrun : sdcard_command K t env2 cmd2 = some t1) :
    (∃ s1, sdcard_command K s env cmd = some s1
      ∧ st_tst s1.sd_status K.SD_ST_ERROR = true
      ∧ s1.vdisk = s.vdisk ∧ s1.sd_image = s.sd_image ∧ s1.sd_last_ok_cmd = 0xFF)
    ∧ t1.sd_last_ok_cmd
        = if st_tst t1.sd_status (K.SD_ST_ERROR ||| K.SD_ST_FSM_ERROR) then 0xFF else cmd2 := by
  refine ⟨⟨_, command_bad_sequence hK s env cmd hcmd (by
      rintro (h | h | h)
      · exact h4 h
      · exact h5 h
      · exact h57 h), ?_, rfl, rfl, rfl⟩, sdcard_command_last_ok K hrun⟩
  have h := (st_tst_error_set hK (st_clr s.sd_status (K.SD_ST_BUSY1 ||| K.SD_ST_BUSY0)) 0).2.1
  rw [st_set_zero_extra] at h
  exact h

theorem multi_block_ordering_witness :
    (∃ s1, sdcard_command K_ref sd_virtual_boot env_ok 5 = some s1
      ∧ st_tst s1.sd_status K_ref.SD_ST_ERROR = true
      ∧ s1.vdisk = sd_virtual_boot.vdisk ∧ s1.sd_image = sd_virtual_boot.sd_image
      ∧ s1.sd_last_ok_cmd = 0xFF)
    ∧ sd_after_sdhc_on.sd_last_ok_cmd
        = if st_tst sd_after_sdhc_on.sd_status (K_ref.SD_ST_ERROR ||| K_ref.SD_ST_FSM_ERROR)
          then 0xFF else 0x41 :=
  multi_block_ordering K_ref (by decide) sd_virtual_boot env_ok 5 (Or.inl rfl) (by decide)
    (by decide) (by decide) (by decide) sd_virtual_boot env_ok 0x41 sd_after_sdhc_on
    sd_after_sdhc_on_eq

set_option maxRecDepth 100000 in
theorem sd_after_gate_eq :
    (run_trace K_ref sd_virtual_boot
        [(env_ok, 6, 7), (env_ok, 0, 0x83), (env_ok, 0, 0x57)]).map Prod.snd
      = some sd_after_gate := by
  rfl

theorem st_tst_or_false_left {s a b : Nat} (h : st_tst s (a ||| b) = false) :
    st_tst s a = false := by
  simp only [st_tst, bne_eq_false_iff_eq] at h ⊢
  apply Nat.eq_of_testBit_eq
  intro i
  have := tb_disj h i
  rw [Nat.testBit_and, Nat.zero_testBit]
  rw [Nat.testBit_or] at this
  cases hs : s.testBit i <;> cases ha : a.testBit i <;> simp_all

/-- C8, counterexample to the claim as stated: after fill mode has been set up with fill
byte 7, command 0x57 (write sector gate) is accepted; the remembered command is then
0x57, none of first, continue and last, and block 1 reads as zeros; yet a following
continue (0x05) is accepted: it ends with the error flag clear, is remembered as the last
accepted command, and block 1 then holds 512 bytes of value 7. -/
theorem continue_accepted_after_sector_gate :
    (run_trace K_ref sd_virtual_boot
        [(env_ok, 6, 7), (env_ok, 0, 0x83), (env_ok, 0, 0x57)]).map Prod.snd
      = some sd_after_gate
    ∧ sd_after_gate.sd_last_ok_cmd = 0x57
    ∧ block_content sd_after_gate 1 = some (List.replicate 512 0)
    ∧ ∃ s1, sdcard_write_register K_ref sd_after_gate env_ok 0 5 = some s1
        ∧ st_tst s1.sd_status K_ref.SD_ST_ERROR = false
        ∧ s1.sd_last_ok_cmd = 5
        ∧ block_content s1 1 = some (List.replicate 512 7) := by
  refine ⟨sd_after_gate_eq, rfl, rfl, ?_⟩
  have hr : multi_ready K_ref 2048 8388608 (List.replicate 512 7) 1 (-1) sd_after_gate :=
    ⟨by decide, by decide, rfl, rfl, rfl, rfl, Or.inl ⟨by decide, vdisk_reachable.init _⟩, rfl,
      by
        show (((List.replicate 0x30 0).set 6 7).set 0 0x57).length = 0x30
        simp only [List.length_set, List.length_replicate],
      Or.inl (by decide)⟩
  obtain ⟨s1, hw, hpost, hl, _⟩ := cmd_next_ok (by decide : 0 < 2048) K_ref env_ok 5
    (Or.inl rfl) hr (List.length_replicate _ _) (Or.inr (Or.inr rfl)) (by decide) (by decide)
    ⟨fun h => absurd h (by decide), fun h => absurd h (by decide)⟩
  exact ⟨s1, hw, st_tst_or_false_left hpost.no_error, hl, hpost.content⟩

/-! ### Failing block commands -/

theorem write_block_io_short (s : sd_state) (env : host_env) (b : Nat) (buffer : List Nat)
    (hb : b < s.sdcard_size_in_blocks) (hro : s.sd_is_read_only = 0) (hmode : s.vdisk.mode = 0)
    (hfd : 0 ≤ s.sdfd) (hcomp : s.sd_compressed = 0) (hio : env.io_limit < 512) :
    ∃ s2, sdcard_write_block s env b buffer = some (-1, s2) := by
  have hlen : ((buffer.take 512).take env.io_limit).length ≠ 512 := by
    simp only [List.length_take]
    omega
  unfold sdcard_write_block host_seek
  rw [if_neg (by omega), if_neg (by simp [hro]), if_neg (by simp [hmode]), if_neg (by omega),
    if_neg (by simp [hcomp])]
  simp only [Option.bind_eq_bind, Option.some_bind, Option.pure_def, ne_eq, not_true_eq_false,
    if_false, hlen]
  exact ⟨_, rfl⟩

theorem read_block_io_short (s : sd_state) (env : host_env) (b : Nat) (buffer : List Nat)
    (hb : b < s.sdcard_size_in_blocks) (hmode : s.vdisk.mode = 0)
    (hfd : 0 ≤ s.sdfd) (hcomp : s.sd_compressed = 0)
    (hio : (host_read s.sd_image (b * 512) 512 env.io_limit).length ≠ 512) :
    ∃ s2 buffer1, sdcard_read_block s env b buffer = some (-1, s2, buffer1) := by
  unfold sdcard_read_block host_seek
  rw [if_neg (by omega), if_neg (by simp [hmode]), if_neg (by omega), if_neg (by simp [hcomp])]
  simp only [Option.bind_eq_bind, Option.some_bind, Option.pure_def, ne_eq, not_true_eq_false,
    if_false, shl9, hio]
  exact ⟨_, _, rfl⟩

/-- The transfer stage when the backend call fails: the `error:` exit is taken. -/
theorem block_io_transfer_fail (K : sd_consts) (x : sd_state) (env : host_env) (b : Nat)
    (w : Bool) (hint : st_tst x.sd_status K.SD_ST_EXT_BUS = false)
    (hwrite : w = true → ∀ buf, ∃ x2, sdcard_write_block x env b buf = some (-1, x2))
    (hread : w = false → ∀ buf, ∃ x2 buf1, sdcard_read_block x env b buf = some (-1, x2, buf1)) :
    ∃ y, block_io_transfer K x env b w = some (block_io_error K y)
      ∧ y.sd_status = x.sd_status ∧ y.sd_regs = x.sd_regs := by
  unfold block_io_transfer
  rw [if_neg (by simp [hint])]
  simp only [Option.bind_eq_bind, Option.pure_def]
  generalize (if (w && x.sd_fill_mode != 0) = true then x.sd_fill_buffer
      else x.disk_buffers.drop SD_BUFFER_POS) = buf
  cases w with
  | true =>
    obtain ⟨x2, hw⟩ := hwrite rfl buf
    have hc := sdcard_write_block_frame hw
    have hf : x2.sd_status = x.sd_status ∧ x2.sd_regs = x.sd_regs := by
      unfold ctrl_eq at hc; rw [hc]; exact ⟨rfl, rfl⟩
    refine ⟨x2, ?_, hf.1, hf.2⟩
    rw [if_pos rfl, hw]
    simp only [Option.some_bind]
    rw [if_pos (Or.inl (by decide))]
  | false =>
    obtain ⟨x2, buf1, hr⟩ := hread rfl buf
    have hc := (sdcard_read_block_frame hr).1
    have hf : x2.sd_status = x.sd_status ∧ x2.sd_regs = x.sd_regs := by
      unfold ctrl_eq at hc; rw [hc]; exact ⟨rfl, rfl⟩
    refine ⟨{ x2 with disk_buffers := x2.disk_buffers.take SD_BUFFER_POS ++ buf1 }, ?_,
      hf.1, hf.2⟩
    rw [if_neg (by decide), hr]
    simp only [Option.some_bind]
    rw [if_pos (Or.inl (by decide))]

/-- `sdcard_block_io` when the backend call fails, whatever the protection of important
blocks does first. -/
theorem sdcard_block_io_fail (K : sd_consts) (x : sd_state) (env : host_env) (b : Nat)
    (w : Bool) (hint : st_tst x.sd_status K.SD_ST_EXT_BUS = false)
    (hwrite : w = true → ∀ p buf, ∃ x2,
      sdcard_write_block { x with protect_important_blocks := p } env b buf = some (-1, x2))
    (hread : w = false → ∀ buf, ∃ x2 buf1, sdcard_read_block x env b buf = some (-1, x2, buf1)) :
    ∃ y, sdcard_block_io K x env b w = some (block_io_error K y)
      ∧ y.sd_status = x.sd_status ∧ y.sd_regs = x.sd_regs := by
  have plain := block_io_transfer_fail K x env b w hint
    (fun hw buf => hwrite hw x.protect_important_blocks buf) hread
  unfold sdcard_block_io
  split
  · rename_i hguard
    have hw : w = true := by simpa using hguard.1
    split
    · exact ⟨x, rfl, rfl, rfl⟩
    · split
      · exact ⟨x, rfl, rfl, rfl⟩
      · exact ⟨{ x with protect_important_blocks := 2 }, rfl, rfl, rfl⟩
      · exact plain
      · exact block_io_transfer_fail K { x with protect_important_blocks := 0 } env b w hint
          (fun hw buf => hwrite hw 0 buf) (fun hf => by rw [hw] at hf; cases hf)
      · exact plain
  · exact plain

theorem io_cause_write_fails {s : sd_state} {env : host_env} {block : Nat}
    (hc : io_cause s env 3 block) (x : sd_state)
    (h1 : x.sdcard_size_in_blocks = s.sdcard_size_in_blocks)
    (h2 : x.sd_is_read_only = s.sd_is_read_only) (h3 : x.vdisk = s.vdisk)
    (h4 : x.sdfd = s.sdfd) (h5 : x.sd_compressed = s.sd_compressed) (buf : List Nat) :
    ∃ x2, sdcard_write_block x env block buf = some (-1, x2) := by
  rcases hc with hr | ⟨_, _, hro⟩ | ⟨hb, hmode, hfd, hcomp, ⟨h, _⟩ | ⟨_, hro, hio⟩⟩
  · exact ⟨x, write_block_out_of_range x env block (by rw [h1]; exact hr) buf⟩
  · exact ⟨x, write_block_read_only x env block buf (by rw [h2]; exact hro)⟩
  · exact absurd h (by decide)
  · exact write_block_io_short x env block buf (by rw [h1]; exact hb) (by rw [h2]; exact hro)
      (by rw [h3]; exact hmode) (by rw [h4]; exact hfd) (by rw [h5]; exact hcomp) hio

theorem io_cause_read_fails {s : sd_state} {env : host_env} {block : Nat}
    (hc : io_cause s env 2 block) (x : sd_state)
    (h1 : x.sdcard_size_in_blocks = s.sdcard_size_in_blocks) (h3 : x.vdisk = s.vdisk)
    (h4 : x.sdfd = s.sdfd) (h5 : x.sd_compressed = s.sd_compressed)
    (h6 : x.sd_image = s.sd_image) (buf : List Nat) :
    ∃ x2 buf1, sdcard_read_block x env block buf = some (-1, x2, buf1) := by
  rcases hc with hr | ⟨h, _, _⟩ | ⟨hb, hmode, hfd, hcomp, ⟨_, hio⟩ | ⟨h, _, _⟩⟩
  · exact ⟨x, buf, read_block_out_of_range x env block (by rw [h1]; exact hr) buf⟩
  · exact absurd h (by decide)
  · exact read_block_io_short x env block buf (by rw [h1]; exact hb) (by rw [h3]; exact hmode)
      (by rw [h4]; exact hfd) (by rw [h5]; exact hcomp) (by rw [h6]; exact hio)
  · exact absurd h (by decide)

/-- C9. Error causes are indistinguishable at the register level: with the internal bus
selected, a block read (0x02) or write (0x03) command that fails because the block number
is out of range, because the backend is read-only, or because the host I/O call on the
image file failed, always has a result, and leaves the status byte
`error_status K s.sd_status`, a function of the status byte before the command alone
(so the same byte whichever the cause), with the error and the FSM-error flag set, and
the bytes-read register (8) reads 0. -/
theorem error_causes_indistinguishable (K : sd_consts) (hK : K.WF) (s : sd_state)
    (env : host_env) (cmd block : Nat) (hcmd : cmd = 2 ∨ cmd = 3)
    (hint : st_tst s.sd_status K.SD_ST_EXT_BUS = false) (hregs : s.sd_regs.length = 0x30)
    (hblock : U8A_TO_U32 s.sd_regs 1 = some block) (hcause : io_cause s env cmd block) :
    ∃ s1, sdcard_command K s env cmd = some s1
      ∧ s1.sd_status = error_status K s.sd_status
      ∧ st_tst s1.sd_status K.SD_ST_ERROR = true
      ∧ st_tst s1.sd_status K.SD_ST_FSM_ERROR = true
      ∧ sdcard_read_register K s1 8 = some (0, s1) := by
  have hint0 : st_tst (st_clr s.sd_status (K.SD_ST_BUSY1 ||| K.SD_ST_BUSY0)) K.SD_ST_EXT_BUS
      = false := st_tst_clr_of_false _ hint
  have hio : ∃ y, sdcard_block_io K
      { s with sd_status := st_clr s.sd_status (K.SD_ST_BUSY1 ||| K.SD_ST_BUSY0)
               keep_busy := 0 } env block (decide (cmd = 3)) = some (block_io_error K y)
      ∧ y.sd_status = st_clr s.sd_status (K.SD_ST_BUSY1 ||| K.SD_ST_BUSY0)
      ∧ y.sd_regs = s.sd_regs := by
    apply sdcard_block_io_fail K _ env block _ hint0
    · intro hw p buf
      have h3 : cmd = 3 := by simpa using hw
      subst h3
      exact io_cause_write_fails hcause _ (by rfl) (by rfl) (by rfl) (by rfl) (by rfl) buf
    · intro hw buf
      have h2 : cmd = 2 := by
        rcases hcmd with h | h
        · exact h
        · rw [h] at hw; simp at hw
      subst h2
      exact io_cause_read_fails hcause _ (by rfl) (by rfl) (by rfl) (by rfl) (by rfl) buf
  obtain ⟨y, hrun, hst, hrg⟩ := hio
  have herr := block_io_error_status hK y
  refine ⟨{ block_io_error K y with sd_last_ok_cmd := 0xFF }, ?_, ?_, herr.2.1, herr.2.2, ?_⟩
  · unfold sdcard_command
    rcases hcmd with h | h <;> subst h
    · simp only [sdcard_command_switch, hblock, Option.bind_eq_bind, Option.some_bind]
      rw [show sdcard_block_io K _ env block false = some (block_io_error K y) from hrun]
      simp only [Option.some_bind, herr.1, if_true, Option.pure_def]
    · simp only [sdcard_command_switch, hblock, Option.bind_eq_bind, Option.some_bind]
      rw [show sdcard_block_io K _ env block true = some (block_io_error K y) from hrun]
      simp only [Option.some_bind, herr.1, if_true, Option.pure_def]
  · show st_set (st_set y.sd_status _) _ = _
    rw [hst]
    rfl
  · unfold sdcard_read_register
    have h8 : (8:Nat) < y.sd_regs.length := by rw [hrg, hregs]; decide
    have hget : (block_io_error K y).sd_regs[8]? = some y.sd_regs[8] :=
      List.getElem?_eq_getElem h8
    simp only [arr_get_eq, hget, Option.bind_eq_bind, Option.some_bind, Option.pure_def]
    rfl

theorem error_causes_indistinguishable_witness :
    ∃ s1, sdcard_command K_ref sd_far_sector env_ok 2 = some s1
      ∧ s1.sd_status = error_status K_ref sd_far_sector.sd_status
      ∧ st_tst s1.sd_status K_ref.SD_ST_ERROR = true
      ∧ st_tst s1.sd_status K_ref.SD_ST_FSM_ERROR = true
      ∧ sdcard_read_register K_ref s1 8 = some (0, s1) :=
  error_causes_indistinguishable K_ref (by decide) sd_far_sector env_ok 2 0x01000000
    (Or.inl rfl) (by decide)
    (by show ((List.replicate 0x30 0).set 4 1).length = 0x30
        simp only [List.length_set, List.length_replicate])
    (by decide) (Or.inl (by decide))

theorem st_set_and_left (s a b : Nat) (h : a < 256) : st_set s (a ||| b) &&& a = a := by
  apply Nat.eq_of_testBit_eq
  intro i
  rw [Nat.testBit_and, st_set_testBit, Nat.testBit_or]
  by_cases hi : i < 8
  · cases a.testBit i <;> simp [hi]
  · rw [tb_of_lt256 h (by omega : 8 ≤ i)]; simp

theorem st_set_and_right (s a b : Nat) (h : b < 256) : st_set s (a ||| b) &&& b = b := by
  apply Nat.eq_of_testBit_eq
  intro i
  rw [Nat.testBit_and, st_set_testBit, Nat.testBit_or]
  by_cases hi : i < 8
  · cases b.testBit i <;> simp [hi]
  · rw [tb_of_lt256 h (by omega : 8 ≤ i)]; simp

/-- C11. External-bus busy quirk: in every controller state, a read of register 0 returns
a value; when the external-bus flag is set in the stored status byte the value has both
busy masks fully set, whatever the stored busy bits and the keep-busy latch are, and
agrees with the stored status byte in every other bit of the byte; when the external-bus
flag is clear the value is the stored status byte. -/
theorem external_bus_busy_quirk (K : sd_consts) (hK : K.WF) (s : sd_state)
    (hregs : s.sd_regs.length = 0x30) :
    ∃ v s1, sdcard_read_register K s 0 = some (v, s1)
      ∧ (st_tst s.sd_status K.SD_ST_EXT_BUS = true →
          v &&& K.SD_ST_BUSY1 = K.SD_ST_BUSY1 ∧ v &&& K.SD_ST_BUSY0 = K.SD_ST_BUSY0
          ∧ st_tst v K.SD_ST_BUSY1 = true ∧ st_tst v K.SD_ST_BUSY0 = true
          ∧ ∀ i, i < 8 → (K.SD_ST_BUSY1 ||| K.SD_ST_BUSY0).testBit i = false →
              v.testBit i = s.sd_status.testBit i)
      ∧ (st_tst s.sd_status K.SD_ST_EXT_BUS = false → v = s.sd_status) := by
  have hpos : 0 < s.sd_regs.length := by rw [hregs]; decide
  refine ⟨(sdcard_read_status K s).1, (sdcard_read_status K s).2,
    sdcard_read_register_zero K s hpos, ?_, ?_⟩
  · intro hext
    have hv : (sdcard_read_status K s).1
        = st_set s.sd_status (K.SD_ST_BUSY1 ||| K.SD_ST_BUSY0) := by
      simp only [sdcard_read_status, hext, if_true]
    rw [hv]
    have h1 := st_set_and_left s.sd_status K.SD_ST_BUSY1 K.SD_ST_BUSY0 hK.busy1.2
    have h0 := st_set_and_right s.sd_status K.SD_ST_BUSY1 K.SD_ST_BUSY0 hK.busy0.2
    refine ⟨h1, h0, ?_, ?_, ?_⟩
    · rw [st_tst_eq_true, h1]; have := hK.busy1.1; omega
    · rw [st_tst_eq_true, h0]; have := hK.busy0.1; omega
    · intro i hi hm
      rw [st_set_testBit, hm]; simp [hi]
  · intro hint
    simp only [sdcard_read_status, hint, Bool.false_eq_true, if_false]

theorem external_bus_busy_quirk_witness :
    ∃ v s1, sdcard_read_register K_ref sd_external_idle 0 = some (v, s1)
      ∧ (st_tst sd_external_idle.sd_status K_ref.SD_ST_EXT_BUS = true →
          v &&& K_ref.SD_ST_BUSY1 = K_ref.SD_ST_BUSY1
          ∧ v &&& K_ref.SD_ST_BUSY0 = K_ref.SD_ST_BUSY0
          ∧ st_tst v K_ref.SD_ST_BUSY1 = true ∧ st_tst v K_ref.SD_ST_BUSY0 = true
          ∧ ∀ i, i < 8 → (K_ref.SD_ST_BUSY1 ||| K_ref.SD_ST_BUSY0).testBit i = false →
              v.testBit i = sd_external_idle.sd_status.testBit i)
      ∧ (st_tst sd_external_idle.sd_status K_ref.SD_ST_EXT_BUS = false →
          v = sd_external_idle.sd_status) :=
  external_bus_busy_quirk K_ref (by decide) sd_external_idle (List.length_replicate _ _)

/-! ### Flag masks are pairwise disjoint -/

theorem sd_consts.WF.disj {K : sd_consts} (h : K.WF) {i j : Nat} (hij : i < j) (hj : j < 8) :
    K.flags.getD i 0 &&& K.flags.getD j 0 = 0 ∧ K.flags.getD j 0 &&& K.flags.getD i 0 = 0 := by
  have hlen : K.flags.length = 8 := rfl
  have hp := List.pairwise_iff_getElem.mp h.2 i j (by omega) (by omega) hij
  have e1 : K.flags.getD i 0 = K.flags[i] := by
    rw [List.getD_eq_getElem?_getD, List.getElem?_eq_getElem (by omega)]; rfl
  have e2 : K.flags.getD j 0 = K.flags[j] := by
    rw [List.getD_eq_getElem?_getD, List.getElem?_eq_getElem (by omega)]; rfl
  rw [e1, e2]
  exact ⟨hp, by rw [Nat.land_comm]; exact hp⟩

theorem sd_consts.WF.bound {K : sd_consts} (h : K.WF) {i : Nat} (hi : i < 8) :
    0 < K.flags.getD i 0 ∧ K.flags.getD i 0 < 256 := by
  have hlen : K.flags.length = 8 := rfl
  have e1 : K.flags.getD i 0 = K.flags[i] := by
    rw [List.getD_eq_getElem?_getD, List.getElem?_eq_getElem (by omega)]; rfl
  rw [e1]
  exact h.1 _ (List.getElem_mem _)

/-- Bits of `a ||| (s &&& e)` inside a mask disjoint from both `a` and `e`. -/
theorem or_and_tst_disj (s a e m : Nat) (h1 : m &&& a = 0) (h2 : m &&& e = 0) :
    st_tst (a ||| (s &&& e)) m = false := by
  simp only [st_tst, bne_eq_false_iff_eq]
  apply Nat.eq_of_testBit_eq
  intro i
  have d1 := tb_disj h1 i
  have d2 := tb_disj h2 i
  rw [Nat.testBit_and, Nat.testBit_or, Nat.testBit_and, Nat.zero_testBit]
  cases hm : m.testBit i <;> cases ha : a.testBit i <;> cases he : e.testBit i <;> simp_all

theorem or_and_tst_self (s a e : Nat) (h : a &&& e = 0) :
    st_tst (a ||| (s &&& e)) e = st_tst s e := by
  have : (a ||| (s &&& e)) &&& e = s &&& e := by
    apply Nat.eq_of_testBit_eq
    intro i
    have d1 := tb_disj h i
    simp only [Nat.testBit_and, Nat.testBit_or]
    cases hs : s.testBit i <;> cases ha : a.testBit i <;> cases he : e.testBit i <;> simp_all
  simp only [st_tst, this]

theorem or_and_tst_left (s a e : Nat) (h : 0 < a) : st_tst (a ||| (s &&& e)) a = true := by
  have : (a ||| (s &&& e)) &&& a = a := by
    apply Nat.eq_of_testBit_eq
    intro i
    simp only [Nat.testBit_and, Nat.testBit_or]
    cases s.testBit i <;> cases a.testBit i <;> cases e.testBit i <;> simp_all
  rw [st_tst_eq_true, this]; omega

/-- The status byte the reset commands compute. -/
theorem reset_status_eq (s a e b : Nat) (ha : a < 256) (he : e < 256) (hbe : b &&& e = 0) :
    (a ||| (st_clr s b &&& e)) % 256 = a ||| (s &&& e) := by
  apply Nat.eq_of_testBit_eq
  intro i
  have d := tb_disj hbe i
  rw [show (256 : Nat) = 2 ^ 8 from rfl, Nat.testBit_mod_two_pow]
  simp only [Nat.testBit_and, Nat.testBit_or, st_clr_testBit]
  by_cases hi : i < 8
  · cases s.testBit i <;> cases a.testBit i <;> cases hb : b.testBit i <;>
      cases he1 : e.testBit i <;> simp_all
  · rw [tb_of_lt256 ha (by omega : 8 ≤ i), tb_of_lt256 he (by omega : 8 ≤ i)]; simp [hi]

/-- A block read command on the internal bus in SDHC mode, on a working backend and a host
that transfers whole blocks, ends without an error flag, with 512 bytes read and the block
in the SD buffer. -/
theorem block_io_read_ok {bpc : Nat} (hbpc : 0 < bpc) (K : sd_consts) {x : sd_state}
    (env : host_env) {b : Nat} {D : List Nat}
    (hint : st_tst x.sd_status K.SD_ST_EXT_BUS = false) (hsdhc : x.sdhc_mode ≠ 0)
    (hok : backend_ok bpc x) (hD : D.length = 512) (hc : block_content x b = some D)
    (hbuf : x.disk_buffers.length = 0x1000) (hio : 512 ≤ env.io_limit) :
    ∃ x1, sdcard_block_io K x env b false = some x1
      ∧ st_tst x1.sd_status (K.SD_ST_ERROR ||| K.SD_ST_FSM_ERROR) = false
      ∧ x1.sdcard_bytes_read = 512
      ∧ x1.disk_buffers = x.disk_buffers.take SD_BUFFER_POS ++ D
      ∧ x1.sd_status = st_clr x.sd_status (K.SD_ST_ERROR ||| K.SD_ST_FSM_ERROR)
      ∧ x1.sd_regs = x.sd_regs ∧ x1.keep_busy = x.keep_busy := by
  have hlen : (x.disk_buffers.drop SD_BUFFER_POS).length = 512 := by
    rw [List.length_drop, hbuf]; rfl
  obtain ⟨x2, hr⟩ := block_content_reads hbpc hok hD hc env _ hio hlen
  have hfr := (sdcard_read_block_frame hr).1
  have hf : x2.sd_status = x.sd_status ∧ x2.sdhc_mode = x.sdhc_mode
      ∧ x2.disk_buffers = x.disk_buffers ∧ x2.sd_regs = x.sd_regs
      ∧ x2.keep_busy = x.keep_busy := by
    unfold ctrl_eq at hfr
    rw [hfr]
    exact ⟨rfl, rfl, rfl, rfl, rfl⟩
  obtain ⟨f1, f2, f3, f4, f5⟩ := hf
  refine ⟨{ x2 with
      disk_buffers := x.disk_buffers.take SD_BUFFER_POS ++ D
      sd_status := st_clr x.sd_status (K.SD_ST_ERROR ||| K.SD_ST_FSM_ERROR)
      sdcard_bytes_read := 512 }, ?_, st_tst_clr_self _ _, rfl, rfl, rfl, f4, f5⟩
  unfold sdcard_block_io block_io_transfer
  simp only [Bool.false_eq_true, false_and, if_false, hint, Bool.false_and, hr,
    Option.bind_eq_bind, Option.some_bind, Option.pure_def, f2, hsdhc, f3, f1, ne_eq,
    not_true_eq_false, or_self]

theorem arr_set_of_lt {α : Type} (xs : List α) (i : Nat) (v : α) (h : i < xs.length) :
    arr_set xs i v = some (xs.set i v) := by
  unfold arr_set; rw [if_pos h]

/-- The state a reset command (0x00 or 0x10) leaves. -/
theorem reset_command_eq {K : sd_consts} (hK : K.WF) (s : sd_state) (env : host_env)
    (cmd : Nat) (hcmd : cmd = 0x00 ∨ cmd = 0x10) (hregs : s.sd_regs.length = 0x30) :
    sdcard_write_register K s env 0 cmd = some
      { s with
          sd_regs := ((((s.sd_regs.set 0 cmd).set 1 0).set 2 0).set 3 0).set 4 0
          sd_status := K.SD_ST_RESET ||| (s.sd_status &&& K.SD_ST_EXT_BUS)
          sdhc_mode := 1
          keep_busy := 0
          sd_last_ok_cmd := cmd } := by
  have hR := hK.bound (show 4 < 8 by decide)
  have hE := hK.bound (show 7 < 8 by decide)
  have hst := reset_status_eq s.sd_status K.SD_ST_RESET K.SD_ST_EXT_BUS
    (K.SD_ST_BUSY1 ||| K.SD_ST_BUSY0) hR.2 hE.2
    (or_and_disj (hK.disj (show 5 < 7 by decide) (by decide)).1
      (hK.disj (show 6 < 7 by decide) (by decide)).1)
  have herr : st_tst (K.SD_ST_RESET ||| (s.sd_status &&& K.SD_ST_EXT_BUS))
      (K.SD_ST_ERROR ||| K.SD_ST_FSM_ERROR) = false :=
    or_and_tst_disj _ _ _ _
      (or_and_disj (hK.disj (show 0 < 4 by decide) (by decide)).1
        (hK.disj (show 1 < 4 by decide) (by decide)).1)
      (or_and_disj (hK.disj (show 0 < 7 by decide) (by decide)).1
        (hK.disj (show 1 < 7 by decide) (by decide)).1)
  rw [write_register_zero K s env cmd hregs (by rcases hcmd with h | h <;> rw [h] <;> decide)]
  have hsw : sdcard_command_switch K
      { s with sd_regs := s.sd_regs.set 0 cmd
               sd_status := st_clr s.sd_status (K.SD_ST_BUSY1 ||| K.SD_ST_BUSY0)
               keep_busy := 0 } env cmd = some
      { s with
          sd_regs := ((((s.sd_regs.set 0 cmd).set 1 0).set 2 0).set 3 0).set 4 0
          sd_status := K.SD_ST_RESET ||| (s.sd_status &&& K.SD_ST_EXT_BUS)
          sdhc_mode := 1
          keep_busy := 0 } := by
    rcases hcmd with h | h <;> subst h <;>
    · unfold sdcard_command_switch
      simp only [Option.bind_eq_bind, Option.pure_def]
      rw [arr_set_of_lt _ _ _ (by simp [hregs]), Option.some_bind,
        arr_set_of_lt _ _ _ (by simp [hregs]), Option.some_bind,
        arr_set_of_lt _ _ _ (by simp [hregs]), Option.some_bind,
        arr_set_of_lt _ _ _ (by simp [hregs]), Option.some_bind, hst]
  unfold sdcard_command
  simp only [Option.bind_eq_bind, Option.pure_def]
  rw [hsw, Option.some_bind]
  simp only [herr, Bool.false_eq_true, if_false]

/-- A read command (0x02) on the internal bus in SDHC mode, on a working backend and a host
that transfers whole blocks, with the sector registers holding an in-range block number,
ends without an error flag and with 512 bytes read. -/
theorem read_command_ok {bpc : Nat} (hbpc : 0 < bpc) (K : sd_consts) {s : sd_state}
    (env : host_env) {b : Nat} {D : List Nat} (hregs : s.sd_regs.length = 0x30)
    (hint : st_tst s.sd_status K.SD_ST_EXT_BUS = false) (hsdhc : s.sdhc_mode ≠ 0)
    (hb : U8A_TO_U32 s.sd_regs 1 = some b)
    (hok : backend_ok bpc s) (hD : D.length = 512) (hc : block_content s b = some D)
    (hbuf : s.disk_buffers.length = 0x1000) (hio : 512 ≤ env.io_limit) :
    ∃ s1, sdcard_write_register K s env 0 2 = some s1
      ∧ st_tst s1.sd_status (K.SD_ST_ERROR ||| K.SD_ST_FSM_ERROR) = false
      ∧ s1.sdcard_bytes_read = 512
      ∧ s1.disk_buffers = s.disk_buffers.take SD_BUFFER_POS ++ D
      ∧ s1.sd_status = st_clr (st_clr s.sd_status (K.SD_ST_BUSY1 ||| K.SD_ST_BUSY0))
          (K.SD_ST_ERROR ||| K.SD_ST_FSM_ERROR)
      ∧ s1.sd_last_ok_cmd = 2 := by
  rw [write_register_zero K s env 2 hregs (by decide)]
  obtain ⟨x1, hx1, herr, hbytes, hbufs, hst, _, _⟩ :=
    block_io_read_ok hbpc K
      (x := { s with sd_regs := s.sd_regs.set 0 2
                     sd_status := st_clr s.sd_status (K.SD_ST_BUSY1 ||| K.SD_ST_BUSY0)
                     keep_busy := 0 })
      env (b := b) (D := D)
      (st_tst_clr_of_false _ hint) hsdhc
      (backend_ok_congr hok rfl rfl rfl rfl) hD
      ((block_content_congr b rfl rfl rfl rfl rfl).trans hc) hbuf hio
  refine ⟨{ x1 with sd_last_ok_cmd := 2 }, ?_, herr, hbytes, hbufs, hst, rfl⟩
  unfold sdcard_command sdcard_command_switch
  simp only [Option.bind_eq_bind, Option.pure_def, U8A_TO_U32_set_zero, hb, Option.some_bind,
    hx1, herr, Bool.false_eq_true, if_false]

theorem read_register_other (K : sd_consts) (s s1 : sd_state) (r : Nat) (hr : r ≠ 0)
    (h1 : s1.sd_regs[r]? = s.sd_regs[r]?) (h2 : s1.sdcard_bytes_read = s.sdcard_bytes_read)
    (h3 : s1.sd_reg9 = s.sd_reg9) :
    (sdcard_read_register K s1 r).map Prod.fst = (sdcard_read_register K s r).map Prod.fst := by
  unfold sdcard_read_register arr_get
  rw [h1]
  cases s.sd_regs[r]? with
  | none => rfl
  | some d =>
    simp only [Option.bind_eq_bind, Option.some_bind, Option.pure_def]
    split
    · exact absurd rfl hr
    · simp [h2]
    · simp [h3]
    · rfl

/-- C12. Reset commands: writing command 0x00 or 0x10 to register 0 leaves the status byte
equal to the reset flag plus the previous external-bus flag (every other flag clear),
leaves the sector registers 1..4 reading zero and every register from 5 on as before,
and turns SDHC mode on: a read command that follows on the internal bus (after any change
of the register contents), for an in-range block of a working backend, ends without an
error flag and with 512 bytes read. -/
theorem reset_commands (K : sd_consts) (hK : K.WF) (s : sd_state) (env : host_env)
    (cmd : Nat) (hcmd : cmd = 0x00 ∨ cmd = 0x10) (hregs : s.sd_regs.length = 0x30) :
    ∃ s1, sdcard_write_register K s env 0 cmd = some s1
      ∧ s1.sd_status = K.SD_ST_RESET ||| (s.sd_status &&& K.SD_ST_EXT_BUS)
      ∧ st_tst s1.sd_status K.SD_ST_RESET = true
      ∧ st_tst s1.sd_status K.SD_ST_EXT_BUS = st_tst s.sd_status K.SD_ST_EXT_BUS
      ∧ (∀ m, m ∈ [K.SD_ST_ERROR, K.SD_ST_FSM_ERROR, SD_ST_SDHC, K.SD_ST_MAPPED,
                   K.SD_ST_BUSY1, K.SD_ST_BUSY0] → st_tst s1.sd_status m = false)
      ∧ (∀ r, 1 ≤ r → r ≤ 4 → sdcard_read_register K s1 r = some (0, s1))
      ∧ (∀ r, 5 ≤ r → s1.sd_regs[r]? = s.sd_regs[r]?
          ∧ (sdcard_read_register K s1 r).map Prod.fst
              = (sdcard_read_register K s r).map Prod.fst)
      ∧ s1.sdhc_mode = 1
      ∧ (∀ (bpc : Nat) (s2 : sd_state) (env2 : host_env) (b : Nat) (D : List Nat),
          0 < bpc → st_tst s.sd_status K.SD_ST_EXT_BUS = false → regs_only s1 s2 →
          U8A_TO_U32 s2.sd_regs 1 = some b → backend_ok bpc s2 →
          block_content s2 b = some D → D.length = 512 →
          s2.disk_buffers.length = 0x1000 → 512 ≤ env2.io_limit →
          ∃ s3, sdcard_write_register K s2 env2 0 2 = some s3
            ∧ st_tst s3.sd_status (K.SD_ST_ERROR ||| K.SD_ST_FSM_ERROR) = false
            ∧ s3.sdcard_bytes_read = 512) := by
  have hR := hK.bound (show 4 < 8 by decide)
  have hext : st_tst (K.SD_ST_RESET ||| (s.sd_status &&& K.SD_ST_EXT_BUS)) K.SD_ST_EXT_BUS
      = st_tst s.sd_status K.SD_ST_EXT_BUS :=
    or_and_tst_self _ _ _ (hK.disj (show 4 < 7 by decide) (by decide)).1
  refine ⟨_, reset_command_eq hK s env cmd hcmd hregs, rfl, or_and_tst_left _ _ _ hR.1,
    hext, ?_, ?_, ?_, rfl, ?_⟩
  · intro m hm
    simp only [List.mem_cons, List.mem_singleton, List.not_mem_nil, or_false] at hm
    rcases hm with h | h | h | h | h | h <;> subst h
    · exact or_and_tst_disj _ _ _ _ (hK.disj (show 0 < 4 by decide) (by decide)).1
        (hK.disj (show 0 < 7 by decide) (by decide)).1
    · exact or_and_tst_disj _ _ _ _ (hK.disj (show 1 < 4 by decide) (by decide)).1
        (hK.disj (show 1 < 7 by decide) (by decide)).1
    · exact or_and_tst_disj _ _ _ _ (hK.disj (show 2 < 4 by decide) (by decide)).1
        (hK.disj (show 2 < 7 by decide) (by decide)).1
    · exact or_and_tst_disj _ _ _ _ (hK.disj (show 3 < 4 by decide) (by decide)).1
        (hK.disj (show 3 < 7 by decide) (by decide)).1
    · exact or_and_tst_disj _ _ _ _ (hK.disj (show 4 < 5 by decide) (by decide)).2
        (hK.disj (show 5 < 7 by decide) (by decide)).1
    · exact or_and_tst_disj _ _ _ _ (hK.disj (show 4 < 6 by decide) (by decide)).2
        (hK.disj (show 6 < 7 by decide) (by decide)).1
  · intro r h1 h4
    have hr : r = 1 ∨ r = 2 ∨ r = 3 ∨ r = 4 := by omega
    unfold sdcard_read_register arr_get
    rcases hr with h | h | h | h <;> subst h <;>
      simp [List.getElem?_set, hregs]
  · intro r h5
    have hget : (((((s.sd_regs.set 0 cmd).set 1 0).set 2 0).set 3 0).set 4 0)[r]?
        = s.sd_regs[r]? := by
      rw [List.getElem?_set_ne (by omega), List.getElem?_set_ne (by omega),
        List.getElem?_set_ne (by omega), List.getElem?_set_ne (by omega),
        List.getElem?_set_ne (by omega)]
    exact ⟨hget, read_register_other K s _ r (by omega) hget rfl rfl⟩
  · intro bpc s2 env2 b D hbpc hint hro hb hok hc hD hbuf hio
    obtain ⟨hs2, hlen⟩ := hro
    have hlen2 : s2.sd_regs.length = 0x30 := by
      rw [hlen]; simp [hregs]
    have hst2 : s2.sd_status = K.SD_ST_RESET ||| (s.sd_status &&& K.SD_ST_EXT_BUS) := by
      rw [hs2]
    have hsd2 : s2.sdhc_mode = 1 := by rw [hs2]
    obtain ⟨s3, h3, herr, hbytes, _⟩ := read_command_ok hbpc K env2 hlen2
      (by rw [hst2, hext]; exact hint) (by rw [hsd2]; decide) hb hok hD hc hbuf hio
    exact ⟨s3, h3, herr, hbytes⟩

theorem reset_commands_witness :
    ∃ s1, sdcard_write_register K_ref sd_after_sdhc_on env_ok 0 0x10 = some s1
      ∧ s1.sd_status
          = K_ref.SD_ST_RESET ||| (sd_after_sdhc_on.sd_status &&& K_ref.SD_ST_EXT_BUS)
      ∧ st_tst s1.sd_status K_ref.SD_ST_RESET = true
      ∧ st_tst s1.sd_status K_ref.SD_ST_EXT_BUS
          = st_tst sd_after_sdhc_on.sd_status K_ref.SD_ST_EXT_BUS
      ∧ (∀ m, m ∈ [K_ref.SD_ST_ERROR, K_ref.SD_ST_FSM_ERROR, SD_ST_SDHC, K_ref.SD_ST_MAPPED,
                   K_ref.SD_ST_BUSY1, K_ref.SD_ST_BUSY0] → st_tst s1.sd_status m = false)
      ∧ (∀ r, 1 ≤ r → r ≤ 4 → sdcard_read_register K_ref s1 r = some (0, s1))
      ∧ (∀ r, 5 ≤ r → s1.sd_regs[r]? = sd_after_sdhc_on.sd_regs[r]?
          ∧ (sdcard_read_register K_ref s1 r).map Prod.fst
              = (sdcard_read_register K_ref sd_after_sdhc_on r).map Prod.fst)
      ∧ s1.sdhc_mode = 1
      ∧ (∀ (bpc : Nat) (s2 : sd_state) (env2 : host_env) (b : Nat) (D : List Nat),
          0 < bpc → st_tst sd_after_sdhc_on.sd_status K_ref.SD_ST_EXT_BUS = false →
          regs_only s1 s2 →
          U8A_TO_U32 s2.sd_regs 1 = some b → backend_ok bpc s2 →
          block_content s2 b = some D → D.length = 512 →
          s2.disk_buffers.length = 0x1000 → 512 ≤ env2.io_limit →
          ∃ s3, sdcard_write_register K_ref s2 env2 0 2 = some s3
            ∧ st_tst s3.sd_status (K_ref.SD_ST_ERROR ||| K_ref.SD_ST_FSM_ERROR) = false
            ∧ s3.sdcard_bytes_read = 512) :=
  reset_commands K_ref (by decide) sd_after_sdhc_on env_ok 0x10 (Or.inr rfl)
    (List.length_replicate _ _)

/-- Clearing a mask leaves the bits of a mask disjoint from it as they were. -/
theorem st_clr_and_keep (s m n : Nat) (hn : n < 256) (h : m &&& n = 0) :
    st_clr s m &&& n = s &&& n := by
  apply Nat.eq_of_testBit_eq
  intro i
  have d := tb_disj h i
  simp only [Nat.testBit_and, st_clr_testBit]
  by_cases hi : i < 8
  · cases hs : s.testBit i <;> cases hm : m.testBit i <;> cases hn1 : n.testBit i <;> simp_all
  · rw [tb_of_lt256 hn (by omega : 8 ≤ i)]; simp

/-- Setting a mask leaves the bits of a mask disjoint from it as they were. -/
theorem st_set_and_keep (s m n : Nat) (hn : n < 256) (h : m &&& n = 0) :
    st_set s m &&& n = s &&& n := by
  apply Nat.eq_of_testBit_eq
  intro i
  have d := tb_disj h i
  simp only [Nat.testBit_and, st_set_testBit]
  by_cases hi : i < 8
  · cases hs : s.testBit i <;> cases hm : m.testBit i <;> cases hn1 : n.testBit i <;> simp_all
  · rw [tb_of_lt256 hn (by omega : 8 ≤ i)]; simp

theorem or3_and_disj {a b c n : Nat} (h1 : a &&& n = 0) (h2 : b &&& n = 0) (h3 : c &&& n = 0) :
    (a ||| b ||| c) &&& n = 0 := or_and_disj (or_and_disj h1 h2) h3

theorem st_tst_sub3 (s a b c : Nat) :
    st_tst (st_clr s (a ||| b ||| c)) a = false ∧ st_tst (st_clr s (a ||| b ||| c)) b = false
    ∧ st_tst (st_clr s (a ||| b ||| c)) c = false ∧
    st_tst (st_clr s (a ||| b ||| c)) (b ||| c) = false := by
  refine ⟨st_tst_clr_sub _ _ _ ?_, st_tst_clr_sub _ _ _ ?_, st_tst_clr_sub _ _ _ ?_,
    st_tst_clr_sub _ _ _ ?_⟩
  · intro i hi; simp [Nat.testBit_or, hi]
  · intro i hi; simp [Nat.testBit_or, hi]
  · intro i hi; simp [Nat.testBit_or, hi]
  · intro i hi
    simp only [Nat.testBit_or, Bool.or_eq_true] at hi ⊢
    rcases hi with h | h <;> simp [h]

/-- The state an end-reset command (0x01 or 0x11) leaves. -/
theorem end_reset_command_eq (K : sd_consts) (s : sd_state) (env : host_env)
    (cmd : Nat) (hcmd : cmd = 0x01 ∨ cmd = 0x11) (hregs : s.sd_regs.length = 0x30) :
    sdcard_write_register K s env 0 cmd = some
      { s with
          sd_regs := s.sd_regs.set 0 cmd
          sd_status := st_clr (st_clr s.sd_status (K.SD_ST_BUSY1 ||| K.SD_ST_BUSY0))
                         (K.SD_ST_RESET ||| K.SD_ST_ERROR ||| K.SD_ST_FSM_ERROR)
          keep_busy := 0
          sd_last_ok_cmd := cmd } := by
  rw [write_register_zero K s env cmd hregs (by rcases hcmd with h | h <;> rw [h] <;> decide)]
  have herr := (st_tst_sub3 (st_clr s.sd_status (K.SD_ST_BUSY1 ||| K.SD_ST_BUSY0))
    K.SD_ST_RESET K.SD_ST_ERROR K.SD_ST_FSM_ERROR).2.2.2
  rcases hcmd with h | h <;> subst h <;>
  · unfold sdcard_command sdcard_command_switch
    simp only [Option.bind_eq_bind, Option.pure_def, Option.some_bind, herr,
      Bool.false_eq_true, if_false]

/-- C13 (amended). End-reset frame: writing command 0x01 or 0x11 clears the reset, error
and FSM-error flags and, as every command does, both busy bits and the keep-busy latch;
the flags SDHC, external-bus and buffer-mapped, every register 1..0x2F, the buffers and the
stored blocks are exactly as before the command. -/
theorem end_reset_frame (K : sd_consts) (hK : K.WF) (s : sd_state) (env : host_env)
    (cmd : Nat) (hcmd : cmd = 0x01 ∨ cmd = 0x11) (hregs : s.sd_regs.length = 0x30) :
    ∃ s1, sdcard_write_register K s env 0 cmd = some s1
      ∧ s1 = { s with sd_regs := s.sd_regs.set 0 cmd, sd_status := s1.sd_status,
                      keep_busy := 0, sd_last_ok_cmd := cmd }
      ∧ (∀ m, m ∈ [K.SD_ST_RESET, K.SD_ST_ERROR, K.SD_ST_FSM_ERROR, K.SD_ST_BUSY1,
                   K.SD_ST_BUSY0] → st_tst s1.sd_status m = false)
      ∧ (∀ m, m ∈ [SD_ST_SDHC, K.SD_ST_EXT_BUS, K.SD_ST_MAPPED] →
            s1.sd_status &&& m = s.sd_status &&& m)
      ∧ (∀ r, 1 ≤ r → s1.sd_regs[r]? = s.sd_regs[r]?)
      ∧ s1.disk_buffers = s.disk_buffers ∧ s1.sd_fill_buffer = s.sd_fill_buffer
      ∧ s1.vdisk = s.vdisk ∧ s1.sd_image = s.sd_image
      ∧ (∀ b, block_content s1 b = block_content s b) := by
  have d := fun {i j : Nat} (hij : i < j) (hj : j < 8) => hK.disj hij hj
  have bd := fun {i : Nat} (hi : i < 8) => hK.bound hi
  have h3 := st_tst_sub3 (st_clr s.sd_status (K.SD_ST_BUSY1 ||| K.SD_ST_BUSY0))
    K.SD_ST_RESET K.SD_ST_ERROR K.SD_ST_FSM_ERROR
  refine ⟨_, end_reset_command_eq K s env cmd hcmd hregs, rfl, ?_, ?_, ?_, rfl, rfl, rfl, rfl,
    fun b => block_content_congr b rfl rfl rfl rfl rfl⟩
  · intro m hm
    simp only [List.mem_cons, List.mem_singleton, List.not_mem_nil, or_false] at hm
    rcases hm with h | h | h | h | h <;> subst h
    · exact h3.1
    · exact h3.2.1
    · exact h3.2.2.1
    · exact st_tst_clr_of_false _ (st_tst_sub_left _ _ _)
    · exact st_tst_clr_of_false _ (st_tst_sub_right _ _ _)
  · intro m hm
    simp only [List.mem_cons, List.mem_singleton, List.not_mem_nil, or_false] at hm
    show st_clr (st_clr s.sd_status _) _ &&& m = _
    rcases hm with h | h | h <;> subst h
    · exact (st_clr_and_keep _ (K.SD_ST_RESET ||| K.SD_ST_ERROR ||| K.SD_ST_FSM_ERROR)
          SD_ST_SDHC (bd (show 2 < 8 by decide)).2
          (or3_and_disj (d (show 2 < 4 by decide) (by decide)).2
            (d (show 0 < 2 by decide) (by decide)).1
            (d (show 1 < 2 by decide) (by decide)).1)).trans
        (st_clr_and_keep _ (K.SD_ST_BUSY1 ||| K.SD_ST_BUSY0) SD_ST_SDHC
          (bd (show 2 < 8 by decide)).2
          (or_and_disj (d (show 2 < 5 by decide) (by decide)).2
            (d (show 2 < 6 by decide) (by decide)).2))
    · exact (st_clr_and_keep _ (K.SD_ST_RESET ||| K.SD_ST_ERROR ||| K.SD_ST_FSM_ERROR)
          K.SD_ST_EXT_BUS (bd (show 7 < 8 by decide)).2
          (or3_and_disj (d (show 4 < 7 by decide) (by decide)).1
            (d (show 0 < 7 by decide) (by decide)).1
            (d (show 1 < 7 by decide) (by decide)).1)).trans
        (st_clr_and_keep _ (K.SD_ST_BUSY1 ||| K.SD_ST_BUSY0) K.SD_ST_EXT_BUS
          (bd (show 7 < 8 by decide)).2
          (or_and_disj (d (show 5 < 7 by decide) (by decide)).1
            (d (show 6 < 7 by decide) (by decide)).1))
    · exact (st_clr_and_keep _ (K.SD_ST_RESET ||| K.SD_ST_ERROR ||| K.SD_ST_FSM_ERROR)
          K.SD_ST_MAPPED (bd (show 3 < 8 by decide)).2
          (or3_and_disj (d (show 3 < 4 by decide) (by decide)).2
            (d (show 0 < 3 by decide) (by decide)).1
            (d (show 1 < 3 by decide) (by decide)).1)).trans
        (st_clr_and_keep _ (K.SD_ST_BUSY1 ||| K.SD_ST_BUSY0) K.SD_ST_MAPPED
          (bd (show 3 < 8 by decide)).2
          (or_and_disj (d (show 3 < 5 by decide) (by decide)).2
            (d (show 3 < 6 by decide) (by decide)).2))
  · intro r hr
    exact List.getElem?_set_ne (by omega)

theorem end_reset_frame_witness :
    ∃ s1, sdcard_write_register K_ref sd_after_sdhc_on env_ok 0 0x01 = some s1
      ∧ s1 = { sd_after_sdhc_on with
                 sd_regs := sd_after_sdhc_on.sd_regs.set 0 0x01, sd_status := s1.sd_status,
                 keep_busy := 0, sd_last_ok_cmd := 0x01 }
      ∧ (∀ m, m ∈ [K_ref.SD_ST_RESET, K_ref.SD_ST_ERROR, K_ref.SD_ST_FSM_ERROR,
                   K_ref.SD_ST_BUSY1, K_ref.SD_ST_BUSY0] → st_tst s1.sd_status m = false)
      ∧ (∀ m, m ∈ [SD_ST_SDHC, K_ref.SD_ST_EXT_BUS, K_ref.SD_ST_MAPPED] →
            s1.sd_status &&& m = sd_after_sdhc_on.sd_status &&& m)
      ∧ (∀ r, 1 ≤ r → s1.sd_regs[r]? = sd_after_sdhc_on.sd_regs[r]?)
      ∧ s1.disk_buffers = sd_after_sdhc_on.disk_buffers
      ∧ s1.sd_fill_buffer = sd_after_sdhc_on.sd_fill_buffer
      ∧ s1.vdisk = sd_after_sdhc_on.vdisk ∧ s1.sd_image = sd_after_sdhc_on.sd_image
      ∧ (∀ b, block_content s1 b = block_content sd_after_sdhc_on b) :=
  end_reset_frame K_ref (by decide) sd_after_sdhc_on env_ok 0x01 (Or.inl rfl)
    (List.length_replicate _ _)

set_option maxRecDepth 100000 in
theorem sd_after_failed_write_eq :
    sdcard_write_register K_ref sd_far_sector env_ok 0 3 = some sd_after_failed_write := by
  rfl

set_option maxRecDepth 100000 in
/-- C13, counterexample to the claim as stated: a write command for a block beyond the
capacity leaves both busy bits set in the stored status; the end-reset command 0x01
issued next clears both busy bits. -/
theorem end_reset_clears_busy_bits :
    sdcard_write_register K_ref sd_far_sector env_ok 0 3 = some sd_after_failed_write
    ∧ st_tst sd_after_failed_write.sd_status K_ref.SD_ST_BUSY1 = true
    ∧ st_tst sd_after_failed_write.sd_status K_ref.SD_ST_BUSY0 = true
    ∧ ∃ s2, sdcard_write_register K_ref sd_after_failed_write env_ok 0 0x01 = some s2
        ∧ st_tst s2.sd_status K_ref.SD_ST_BUSY1 = false
        ∧ st_tst s2.sd_status K_ref.SD_ST_BUSY0 = false :=
  ⟨sd_after_failed_write_eq, by decide, by decide,
    _, end_reset_command_eq K_ref sd_after_failed_write env_ok 0x01 (Or.inl rfl)
      (by simp [sd_after_failed_write]), by decide, by decide⟩

theorem command_switch_default (K : sd_consts) (s : sd_state) (env : host_env) (cmd : Nat)
    (hcmd : cmd ∉ implemented_commands) :
    sdcard_command_switch K s env cmd
      = some { s with sd_status := st_set s.sd_status K.SD_ST_ERROR } := by
  simp only [implemented_commands, List.mem_cons, List.mem_singleton, List.not_mem_nil,
    or_false, not_or] at hcmd
  unfold sdcard_command_switch
  split <;> first | rfl | (exfalso; omega)

/-- The state an unrecognized command leaves. -/
theorem unrecognized_command_eq {K : sd_consts} (hK : K.WF) (s : sd_state) (env : host_env)
    (cmd : Nat) (hc : cmd < 256) (hcmd : cmd ∉ implemented_commands)
    (hregs : s.sd_regs.length = 0x30) :
    sdcard_write_register K s env 0 cmd = some
      { s with
          sd_regs := s.sd_regs.set 0 cmd
          sd_status := st_set (st_clr s.sd_status (K.SD_ST_BUSY1 ||| K.SD_ST_BUSY0))
                         K.SD_ST_ERROR
          keep_busy := 0
          sd_last_ok_cmd := 0xFF } := by
  rw [write_register_zero K s env cmd hregs hc]
  obtain ⟨i, hi8, hi⟩ := exists_bit hK.error.1 hK.error.2
  have herr : st_tst (st_set (st_clr s.sd_status (K.SD_ST_BUSY1 ||| K.SD_ST_BUSY0))
      K.SD_ST_ERROR) (K.SD_ST_ERROR ||| K.SD_ST_FSM_ERROR) = true :=
    st_tst_set_of_bit hi8 hi (by rw [Nat.testBit_or, hi]; rfl)
  unfold sdcard_command
  simp only [Option.bind_eq_bind, Option.pure_def, command_switch_default K _ env cmd hcmd,
    Option.some_bind, herr, if_true]

/-- C14 (amended). Unrecognized command: writing a command byte outside the implemented
set to register 0 sets the error flag and, as every command does, clears both busy
bits and the keep-busy latch (busy bits that were clear stay clear); every other status
flag, every register 1..0x2F, the buffers and the stored blocks are unchanged, and the
remembered last accepted command is the sentinel 0xFF. -/
theorem unrecognized_command (K : sd_consts) (hK : K.WF) (s : sd_state) (env : host_env)
    (cmd : Nat) (hc : cmd < 256) (hcmd : cmd ∉ implemented_commands)
    (hregs : s.sd_regs.length = 0x30) :
    ∃ s1, sdcard_write_register K s env 0 cmd = some s1
      ∧ s1 = { s with sd_regs := s.sd_regs.set 0 cmd, sd_status := s1.sd_status,
                      keep_busy := 0, sd_last_ok_cmd := 0xFF }
      ∧ st_tst s1.sd_status K.SD_ST_ERROR = true
      ∧ st_tst s1.sd_status K.SD_ST_BUSY1 = false
      ∧ st_tst s1.sd_status K.SD_ST_BUSY0 = false
      ∧ (∀ m, m ∈ [K.SD_ST_FSM_ERROR, SD_ST_SDHC, K.SD_ST_MAPPED, K.SD_ST_RESET,
                   K.SD_ST_EXT_BUS] → s1.sd_status &&& m = s.sd_status &&& m)
      ∧ (∀ r, 1 ≤ r → s1.sd_regs[r]? = s.sd_regs[r]?)
      ∧ s1.disk_buffers = s.disk_buffers ∧ s1.sd_fill_buffer = s.sd_fill_buffer
      ∧ s1.vdisk = s.vdisk ∧ s1.sd_image = s.sd_image
      ∧ (∀ b, block_content s1 b = block_content s b) := by
  have d := fun {i j : Nat} (hij : i < j) (hj : j < 8) => hK.disj hij hj
  have bd := fun {i : Nat} (hi : i < 8) => hK.bound hi
  obtain ⟨i, hi8, hi⟩ := exists_bit hK.error.1 hK.error.2
  have keep : ∀ m, m < 256 → K.SD_ST_ERROR &&& m = 0 → K.SD_ST_BUSY1 &&& m = 0 →
      K.SD_ST_BUSY0 &&& m = 0 →
      st_set (st_clr s.sd_status (K.SD_ST_BUSY1 ||| K.SD_ST_BUSY0)) K.SD_ST_ERROR &&& m
        = s.sd_status &&& m := fun m hm h1 h2 h3 =>
    (st_set_and_keep _ _ _ hm h1).trans (st_clr_and_keep _ _ _ hm (or_and_disj h2 h3))
  have busy : ∀ m, K.SD_ST_ERROR &&& m = 0 → m < 256 →
      st_tst (st_clr s.sd_status (K.SD_ST_BUSY1 ||| K.SD_ST_BUSY0)) m = false →
      st_tst (st_set (st_clr s.sd_status (K.SD_ST_BUSY1 ||| K.SD_ST_BUSY0)) K.SD_ST_ERROR) m
        = false := by
    intro m h1 hm h
    simp only [st_tst, bne_eq_false_iff_eq] at h ⊢
    rw [st_set_and_keep _ _ _ hm h1]; exact h
  refine ⟨_, unrecognized_command_eq hK s env cmd hc hcmd hregs, rfl,
    st_tst_set_of_bit hi8 hi hi,
    busy _ (d (show 0 < 5 by decide) (by decide)).1 (bd (show 5 < 8 by decide)).2
      (st_tst_sub_left _ _ _),
    busy _ (d (show 0 < 6 by decide) (by decide)).1 (bd (show 6 < 8 by decide)).2
      (st_tst_sub_right _ _ _),
    ?_, fun r hr => List.getElem?_set_ne (by omega), rfl, rfl, rfl, rfl,
    fun b => block_content_congr b rfl rfl rfl rfl rfl⟩
  intro m hm
  simp only [List.mem_cons, List.mem_singleton, List.not_mem_nil, or_false] at hm
  rcases hm with h | h | h | h | h <;> subst h
  · exact keep _ (bd (show 1 < 8 by decide)).2 (d (show 0 < 1 by decide) (by decide)).1
      (d (show 1 < 5 by decide) (by decide)).2 (d (show 1 < 6 by decide) (by decide)).2
  · exact keep _ (bd (show 2 < 8 by decide)).2 (d (show 0 < 2 by decide) (by decide)).1
      (d (show 2 < 5 by decide) (by decide)).2 (d (show 2 < 6 by decide) (by decide)).2
  · exact keep _ (bd (show 3 < 8 by decide)).2 (d (show 0 < 3 by decide) (by decide)).1
      (d (show 3 < 5 by decide) (by decide)).2 (d (show 3 < 6 by decide) (by decide)).2
  · exact keep _ (bd (show 4 < 8 by decide)).2 (d (show 0 < 4 by decide) (by decide)).1
      (d (show 4 < 5 by decide) (by decide)).2 (d (show 4 < 6 by decide) (by decide)).2
  · exact keep _ (bd (show 7 < 8 by decide)).2 (d (show 0 < 7 by decide) (by decide)).1
      (d (show 5 < 7 by decide) (by decide)).1 (d (show 6 < 7 by decide) (by decide)).1

theorem unrecognized_command_witness :
    ∃ s1, sdcard_write_register K_ref sd_after_sdhc_on env_ok 0 0xFF = some s1
      ∧ s1 = { sd_after_sdhc_on with
                 sd_regs := sd_after_sdhc_on.sd_regs.set 0 0xFF, sd_status := s1.sd_status,
                 keep_busy := 0, sd_last_ok_cmd := 0xFF }
      ∧ st_tst s1.sd_status K_ref.SD_ST_ERROR = true
      ∧ st_tst s1.sd_status K_ref.SD_ST_BUSY1 = false
      ∧ st_tst s1.sd_status K_ref.SD_ST_BUSY0 = false
      ∧ (∀ m, m ∈ [K_ref.SD_ST_FSM_ERROR, SD_ST_SDHC, K_ref.SD_ST_MAPPED, K_ref.SD_ST_RESET,
                   K_ref.SD_ST_EXT_BUS] → s1.sd_status &&& m = sd_after_sdhc_on.sd_status &&& m)
      ∧ (∀ r, 1 ≤ r → s1.sd_regs[r]? = sd_after_sdhc_on.sd_regs[r]?)
      ∧ s1.disk_buffers = sd_after_sdhc_on.disk_buffers
      ∧ s1.sd_fill_buffer = sd_after_sdhc_on.sd_fill_buffer
      ∧ s1.vdisk = sd_after_sdhc_on.vdisk ∧ s1.sd_image = sd_after_sdhc_on.sd_image
      ∧ (∀ b, block_content s1 b = block_content sd_after_sdhc_on b) :=
  unrecognized_command K_ref (by decide) sd_after_sdhc_on env_ok 0xFF (by decide) (by decide)
    (List.length_replicate _ _)

set_option maxRecDepth 100000 in
/-- C14, counterexample to the claim as stated: a write command for a block beyond the
capacity leaves both busy bits set in the stored status; the unimplemented command 0xFF
written next sets the error flag and clears both busy bits. -/
theorem unrecognized_command_clears_busy_bits :
    sdcard_write_register K_ref sd_far_sector env_ok 0 3 = some sd_after_failed_write
    ∧ st_tst sd_after_failed_write.sd_status K_ref.SD_ST_BUSY1 = true
    ∧ st_tst sd_after_failed_write.sd_status K_ref.SD_ST_BUSY0 = true
    ∧ 0xFF ∉ implemented_commands
    ∧ ∃ s2, sdcard_write_register K_ref sd_after_failed_write env_ok 0 0xFF = some s2
        ∧ st_tst s2.sd_status K_ref.SD_ST_ERROR = true
        ∧ st_tst s2.sd_status K_ref.SD_ST_BUSY1 = false
        ∧ st_tst s2.sd_status K_ref.SD_ST_BUSY0 = false :=
  ⟨sd_after_failed_write_eq, by decide, by decide, by decide,
    _, unrecognized_command_eq (by decide) sd_after_failed_write env_ok 0xFF (by decide)
      (by decide) (by simp [sd_after_failed_write]), by decide, by decide, by decide⟩

/-! ### Mount manager -/

theorem getElem?_set_self {α : Type} (l : List α) (i : Nat) (a : α) (h : i < l.length) :
    (l.set i a)[i]? = some a := by
  simp [List.getElem?_set, h]

theorem mount_update_eq (s : sd_state) (unit : Nat) (f : mount_info_st → mount_info_st)
    (m : mount_info_st) (hm : s.mount_info[unit]? = some m) :
    mount_update s unit f = some { s with mount_info := s.mount_info.set unit (f m) } := by
  have hlt : unit < s.mount_info.length := by
    by_contra h
    rw [List.getElem?_eq_none (by omega)] at hm; cases hm
  unfold mount_update arr_get
  rw [hm]
  simp only [Option.bind_eq_bind, Option.some_bind, arr_set_of_lt _ _ _ hlt, Option.pure_def]

theorem d81access_close_eq (s : sd_state) (unit : Nat) (h : unit < s.d81.length) :
    d81access_close s unit = some { s with d81 := s.d81.set unit d81_attachment.empty } := by
  unfold d81access_close
  simp only [Option.bind_eq_bind, arr_set_of_lt _ _ _ h, Option.some_bind, Option.pure_def]

/-- The refusing branch of `internal_mount`. -/
theorem internal_mount_body_refuse (K : sd_consts) (im : mount_fn) (s : sd_state)
    (env : host_env) (unit : Nat) (hunit : unit = 0 ∨ unit = 1) (hd81 : s.d81.length = 2)
    (regB : Nat) (m : mount_info_st) (sector : Nat)
    (hB : s.sd_regs[0xB]? = some regB) (hm : s.mount_info[unit]? = some m)
    (hen : regB &&& enable_mask unit = enable_mask unit)
    (hforce : m.force_external_name = none)
    (hat : U8A_TO_U32 s.sd_regs (sector_reg unit) = some sector)
    (hbad : sector < MIN_MOUNT_SECTOR_NO
      ∨ s.sdcard_size_in_blocks ≤ (sector + (K.D81_SIZE >>> 9)) % 2 ^ 32) :
    internal_mount_body K im s env unit = some (-1,
      { s with d81 := s.d81.set unit d81_attachment.empty
               mount_info := s.mount_info.set unit
                 { m with current_name := "", internal := -1 } }) := by
  have hlt : unit < s.d81.length := by rcases hunit with h | h <;> omega
  have hcl := d81access_close_eq s unit hlt
  have hmu := mount_update_eq { s with d81 := s.d81.set unit d81_attachment.empty } unit
    (fun m => { m with current_name := "", internal := -1 }) m hm
  rcases hunit with h | h <;> subst h <;>
  · simp [sector_reg, enable_mask] at hat hen
    unfold internal_mount_body
    simp [arr_get, hB, hm, hen, hforce, hat, hcl, hmu]
    intro h1 h2
    exfalso
    rw [show (2 : Nat) ^ 32 = 4294967296 from rfl] at hbad
    omega

/-- C15 (restricted to sums below 2^32). Internal-mount validation: for either unit with
its two enable bits set and no forced-external filename, if the mount sector is below
`MIN_MOUNT_SECTOR_NO`, or the sum of the mount sector and the image length in blocks does
not exceed 32 bits and is at least the block capacity, then `internal_mount` returns -1,
closes the unit, leaves it with origin -1 and an empty display name, does not update
`at_sector` or any other field of the descriptor, and leaves the other unit alone. -/
theorem internal_mount_validation (K : sd_consts) (s : sd_state) (env : host_env)
    (unit : Nat) (hunit : unit = 0 ∨ unit = 1) (hd81 : s.d81.length = 2)
    (regB : Nat) (m : mount_info_st) (sector : Nat)
    (hB : s.sd_regs[0xB]? = some regB) (hm : s.mount_info[unit]? = some m)
    (hen : regB &&& enable_mask unit = enable_mask unit)
    (hforce : m.force_external_name = none)
    (hat : U8A_TO_U32 s.sd_regs (sector_reg unit) = some sector)
    (hbad : sector < MIN_MOUNT_SECTOR_NO
      ∨ (sector + (K.D81_SIZE >>> 9) < 2 ^ 32
          ∧ s.sdcard_size_in_blocks ≤ sector + (K.D81_SIZE >>> 9))) :
    ∃ s1, internal_mount K s env unit = some (-1, s1)
      ∧ s1.mount_info[unit]? = some { m with current_name := "", internal := -1 }
      ∧ s1.mount_info[1 - unit]? = s.mount_info[1 - unit]?
      ∧ s1.d81[unit]? = some d81_attachment.empty
      ∧ s1 = { s with mount_info := s1.mount_info, d81 := s1.d81 } := by
  have hlt : unit < s.mount_info.length := by
    by_contra h
    rw [List.getElem?_eq_none (by omega)] at hm; cases hm
  have hbad1 : sector < MIN_MOUNT_SECTOR_NO
      ∨ s.sdcard_size_in_blocks ≤ (sector + (K.D81_SIZE >>> 9)) % 2 ^ 32 := by
    rcases hbad with h | ⟨h1, h2⟩
    · exact Or.inl h
    · exact Or.inr (by rw [Nat.mod_eq_of_lt h1]; exact h2)
  refine ⟨_, internal_mount_body_refuse K (internal_mount_depth K 1) s env unit hunit hd81
    regB m sector hB hm hen hforce hat hbad1, ?_, ?_, ?_, rfl⟩
  · exact getElem?_set_self _ _ _ hlt
  · exact List.getElem?_set_ne (by rcases hunit with h | h <;> omega)
  · exact getElem?_set_self _ _ _ (by rcases hunit with h | h <;> omega)

theorem internal_mount_validation_witness :
    ∃ s1, internal_mount K_ref sd_low_sector env_ok 0 = some (-1, s1)
      ∧ s1.mount_info[0]? = some { mount_init with current_name := "", internal := -1 }
      ∧ s1.mount_info[1 - 0]? = sd_low_sector.mount_info[1 - 0]?
      ∧ s1.d81[0]? = some d81_attachment.empty
      ∧ s1 = { sd_low_sector with mount_info := s1.mount_info, d81 := s1.d81 } :=
  internal_mount_validation K_ref sd_low_sector env_ok 0 (Or.inl rfl) rfl 3 mount_init 2
    (by decide) (by decide) (by decide) rfl (by decide) (Or.inl (by decide))

set_option maxRecDepth 100000 in
/-- C15, counterexample: with mount sector 0xFFFFFA00 the span of 1600 blocks ends far
beyond the capacity of 8388608 blocks, but the 32-bit sum wraps around to 64, the
validation passes and `internal_mount` mounts the unit internally at that sector. -/
theorem internal_mount_accepts_wrapped_span :
    U8A_TO_U32 sd_wrap_sector.sd_regs 0x0C = some 0xFFFFFA00
    ∧ sd_wrap_sector.sd_regs[0xB]? = some 3
    ∧ sd_wrap_sector.sdcard_size_in_blocks = 8388608
    ∧ sd_wrap_sector.sdcard_size_in_blocks ≤ 0xFFFFFA00 + (K_ref.D81_SIZE >>> 9)
    ∧ (internal_mount K_ref sd_wrap_sector env_ok 0).map
        (fun r => (r.1, r.2.mount_info[0]?.map (fun m => (m.internal, m.at_sector))))
      = some (1, some (1, 0xFFFFFA00)) := by
  decide

theorem getElem?_some_lt {α : Type} {l : List α} {i : Nat} {a : α} (h : l[i]? = some a) :
    i < l.length := by
  by_contra hn
  rw [List.getElem?_eq_none (by omega)] at h; cases h

theorem set_getElem?_self {α : Type} {l : List α} {i : Nat} {a : α} (h : l[i]? = some a) :
    l.set i a = l := by
  apply List.ext_getElem?
  intro j
  by_cases hj : i = j
  · subst hj; rw [getElem?_set_self _ _ _ (getElem?_some_lt h), h]
  · rw [List.getElem?_set_ne hj]

theorem mount_out_self {s : sd_state} {u : Nat} {m : mount_info_st} {d : d81_attachment}
    {p : Option String} (h : unit_is s u m d p) : mount_out s u m d p = s := by
  unfold mount_out
  rw [set_getElem?_self h.1, set_getElem?_self h.2.1, set_getElem?_self h.2.2]

theorem mount_out_out (s : sd_state) (u : Nat) (m m1 : mount_info_st)
    (d d1 : d81_attachment) (p p1 : Option String) :
    mount_out (mount_out s u m d p) u m1 d1 p1 = mount_out s u m1 d1 p1 := by
  unfold mount_out
  simp only [List.set_set]

theorem unit_is_out {s : sd_state} {u : Nat} (hwf : mount_wf s) (hu : u < 2)
    (m : mount_info_st) (d : d81_attachment) (p : Option String) :
    unit_is (mount_out s u m d p) u m d p :=
  ⟨getElem?_set_self _ _ _ (by rw [hwf.info_len]; exact hu),
   getElem?_set_self _ _ _ (by rw [hwf.d81_len]; exact hu),
   getElem?_set_self _ _ _ (by rw [hwf.path_len]; exact hu)⟩

theorem unit_is_exists {s : sd_state} {u : Nat} (hwf : mount_wf s) (hu : u < 2) :
    ∃ m d p, unit_is s u m d p := by
  have h1 : u < s.mount_info.length := by rw [hwf.info_len]; exact hu
  have h2 : u < s.d81.length := by rw [hwf.d81_len]; exact hu
  have h3 : u < s.default_d81_path.length := by rw [hwf.path_len]; exact hu
  exact ⟨s.mount_info[u], s.d81[u], s.default_d81_path[u],
    List.getElem?_eq_getElem h1, List.getElem?_eq_getElem h2, List.getElem?_eq_getElem h3⟩

theorem mount_wf_out {s : sd_state} {u : Nat} (hwf : mount_wf s) (m : mount_info_st)
    (d : d81_attachment) (p : Option String) (hp : p ≠ some "") :
    mount_wf (mount_out s u m d p) := by
  refine ⟨hwf.regs_len, ?_, ?_, ?_, ?_⟩
  · show (s.mount_info.set u m).length = 2
    rw [List.length_set]; exact hwf.info_len
  · show (s.d81.set u d).length = 2
    rw [List.length_set]; exact hwf.d81_len
  · show (s.default_d81_path.set u p).length = 2
    rw [List.length_set]; exact hwf.path_len
  · intro v
    show (s.default_d81_path.set u p)[v]? ≠ _
    by_cases hv : u = v
    · subst hv
      by_cases hl : u < s.default_d81_path.length
      · rw [getElem?_set_self _ _ _ hl]
        intro h; exact hp (Option.some.inj h)
      · rw [List.getElem?_eq_none (by rw [List.length_set]; omega)]
        exact fun h => by cases h
    · rw [List.getElem?_set_ne hv]; exact hwf.paths_ok v

theorem unit_is_path_ok {s : sd_state} {u : Nat} {m : mount_info_st} {d : d81_attachment}
    {p : Option String} (hwf : mount_wf s) (h : unit_is s u m d p) : p ≠ some "" := by
  intro hp
  exact hwf.paths_ok u (by rw [h.2.2, hp])

/-- The entries of the other unit in `mount_out s u ..` are those of `s`. -/
theorem mount_out_other (s : sd_state) (u v : Nat) (hv : v ≠ u) (m : mount_info_st)
    (d : d81_attachment) (p : Option String) :
    (mount_out s u m d p).mount_info[v]? = s.mount_info[v]?
    ∧ (mount_out s u m d p).d81[v]? = s.d81[v]?
    ∧ (mount_out s u m d p).default_d81_path[v]? = s.default_d81_path[v]? :=
  ⟨List.getElem?_set_ne (Ne.symm hv), List.getElem?_set_ne (Ne.symm hv),
    List.getElem?_set_ne (Ne.symm hv)⟩

theorem mount_update_out {s : sd_state} {u : Nat} (hwf : mount_wf s) (hu : u < 2)
    (m : mount_info_st) (d : d81_attachment) (p : Option String)
    (f : mount_info_st → mount_info_st) :
    mount_update (mount_out s u m d p) u f = some (mount_out s u (f m) d p) := by
  rw [mount_update_eq _ u f m (unit_is_out hwf hu m d p).1]
  congr 1
  unfold mount_out
  simp only [List.set_set]

theorem d81access_close_out {s : sd_state} {u : Nat} (hwf : mount_wf s) (hu : u < 2)
    (m : mount_info_st) (d : d81_attachment) (p : Option String) :
    d81access_close (mount_out s u m d p) u = some (mount_out s u m d81_attachment.empty p) := by
  have hl : u < (mount_out s u m d p).d81.length := by
    show u < (s.d81.set u d).length
    rw [List.length_set, hwf.d81_len]; exact hu
  rw [d81access_close_eq _ u hl]
  congr 1
  unfold mount_out
  simp only [List.set_set]

theorem arr_get_info_out {s : sd_state} {u : Nat} (hwf : mount_wf s) (hu : u < 2)
    (m : mount_info_st) (d : d81_attachment) (p : Option String) :
    arr_get (mount_out s u m d p).mount_info u = some m :=
  (unit_is_out hwf hu m d p).1

theorem arr_set_d81_out {s : sd_state} {u : Nat} (hwf : mount_wf s) (hu : u < 2)
    (m : mount_info_st) (d x : d81_attachment) (p : Option String) :
    arr_set (mount_out s u m d p).d81 u x = some (s.d81.set u x) := by
  have hl : u < (mount_out s u m d p).d81.length := by
    show u < (s.d81.set u d).length
    rw [List.length_set, hwf.d81_len]; exact hu
  rw [arr_set_of_lt _ _ _ hl]
  show some ((s.d81.set u d).set u x) = _
  rw [List.set_set]

theorem mount_out_with_d81 (s : sd_state) (u : Nat) (m : mount_info_st)
    (d x : d81_attachment) (p : Option String) :
    { mount_out s u m d p with d81 := s.d81.set u x } = mount_out s u m x p := rfl

/-- `some_mount` for a unit with a forced external name: the external file is attached
(or already is), or the attach fails and the unit is closed; `internal_mount` is not
consulted, the forced name stays. -/
theorem some_mount_body_forced (im : mount_fn) {s : sd_state} (env : host_env) {u : Nat}
    (hwf : mount_wf s) (hu : u < 2) (m : mount_info_st) (d : d81_attachment)
    (p : Option String) (fn : String) (hforce : m.force_external_name = some fn) :
    ∃ r m1 d1, some_mount_body im (mount_out s u m d p) env u
        = some (r, mount_out s u m1 d1 p)
      ∧ m1 = { m with current_name := m1.current_name, internal := m1.internal }
      ∧ ((r = 0 ∧ m1.internal = 0 ∧ m1.current_name = fn)
          ∨ (r = -1 ∧ m1.internal = m.internal ∧ m1.current_name = ""
              ∧ d1 = d81_attachment.empty)) := by
  unfold some_mount_body
  simp only [Option.bind_eq_bind, arr_get_info_out hwf hu, Option.some_bind, hforce]
  by_cases hname : m.current_name = fn
  · refine ⟨0, { m with internal := 0 }, d, ?_, by simp [hforce], Or.inl ⟨rfl, rfl, hname⟩⟩
    simp only [hname, ne_eq, not_true_eq_false, if_false, mount_update_out hwf hu,
      Option.some_bind, Option.pure_def]
  · by_cases hatt : env.attach_fsobj u fn = 0
    · refine ⟨0, { m with current_name := fn, internal := 0 }, d81_attachment.fsobj fn 0, ?_,
        by simp [hforce], Or.inl ⟨rfl, rfl, rfl⟩⟩
      simp only [ne_eq, hname, not_false_eq_true, if_true, hatt, not_true_eq_false, if_false,
        arr_set_d81_out hwf hu, Option.some_bind, mount_out_with_d81, mount_update_out hwf hu,
        Option.pure_def]
    · refine ⟨-1, { m with current_name := "" }, d81_attachment.empty, ?_, by simp [hforce],
        Or.inr ⟨rfl, rfl, rfl, rfl⟩⟩
      simp only [ne_eq, hname, not_false_eq_true, if_true, hatt, d81access_close_out hwf hu,
        Option.some_bind, mount_update_out hwf hu, Option.pure_def]

/-- `sdcard_force_external_mount` with a non-empty file name: the name is forced and the
file attached, or the attach fails, the unit is closed and the forced name dropped. -/
theorem force_external_named (im : mount_fn) {s : sd_state} (env : host_env) {u : Nat}
    (hwf : mount_wf s) (hu : u < 2) (m : mount_info_st) (d : d81_attachment)
    (p : Option String) (fn : String) (hfn : fn ≠ "") :
    ∃ r m2 d2, sdcard_force_external_mount_body im (mount_out s u m d p) env u (some fn)
        = some (r, mount_out s u m2 d2 p)
      ∧ m2 = { m with current_name := m2.current_name, internal := m2.internal,
                      force_external_name := m2.force_external_name }
      ∧ ((r = 0 ∧ m2.internal = 0 ∧ m2.current_name = fn ∧ m2.force_external_name = some fn)
          ∨ (r = -1 ∧ m2.internal = m.internal ∧ m2.current_name = ""
              ∧ m2.force_external_name = none ∧ d2 = d81_attachment.empty)) := by
  obtain ⟨r, m1, d1, h1, hm1, hcase⟩ := some_mount_body_forced im env hwf hu
    { m with force_external_name := some fn } d p fn rfl
  unfold sdcard_force_external_mount_body
  simp only [Option.bind_eq_bind, hfn, ne_eq, not_false_eq_true, if_true,
    mount_update_out hwf hu, Option.some_bind, h1]
  rcases hcase with ⟨hr, hi, hn⟩ | ⟨hr, hi, hn, hd⟩
  · subst hr
    refine ⟨0, m1, d1, ?_, ?_, Or.inl ⟨rfl, hi, hn, ?_⟩⟩
    · simp only [not_true_eq_false, if_false, Option.pure_def]
    · rw [hm1]
    · rw [hm1]
  · subst hr
    refine ⟨-1, { m1 with current_name := "", force_external_name := none },
      d81_attachment.empty, ?_, ?_, Or.inr ⟨rfl, hi, rfl, rfl, rfl⟩⟩
    · simp only [Int.reduceNeg, neg_eq_zero, one_ne_zero, not_false_eq_true, if_true,
        d81access_close_out hwf hu, Option.some_bind, mount_update_out hwf hu, Option.pure_def]
    · rw [hm1]

theorem default_path_ne_empty (root : String) (u : Nat) (b : String)
    (hb : default_d81_basename[u]? = some b) : root ++ b ≠ "" := by
  intro h
  have hl : (root ++ b).length = 0 := by rw [h]; rfl
  rw [String.length_append] at hl
  have hb10 : 10 ≤ b.length := by
    have hmem := List.getElem?_mem hb
    simp only [default_d81_basename, List.mem_cons, List.mem_singleton, List.not_mem_nil,
      or_false] at hmem
    rcases hmem with h | h <;> subst h <;> decide
  omega

theorem default_path_ok (env : host_env) {u : Nat} (hu : u < 2) (p : Option String)
    (hp : p ≠ some "") : default_path env u p ≠ "" := by
  cases p with
  | some q => exact fun h => hp (by rw [show q = "" from h])
  | none =>
    have : ∃ b, default_d81_basename[u]? = some b := by
      have hu' : u = 0 ∨ u = 1 := by omega
      rcases hu' with h | h <;> subst h <;> exact ⟨_, rfl⟩
    obtain ⟨b, hb⟩ := this
    show env.hdosroot ++ (default_d81_basename[u]?).getD "" ≠ ""
    rw [hb]
    exact default_path_ne_empty _ u b hb

theorem default_d81_mount_hack_eq (im : mount_fn) {s : sd_state} (env : host_env) {u : Nat}
    (hwf : mount_wf s) (hu : u < 2) (m : mount_info_st) (d : d81_attachment)
    (p : Option String) :
    do_default_d81_mount_hack_body im (mount_out s u m d p) env u
      = if env.create_image_file (default_path env u p) = -1
        then some (-1, mount_out s u m d (some (default_path env u p)))
        else sdcard_force_external_mount_body im
          (mount_out s u m d (some (default_path env u p))) env u
          (some (default_path env u p)) := by
  have hb : ∃ b, default_d81_basename[u]? = some b := by
    have hu' : u = 0 ∨ u = 1 := by omega
    rcases hu' with h | h <;> subst h <;> exact ⟨_, rfl⟩
  obtain ⟨b, hb⟩ := hb
  have hl : u < (mount_out s u m d p).default_d81_path.length := by
    show u < (s.default_d81_path.set u p).length
    rw [List.length_set, hwf.path_len]; exact hu
  have hset : ∀ x, arr_set (mount_out s u m d p).default_d81_path u (some x)
      = some (s.default_d81_path.set u (some x)) := by
    intro x
    rw [arr_set_of_lt _ _ _ hl]
    show some ((s.default_d81_path.set u p).set u _) = _
    rw [List.set_set]
  have hst : ∀ x, { mount_out s u m d p with
      default_d81_path := s.default_d81_path.set u (some x) }
      = mount_out s u m d (some x) := fun _ => rfl
  have hdp : default_path env u none = env.hdosroot ++ b := by
    show env.hdosroot ++ (default_d81_basename[u]?).getD "" = _
    rw [hb]; rfl
  unfold do_default_d81_mount_hack_body
  cases p with
  | some q =>
    simp only [Option.bind_eq_bind, arr_get, (unit_is_out hwf hu m d (some q)).2.2,
      Option.some_bind, hb, hset, hst, Option.pure_def]
    rfl
  | none =>
    simp only [Option.bind_eq_bind, arr_get, (unit_is_out hwf hu m d none).2.2,
      Option.some_bind, hb, hset, hst, Option.pure_def, hdp]

/-- `do_default_d81_mount_hack`: the path of the default image is cached; the image file
is created if missing and forced as external mount, or the creation fails and the unit
is left as it is. -/
theorem default_d81_mount_hack_spec (im : mount_fn) {s : sd_state} (env : host_env) {u : Nat}
    (hwf : mount_wf s) (hu : u < 2) (m : mount_info_st) (d : d81_attachment)
    (p : Option String) (hp : p ≠ some "") :
    ∃ r m2 d2, do_default_d81_mount_hack_body im (mount_out s u m d p) env u
        = some (r, mount_out s u m2 d2 (some (default_path env u p)))
      ∧ m2 = { m with current_name := m2.current_name, internal := m2.internal,
                      force_external_name := m2.force_external_name }
      ∧ ((r = 0 ∧ m2.internal = 0 ∧ m2.current_name = default_path env u p
            ∧ m2.force_external_name = some (default_path env u p))
          ∨ (r = -1 ∧ m2 = m ∧ d2 = d)
          ∨ (r = -1 ∧ m2.internal = m.internal ∧ m2.current_name = ""
              ∧ m2.force_external_name = none ∧ d2 = d81_attachment.empty)) := by
  have hpath_ok := default_path_ok env hu p hp
  rw [default_d81_mount_hack_eq im env hwf hu]
  by_cases hcr : env.create_image_file (default_path env u p) = -1
  · refine ⟨-1, m, d, ?_, rfl, Or.inr (Or.inl ⟨rfl, rfl, rfl⟩)⟩
    rw [if_pos hcr]
  · obtain ⟨r, m2, d2, h2, hm2, hcase⟩ := force_external_named im env hwf hu m d
      (some (default_path env u p)) (default_path env u p) hpath_ok
    refine ⟨r, m2, d2, ?_, hm2, ?_⟩
    · rw [if_neg hcr, h2]
    · rcases hcase with h | h
      · exact Or.inl h
      · exact Or.inr (Or.inr h)

/-- `internal_mount` for a unit that is not enabled or has a forced external name. -/
theorem internal_mount_body_disabled (K : sd_consts) (im : mount_fn) (s : sd_state)
    (env : host_env) (u : Nat) (hu : u = 0 ∨ u = 1) (regB : Nat) (m : mount_info_st)
    (hB : s.sd_regs[0xB]? = some regB) (hm : s.mount_info[u]? = some m)
    (hdis : regB &&& enable_mask u ≠ enable_mask u ∨ m.force_external_name ≠ none) :
    internal_mount_body K im s env u = some (0, s) := by
  have hd : ¬ (regB &&& enable_mask u = enable_mask u ∧ m.force_external_name = none) := by
    rcases hdis with h | h
    · exact fun hh => h hh.1
    · exact fun hh => h hh.2
  rcases hu with h | h <;> subst h <;>
  · simp only [enable_mask] at hd
    unfold internal_mount_body
    simp [arr_get, hB, hm]
    intro h1
    cases hf : m.force_external_name with
    | none => exact absurd ⟨h1, hf⟩ hd
    | some x => intro h; cases h

theorem mount_out_from_sd (s : sd_state) (u : Nat) (m : mount_info_st) (d : d81_attachment)
    (p : Option String) :
    (mount_out s u m d p).default_d81_is_from_sd = s.default_d81_is_from_sd := rfl

theorem mount_out_sdfd (s : sd_state) (u : Nat) (m : mount_info_st) (d : d81_attachment)
    (p : Option String) : (mount_out s u m d p).sdfd = s.sdfd := rfl

/-- The last step of `internal_mount`: the image file is attached at the mount sector. -/
theorem attach_internal_out {s : sd_state} {u : Nat} (hwf : mount_wf s) (hu : u < 2)
    (m : mount_info_st) (d : d81_attachment) (p : Option String) (sector : Nat) :
    (do
      let dd ← arr_set (mount_out s u m d p).d81 u (internal_attachment s sector)
      let s2 ← mount_update { mount_out s u m d p with d81 := dd } u
                 (fun m => { m with current_name := internal_name s sector, internal := 1 })
      pure ((1 : Int), s2))
      = some (1, mount_out s u { m with current_name := internal_name s sector, internal := 1 }
                  (internal_attachment s sector) p) := by
  simp only [Option.bind_eq_bind, arr_set_d81_out hwf hu, Option.some_bind, mount_out_with_d81,
    mount_update_out hwf hu, Option.pure_def]

/-- `internal_mount` for an enabled unit with a validated mount sector. -/
theorem internal_mount_body_valid_eq (K : sd_consts) (im : mount_fn) {s : sd_state}
    (env : host_env) {u : Nat} (hwf : mount_wf s) (hu : u = 0 ∨ u = 1) (regB : Nat)
    (m : mount_info_st) (d : d81_attachment) (p : Option String) (sector : Nat)
    (hB : s.sd_regs[0xB]? = some regB) (hunit : unit_is s u m d p)
    (hen : regB &&& enable_mask u = enable_mask u) (hforce : m.force_external_name = none)
    (hat : U8A_TO_U32 s.sd_regs (sector_reg u) = some sector)
    (hvalid : sector_valid K s sector) :
    internal_mount_body K im s env u
      = if sector = (with_sector m sector).at_sector_initial ∧ s.default_d81_is_from_sd = 0
        then (do_default_d81_mount_hack_body im (mount_out s u (with_sector m sector) d p)
                env u).bind (fun r =>
                  if r.1 = 0 then some ((1 : Int), r.2)
                  else do
                    let dd ← arr_set r.2.d81 u
                      (d81_attachment.fd r.2.sdfd (sector <<< 9)
                        (if (s.sd_is_read_only != 0) = true then 1 else 0))
                    let s2 ← mount_update { r.2 with d81 := dd } u
                      (fun m => { m with current_name := internal_name s sector, internal := 1 })
                    pure ((1 : Int), s2))
        else some ((1 : Int), mount_out s u
               { with_sector m sector with current_name := internal_name s sector, internal := 1 }
               (internal_attachment s sector) p) := by
  have hu2 : u < 2 := by rcases hu with h | h <;> omega
  have hnb : ¬ (sector < MIN_MOUNT_SECTOR_NO
      ∨ s.sdcard_size_in_blocks ≤ (sector + (K.D81_SIZE >>> 9)) % 2 ^ 32) := by
    unfold sector_valid at hvalid; omega
  have hself := mount_out_self hunit
  have hmu : mount_update s u (fun m =>
      { m with
          at_sector := sector
          at_sector_initial :=
            if m.monitoring_initial ≠ 0 ∧ m.at_sector_initial = 0 then sector
            else m.at_sector_initial })
      = some (mount_out s u (with_sector m sector) d p) := by
    have := mount_update_out hwf hu2 m d p (fun m =>
      { m with
          at_sector := sector
          at_sector_initial :=
            if m.monitoring_initial ≠ 0 ∧ m.at_sector_initial = 0 then sector
            else m.at_sector_initial })
    rw [hself] at this
    exact this
  have hget : (mount_out s u (with_sector m sector) d p).mount_info[u]?
      = some (with_sector m sector) := (unit_is_out hwf hu2 _ d p).1
  have hdirect := attach_internal_out hwf hu2 (with_sector m sector) d p sector
  rcases hu with h | h <;> subst h <;>
  · simp only [sector_reg, enable_mask] at hat hen
    simp only [if_true, if_false, one_ne_zero] at hat hen
    unfold internal_mount_body
    simp only [Option.bind_eq_bind, arr_get, hB, Option.some_bind, hunit.1, hen, hforce,
      Option.pure_def, if_true, if_false, hat, ge_iff_le, hnb, hmu, hget, Option.isSome_none,
      Bool.false_eq_true, ne_eq, not_true_eq_false, or_self, not_false_eq_true,
      decide_True, Bool.not_true, one_ne_zero, mount_out_from_sd]
    by_cases hc : sector = (with_sector m sector).at_sector_initial
        ∧ s.default_d81_is_from_sd = 0
    · rw [if_pos hc, if_pos hc]
      rfl
    · rw [if_neg hc, if_neg hc]
      exact hdirect

theorem desc_rel_same (s : sd_state) (u : Nat) {m m1 : mount_info_st}
    (h1 : m1.monitoring_initial = m.monitoring_initial)
    (h2 : m1.at_sector_initial = m.at_sector_initial) : desc_rel s u m m1 :=
  ⟨h1, Or.inl h2⟩

theorem desc_rel_with_sector (K : sd_consts) (s : sd_state) (u : Nat) (m m1 : mount_info_st)
    (sector : Nat) (hat : U8A_TO_U32 s.sd_regs (sector_reg u) = some sector)
    (hvalid : sector_valid K s sector)
    (h1 : m1.monitoring_initial = m.monitoring_initial)
    (h2 : m1.at_sector_initial = (with_sector m sector).at_sector_initial) :
    desc_rel s u m m1 := by
  refine ⟨h1, ?_⟩
  rw [h2]
  unfold with_sector
  by_cases hc : m.monitoring_initial ≠ 0 ∧ m.at_sector_initial = 0
  · right
    show _ ∧ _ ∧ U8A_TO_U32 s.sd_regs (sector_reg u)
        = some (if m.monitoring_initial ≠ 0 ∧ m.at_sector_initial = 0 then sector
                else m.at_sector_initial)
      ∧ MIN_MOUNT_SECTOR_NO ≤ (if m.monitoring_initial ≠ 0 ∧ m.at_sector_initial = 0 then sector
                else m.at_sector_initial)
    rw [if_pos hc]
    exact ⟨hc.1, hc.2, hat, hvalid.1⟩
  · left
    show (if m.monitoring_initial ≠ 0 ∧ m.at_sector_initial = 0 then sector
                else m.at_sector_initial) = _
    rw [if_neg hc]

theorem U8A_TO_U32_total (a : List Nat) (i : Nat) (h : i + 3 < a.length) :
    ∃ v, U8A_TO_U32 a i = some v := by
  unfold U8A_TO_U32 arr_get
  rw [List.getElem?_eq_getElem (by omega : i < a.length),
    List.getElem?_eq_getElem (by omega : i + 1 < a.length),
    List.getElem?_eq_getElem (by omega : i + 2 < a.length),
    List.getElem?_eq_getElem h]
  exact ⟨_, rfl⟩

/-- What `internal_mount` does to a unit, whatever `internal_mount` a nested call
reaches: it returns a result; only the descriptor, attachment and cached default path of
the unit change; with a forced external name (or the enable bits not both set) it returns
0 and changes nothing; a validated request returns 1 and records the sector. -/
theorem internal_mount_body_spec (K : sd_consts) (im : mount_fn) {s : sd_state}
    (env : host_env) {u : Nat} (hwf : mount_wf s) (hu : u = 0 ∨ u = 1)
    (m : mount_info_st) (d : d81_attachment) (p : Option String) (hunit : unit_is s u m d p) :
    ∃ r m3 d3 p3, internal_mount_body K im s env u = some (r, mount_out s u m3 d3 p3)
      ∧ p3 ≠ some "" ∧ desc_rel s u m m3
      ∧ (r = 0 → m3 = m ∧ d3 = d ∧ p3 = p)
      ∧ (m.force_external_name ≠ none → r = 0)
      ∧ (∀ regB sector, s.sd_regs[0xB]? = some regB →
            regB &&& enable_mask u = enable_mask u → m.force_external_name = none →
            U8A_TO_U32 s.sd_regs (sector_reg u) = some sector → sector_valid K s sector →
            r = 1 ∧ m3.at_sector = sector
              ∧ m3.at_sector_initial = (with_sector m sector).at_sector_initial) := by
  have hu2 : u < 2 := by rcases hu with h | h <;> omega
  have hp := unit_is_path_ok hwf hunit
  have hself := mount_out_self hunit
  obtain ⟨regB, hB⟩ : ∃ regB, s.sd_regs[0xB]? = some regB :=
    ⟨_, List.getElem?_eq_getElem (by rw [hwf.regs_len]; decide)⟩
  obtain ⟨sector, hat⟩ := U8A_TO_U32_total s.sd_regs (sector_reg u)
    (by rw [hwf.regs_len]; unfold sector_reg; rcases hu with h | h <;> subst h <;> decide)
  by_cases hen : regB &&& enable_mask u = enable_mask u ∧ m.force_external_name = none
  · obtain ⟨hen, hforce⟩ := hen
    by_cases hvalid : sector_valid K s sector
    · rw [internal_mount_body_valid_eq K im env hwf hu regB m d p sector hB hunit hen hforce hat
        hvalid]
      have hfin : ∀ r m3 d3 p3, r = (1 : Int) → m3.at_sector = sector →
          m3.at_sector_initial = (with_sector m sector).at_sector_initial →
          m3.monitoring_initial = m.monitoring_initial → p3 ≠ some "" →
          p3 ≠ some "" ∧ desc_rel s u m m3
          ∧ (r = 0 → m3 = m ∧ d3 = d ∧ p3 = p)
          ∧ (m.force_external_name ≠ none → r = 0)
          ∧ (∀ regB sector1, s.sd_regs[0xB]? = some regB →
              regB &&& enable_mask u = enable_mask u → m.force_external_name = none →
              U8A_TO_U32 s.sd_regs (sector_reg u) = some sector1 → sector_valid K s sector1 →
              r = 1 ∧ m3.at_sector = sector1
                ∧ m3.at_sector_initial = (with_sector m sector1).at_sector_initial) := by
        intro r m3 d3 p3 hr h1 h2 h3 h4
        refine ⟨h4, desc_rel_with_sector K s u m m3 sector hat hvalid h3 h2, ?_, ?_, ?_⟩
        · intro h0; rw [hr] at h0; cases h0
        · intro h; exact absurd hforce h
        · intro regB1 sector1 _ _ _ hat1 _
          have : sector1 = sector := by rw [hat] at hat1; exact (Option.some.inj hat1).symm
          subst this
          exact ⟨hr, h1, h2⟩
      by_cases hc : sector = (with_sector m sector).at_sector_initial
          ∧ s.default_d81_is_from_sd = 0
      · rw [if_pos hc]
        obtain ⟨r, m2, d2, h2, hm2, hcase⟩ := default_d81_mount_hack_spec im env hwf hu2
          (with_sector m sector) d p hp
        have hpath := default_path_ok env hu2 p hp
        have hp3 : some (default_path env u p) ≠ some "" :=
          fun h => hpath (Option.some.inj h)
        rw [h2, Option.some_bind]
        by_cases hr : r = 0
        · refine ⟨1, m2, d2, _, ?_, hfin 1 m2 d2 _ rfl ?_ ?_ ?_ hp3⟩
          · simp only [hr, if_true]
          · rw [hm2]; rfl
          · rw [hm2]
          · rw [hm2]; rfl
        · refine ⟨1, { m2 with current_name := internal_name s sector, internal := 1 },
            internal_attachment s sector, _, ?_, hfin 1 _ _ _ rfl ?_ ?_ ?_ hp3⟩
          · simp only [hr, if_false, mount_out_sdfd]
            exact attach_internal_out hwf hu2 m2 d2 _ sector
          · show m2.at_sector = sector
            rw [hm2]; rfl
          · show m2.at_sector_initial = _
            rw [hm2]
          · show m2.monitoring_initial = _
            rw [hm2]; rfl
      · rw [if_neg hc]
        exact ⟨1, _, _, p, rfl, hfin 1 _ _ p rfl rfl rfl rfl hp⟩
    · have hbad : sector < MIN_MOUNT_SECTOR_NO
          ∨ s.sdcard_size_in_blocks ≤ (sector + (K.D81_SIZE >>> 9)) % 2 ^ 32 := by
        unfold sector_valid at hvalid; omega
      refine ⟨-1, { m with current_name := "", internal := -1 }, d81_attachment.empty, p, ?_, hp,
        desc_rel_same s u rfl rfl, ?_, ?_, ?_⟩
      · rw [internal_mount_body_refuse K im s env u hu hwf.d81_len regB m sector hB hunit.1 hen
          hforce hat hbad]
        congr 2
        unfold mount_out
        rw [set_getElem?_self hunit.2.2]
      · intro h; cases h
      · intro h; exact absurd hforce h
      · intro regB1 sector1 _ _ _ hat1 hv1
        have : sector1 = sector := by rw [hat] at hat1; exact (Option.some.inj hat1).symm
        subst this
        exact absurd hv1 hvalid
  · have hdis : regB &&& enable_mask u ≠ enable_mask u ∨ m.force_external_name ≠ none := by
      by_cases h : regB &&& enable_mask u = enable_mask u
      · right; exact fun hh => hen ⟨h, hh⟩
      · left; exact h
    refine ⟨0, m, d, p, ?_, hp, desc_rel_same s u rfl rfl, fun _ => ⟨rfl, rfl, rfl⟩,
      fun _ => rfl, ?_⟩
    · rw [internal_mount_body_disabled K im s env u hu regB m hB hunit.1 hdis, hself]
    · intro regB1 sector1 hB1 hen1 hf1 _ _
      have : regB1 = regB := by rw [hB] at hB1; exact (Option.some.inj hB1).symm
      subst this
      exact absurd ⟨hen1, hf1⟩ hen

theorem internal_mount_spec (K : sd_consts) {s : sd_state}
    (env : host_env) {u : Nat} (hwf : mount_wf s) (hu : u = 0 ∨ u = 1)
    (m : mount_info_st) (d : d81_attachment) (p : Option String) (hunit : unit_is s u m d p) :
    ∃ r m3 d3 p3, internal_mount K s env u = some (r, mount_out s u m3 d3 p3)
      ∧ p3 ≠ some "" ∧ desc_rel s u m m3
      ∧ (r = 0 → m3 = m ∧ d3 = d ∧ p3 = p)
      ∧ (m.force_external_name ≠ none → r = 0)
      ∧ (∀ regB sector, s.sd_regs[0xB]? = some regB →
            regB &&& enable_mask u = enable_mask u → m.force_external_name = none →
            U8A_TO_U32 s.sd_regs (sector_reg u) = some sector → sector_valid K s sector →
            r = 1 ∧ m3.at_sector = sector
              ∧ m3.at_sector_initial = (with_sector m sector).at_sector_initial) :=
  internal_mount_body_spec K (internal_mount_depth K 1) env hwf hu m d p hunit

/-- What `some_mount` does to a unit: with a forced external name the forced name stays
and the origin stays or becomes external (0); without one `internal_mount` decides. -/
theorem some_mount_spec (K : sd_consts) {s : sd_state}
    (env : host_env) {u : Nat} (hwf : mount_wf s) (hu : u = 0 ∨ u = 1)
    (m : mount_info_st) (d : d81_attachment) (p : Option String) (hunit : unit_is s u m d p) :
    ∃ r m3 d3 p3, some_mount K s env u = some (r, mount_out s u m3 d3 p3)
      ∧ p3 ≠ some "" ∧ desc_rel s u m m3
      ∧ (∀ fn, m.force_external_name = some fn →
          m3.force_external_name = some fn ∧ (m3.internal = m.internal ∨ m3.internal = 0))
      ∧ (m.force_external_name = none → r = 0) := by
  have hu2 : u < 2 := by rcases hu with h | h <;> omega
  have hp := unit_is_path_ok hwf hunit
  have hself := mount_out_self hunit
  cases hf : m.force_external_name with
  | some fn =>
    obtain ⟨r, m1, d1, h1, hm1, hcase⟩ :=
      some_mount_body_forced (internal_mount K) env hwf hu2 m d p fn hf
    rw [hself] at h1
    refine ⟨r, m1, d1, p, h1, hp, desc_rel_same s u (by rw [hm1]) (by rw [hm1]), ?_, ?_⟩
    · intro fn1 hfn1
      cases hfn1
      refine ⟨by rw [hm1]; exact hf, ?_⟩
      rcases hcase with ⟨_, hi, _⟩ | ⟨_, hi, _⟩
      · exact Or.inr hi
      · exact Or.inl hi
    · intro h; cases h
  | none =>
    obtain ⟨r, m3, d3, p3, h3, hp3, hrel, h0, _, _⟩ := internal_mount_spec K env hwf hu m d p hunit
    have hsm : some_mount K s env u = (do
        let (r, s1) ← internal_mount K s env u
        if r = 0 then do
          let s2 ← d81access_close s1 u
          let s3 ← mount_update s2 u (fun m => { m with current_name := "", internal := -1 })
          pure ((0 : Int), s3)
        else pure (0, s1)) := by
      show some_mount_body (internal_mount K) s env u = _
      unfold some_mount_body
      simp only [Option.bind_eq_bind, arr_get, hunit.1, Option.some_bind, hf]
    rw [hsm, h3]
    simp only [Option.bind_eq_bind, Option.some_bind]
    by_cases hr : r = 0
    · refine ⟨0, { m3 with current_name := "", internal := -1 }, d81_attachment.empty, p3,
        ?_, hp3, ⟨hrel.1, hrel.2⟩, ?_, fun _ => rfl⟩
      · simp only [hr, if_true, d81access_close_out hwf hu2, Option.some_bind,
          mount_update_out hwf hu2, Option.pure_def]
      · intro fn h; cases h
    · refine ⟨0, m3, d3, p3, ?_, hp3, hrel, ?_, fun _ => rfl⟩
      · simp only [hr, if_false, Option.pure_def]
      · intro fn h; cases h

/-- What `sdcard_force_external_mount` does to a unit. -/
theorem force_external_mount_spec (K : sd_consts) {s : sd_state}
    (env : host_env) {u : Nat} (filename : Option String) (hwf : mount_wf s)
    (hu : u = 0 ∨ u = 1) (m : mount_info_st) (d : d81_attachment) (p : Option String)
    (hunit : unit_is s u m d p) :
    ∃ r m3 d3 p3, sdcard_force_external_mount K s env u filename
        = some (r, mount_out s u m3 d3 p3)
      ∧ p3 ≠ some "" ∧ desc_rel s u m m3 := by
  have hu2 : u < 2 := by rcases hu with h | h <;> omega
  have hp := unit_is_path_ok hwf hunit
  have hself := mount_out_self hunit
  by_cases hnamed : ∃ fn, filename = some fn ∧ fn ≠ ""
  · obtain ⟨fn, hfn, hne⟩ := hnamed
    subst hfn
    obtain ⟨r, m2, d2, h2, hm2, _⟩ :=
      force_external_named (internal_mount K) env hwf hu2 m d p fn hne
    rw [hself] at h2
    exact ⟨r, m2, d2, p, h2, hp, desc_rel_same s u (by rw [hm2]) (by rw [hm2])⟩
  · have hmu := mount_update_out hwf hu2 m d p (fun m => { m with force_external_name := none })
    rw [hself] at hmu
    have hwf1 := mount_wf_out (u := u) hwf { m with force_external_name := none } d p hp
    obtain ⟨r, m3, d3, p3, h3, hp3, hrel, _, hr0⟩ := some_mount_spec K env hwf1 hu
      { m with force_external_name := none } d p (unit_is_out hwf hu2 _ d p)
    have hr := hr0 rfl
    subst hr
    rw [mount_out_out] at h3
    have hsm : some_mount_body (internal_mount K)
        (mount_out s u { m with force_external_name := none } d p) env u
        = some (0, mount_out s u m3 d3 p3) := h3
    refine ⟨0, m3, d3, p3, ?_, hp3, ⟨hrel.1, hrel.2⟩⟩
    show sdcard_force_external_mount_body (internal_mount K) s env u filename = _
    unfold sdcard_force_external_mount_body
    cases filename with
    | none =>
      simp only [Option.bind_eq_bind, hmu, Option.some_bind, hsm, ne_eq, not_true_eq_false,
        if_false, Option.pure_def]
    | some fn =>
      have : fn = "" := by
        by_contra h
        exact hnamed ⟨fn, rfl, h⟩
      subst this
      simp only [Option.bind_eq_bind, ne_eq, not_true_eq_false, if_false, hmu, Option.some_bind,
        hsm, Option.pure_def]

/-- What `sdcard_unmount` does. -/
theorem sdcard_unmount_eq {s : sd_state} {u : Nat} (hwf : mount_wf s) (hu : u < 2)
    (m : mount_info_st) (d : d81_attachment) (p : Option String) (hunit : unit_is s u m d p) :
    sdcard_unmount s u = some (0, mount_out s u
      { m with internal := 0, current_name := "<EMPTY>", force_external_name := none }
      d81_attachment.empty p) := by
  have h1 := d81access_close_out hwf hu m d p
  rw [mount_out_self hunit] at h1
  unfold sdcard_unmount
  simp only [Option.bind_eq_bind, h1, Option.some_bind, mount_update_out hwf hu,
    Option.pure_def]

theorem forced_kept_refl (u : Nat) (s : sd_state) : forced_kept u s s :=
  fun m _ hm hf => ⟨m, hm, hf, Or.inl rfl⟩

theorem initial_kept_refl (u : Nat) (s : sd_state) : initial_kept u s s :=
  fun m hm => ⟨m, hm, Or.inl rfl, Or.inl rfl⟩

theorem forced_kept_trans {u : Nat} {s s1 s2 : sd_state} (h1 : forced_kept u s s1)
    (h2 : forced_kept u s1 s2) : forced_kept u s s2 := by
  intro m fn hm hf
  obtain ⟨m1, hm1, hf1, hi1⟩ := h1 m fn hm hf
  obtain ⟨m2, hm2, hf2, hi2⟩ := h2 m1 fn hm1 hf1
  refine ⟨m2, hm2, hf2, ?_⟩
  rcases hi2 with h | h
  · rw [h]; exact hi1
  · exact Or.inr h

theorem forced_kept_congr {u : Nat} {s s1 s2 : sd_state} (h : s1.mount_info = s.mount_info)
    (h2 : forced_kept u s1 s2) : forced_kept u s s2 := by
  intro m fn hm hf
  exact h2 m fn (by rw [h]; exact hm) hf

theorem initial_kept_congr {u : Nat} {s s1 s2 : sd_state} (h : s1.mount_info = s.mount_info)
    (h2 : initial_kept u s1 s2) : initial_kept u s s2 := by
  intro m hm
  exact h2 m (by rw [h]; exact hm)

/-- What a mount operation on unit `v` that ends in `mount_out s v ..` keeps. -/
theorem kept_of_out {s : sd_state} {v : Nat} (hwf : mount_wf s) (hv : v < 2)
    {m m3 : mount_info_st} {d : d81_attachment} (d3 : d81_attachment) {p p3 : Option String}
    (hunit : unit_is s v m d p) (hp3 : p3 ≠ some "") (hrel : desc_rel s v m m3) :
    mount_wf (mount_out s v m3 d3 p3)
    ∧ (mount_out s v m3 d3 p3).sd_regs = s.sd_regs
    ∧ (∀ u, initial_kept u s (mount_out s v m3 d3 p3))
    ∧ (∀ u, u ≠ v → forced_kept u s (mount_out s v m3 d3 p3))
    ∧ ((∀ fn, m.force_external_name = some fn →
          m3.force_external_name = some fn ∧ (m3.internal = m.internal ∨ m3.internal = 0)) →
        forced_kept v s (mount_out s v m3 d3 p3)) := by
  have hget := (unit_is_out hwf hv m3 d3 p3).1
  refine ⟨mount_wf_out hwf m3 d3 p3 hp3, rfl, ?_, ?_, ?_⟩
  · intro u m0 hm0
    by_cases huv : u = v
    · subst huv
      have : m0 = m := by rw [hunit.1] at hm0; exact (Option.some.inj hm0).symm
      subst this
      refine ⟨m3, hget, Or.inl hrel.1, ?_⟩
      rcases hrel.2 with h | ⟨h1, h2, _, h4⟩
      · exact Or.inl h
      · exact Or.inr ⟨h1, h2, h4⟩
    · exact ⟨m0, by rw [(mount_out_other s v u huv m3 d3 p3).1]; exact hm0, Or.inl rfl,
        Or.inl rfl⟩
  · intro u huv m0 fn hm0 hf
    exact ⟨m0, by rw [(mount_out_other s v u huv m3 d3 p3).1]; exact hm0, hf, Or.inl rfl⟩
  · intro h m0 fn hm0 hf
    have : m0 = m := by rw [hunit.1] at hm0; exact (Option.some.inj hm0).symm
    subst this
    exact ⟨m3, hget, (h fn hf).1, (h fn hf).2⟩

theorem mount_kept_refl {s : sd_state} (hwf : mount_wf s) : mount_kept s s :=
  ⟨hwf, rfl, fun u => initial_kept_refl u s, fun u => forced_kept_refl u s⟩

theorem some_mount_step (K : sd_consts) {s : sd_state} (env : host_env) {v : Nat}
    (hwf : mount_wf s) (hv : v = 0 ∨ v = 1) :
    ∃ r s1, some_mount K s env v = some (r, s1) ∧ mount_kept s s1 := by
  have hv2 : v < 2 := by rcases hv with h | h <;> omega
  obtain ⟨m, d, p, hunit⟩ := unit_is_exists hwf hv2
  obtain ⟨r, m3, d3, p3, h, hp3, hrel, hforced, _⟩ := some_mount_spec K env hwf hv m d p hunit
  obtain ⟨k1, k2, k3, k4, k5⟩ := kept_of_out hwf hv2 d3 hunit hp3 hrel
  refine ⟨r, _, h, k1, k2, k3, ?_⟩
  intro u
  by_cases huv : u = v
  · subst huv; exact k5 hforced
  · exact k4 u huv

theorem internal_mount_step (K : sd_consts) {s : sd_state} (env : host_env) {v : Nat}
    (hwf : mount_wf s) (hv : v = 0 ∨ v = 1) :
    ∃ r s1, internal_mount K s env v = some (r, s1) ∧ mount_kept s s1 := by
  have hv2 : v < 2 := by rcases hv with h | h <;> omega
  obtain ⟨m, d, p, hunit⟩ := unit_is_exists hwf hv2
  obtain ⟨r, m3, d3, p3, h, hp3, hrel, h0, hforce, _⟩ :=
    internal_mount_spec K env hwf hv m d p hunit
  obtain ⟨k1, k2, k3, k4, k5⟩ := kept_of_out hwf hv2 d3 hunit hp3 hrel
  refine ⟨r, _, h, k1, k2, k3, ?_⟩
  intro u
  by_cases huv : u = v
  · subst huv
    apply k5
    intro fn hf
    have hm3 := (h0 (hforce (by rw [hf]; exact fun h => by cases h))).1
    rw [hm3]
    exact ⟨hf, Or.inl rfl⟩
  · exact k4 u huv

theorem initial_kept_trans {u : Nat} {s s1 s2 : sd_state} (h1 : initial_kept u s s1)
    (h2 : initial_kept u s1 s2) : initial_kept u s s2 := by
  intro m hm
  obtain ⟨m1, hm1, hmon1, hi1⟩ := h1 m hm
  obtain ⟨m2, hm2, hmon2, hi2⟩ := h2 m1 hm1
  refine ⟨m2, hm2, ?_, ?_⟩
  · rcases hmon2 with h | h
    · rw [h]; exact hmon1
    · exact Or.inr h
  · rcases hi2 with h | ⟨a, b, c⟩
    · rw [h]
      rcases hi1 with h' | ⟨a, b, c⟩
      · exact Or.inl h'
      · exact Or.inr ⟨a, b, c⟩
    · rcases hi1 with h' | ⟨a', b', c'⟩
      · right
        refine ⟨?_, by rw [← h']; exact b, c⟩
        rcases hmon1 with h | h
        · rw [← h]; exact a
        · exact absurd h a
      · exfalso
        unfold MIN_MOUNT_SECTOR_NO at c'
        omega

theorem mount_kept_trans {s s1 s2 : sd_state} (h1 : mount_kept s s1) (h2 : mount_kept s1 s2) :
    mount_kept s s2 :=
  ⟨h2.wf, h2.regs.trans h1.regs, fun u => initial_kept_trans (h1.initial u) (h2.initial u),
    fun u => forced_kept_trans (h1.forced u) (h2.forced u)⟩

theorem mount_wf_regs {s : sd_state} (hwf : mount_wf s) (regs : List Nat)
    (h : regs.length = 0x30) : mount_wf { s with sd_regs := regs } :=
  ⟨h, hwf.info_len, hwf.d81_len, hwf.path_len, hwf.paths_ok⟩

/-- A write to one of the mount registers 0x0B..0x13 returns a state; the register holds
the byte written, forced external names and the boot-time fields are kept. -/
theorem write_mount_register (K : sd_consts) {s : sd_state} (env : host_env) (reg data : Nat)
    (hwf : mount_wf s) (hreg : 0x0B ≤ reg ∧ reg ≤ 0x13) :
    ∃ s1, sdcard_write_register K s env reg data = some s1 ∧ mount_wf s1
      ∧ s1.sd_regs = s.sd_regs.set reg (data % 256)
      ∧ (∀ u, initial_kept u s s1) ∧ (∀ u, forced_kept u s s1) := by
  have hlt : reg < s.sd_regs.length := by rw [hwf.regs_len]; omega
  have hwf1 := mount_wf_regs hwf (s.sd_regs.set reg (data % 256))
    (by rw [List.length_set]; exact hwf.regs_len)
  have hfin : ∀ s1, mount_kept { s with sd_regs := s.sd_regs.set reg (data % 256) } s1 →
      mount_wf s1 ∧ s1.sd_regs = s.sd_regs.set reg (data % 256)
      ∧ (∀ u, initial_kept u s s1) ∧ (∀ u, forced_kept u s s1) :=
    fun s1 h => ⟨h.wf, h.regs, fun u => initial_kept_congr rfl (h.initial u),
      fun u => forced_kept_congr rfl (h.forced u)⟩
  have hcases : reg = 0x0B ∨ (0x0C ≤ reg ∧ reg ≤ 0x0F) ∨ (0x10 ≤ reg ∧ reg ≤ 0x13) := by omega
  unfold sdcard_write_register
  simp only [Option.bind_eq_bind, arr_get, List.getElem?_eq_getElem hlt, Option.some_bind,
    arr_set_of_lt _ _ _ hlt]
  rcases hcases with h | h | h
  · subst h
    simp only [Option.pure_def]
    obtain ⟨r0, t0, ht0, hk0⟩ := some_mount_step K env (v := 0) hwf1 (Or.inl rfl)
    have hsecond : ∀ t, mount_kept { s with sd_regs := s.sd_regs.set 11 (data % 256) } t →
        ∃ s1, (if (data % 256 ^^^ s.sd_regs[11]) &&& 56 ≠ 0
          then Option.map Prod.snd (some_mount K t env 1) else some t) = some s1
          ∧ mount_wf s1 ∧ s1.sd_regs = s.sd_regs.set 11 (data % 256)
          ∧ (∀ u, initial_kept u s s1) ∧ (∀ u, forced_kept u s s1) := by
      intro t hkt
      obtain ⟨r1, t1, ht1, hk1⟩ := some_mount_step K env (v := 1) hkt.wf (Or.inr rfl)
      by_cases hc : (data % 256 ^^^ s.sd_regs[11]) &&& 56 ≠ 0
      · rw [if_pos hc, ht1]
        exact ⟨t1, rfl, hfin t1 (mount_kept_trans hkt hk1)⟩
      · rw [if_neg hc]
        exact ⟨t, rfl, hfin t hkt⟩
    by_cases hc : (data % 256 ^^^ s.sd_regs[11]) &&& 7 ≠ 0
    · rw [if_pos hc, ht0]
      exact hsecond t0 hk0
    · rw [if_neg hc]
      exact hsecond _ (mount_kept_refl hwf1)
  · obtain ⟨r0, t0, ht0, hk0⟩ := internal_mount_step K env (v := 0) hwf1 (Or.inl rfl)
    have hr : reg = 0x0C ∨ reg = 0x0D ∨ reg = 0x0E ∨ reg = 0x0F := by omega
    rcases hr with h | h | h | h <;> subst h <;>
    · simp only [Option.pure_def]
      split
      · rw [ht0]; exact ⟨t0, rfl, hfin t0 hk0⟩
      · exact ⟨_, rfl, hfin _ (mount_kept_refl hwf1)⟩
  · obtain ⟨r0, t0, ht0, hk0⟩ := internal_mount_step K env (v := 1) hwf1 (Or.inr rfl)
    have hr : reg = 0x10 ∨ reg = 0x11 ∨ reg = 0x12 ∨ reg = 0x13 := by omega
    rcases hr with h | h | h | h <;> subst h <;>
    · simp only [Option.pure_def]
      split
      · rw [ht0]; exact ⟨t0, rfl, hfin t0 hk0⟩
      · exact ⟨_, rfl, hfin _ (mount_kept_refl hwf1)⟩

/-- C16. Mount-mode exclusivity: for either unit, `internal_mount` returns 0 and leaves
the whole state (both mount descriptors included) unchanged unless both enable bits of the
unit are set in register 0x0B and the unit has no forced-external filename; and while a
forced-external filename is set for the unit, a write of any byte to register 0x0B or to
any mount-sector register returns a state in which the filename is still forced and the
origin of the unit is what it was or external (0), so it does not become internal (1). -/
theorem mount_mode_exclusivity (K : sd_consts) (s : sd_state) (env : host_env) (u : Nat)
    (hu : u = 0 ∨ u = 1) (hwf : mount_wf s) (m : mount_info_st) (regB : Nat)
    (hm : s.mount_info[u]? = some m) (hB : s.sd_regs[0xB]? = some regB) :
    ((regB &&& enable_mask u ≠ enable_mask u ∨ m.force_external_name ≠ none) →
        internal_mount K s env u = some (0, s))
    ∧ (∀ fn reg data, m.force_external_name = some fn → 0x0B ≤ reg → reg ≤ 0x13 →
        ∃ s1 m1, sdcard_write_register K s env reg data = some s1 ∧ mount_wf s1
          ∧ s1.mount_info[u]? = some m1 ∧ m1.force_external_name = some fn
          ∧ (m1.internal = m.internal ∨ m1.internal = 0)
          ∧ (m.internal ≠ 1 → m1.internal ≠ 1)) := by
  refine ⟨fun hdis => internal_mount_body_disabled K (internal_mount_depth K 1) s env u hu regB
    m hB hm hdis, ?_⟩
  intro fn reg data hf h1 h2
  obtain ⟨s1, hw, hwf1, _, _, hforced⟩ := write_mount_register K env reg data hwf ⟨h1, h2⟩
  obtain ⟨m1, hm1, hf1, hi1⟩ := hforced u m fn hm hf
  refine ⟨s1, m1, hw, hwf1, hm1, hf1, hi1, ?_⟩
  intro hne
  rcases hi1 with h | h
  · rw [h]; exact hne
  · rw [h]; decide

theorem paths_ok_none (v : Nat) :
    ([none, none] : List (Option String))[v]? ≠ some (some "") := by
  match v with
  | 0 => exact fun h => by cases h
  | 1 => exact fun h => by cases h
  | n + 2 => exact fun h => by cases h

theorem sd_forced_external_wf : mount_wf sd_forced_external :=
  ⟨by simp [sd_forced_external], rfl, rfl, rfl, paths_ok_none⟩

theorem mount_mode_exclusivity_witness :
    ((0x1B &&& enable_mask 0 ≠ enable_mask 0 ∨ forced_desc.force_external_name ≠ none) →
        internal_mount K_ref sd_forced_external env_ok 0 = some (0, sd_forced_external))
    ∧ (∀ fn reg data, forced_desc.force_external_name = some fn → 0x0B ≤ reg → reg ≤ 0x13 →
        ∃ s1 m1, sdcard_write_register K_ref sd_forced_external env_ok reg data = some s1
          ∧ mount_wf s1
          ∧ s1.mount_info[0]? = some m1 ∧ m1.force_external_name = some fn
          ∧ (m1.internal = forced_desc.internal ∨ m1.internal = 0)
          ∧ (forced_desc.internal ≠ 1 → m1.internal ≠ 1)) :=
  mount_mode_exclusivity K_ref sd_forced_external env_ok 0 (Or.inl rfl) sd_forced_external_wf
    forced_desc 0x1B rfl (by decide)

theorem mount_same_of_ctrl_eq {s s1 : sd_state} (h : ctrl_eq s s1) : mount_same s s1 := by
  unfold ctrl_eq at h
  rw [h]
  exact ⟨rfl, rfl, rfl⟩

theorem block_io_transfer_mount_same {K : sd_consts} {s s1 : sd_state} {env : host_env}
    {b : Nat} {w : Bool} (h : block_io_transfer K s env b w = some s1) : mount_same s s1 := by
  unfold block_io_transfer at h
  split at h
  · cases h; exact ⟨rfl, rfl, rfl⟩
  · simp only [Option.bind_eq_bind, Option.pure_def] at h
    generalize (if (w && s.sd_fill_mode != 0) = true then s.sd_fill_buffer
      else s.disk_buffers.drop SD_BUFFER_POS) = buf at h
    cases w with
    | true =>
      rw [if_pos rfl] at h
      cases hw : sdcard_write_block s env b buf with
      | none => rw [hw] at h; cases h
      | some p =>
        obtain ⟨r, s2⟩ := p
        have hc := mount_same_of_ctrl_eq (sdcard_write_block_frame hw)
        rw [hw] at h
        simp only [Option.some_bind] at h
        split at h <;> (cases h; exact hc)
    | false =>
      rw [if_neg (by decide)] at h
      cases hw : sdcard_read_block s env b buf with
      | none => rw [hw] at h; cases h
      | some p =>
        obtain ⟨r, s2, buf1⟩ := p
        have hc := mount_same_of_ctrl_eq (sdcard_read_block_frame hw).1
        rw [hw] at h
        simp only [Option.some_bind] at h
        split at h <;> (cases h; exact hc)

theorem sdcard_block_io_mount_same {K : sd_consts} {s s1 : sd_state} {env : host_env}
    {b : Nat} {w : Bool} (h : sdcard_block_io K s env b w = some s1) : mount_same s s1 := by
  unfold sdcard_block_io at h
  split at h
  · split at h
    · cases h; exact ⟨rfl, rfl, rfl⟩
    · split at h
      · cases h; exact ⟨rfl, rfl, rfl⟩
      · cases h; exact ⟨rfl, rfl, rfl⟩
      · exact block_io_transfer_mount_same h
      · have := block_io_transfer_mount_same h
        exact ⟨this.1, this.2.1, this.2.2⟩
      · exact block_io_transfer_mount_same h
  · exact block_io_transfer_mount_same h

theorem mount_same_bind_io {K : sd_consts} {s s0 s1 : sd_state} {env : host_env}
    {w : Bool} {ob : Option Nat} (h0 : mount_same s s0)
    (h : (ob.bind fun block => sdcard_block_io K s0 env block w) = some s1) :
    mount_same s s1 := by
  cases ob with
  | none => cases h
  | some b =>
    have := sdcard_block_io_mount_same (show sdcard_block_io K s0 env b w = some s1 from h)
    exact ⟨this.1.trans h0.1, this.2.1.trans h0.2.1, this.2.2.trans h0.2.2⟩

theorem mount_same_congr {s0 s s1 : sd_state} (h : mount_same s0 s1)
    (h0 : s0.mount_info = s.mount_info ∧ s0.d81 = s.d81
      ∧ s0.default_d81_path = s.default_d81_path := by exact ⟨rfl, rfl, rfl⟩) :
    mount_same s s1 :=
  ⟨h.1.trans h0.1, h.2.1.trans h0.2.1, h.2.2.trans h0.2.2⟩

theorem sdcard_command_switch_mount_same {K : sd_consts} {s s1 : sd_state}
    {env : host_env} {cmd : Nat} (h : sdcard_command_switch K s env cmd = some s1) :
    mount_same s s1 := by
  unfold sdcard_command_switch at h
  split at h
  all_goals first
    | (cases h; exact ⟨rfl, rfl, rfl⟩)
    | exact mount_same_bind_io ⟨rfl, rfl, rfl⟩ h
    | (simp only [Option.bind_eq_bind, Option.pure_def, Option.bind_eq_some] at h
       obtain ⟨r1, _, r2, _, r3, _, r4, _, h⟩ := h
       cases h; exact ⟨rfl, rfl, rfl⟩)
    | (split at h
       · first
         | exact mount_same_congr (sdcard_block_io_mount_same h)
         | (simp only [Option.bind_eq_bind, Option.bind_eq_some] at h
            obtain ⟨block, _, h⟩ := h
            exact mount_same_congr (sdcard_block_io_mount_same h))
       · cases h; exact ⟨rfl, rfl, rfl⟩)

theorem sdcard_command_mount_same {K : sd_consts} {s s1 : sd_state}
    {env : host_env} {cmd : Nat} (h : sdcard_command K s env cmd = some s1) :
    mount_same s s1 := by
  unfold sdcard_command at h
  simp only [Option.bind_eq_bind, Option.pure_def, Option.bind_eq_some] at h
  obtain ⟨s2, h2, h⟩ := h
  have := sdcard_command_switch_mount_same h2
  split at h <;> (cases h; exact ⟨this.1, this.2.1, this.2.2⟩)

theorem initial_kept_of_same {s s1 : sd_state} (h : s1.mount_info = s.mount_info) (u : Nat) :
    initial_kept u s s1 :=
  fun m hm => ⟨m, by rw [h]; exact hm, Or.inl rfl, Or.inl rfl⟩

theorem mount_wf_of_same {s s1 : sd_state} (hwf : mount_wf s) (h : mount_same s s1)
    (hregs : s1.sd_regs.length = s.sd_regs.length) : mount_wf s1 :=
  ⟨by rw [hregs]; exact hwf.regs_len, by rw [h.1]; exact hwf.info_len,
    by rw [h.2.1]; exact hwf.d81_len, by rw [h.2.2]; exact hwf.path_len,
    by rw [h.2.2]; exact hwf.paths_ok⟩

/-- Every register write that returns keeps the mount manager well formed and the
boot-time fields of both units. -/
theorem write_register_kept (K : sd_consts) (hK : K.WF) {s s1 : sd_state} (env : host_env)
    (reg data : Nat) (hwf : mount_wf s)
    (h : sdcard_write_register K s env reg data = some s1) :
    mount_wf s1 ∧ ∀ u, initial_kept u s s1 := by
  by_cases hreg : 0x0B ≤ reg ∧ reg ≤ 0x13
  · obtain ⟨s2, h2, hwf2, _, hi, _⟩ := write_mount_register K env reg data hwf hreg
    rw [h] at h2
    cases h2
    exact ⟨hwf2, hi⟩
  · have hsame : mount_same s s1 ∧ s1.sd_regs.length = s.sd_regs.length := by
      unfold sdcard_write_register at h
      simp only [Option.bind_eq_bind, Option.bind_eq_some] at h
      obtain ⟨prev, _, regs, hregs, h⟩ := h
      have hlen : regs.length = s.sd_regs.length := by
        rw [arr_set_some_iff] at hregs
        rw [hregs.2, List.length_set]
      split at h
      · have h1 := sdcard_command_mount_same h
        have h2 := (sdcard_command_frame hK h).1
        exact ⟨⟨h1.1, h1.2.1, h1.2.2⟩, h2.trans hlen⟩
      · simp only [Option.pure_def, Option.bind_eq_some] at h
        obtain ⟨_, _, h⟩ := h
        cases h
        exact ⟨⟨rfl, rfl, rfl⟩, hlen⟩
      · simp only [Option.pure_def, Option.bind_eq_some] at h
        obtain ⟨_, _, h⟩ := h
        cases h
        exact ⟨⟨rfl, rfl, rfl⟩, hlen⟩
      all_goals first
        | (exfalso; omega)
        | (cases h; exact ⟨⟨rfl, rfl, rfl⟩, hlen⟩)
    exact ⟨mount_wf_of_same hwf hsame.1 hsame.2, initial_kept_of_same hsame.1.1⟩

theorem some_mount_unforced (K : sd_consts) (s : sd_state) (env : host_env) (u : Nat)
    (m : mount_info_st) (hm : s.mount_info[u]? = some m) (hf : m.force_external_name = none) :
    some_mount K s env u = some_mount_fallback K s env u := by
  show some_mount_body (internal_mount K) s env u = _
  unfold some_mount_body some_mount_fallback
  simp only [Option.bind_eq_bind, arr_get, hm, Option.some_bind, hf]

/-- C17 (amended). Unmount postcondition: for either unit and from every mount state,
`sdcard_unmount` returns 0; afterwards the display name of the unit is the placeholder
text "<EMPTY>", its forced-external filename is none, its origin is 0 and its attachment
is closed, every other field of its descriptor is as before, a later mount evaluation of
the unit is decided by `internal_mount`, and the descriptor and the attachment of the
other unit are unchanged. -/
theorem unmount_postcondition (s : sd_state) (u : Nat) (hu : u = 0 ∨ u = 1)
    (hwf : mount_wf s) (m : mount_info_st) (hm : s.mount_info[u]? = some m) :
    ∃ s1 m1, sdcard_unmount s u = some (0, s1) ∧ mount_wf s1
      ∧ s1.mount_info[u]? = some m1
      ∧ m1 = { m with internal := 0, current_name := "<EMPTY>", force_external_name := none }
      ∧ s1.d81[u]? = some d81_attachment.empty
      ∧ s1.mount_info[1 - u]? = s.mount_info[1 - u]?
      ∧ s1.d81[1 - u]? = s.d81[1 - u]?
      ∧ (∀ K env, some_mount K s1 env u = some_mount_fallback K s1 env u) := by
  have hu2 : u < 2 := by rcases hu with h | h <;> omega
  obtain ⟨m0, d, p, hunit⟩ := unit_is_exists hwf hu2
  have : m0 = m := by rw [hunit.1] at hm; exact Option.some.inj hm
  subst this
  have hp := unit_is_path_ok hwf hunit
  have hne : 1 - u ≠ u := by rcases hu with h | h <;> omega
  have hout := unit_is_out hwf hu2
    { m0 with internal := 0, current_name := "<EMPTY>", force_external_name := none }
    d81_attachment.empty p
  have hoth := mount_out_other s u (1 - u) hne
    { m0 with internal := 0, current_name := "<EMPTY>", force_external_name := none }
    d81_attachment.empty p
  exact ⟨_, _, sdcard_unmount_eq hwf hu2 m0 d p hunit, mount_wf_out hwf _ _ p hp, hout.1, rfl,
    hout.2.1, hoth.1, hoth.2.1,
    fun K env => some_mount_unforced K _ env u _ hout.1 rfl⟩

theorem unmount_postcondition_witness :
    ∃ s1 m1, sdcard_unmount sd_forced_external 0 = some (0, s1) ∧ mount_wf s1
      ∧ s1.mount_info[0]? = some m1
      ∧ m1 = { forced_desc with internal := 0, current_name := "<EMPTY>",
                                force_external_name := none }
      ∧ s1.d81[0]? = some d81_attachment.empty
      ∧ s1.mount_info[1 - 0]? = sd_forced_external.mount_info[1 - 0]?
      ∧ s1.d81[1 - 0]? = sd_forced_external.d81[1 - 0]?
      ∧ (∀ K env, some_mount K s1 env 0 = some_mount_fallback K s1 env 0) :=
  unmount_postcondition sd_forced_external 0 (Or.inl rfl) sd_forced_external_wf forced_desc rfl

set_option maxRecDepth 100000 in
/-- C17, counterexample to the claim as stated: after `sdcard_unmount` of a unit with
the external file "disk.d81" attached, the display name of the unit is the seven
characters "<EMPTY>", not the empty string. -/
theorem unmount_display_name_placeholder :
    (sdcard_unmount sd_forced_external 0).map
        (fun r => (r.1, r.2.mount_info[0]?.map (fun m => m.current_name)))
      = some (0, some "<EMPTY>")
    ∧ "<EMPTY>" ≠ "" ∧ "<EMPTY>".length = 7 := by
  decide

theorem mount_update_none (s : sd_state) (u : Nat) (f : mount_info_st → mount_info_st)
    (h : s.mount_info.length ≤ u) : mount_update s u f = none := by
  unfold mount_update arr_get
  rw [List.getElem?_eq_none h]
  rfl

theorem start_window_eq {s : sd_state} (hwf : mount_wf s) (f : mount_info_st → mount_info_st) :
    ∃ m0 m1, s.mount_info = [m0, m1]
      ∧ (do
          let s1 ← mount_update s 0 f
          mount_update s1 1 f) = some { s with mount_info := [f m0, f m1] } := by
  have hlen := hwf.info_len
  match hmi : s.mount_info, hlen with
  | [m0, m1], _ =>
    refine ⟨m0, m1, rfl, ?_⟩
    rw [mount_update_eq s 0 f m0 (by rw [hmi]; rfl)]
    simp only [Option.bind_eq_bind, Option.some_bind]
    rw [mount_update_eq _ 1 f m1 (by simp [hmi])]
    simp [hmi]

theorem mount_wf_info {s : sd_state} (hwf : mount_wf s) (mi : List mount_info_st)
    (h : mi.length = 2) : mount_wf { s with mount_info := mi } :=
  ⟨hwf.regs_len, h, hwf.d81_len, hwf.path_len, hwf.paths_ok⟩

theorem pair_getElem? {α : Type} {a b x : α} {u : Nat} (h : [a, b][u]? = some x) :
    (u = 0 ∧ x = a) ∨ (u = 1 ∧ x = b) := by
  match u with
  | 0 => exact Or.inl ⟨rfl, (Option.some.inj h).symm⟩
  | 1 => exact Or.inr ⟨rfl, (Option.some.inj h).symm⟩
  | n + 2 => cases h

/-- Every operation other than the begin of the start window keeps the mount manager well
formed and changes the boot-time fields of a unit at most by the end of monitoring or by
one capture. -/
theorem mount_step_kept (K : sd_consts) (hK : K.WF) {s s1 : sd_state} (op : mount_op)
    (hop : op.is_begin = false) (hwf : mount_wf s) (h : mount_step K s op = some s1) :
    mount_wf s1 ∧ ∀ u, initial_kept u s s1 := by
  cases op with
  | write env reg data => exact write_register_kept K hK env reg data hwf h
  | force_external env unit filename =>
    by_cases hu : unit = 0 ∨ unit = 1
    · have hu2 : unit < 2 := by rcases hu with h | h <;> omega
      obtain ⟨m, d, p, hunit⟩ := unit_is_exists hwf hu2
      obtain ⟨r, m3, d3, p3, h3, hp3, hrel⟩ :=
        force_external_mount_spec K env filename hwf hu m d p hunit
      have hs1 : s1 = mount_out s unit m3 d3 p3 := by
        have h' : (sdcard_force_external_mount K s env unit filename).map Prod.snd = some s1 := h
        rw [h3] at h'
        exact (Option.some.inj h').symm
      obtain ⟨k1, _, k3, _⟩ := kept_of_out hwf hu2 d3 hunit hp3 hrel
      rw [hs1]
      exact ⟨k1, k3⟩
    · exfalso
      have hn := mount_update_none s unit
      have hlen : s.mount_info.length ≤ unit := by rw [hwf.info_len]; omega
      have h' : (sdcard_force_external_mount K s env unit filename).map Prod.snd = some s1 := h
      unfold sdcard_force_external_mount sdcard_force_external_mount_body at h'
      replace h := h'
      cases filename with
      | none => simp [hn _ hlen] at h
      | some fn => by_cases hfn : fn = "" <;> simp [hn _ hlen, hfn] at h
  | unmount unit =>
    by_cases hu2 : unit < 2
    · obtain ⟨m, d, p, hunit⟩ := unit_is_exists hwf hu2
      have hp := unit_is_path_ok hwf hunit
      have hs1 : s1 = mount_out s unit
          { m with internal := 0, current_name := "<EMPTY>", force_external_name := none }
          d81_attachment.empty p := by
        have h' : (sdcard_unmount s unit).map Prod.snd = some s1 := h
        rw [sdcard_unmount_eq hwf hu2 m d p hunit] at h'
        exact (Option.some.inj h').symm
      have hrel : desc_rel s unit m
          { m with internal := 0, current_name := "<EMPTY>", force_external_name := none } :=
        desc_rel_same s unit rfl rfl
      obtain ⟨k1, _, k3, _⟩ := kept_of_out hwf hu2 d81_attachment.empty hunit hp hrel
      rw [hs1]
      exact ⟨k1, k3⟩
    · exfalso
      have h' : (sdcard_unmount s unit).map Prod.snd = some s1 := h
      unfold sdcard_unmount d81access_close arr_set at h'
      rw [if_neg (by rw [hwf.d81_len]; exact hu2)] at h'
      cases h'
  | start_begin => cases hop
  | start_end =>
    obtain ⟨m0, m1, hmi, heq⟩ := start_window_eq hwf (fun m => { m with monitoring_initial := 0 })
    have hs1 : s1 = { s with mount_info := [{ m0 with monitoring_initial := 0 },
        { m1 with monitoring_initial := 0 }] } := by
      have h' : sdcard_notify_system_start_end s = some s1 := h
      unfold sdcard_notify_system_start_end at h'
      rw [heq] at h'
      exact (Option.some.inj h').symm
    rw [hs1]
    refine ⟨mount_wf_info hwf _ rfl, ?_⟩
    intro u m hm
    rw [hmi] at hm
    rcases pair_getElem? hm with ⟨h0, hx⟩ | ⟨h0, hx⟩ <;> subst h0 <;> subst hx
    · exact ⟨_, rfl, Or.inr rfl, Or.inl rfl⟩
    · exact ⟨_, rfl, Or.inr rfl, Or.inl rfl⟩

/-- A sequence of operations without a begin of the start window keeps the mount manager
well formed and changes the boot-time fields of a unit at most by the end of monitoring
or by one capture. -/
theorem run_ops_kept (K : sd_consts) (hK : K.WF) (ops : List mount_op) :
    ∀ (s s1 : sd_state), (∀ op, op ∈ ops → op.is_begin = false) → mount_wf s →
      run_ops K s ops = some s1 → mount_wf s1 ∧ ∀ u, initial_kept u s s1 := by
  induction ops with
  | nil =>
    intro s s1 _ hwf h
    cases h
    exact ⟨hwf, fun u => initial_kept_refl u s⟩
  | cons op rest ih =>
    intro s s1 hops hwf h
    unfold run_ops at h
    cases hstep : mount_step K s op with
    | none => rw [hstep] at h; cases h
    | some s2 =>
      rw [hstep] at h
      obtain ⟨hwf2, hk2⟩ := mount_step_kept K hK op (hops op (List.mem_cons_self _ _)) hwf hstep
      obtain ⟨hwf1, hk1⟩ := ih s2 s1 (fun o ho => hops o (List.mem_cons_of_mem _ ho)) hwf2 h
      exact ⟨hwf1, fun u => initial_kept_trans (hk2 u) (hk1 u)⟩

theorem virtual_boot_wf : mount_wf sd_virtual_boot :=
  ⟨List.length_replicate _ _, rfl, rfl, rfl, paths_ok_none⟩

theorem and_511 (n : Nat) : n &&& 511 = n % 512 :=
  Nat.and_pow_two_sub_one_eq_mod n 9

theorem size_window_none_iff (n : Nat) :
    size_window n = none ↔ (67108864 ≤ n ∧ n ≤ 34359738368 ∧ n % 512 = 0) := by
  unfold size_window
  rw [and_511]
  by_cases h1 : n < 67108864
  · rw [if_pos h1]
    constructor
    · intro h; cases h
    · intro h; omega
  · rw [if_neg h1]
    by_cases h2 : n % 512 ≠ 0
    · rw [if_pos h2]
      constructor
      · intro h; cases h
      · intro h; omega
    · rw [if_neg h2]
      by_cases h3 : n > 34359738368
      · rw [if_pos h3]
        constructor
        · intro h; cases h
        · intro h; omega
      · rw [if_neg h3]
        constructor
        · intro _; omega
        · intro _; rfl

/-- What `detect_compressed_image` leaves alone, and the only window it shows. -/
theorem detect_compressed_image_frame (C : init_consts) (s : sd_state) (seek_ok : Bool)
    (io_limit : Nat) :
    (detect_compressed_image C s seek_ok io_limit).2.1.sdfd = s.sdfd
    ∧ (detect_compressed_image C s seek_ok io_limit).2.1.vdisk = s.vdisk
    ∧ (detect_compressed_image C s seek_ok io_limit).2.1.sd_image = s.sd_image
    ∧ ∀ w, w ∈ (detect_compressed_image C s seek_ok io_limit).2.2 →
        w = ui_window.error "Invalid/unknown compressed image format" := by
  unfold detect_compressed_image
  simp only []
  split
  · exact ⟨rfl, rfl, rfl, fun w h => by cases h⟩
  · split
    · exact ⟨rfl, rfl, rfl, fun w h => by cases h⟩
    · split
      · exact ⟨rfl, rfl, rfl, fun w h => by cases h⟩
      · split
        · exact ⟨rfl, rfl, rfl, fun w h => by simpa using h⟩
        · exact ⟨rfl, rfl, rfl, fun w h => by cases h⟩

/-- The part of `sdcard_init` after `retry:` for a file that opens and whose size can be
queried: the result is decided by the size checks, in their order. -/
theorem sdcard_init_open_file (C : init_consts) (H : init_host) (v : Bool) (s0 : sd_state)
    (jc : Bool) (log0 : List ui_window)
    (a : open_attempt) (rest : List open_attempt)
    (hfd : 0 ≤ a.fd) (hsize : H.size_known = true) :
    ∃ (t : sd_state) (log : List ui_window),
      t.sdfd = a.fd ∧ t.sdcard_size_in_blocks = (a.image.length >>> 9) % 2 ^ 32
      ∧ t.vdisk = s0.vdisk ∧ t.sd_image = a.image
      ∧ (∀ w, w ∈ [msg_too_small, msg_misaligned, msg_too_large] → w ∈ log → w ∈ log0)
      ∧ sdcard_init_open C H v (a :: rest) jc s0 log0
        = (match size_window a.image.length with
          | some w => some (-1, { t with sdfd := -1 }, log ++ [w])
          | none => some (sdcard_init_tail C H v t jc log))
      ∧ ∃ s1 : sd_state, s1.sd_image = a.image
          ∧ t.sd_compressed = (detect_compressed_image C s1 H.seek_ok H.io_limit).1 := by
  have hnfd : ¬ a.fd < 0 := by omega
  obtain ⟨f1, f2, f3, f4⟩ := detect_compressed_image_frame C
    { s0 with sdfd := a.fd, sd_is_read_only := if a.first_mode_used then 0 else 1,
              sd_image := a.image, sd_image_pos := 0 } H.seek_ok H.io_limit
  have hs1 : ∃ s1 : sd_state, s1.sd_image = a.image
      ∧ (detect_compressed_image C
          { s0 with sdfd := a.fd, sd_is_read_only := if a.first_mode_used then 0 else 1,
                    sd_image := a.image, sd_image_pos := 0 } H.seek_ok H.io_limit).1
        = (detect_compressed_image C s1 H.seek_ok H.io_limit).1 := ⟨_, rfl, rfl⟩
  generalize hd : detect_compressed_image C
    { s0 with sdfd := a.fd, sd_is_read_only := if a.first_mode_used then 0 else 1,
              sd_image := a.image, sd_image_pos := 0 } H.seek_ok H.io_limit = d
    at f1 f2 f3 f4 hs1
  refine ⟨{ (if d.1 < 0 then { { d.2.1 with sd_compressed := d.1 } with
                sdcard_size_in_blocks := 0 }
             else { d.2.1 with sd_compressed := d.1 }) with
              sdcard_size_in_blocks := (a.image.length >>> 9) % 2 ^ 32 },
    (if d.1 < 0 then
        ((if (if a.first_mode_used then (0 : Int) else 1) ≠ 0 then
            log0 ++ [ui_window.info ("SDCARD: image file " ++ a.fnbuf
              ++ " could be open only in R/O mode!")]
          else log0) ++ d.2.2)
          ++ [ui_window.error "Error while trying to detect compressed SD-image"]
      else (if (if a.first_mode_used then (0 : Int) else 1) ≠ 0 then
            log0 ++ [ui_window.info ("SDCARD: image file " ++ a.fnbuf
              ++ " could be open only in R/O mode!")]
          else log0) ++ d.2.2), ?_, rfl, ?_, ?_, ?_, ?_, ?_⟩
  · show (if d.1 < 0 then _ else _ : sd_state).sdfd = a.fd
    split <;> exact f1
  · show (if d.1 < 0 then _ else _ : sd_state).vdisk = s0.vdisk
    split <;> exact f2
  · show (if d.1 < 0 then _ else _ : sd_state).sd_image = a.image
    split <;> exact f3
  · intro w hw hin
    have hne : w ≠ ui_window.error "Invalid/unknown compressed image format"
        ∧ w ≠ ui_window.error "Error while trying to detect compressed SD-image"
        ∧ w ≠ ui_window.info ("SDCARD: image file " ++ a.fnbuf
              ++ " could be open only in R/O mode!") := by
      simp only [List.mem_cons, List.mem_singleton, List.not_mem_nil, or_false] at hw
      rcases hw with h | h | h <;> subst h <;>
        refine ⟨by decide, by decide, fun h => by cases h⟩
    have hbase : ∀ l : List ui_window, w ∈ (if (if a.first_mode_used then (0 : Int) else 1) ≠ 0
          then l ++ [ui_window.info ("SDCARD: image file " ++ a.fnbuf
              ++ " could be open only in R/O mode!")]
          else l) ++ d.2.2 → w ∈ l := by
      intro l h
      rcases List.mem_append.mp h with h | h
      · by_cases hro : (if a.first_mode_used then (0 : Int) else 1) ≠ 0
        · rw [if_pos hro] at h
          rcases List.mem_append.mp h with h | h
          · exact h
          · exact absurd (List.mem_singleton.mp h) hne.2.2
        · rw [if_neg hro] at h
          exact h
      · exact absurd (f4 w h) hne.1
    split at hin
    · rcases List.mem_append.mp hin with h | h
      · exact hbase log0 h
      · exact absurd (List.mem_singleton.mp h) hne.2.1
    · exact hbase log0 hin
  · unfold sdcard_init_open size_window
    simp only [hnfd, if_false, hsize, Bool.not_true, Bool.false_eq_true, hd]
    by_cases h1 : a.image.length < 67108864
    · simp only [if_pos h1]
      by_cases hneg : d.1 < 0 <;> simp only [hneg, if_true, if_false] <;> rfl
    · simp only [if_neg h1]
      by_cases h2 : a.image.length &&& 511 ≠ 0
      · simp only [if_pos h2]
        by_cases hneg : d.1 < 0 <;> simp only [hneg, if_true, if_false] <;> rfl
      · simp only [if_neg h2]
        by_cases h3 : a.image.length > 34359738368
        · simp only [if_pos h3]
          by_cases hneg : d.1 < 0 <;> simp only [hneg, if_true, if_false] <;> rfl
        · simp only [if_neg h3]
  · obtain ⟨s1, h1, h2⟩ := hs1
    refine ⟨s1, h1, ?_⟩
    rw [← h2]
    show (if d.1 < 0 then _ else _ : sd_state).sd_compressed = d.1
    split <;> rfl

theorem mem_ite_append_single {α : Type} (w x : α) (l : List α) (c : Prop) [Decidable c]
    (hne : w ≠ x) (h : w ∈ (if c then l ++ [x] else l)) : w ∈ l := by
  split at h
  · rcases List.mem_append.mp h with h | h
    · exact h
    · exact absurd (List.mem_singleton.mp h) hne
  · exact h

theorem size_msg_ne_info (w : ui_window)
    (hw : w ∈ [msg_too_small, msg_misaligned, msg_too_large]) (x : String) :
    w ≠ ui_window.info x := by
  simp only [List.mem_cons, List.mem_singleton, List.not_mem_nil, or_false] at hw
  rcases hw with h | h | h <;> subst h <;> exact fun h => by cases h

theorem mem_ite_append_info (w : ui_window)
    (hw : w ∈ [msg_too_small, msg_misaligned, msg_too_large]) (x : String)
    (l : List ui_window) (c : Prop) [Decidable c]
    (h : w ∈ (if c then l ++ [ui_window.info x] else l)) : w ∈ l :=
  mem_ite_append_single w _ l c (size_msg_ne_info w hw x) h

theorem sdcard_init_tail_fst (C : init_consts) (H : init_host) (v : Bool) (t : sd_state)
    (jc : Bool) (log : List ui_window) :
    (sdcard_init_tail C H v t jc log).1 = t.sdfd
    ∧ (sdcard_init_tail C H v t jc log).2.1.sdfd = t.sdfd
    ∧ (sdcard_init_tail C H v t jc log).2.1.sdcard_size_in_blocks = t.sdcard_size_in_blocks
    ∧ (∀ w, w ∈ [msg_too_small, msg_misaligned, msg_too_large] →
        w ∈ (sdcard_init_tail C H v t jc log).2.2 → w ∈ log) := by
  unfold sdcard_init_tail
  by_cases hfd : t.sdfd ≥ 0
  · rw [if_pos hfd]
    cases v
    · rw [if_pos (by rfl)]
      refine ⟨rfl, rfl, rfl, ?_⟩
      intro w hw hin
      have hne2 : w ≠ ui_window.error "Warning! Cannot read SD-card to get Xemu signature!" := by
        simp only [List.mem_cons, List.mem_singleton, List.not_mem_nil, or_false] at hw
        rcases hw with h | h | h <;> subst h <;> decide
      refine mem_ite_append_info w hw
        "Your just created SD-card image file has\nbeen auto-fdisk/format'ed by Xemu. Great :)."
        log (jc = true ∧ H.sdcontent_handle = 0) ?_
      have hin2 : w ∈ (if H.signature < 0 then _ else if H.signature = 0 then _
          else if H.signature < C.MEMCONTENT_VERSION_ID then _
          else if H.signature > C.MEMCONTENT_VERSION_ID then _ else _) := hin
      split at hin2
      · rcases List.mem_append.mp hin2 with h | h
        · exact h
        · exact absurd (List.mem_singleton.mp h) hne2
      · split at hin2
        · rcases List.mem_append.mp hin2 with h | h
          · exact h
          · exact absurd (List.mem_singleton.mp h) (size_msg_ne_info w hw _)
        · split at hin2
          · rcases List.mem_append.mp hin2 with h | h
            · exact h
            · exact absurd (List.mem_singleton.mp h) (size_msg_ne_info w hw _)
          · split at hin2
            · rcases List.mem_append.mp hin2 with h | h
              · exact h
              · exact absurd (List.mem_singleton.mp h) (size_msg_ne_info w hw _)
            · exact hin2
    · rw [if_neg (by decide)]
      refine ⟨rfl, ?_, ?_, ?_⟩
      · cases jc <;> rfl
      · cases jc <;> rfl
      · intro w hw hin
        exact mem_ite_append_info w hw _ log (jc = true ∧ H.sdcontent_handle = 0) hin
  · rw [if_neg hfd]
    exact ⟨rfl, rfl, rfl, fun w _ h => h⟩

theorem size_window_mem (n : Nat) (w : ui_window) :
    (size_window n = some w) →
      (w = msg_too_small ↔ n < 67108864)
      ∧ (w = msg_misaligned ↔ 67108864 ≤ n ∧ n % 512 ≠ 0)
      ∧ (w = msg_too_large ↔ 34359738368 < n ∧ n % 512 = 0) := by
  unfold size_window
  rw [and_511]
  intro h
  have d12 : msg_too_small ≠ msg_misaligned := by decide
  have d13 : msg_too_small ≠ msg_too_large := by decide
  have d23 : msg_misaligned ≠ msg_too_large := by decide
  by_cases h1 : n < 67108864
  · rw [if_pos h1] at h
    cases h
    refine ⟨⟨fun _ => h1, fun _ => rfl⟩, ⟨fun h => absurd h d12, fun h => by omega⟩,
      ⟨fun h => absurd h d13, fun h => by omega⟩⟩
  · rw [if_neg h1] at h
    by_cases h2 : n % 512 ≠ 0
    · rw [if_pos h2] at h
      cases h
      refine ⟨⟨fun h => absurd h.symm d12, fun h => by omega⟩,
        ⟨fun _ => ⟨by omega, h2⟩, fun _ => rfl⟩,
        ⟨fun h => absurd h d23, fun h => by omega⟩⟩
    · rw [if_neg h2] at h
      by_cases h3 : n > 34359738368
      · rw [if_pos h3] at h
        cases h
        refine ⟨⟨fun h => absurd h.symm d13, fun h => by omega⟩,
          ⟨fun h => absurd h.symm d23, fun h => by omega⟩,
          ⟨fun _ => ⟨h3, by omega⟩, fun _ => rfl⟩⟩
      · rw [if_neg h3] at h
        cases h

theorem sdcard_init_direct (C : init_consts) (H : init_host) (s0 : sd_state) (dflt : Nat)
    (hmode : s0.vdisk.mode = 0) :
    ∃ s1 : sd_state, s1.vdisk = s0.vdisk
      ∧ sdcard_init C H s0 false dflt = sdcard_init_open C H false H.attempts false s1 [] := by
  unfold sdcard_init
  simp only [Bool.false_eq_true, if_false]
  have hm : ¬ s0.vdisk.mode ≠ 0 := by simp [hmode]
  rw [if_neg hm]
  refine ⟨_, ?_, rfl⟩
  rfl

/-- The outcome of `sdcard_init` for a direct image file of `a.image.length` bytes that
opens and whose size can be queried. -/
theorem sdcard_init_size_checks (C : init_consts) (H : init_host) (s0 : sd_state)
    (dflt : Nat) (a : open_attempt) (rest : List open_attempt)
    (hattempts : H.attempts = a :: rest) (hmode : s0.vdisk.mode = 0)
    (hfd : 0 ≤ a.fd) (hsize : H.size_known = true) :
    ∃ (r : Int) (t : sd_state) (log : List ui_window),
      sdcard_init C H s0 false dflt = some (r, t, log)
      ∧ (0 ≤ r ↔ (67108864 ≤ a.image.length ∧ a.image.length ≤ 34359738368
                  ∧ a.image.length % 512 = 0))
      ∧ (0 ≤ r → r = a.fd ∧ t.sdfd = a.fd)
      ∧ (¬ 0 ≤ r → r = -1 ∧ t.sdfd = -1)
      ∧ (msg_too_small ∈ log ↔ a.image.length < 67108864)
      ∧ (msg_misaligned ∈ log ↔ (67108864 ≤ a.image.length ∧ a.image.length % 512 ≠ 0))
      ∧ (msg_too_large ∈ log ↔ (34359738368 < a.image.length ∧ a.image.length % 512 = 0)) := by
  obtain ⟨s1, _, heq⟩ := sdcard_init_direct C H s0 dflt hmode
  rw [hattempts] at heq
  obtain ⟨t, log, ht1, _, _, _, hlog, hopen, _⟩ :=
    sdcard_init_open_file C H false s1 false [] a rest hfd hsize
  rw [hopen] at heq
  have hnone := size_window_none_iff a.image.length
  cases hw : size_window a.image.length with
  | some w =>
    rw [hw] at heq
    have hne : ¬ (67108864 ≤ a.image.length ∧ a.image.length ≤ 34359738368
        ∧ a.image.length % 512 = 0) := by
      intro h; rw [hnone.mpr h] at hw; cases hw
    obtain ⟨m1, m2, m3⟩ := size_window_mem a.image.length w hw
    have hmem : ∀ x, x ∈ [msg_too_small, msg_misaligned, msg_too_large] →
        (x ∈ log ++ [w] ↔ w = x) := by
      intro x hx
      constructor
      · intro h
        rcases List.mem_append.mp h with h | h
        · exact absurd (hlog x hx h) (List.not_mem_nil x)
        · exact (List.mem_singleton.mp h).symm
      · intro h
        exact List.mem_append.mpr (Or.inr (List.mem_singleton.mpr h.symm))
    refine ⟨-1, { t with sdfd := -1 }, log ++ [w], heq, ?_, ?_, ?_, ?_, ?_, ?_⟩
    · exact ⟨fun h => absurd h (by decide), fun h => absurd h hne⟩
    · intro h; exact absurd h (by decide)
    · intro _; exact ⟨rfl, rfl⟩
    · exact (hmem _ (by simp)).trans m1
    · exact (hmem _ (by simp)).trans m2
    · exact (hmem _ (by simp)).trans m3
  | none =>
    rw [hw] at heq
    have hok := hnone.mp hw
    obtain ⟨t1, t2, _, t4⟩ := sdcard_init_tail_fst C H false t false log
    have hno : ∀ x, x ∈ [msg_too_small, msg_misaligned, msg_too_large] →
        x ∉ (sdcard_init_tail C H false t false log).2.2 :=
      fun x hx h => absurd (hlog x hx (t4 x hx h)) (List.not_mem_nil x)
    refine ⟨(sdcard_init_tail C H false t false log).1,
      (sdcard_init_tail C H false t false log).2.1,
      (sdcard_init_tail C H false t false log).2.2, heq, ?_, ?_, ?_, ?_, ?_, ?_⟩
    · rw [t1, ht1]; exact ⟨fun _ => hok, fun _ => hfd⟩
    · intro _; exact ⟨t1.trans ht1, t2.trans ht1⟩
    · intro h; rw [t1, ht1] at h; exact absurd hfd h
    · exact ⟨fun h => absurd h (hno _ (by simp)), fun h => by omega⟩
    · exact ⟨fun h => absurd h (hno _ (by simp)), fun h => by omega⟩
    · exact ⟨fun h => absurd h (hno _ (by simp)), fun h => by omega⟩

/-- C19 (as the code has it): when `sdcard_init` opens a direct image file of `s` bytes
(the file opens and its size can be queried), the backend is accepted, with the file
descriptor as return value, if and only if 67108864 <= s <= 34359738368 and s is a
multiple of 512; every other size gives return value -1 and `sdfd = -1`. The checks run in
the order too small, misaligned, too large and the first failing one reports: "too small"
exactly when s < 64 MiB, "not multiple of 512" exactly when s >= 64 MiB and s is not a
multiple of 512, "too large" exactly when s > 32 GiB and s is a multiple of 512. -/
theorem image_size_validation (C : init_consts) (H : init_host) (s0 : sd_state)
    (dflt : Nat) (a : open_attempt) (rest : List open_attempt)
    (hattempts : H.attempts = a :: rest) (hmode : s0.vdisk.mode = 0)
    (hfd : 0 ≤ a.fd) (hsize : H.size_known = true) :
    ∃ (r : Int) (t : sd_state) (log : List ui_window),
      sdcard_init C H s0 false dflt = some (r, t, log)
      ∧ (0 ≤ r ↔ (67108864 ≤ a.image.length ∧ a.image.length ≤ 34359738368
                  ∧ a.image.length % 512 = 0))
      ∧ (0 ≤ r → r = a.fd ∧ t.sdfd = a.fd)
      ∧ (¬ 0 ≤ r → r = -1 ∧ t.sdfd = -1)
      ∧ (msg_too_small ∈ log ↔ a.image.length < 67108864)
      ∧ (msg_misaligned ∈ log ↔ (67108864 ≤ a.image.length ∧ a.image.length % 512 ≠ 0))
      ∧ (msg_too_large ∈ log ↔ (34359738368 < a.image.length ∧ a.image.length % 512 = 0)) :=
  sdcard_init_size_checks C H s0 dflt a rest hattempts hmode hfd hsize

theorem image_size_validation_witness :
    (host_plain (List.replicate 1000 0)).attempts = [plain_attempt (List.replicate 1000 0)]
    ∧ sd_static.vdisk.mode = 0
    ∧ 0 ≤ (plain_attempt (List.replicate 1000 0)).fd
    ∧ (host_plain (List.replicate 1000 0)).size_known = true
    ∧ ∃ (r : Int) (t : sd_state) (log : List ui_window),
      sdcard_init C_ref (host_plain (List.replicate 1000 0)) sd_static false 0
        = some (r, t, log)
      ∧ (0 ≤ r ↔ (67108864 ≤ (plain_attempt (List.replicate 1000 0)).image.length
                  ∧ (plain_attempt (List.replicate 1000 0)).image.length ≤ 34359738368
                  ∧ (plain_attempt (List.replicate 1000 0)).image.length % 512 = 0))
      ∧ (0 ≤ r → r = (plain_attempt (List.replicate 1000 0)).fd
                  ∧ t.sdfd = (plain_attempt (List.replicate 1000 0)).fd)
      ∧ (¬ 0 ≤ r → r = -1 ∧ t.sdfd = -1)
      ∧ (msg_too_small ∈ log ↔ (plain_attempt (List.replicate 1000 0)).image.length < 67108864)
      ∧ (msg_misaligned ∈ log ↔ (67108864 ≤ (plain_attempt (List.replicate 1000 0)).image.length
          ∧ (plain_attempt (List.replicate 1000 0)).image.length % 512 ≠ 0))
      ∧ (msg_too_large ∈ log ↔ (34359738368 < (plain_attempt (List.replicate 1000 0)).image.length
          ∧ (plain_attempt (List.replicate 1000 0)).image.length % 512 = 0)) :=
  ⟨rfl, rfl, show (0 : Int) ≤ 3 by decide, rfl,
    image_size_validation C_ref (host_plain (List.replicate 1000 0)) sd_static 0
      (plain_attempt (List.replicate 1000 0)) [] rfl rfl (show (0 : Int) ≤ 3 by decide) rfl⟩

set_option maxRecDepth 100000 in
/-- C19, the literal reading fails: a file of 1000 bytes is not a multiple of 512 bytes
long, and `sdcard_init` shows the "too small" window only, never the "not multiple of 512"
one. -/
theorem misaligned_small_image_reported_too_small :
    1000 % 512 ≠ 0
    ∧ (sdcard_init C_ref (host_plain (List.replicate 1000 0)) sd_static false 0).map
        (fun r => (r.1, r.2.1.sdfd, r.2.2)) = some (-1, -1, [msg_too_small])
    ∧ msg_misaligned ∉ [msg_too_small] := by
  refine ⟨by decide, ?_, by decide⟩
  rfl

theorem getD_lt_of_all {l : List Nat} (h : ∀ b ∈ l, b < 256) (i : Nat) : l.getD i 0 < 256 := by
  rw [List.getD_eq_getElem?_getD]
  cases hi : l[i]? with
  | none => simp
  | some x =>
    obtain ⟨hlt, hx⟩ := List.getElem?_eq_some.mp hi
    have := h x (hx ▸ List.getElem_mem hlt)
    simpa using this

theorem or_shift_eq_be (a b c : Nat) (hb : b < 256) (hc : c < 256) :
    (a <<< 16) ||| (b <<< 8) ||| c = a * 65536 + b * 256 + c := by
  have h1 : (b <<< 8) ||| c = 2 ^ 8 * b + c := by
    rw [Nat.shiftLeft_eq, Nat.mul_comm b]
    exact (Nat.mul_add_lt_is_or (show c < 2 ^ 8 from hc) b).symm
  have h2 : 2 ^ 8 * b + c < 2 ^ 16 := by omega
  rw [Nat.lor_assoc, h1, Nat.shiftLeft_eq, Nat.mul_comm a,
    ← Nat.mul_add_lt_is_or h2 a]
  omega

theorem be24_lt (hdr : List Nat) (h : ∀ b ∈ hdr, b < 256) (off : Nat) :
    be24 hdr off < 2 ^ 24 := by
  have h0 := getD_lt_of_all h off
  have h1 := getD_lt_of_all h (off + 1)
  have h2 := getD_lt_of_all h (off + 2)
  unfold be24
  omega

theorem host_read_header (hdr rest : List Nat) (io_limit : Nat) (hlen : hdr.length = 512)
    (hio : 512 ≤ io_limit) : host_read (hdr ++ rest) 0 512 io_limit = hdr := by
  unfold host_read
  rw [List.drop_zero, List.take_take, Nat.min_eq_right hio, ← hlen, List.take_left]

/-- What `detect_compressed_image` does with a 512-byte header read from offset 0. -/
theorem detect_compressed_image_header (C : init_consts) (s : sd_state) (io_limit : Nat)
    (hdr rest : List Nat) (hlen : hdr.length = 512) (hbytes : ∀ b ∈ hdr, b < 256)
    (himg : s.sd_image = hdr ++ rest) (hio : 512 ≤ io_limit) :
    (hdr.take 28 ≠ compressed_marker →
      detect_compressed_image C s true io_limit = (0, { s with sd_image_pos := 512 }, []))
    ∧ (hdr.take 28 = compressed_marker → be24 hdr 0x1C ≠ 3 →
        detect_compressed_image C s true io_limit
          = (-1, { s with sd_image_pos := 512 },
              [ui_window.error "Invalid/unknown compressed image format"]))
    ∧ (hdr.take 28 = compressed_marker → be24 hdr 0x1C = 3 →
        detect_compressed_image C s true io_limit
          = (1, { s with sd_image_pos := 512
                         sdcard_size_in_blocks := be24 hdr 0x1F
                         sd_bdata_start := 0x22 + 3 * be24 hdr 0x1F
                         sd_is_read_only := C.O_RDONLY }, [])) := by
  have hread := host_read_header hdr rest io_limit hlen hio
  have hv : (hdr.getD 0x1C 0 <<< 16) ||| (hdr.getD 0x1D 0 <<< 8) ||| hdr.getD 0x1E 0
      = be24 hdr 0x1C :=
    or_shift_eq_be _ _ _ (getD_lt_of_all hbytes _) (getD_lt_of_all hbytes _)
  have hc : (hdr.getD 0x1F 0 <<< 16) ||| (hdr.getD 0x20 0 <<< 8) ||| hdr.getD 0x21 0
      = be24 hdr 0x1F :=
    or_shift_eq_be _ _ _ (getD_lt_of_all hbytes _) (getD_lt_of_all hbytes _)
  have hlt := be24_lt hdr hbytes 0x1F
  have hsz : be24 hdr 0x1F % 2 ^ 32 = be24 hdr 0x1F := Nat.mod_eq_of_lt (by omega)
  have hst : (3 * be24 hdr 0x1F + 0x22) % 2 ^ 32 = 0x22 + 3 * be24 hdr 0x1F := by
    rw [Nat.mod_eq_of_lt (by omega)]; omega
  have hnl : ¬ hdr.length ≠ 512 := by simp [hlen]
  unfold detect_compressed_image
  simp only [Bool.not_true, Bool.false_eq_true, if_false, himg, hread, hv, hc, hsz, hst]
  rw [if_neg hnl]
  refine ⟨?_, ?_, ?_⟩
  · intro hm
    rw [if_pos hm, hlen]
  · intro hm hver
    rw [if_neg (not_not.mpr hm), if_pos hver, hlen]
  · intro hm hver
    rw [if_neg (not_not.mpr hm), if_neg (not_not.mpr hver), hlen]

/-- C20 (as the code has it): for every 512-byte header read from offset 0,
`detect_compressed_image` returns 0 when the first 28 bytes differ from the marker and its
NUL; returns -1 with the format-error window when they match but the 3-byte big-endian
value at 0x1C is not 3; and otherwise returns 1 with the block count set to the 3-byte
big-endian value at 0x1F, the payload start set to 0x22 + 3 * count, and `sd_is_read_only`
set to the constant `O_RDONLY`. Nothing else changes but the file position. -/
theorem compressed_header_classification (C : init_consts) (s : sd_state) (io_limit : Nat)
    (hdr rest : List Nat) (hlen : hdr.length = 512) (hbytes : ∀ b ∈ hdr, b < 256)
    (himg : s.sd_image = hdr ++ rest) (hio : 512 ≤ io_limit) :
    (hdr.take 28 ≠ compressed_marker →
      detect_compressed_image C s true io_limit = (0, { s with sd_image_pos := 512 }, []))
    ∧ (hdr.take 28 = compressed_marker → be24 hdr 0x1C ≠ 3 →
        detect_compressed_image C s true io_limit
          = (-1, { s with sd_image_pos := 512 },
              [ui_window.error "Invalid/unknown compressed image format"]))
    ∧ (hdr.take 28 = compressed_marker → be24 hdr 0x1C = 3 →
        detect_compressed_image C s true io_limit
          = (1, { s with sd_image_pos := 512
                         sdcard_size_in_blocks := be24 hdr 0x1F
                         sd_bdata_start := 0x22 + 3 * be24 hdr 0x1F
                         sd_is_read_only := C.O_RDONLY }, [])) :=
  detect_compressed_image_header C s io_limit hdr rest hlen hbytes himg hio

set_option maxRecDepth 100000 in
theorem compressed_header_classification_witness :
    header_five.length = 512 ∧ (∀ b ∈ header_five, b < 256)
    ∧ header_five.take 28 = compressed_marker ∧ be24 header_five 0x1C = 3
    ∧ detect_compressed_image C_ref { sd_static with sd_image := header_five } true 512
        = (1, { { sd_static with sd_image := header_five } with
                  sd_image_pos := 512
                  sdcard_size_in_blocks := be24 header_five 0x1F
                  sd_bdata_start := 0x22 + 3 * be24 header_five 0x1F
                  sd_is_read_only := C_ref.O_RDONLY }, []) :=
  ⟨by decide, by decide, by decide, by decide,
    (compressed_header_classification C_ref { sd_static with sd_image := header_five } 512
      header_five [] (by decide) (by decide) (List.append_nil _).symm (Nat.le_refl _)).2.2
      (by decide) (by decide)⟩

set_option maxRecDepth 100000 in
/-- C20, the read-only flag: where `O_RDONLY` is 0 a well-formed header declaring 5 blocks
is accepted (return value 1, count 5, payload start 0x31) and `sd_is_read_only` is left 0,
so the backend is not flagged read-only. -/
theorem compressed_image_not_flagged_read_only :
    C_ref.O_RDONLY = 0
    ∧ (detect_compressed_image C_ref { sd_static with sd_image := header_five } true 512).1 = 1
    ∧ (detect_compressed_image C_ref { sd_static with sd_image := header_five } true
        512).2.1.sdcard_size_in_blocks = 5
    ∧ (detect_compressed_image C_ref { sd_static with sd_image := header_five } true
        512).2.1.sd_bdata_start = 0x31
    ∧ (detect_compressed_image C_ref { sd_static with sd_image := header_five } true
        512).2.1.sd_is_read_only = 0 := by
  refine ⟨rfl, ?_, ?_, ?_, ?_⟩ <;> decide

theorem sdcard_init_tail_compressed (C : init_consts) (H : init_host) (v : Bool)
    (t : sd_state) (jc : Bool) (log : List ui_window) :
    (sdcard_init_tail C H v t jc log).2.1.sd_compressed = t.sd_compressed := by
  unfold sdcard_init_tail
  by_cases hfd : t.sdfd ≥ 0
  · rw [if_pos hfd]
    cases v
    · rfl
    · rw [if_neg (by decide)]
      cases jc <;> rfl
  · rw [if_neg hfd]

theorem shift9_mod (n : Nat) (h : n ≤ 34359738368) : (n >>> 9) % 2 ^ 32 = n / 512 := by
  rw [Nat.shiftRight_eq_div_pow]
  exact Nat.mod_eq_of_lt (by omega)

/-- The capacity and the compression mode `sdcard_init` leaves for a direct image file
that opens, whose size can be queried and whose first 512 bytes carry the marker. -/
theorem sdcard_init_capacity (C : init_consts) (H : init_host) (s0 : sd_state)
    (dflt : Nat) (a : open_attempt) (rest : List open_attempt) (hdr body : List Nat)
    (hattempts : H.attempts = a :: rest) (hmode : s0.vdisk.mode = 0)
    (hfd : 0 ≤ a.fd) (hsize : H.size_known = true) (hseek : H.seek_ok = true)
    (hio : 512 ≤ H.io_limit) (himage : a.image = hdr ++ body) (hlen : hdr.length = 512)
    (hbytes : ∀ b ∈ hdr, b < 256) (hmagic : hdr.take 28 = compressed_marker)
    (hvalid : 67108864 ≤ a.image.length ∧ a.image.length ≤ 34359738368
      ∧ a.image.length % 512 = 0) :
    ∃ (t : sd_state) (log : List ui_window),
      sdcard_init C H s0 false dflt = some (a.fd, t, log)
      ∧ t.sdfd = a.fd
      ∧ sdcard_get_size t = a.image.length / 512
      ∧ (be24 hdr 0x1C = 3 → t.sd_compressed = 1)
      ∧ (be24 hdr 0x1C ≠ 3 → t.sd_compressed = -1) := by
  obtain ⟨s1, _, heq⟩ := sdcard_init_direct C H s0 dflt hmode
  rw [hattempts] at heq
  obtain ⟨t, log, ht1, ht2, _, _, _, hopen, s2, hs2, hcomp⟩ :=
    sdcard_init_open_file C H false s1 false [] a rest hfd hsize
  rw [hopen, (size_window_none_iff a.image.length).mpr hvalid] at heq
  obtain ⟨t1, t2, t3, _⟩ := sdcard_init_tail_fst C H false t false log
  have t5 := sdcard_init_tail_compressed C H false t false log
  obtain ⟨_, k2, k3⟩ := detect_compressed_image_header C s2 H.io_limit hdr body hlen hbytes
    (hs2.trans himage) hio
  rw [hseek] at hcomp
  refine ⟨(sdcard_init_tail C H false t false log).2.1,
    (sdcard_init_tail C H false t false log).2.2, ?_, ?_, ?_, ?_, ?_⟩
  · rw [heq, ← ht1, ← t1]
  · exact t2.trans ht1
  · show (sdcard_init_tail C H false t false log).2.1.sdcard_size_in_blocks = _
    rw [t3, ht2, shift9_mod _ hvalid.2.1]
  · intro hver
    rw [t5, hcomp, k3 hmagic hver]
  · intro hver
    rw [t5, hcomp, k2 hmagic hver]

set_option maxRecDepth 100000 in
theorem header_five_length : header_five.length = 512 := by decide

set_option maxRecDepth 100000 in
theorem header_five_bytes : ∀ b ∈ header_five, b < 256 := by decide

set_option maxRecDepth 100000 in
theorem header_five_magic : header_five.take 28 = compressed_marker := by decide

set_option maxRecDepth 100000 in
theorem header_five_version : be24 header_five 0x1C = 3 := by decide

set_option maxRecDepth 100000 in
theorem header_five_count : be24 header_five 0x1F = 5 := by decide

theorem image_five_length : image_five.length = 67108864 := by
  unfold image_five
  rw [List.length_append, List.length_replicate, header_five_length]

theorem image_five_valid :
    67108864 ≤ (plain_attempt image_five).image.length
    ∧ (plain_attempt image_five).image.length ≤ 34359738368
    ∧ (plain_attempt image_five).image.length % 512 = 0 := by
  have h : (plain_attempt image_five).image = image_five := rfl
  rw [h, image_five_length]
  decide

/-- C21 (as the code has it): after `sdcard_init` has opened a direct image file of valid
size whose first 512 bytes carry the compressed-image marker, the capacity returned by
`sdcard_get_size` (the variable every range check uses) is the host file's byte size
divided by 512, whatever the header declares: so with a well-formed header (version 3,
compression mode 1) and so when detection reports a format error (compression mode -1),
where the backend is still accepted. -/
theorem declared_capacity (C : init_consts) (H : init_host) (s0 : sd_state)
    (dflt : Nat) (a : open_attempt) (rest : List open_attempt) (hdr body : List Nat)
    (hattempts : H.attempts = a :: rest) (hmode : s0.vdisk.mode = 0)
    (hfd : 0 ≤ a.fd) (hsize : H.size_known = true) (hseek : H.seek_ok = true)
    (hio : 512 ≤ H.io_limit) (himage : a.image = hdr ++ body) (hlen : hdr.length = 512)
    (hbytes : ∀ b ∈ hdr, b < 256) (hmagic : hdr.take 28 = compressed_marker)
    (hvalid : 67108864 ≤ a.image.length ∧ a.image.length ≤ 34359738368
      ∧ a.image.length % 512 = 0) :
    ∃ (t : sd_state) (log : List ui_window),
      sdcard_init C H s0 false dflt = some (a.fd, t, log)
      ∧ t.sdfd = a.fd
      ∧ sdcard_get_size t = a.image.length / 512
      ∧ (be24 hdr 0x1C = 3 → t.sd_compressed = 1)
      ∧ (be24 hdr 0x1C ≠ 3 → t.sd_compressed = -1) :=
  sdcard_init_capacity C H s0 dflt a rest hdr body hattempts hmode hfd hsize hseek hio himage
    hlen hbytes hmagic hvalid

theorem declared_capacity_witness :
    (host_plain image_five).attempts = [plain_attempt image_five]
    ∧ sd_static.vdisk.mode = 0
    ∧ 0 ≤ (plain_attempt image_five).fd
    ∧ (host_plain image_five).size_known = true
    ∧ (host_plain image_five).seek_ok = true
    ∧ 512 ≤ (host_plain image_five).io_limit
    ∧ (plain_attempt image_five).image = header_five ++ List.replicate 67108352 0
    ∧ header_five.length = 512
    ∧ (∀ b ∈ header_five, b < 256)
    ∧ header_five.take 28 = compressed_marker
    ∧ (67108864 ≤ (plain_attempt image_five).image.length
        ∧ (plain_attempt image_five).image.length ≤ 34359738368
        ∧ (plain_attempt image_five).image.length % 512 = 0)
    ∧ ∃ (t : sd_state) (log : List ui_window),
      sdcard_init C_ref (host_plain image_five) sd_static false 0
        = some ((plain_attempt image_five).fd, t, log)
      ∧ t.sdfd = (plain_attempt image_five).fd
      ∧ sdcard_get_size t = (plain_attempt image_five).image.length / 512
      ∧ (be24 header_five 0x1C = 3 → t.sd_compressed = 1)
      ∧ (be24 header_five 0x1C ≠ 3 → t.sd_compressed = -1) :=
  ⟨rfl, rfl, show (0 : Int) ≤ 3 by decide, rfl, rfl, Nat.le_refl _, rfl, header_five_length,
    header_five_bytes, header_five_magic, image_five_valid,
    declared_capacity C_ref (host_plain image_five) sd_static 0 (plain_attempt image_five) []
      header_five (List.replicate 67108352 0) rfl rfl (show (0 : Int) ≤ 3 by decide) rfl rfl
      (Nat.le_refl _) rfl header_five_length header_five_bytes header_five_magic
      image_five_valid⟩

/-- C21, the declared count is not the capacity: a 64 MiB file whose header is well formed
and declares 5 blocks is opened as a compressed image (mode 1) and `sdcard_get_size`
returns 131072, the file size in 512-byte units. -/
theorem compressed_capacity_is_file_size :
    be24 header_five 0x1C = 3 ∧ be24 header_five 0x1F = 5
    ∧ ∃ (t : sd_state) (log : List ui_window),
      sdcard_init C_ref (host_plain image_five) sd_static false 0 = some (3, t, log)
      ∧ t.sd_compressed = 1 ∧ sdcard_get_size t = 131072 := by
  obtain ⟨t, log, h1, _, h3, h4, _⟩ :=
    sdcard_init_capacity C_ref (host_plain image_five) sd_static 0 (plain_attempt image_five) []
      header_five (List.replicate 67108352 0) rfl rfl (show (0 : Int) ≤ 3 by decide) rfl rfl
      (Nat.le_refl _) rfl header_five_length header_five_bytes header_five_magic
      image_five_valid
  refine ⟨header_five_version, header_five_count, t, log, h1, h4 header_five_version, ?_⟩
  have h : (plain_attempt image_five).image = image_five := rfl
  rw [h3, h, image_five_length]

theorem take_append_drop_window (l D : List Nat) (n : Nat) (hn : n ≤ l.length) :
    ((l.take n ++ D).drop n) = D := by
  have h : (l.take n).length = n := by rw [List.length_take]; omega
  rw [List.drop_append_of_le_length (by omega), List.drop_of_length_le (by omega),
    List.nil_append]

theorem take_append_getElem?_lt (l D : List Nat) (n i : Nat) (hi : i < n) (hn : n ≤ l.length) :
    (l.take n ++ D)[i]? = l[i]? := by
  have h : (l.take n).length = n := by rw [List.length_take]; omega
  rw [List.getElem?_append_left (by omega), List.getElem?_take_of_lt hi]

/-- Command 0x02 on a working backend: where the block lands in the 4 KiB disk buffer. -/
theorem read_command_window {bpc : Nat} (hbpc : 0 < bpc) (K : sd_consts) {s : sd_state}
    (env : host_env) {b : Nat} {D : List Nat} (hregs : s.sd_regs.length = 0x30)
    (hint : st_tst s.sd_status K.SD_ST_EXT_BUS = false) (hsdhc : s.sdhc_mode ≠ 0)
    (hb : U8A_TO_U32 s.sd_regs 1 = some b)
    (hok : backend_ok bpc s) (hD : D.length = 512) (hc : block_content s b = some D)
    (hbuf : s.disk_buffers.length = 0x1000) (hio : 512 ≤ env.io_limit) :
    ∃ s1, sdcard_write_register K s env 0 2 = some s1
      ∧ (s1.disk_buffers.drop SD_BUFFER_POS).take 512 = D
      ∧ s1.disk_buffers.length = 0x1000
      ∧ (∀ i, i < SD_BUFFER_POS → s1.disk_buffers[i]? = s.disk_buffers[i]?)
      ∧ st_tst s1.sd_status (K.SD_ST_ERROR ||| K.SD_ST_FSM_ERROR) = false
      ∧ s1.sdcard_bytes_read = 512 := by
  obtain ⟨s1, h1, herr, hbytes, hbufs, _, _⟩ :=
    read_command_ok hbpc K env hregs hint hsdhc hb hok hD hc hbuf hio
  have hpos : SD_BUFFER_POS ≤ s.disk_buffers.length := by rw [hbuf]; decide
  refine ⟨s1, h1, ?_, ?_, ?_, herr, hbytes⟩
  · rw [hbufs, take_append_drop_window _ _ _ hpos, ← hD, List.take_length]
  · rw [hbufs, List.length_append, List.length_take, hbuf, hD]; decide
  · intro i hi
    rw [hbufs, take_append_getElem?_lt _ _ _ _ hi hpos]

theorem sevens_block_zero : block_content sd_file_sevens 0 = some (List.replicate 512 7) := by
  have h : (List.drop (0 * 512) sd_file_sevens.sd_image).take 512 = List.replicate 512 7 := by
    show (List.drop (0 * 512) (List.replicate 512 7 ++ List.replicate (15 * 512) 0)).take 512
      = List.replicate 512 7
    rw [Nat.zero_mul, List.drop_zero,
      List.take_append_of_le_length (by rw [List.length_replicate]),
      List.take_replicate, Nat.min_self]
  unfold block_content
  rw [h, List.length_replicate]
  rfl

theorem sevens_backend_ok : backend_ok 1 sd_file_sevens :=
  Or.inr ⟨rfl, show (0 : Int) ≤ 3 by decide, rfl⟩

theorem sevens_sector : U8A_TO_U32 sd_file_sevens.sd_regs 1 = some 0 := by decide

/-- C27 (as the code has it): with the internal bus selected, SDHC mode on and a block
number b = reg1 | reg2 << 8 | reg3 << 16 | reg4 << 24 below capacity, on a working backend
(virtual store, or uncompressed image file whose host reads transfer whole blocks),
command 0x02 copies exactly the 512 bytes of block b into the 512-byte window at
`SD_BUFFER_POS` of the 4 KiB disk buffer, whatever register 9 selects as the CPU view;
it changes no byte of the disk buffer outside that window (the buffer keeps its 4096
bytes and the window is its last 512), clears the error and FSM-error flags and sets the
bytes-read counter to 512. -/
theorem single_block_read_transfer {bpc : Nat} (hbpc : 0 < bpc) (K : sd_consts)
    {s : sd_state} (env : host_env) {b : Nat} {D : List Nat}
    (hregs : s.sd_regs.length = 0x30)
    (hint : st_tst s.sd_status K.SD_ST_EXT_BUS = false) (hsdhc : s.sdhc_mode ≠ 0)
    (hb : U8A_TO_U32 s.sd_regs 1 = some b)
    (hok : backend_ok bpc s) (hD : D.length = 512) (hc : block_content s b = some D)
    (hbuf : s.disk_buffers.length = 0x1000) (hio : 512 ≤ env.io_limit) :
    ∃ s1, sdcard_write_register K s env 0 2 = some s1
      ∧ (s1.disk_buffers.drop SD_BUFFER_POS).take 512 = D
      ∧ s1.disk_buffers.length = 0x1000
      ∧ (∀ i, i < SD_BUFFER_POS → s1.disk_buffers[i]? = s.disk_buffers[i]?)
      ∧ st_tst s1.sd_status (K.SD_ST_ERROR ||| K.SD_ST_FSM_ERROR) = false
      ∧ s1.sdcard_bytes_read = 512 :=
  read_command_window hbpc K env hregs hint hsdhc hb hok hD hc hbuf hio

theorem single_block_read_transfer_witness :
    block_content sd_file_sevens 0 = some (List.replicate 512 7)
    ∧ ∃ s1, sdcard_write_register K_ref sd_file_sevens env_ok 0 2 = some s1
      ∧ (s1.disk_buffers.drop SD_BUFFER_POS).take 512 = List.replicate 512 7
      ∧ s1.disk_buffers.length = 0x1000
      ∧ (∀ i, i < SD_BUFFER_POS → s1.disk_buffers[i]? = sd_file_sevens.disk_buffers[i]?)
      ∧ st_tst s1.sd_status (K_ref.SD_ST_ERROR ||| K_ref.SD_ST_FSM_ERROR) = false
      ∧ s1.sdcard_bytes_read = 512 :=
  ⟨sevens_block_zero,
    single_block_read_transfer Nat.one_pos K_ref env_ok (List.length_replicate _ _)
      (by decide) (by decide) sevens_sector sevens_backend_ok (List.length_replicate _ _)
      sevens_block_zero (List.length_replicate _ _) (Nat.le_refl _)⟩

/-- C27, the buffer window is not the one register 9 selects: with register 9 zero the
CPU view is the window at `FD_BUFFER_POS`; a read of block 0 (all bytes 7) leaves that
window all zero and changes the byte at `SD_BUFFER_POS`, outside it, from 0 to 7. -/
theorem read_lands_outside_cpu_view :
    sd_file_sevens.sd_regs[9]? = some 0
    ∧ sd_file_sevens.disk_buffer_cpu_view = FD_BUFFER_POS
    ∧ block_content sd_file_sevens 0 = some (List.replicate 512 7)
    ∧ sd_file_sevens.disk_buffers[SD_BUFFER_POS]? = some 0
    ∧ ∃ s1, sdcard_write_register K_ref sd_file_sevens env_ok 0 2 = some s1
      ∧ (∀ i, FD_BUFFER_POS ≤ i → i < FD_BUFFER_POS + 512 → s1.disk_buffers[i]? = some 0)
      ∧ s1.disk_buffers[SD_BUFFER_POS]? = some 7 := by
  obtain ⟨s1, h1, hwin, hlen, hout, _, _⟩ :=
    read_command_window Nat.one_pos K_ref env_ok (List.length_replicate _ _)
      (by decide) (by decide) sevens_sector sevens_backend_ok (List.length_replicate _ _)
      sevens_block_zero (List.length_replicate _ _) (Nat.le_refl _)
  have hbufs : sd_file_sevens.disk_buffers = List.replicate 0x1000 0 := rfl
  refine ⟨by decide, rfl, sevens_block_zero, ?_, s1, h1, ?_, ?_⟩
  · rw [hbufs, List.getElem?_replicate]; rfl
  · intro i h1 h2
    have hi : i < SD_BUFFER_POS := by
      have : FD_BUFFER_POS + 512 = SD_BUFFER_POS := rfl
      omega
    have hi2 : i < 0x1000 := by
      have : SD_BUFFER_POS = 0xE00 := rfl
      omega
    rw [hout i hi, hbufs, List.getElem?_replicate, if_pos hi2]
  · have h := congrArg (fun l => l[0]?) hwin
    simp only [List.getElem?_take, List.getElem?_drop, Nat.add_zero,
      List.getElem?_replicate] at h
    simpa using h

theorem chain_from_drop (heap : List virtdisk_chunk_st) (hl : well_linked heap) :
    ∀ n i, i + n = heap.length → 0 < n →
      chain_from heap n (i + 1) = some (heap.drop i) := by
  intro n
  induction n with
  | zero => intro i _ h; exact absurd h (by decide)
  | succ n ih =>
    intro i hlen _
    have hi : i < heap.length := by omega
    have hget : heap[i]? = some heap[i] := List.getElem?_eq_getElem hi
    have hdrop : heap.drop i = heap[i] :: heap.drop (i + 1) := List.drop_eq_getElem_cons hi
    rw [hdrop]
    simp only [chain_from, chunk_at, Nat.add_sub_cancel, hget, Nat.add_one_ne_zero, if_false]
    rw [hl i _ hget]
    by_cases hlast : i + 1 < heap.length
    · rw [if_pos hlast, ih (i + 1) (by omega) (by omega)]
      rfl
    · have hnil : heap.drop (i + 1) = [] := List.drop_eq_nil_of_le (by omega)
      have hn : n = 0 := by omega
      subst hn
      rw [if_neg hlast, hnil]
      rfl

/-- Under the invariant the chain is the heap in allocation order. -/
theorem vdisk_chain_eq {total : Nat} {vd : virtdisk_st} (h : vdisk_inv total vd) :
    vdisk_chain vd = some vd.heap := by
  unfold vdisk_chain
  rw [h.head_eq]
  by_cases hnil : vd.heap = []
  · rw [if_pos hnil, hnil]
    rfl
  · rw [if_neg hnil]
    have hlen : 0 < vd.heap.length := List.length_pos.mpr hnil
    exact chain_from_drop vd.heap h.linked vd.heap.length 0 (by omega) hlen

theorem sum_used_of_full (N : Nat) :
    ∀ l : List virtdisk_chunk_st, (hne : l ≠ []) →
      (∀ i v, l[i]? = some v → i + 1 < l.length → v.used_blocks = N) →
      (l.map (fun v => v.used_blocks)).sum = (l.length - 1) * N + (l.getLast hne).used_blocks
  | [], hne, _ => absurd rfl hne
  | [a], _, _ => by simp
  | a :: b :: l, _, hfull => by
    have ha : a.used_blocks = N := hfull 0 a rfl (by simp)
    have ih := sum_used_of_full N (b :: l) (by simp)
      (fun i v hv hi => hfull (i + 1) v (by simpa using hv) (by simp at hi ⊢; omega))
    rw [List.map_cons, List.sum_cons, ih, ha, List.getLast_cons (List.cons_ne_nil b l)]
    simp only [List.length_cons, Nat.add_sub_cancel]
    rw [Nat.add_mul, Nat.one_mul]
    omega

theorem ceil_div_chunks (len N u : Nat) (hN : 0 < N) (hu1 : 1 ≤ u) (hu2 : u ≤ N)
    (hlen : 0 < len) : ((len - 1) * N + u + N - 1) / N = len := by
  have h1 : (len - 1) * N + u + N - 1 = (u - 1) + N * len := by
    obtain ⟨k, rfl⟩ : ∃ k, len = k + 1 := ⟨len - 1, by omega⟩
    rw [Nat.add_sub_cancel, Nat.mul_add, Nat.mul_one, Nat.mul_comm]
    omega
  rw [h1, Nat.add_mul_div_left _ _ hN, Nat.div_eq_of_lt (by omega), Nat.zero_add]

theorem chunk_store_shape {heap heap1 : List virtdisk_chunk_st} {loc : Nat × Nat}
    {data : List Nat} (h : chunk_store heap loc data = some heap1) :
    ∃ v base, heap[loc.1 - 1]? = some v ∧ heap1 = heap.set (loc.1 - 1) { v with base := base } := by
  unfold chunk_store at h
  cases hv : chunk_at heap loc.1 with
  | none => rw [hv] at h; cases h
  | some v =>
    rw [hv] at h
    simp only [Option.bind_eq_bind, Option.some_bind] at h
    cases hb : arr_set v.base loc.2 data with
    | none => rw [hb] at h; cases h
    | some base =>
      rw [hb] at h
      simp only [Option.some_bind] at h
      have hget : heap[loc.1 - 1]? = some v := by
        unfold chunk_at at hv
        split at hv
        · cases hv
        · exact hv
      refine ⟨v, base, hget, ?_⟩
      unfold arr_set at h
      split at h
      · cases h; rfl
      · cases h

theorem sum_map_set {α : Type} (f : α → Nat) :
    ∀ (l : List α) (i : Nat) (v w : α), l[i]? = some v →
      ((l.set i w).map f).sum + f v = (l.map f).sum + f w
  | [], i, v, w, h => by simp at h
  | a :: l, 0, v, w, h => by
    simp only [List.getElem?_cons_zero, Option.some.injEq] at h
    subst h
    simp only [List.set_cons_zero, List.map_cons, List.sum_cons]
    omega
  | a :: l, i + 1, v, w, h => by
    simp only [List.getElem?_cons_succ] at h
    have ih := sum_map_set f l i v w h
    simp only [List.set_cons_succ, List.map_cons, List.sum_cons]
    omega

/-- Replacing a chunk by one with the same `used_blocks` keeps the counters right. -/
theorem count_inv_set {vd : virtdisk_st} (hc : count_inv vd) {i : Nat}
    {v w : virtdisk_chunk_st} (hv : vd.heap[i]? = some v) (hw : w.used_blocks = v.used_blocks) :
    count_inv { vd with heap := vd.heap.set i w } where
  full := by
    intro j x hx hj
    simp only [List.length_set] at hj
    simp only [List.getElem?_set] at hx
    by_cases hij : i = j
    · subst hij
      have hi : i < vd.heap.length := (List.getElem?_eq_some.mp hv).1
      simp only [if_true, hi] at hx
      cases hx
      rw [hw]
      exact hc.full i v hv hj
    · simp only [hij, if_false] at hx
      exact hc.full j x hx hj
  blocks := by
    have h := sum_map_set (fun v => v.used_blocks) vd.heap i v w hv
    simp only [hw] at h
    have h2 := hc.blocks
    show vd.all_blocks = ((vd.heap.set i w).map (fun v => v.used_blocks)).sum
    omega
  chunks := by
    show vd.all_chunks = (vd.heap.set i w).length
    rw [List.length_set]
    exact hc.chunks

/-- Appending a block to the tail chunk keeps the counters right. -/
theorem count_inv_push {vd : virtdisk_st} (hc : count_inv vd) {t : virtdisk_chunk_st}
    (ht : vd.heap[vd.heap.length - 1]? = some t) (b : Nat) (rm : List Nat) :
    count_inv { vd with heap := vd.heap.set (vd.heap.length - 1) (chunk_push t b)
                        all_blocks := vd.all_blocks + 1, range_map := rm } where
  full := by
    intro j x hx hj
    simp only [List.length_set] at hj
    simp only [List.getElem?_set] at hx
    have hij : ¬ vd.heap.length - 1 = j := by omega
    simp only [hij, if_false] at hx
    exact hc.full j x hx hj
  blocks := by
    have h := sum_map_set (fun v => v.used_blocks) vd.heap _ t (chunk_push t b) ht
    have hp : (chunk_push t b).used_blocks = t.used_blocks + 1 := rfl
    simp only [hp] at h
    have h2 := hc.blocks
    show vd.all_blocks + 1
      = ((vd.heap.set (vd.heap.length - 1) (chunk_push t b)).map (fun v => v.used_blocks)).sum
    omega
  chunks := by
    show vd.all_chunks = (vd.heap.set _ _).length
    rw [List.length_set]
    exact hc.chunks

theorem relink_length (heap : List virtdisk_chunk_st) : (relink heap).length = heap.length := by
  unfold relink
  split
  · rw [List.length_set]
  · rfl

theorem relink_used (heap : List virtdisk_chunk_st) :
    (relink heap).map (fun v => v.used_blocks) = heap.map (fun v => v.used_blocks) := by
  unfold relink
  split
  · rename_i t ht
    rw [List.map_set]
    apply List.ext_getElem?
    intro j
    rw [List.getElem?_set, List.length_map]
    split
    · rename_i hj
      subst hj
      split
      · rw [List.getElem?_map, ht]; rfl
      · rename_i hlt
        rw [List.getElem?_map, List.getElem?_eq_none_iff.mpr (by omega)]
        rfl
    · rfl
  · rfl

/-- Linking a fresh chunk after a full tail keeps the counters right. -/
theorem count_inv_fresh {total : Nat} {vd : virtdisk_st} (h : vdisk_inv total vd)
    (hc : count_inv vd)
    (hfull : ∀ t, vd.heap[vd.heap.length - 1]? = some t → ¬ t.used_blocks < vd.blocks_per_chunk)
    (b : Nat) (rm : List Nat) (hd tl : Nat) :
    count_inv { vd with heap := relink vd.heap ++ [chunk_fresh vd.blocks_per_chunk b]
                        all_chunks := vd.all_chunks + 1, tail := tl, head := hd
                        range_map := rm, all_blocks := vd.all_blocks + 1 } where
  full := by
    intro j x hx hj
    simp only [List.length_append, relink_length, List.length_singleton] at hj
    have hj2 : j < (relink vd.heap).length := by rw [relink_length]; omega
    simp only [List.getElem?_append_left hj2] at hx
    have hu : ((relink vd.heap).map (fun v => v.used_blocks))[j]? = some x.used_blocks := by
      rw [List.getElem?_map, hx]; rfl
    rw [relink_used, List.getElem?_map] at hu
    cases hy : vd.heap[j]? with
    | none => rw [hy] at hu; cases hu
    | some y =>
      rw [hy] at hu
      simp only [Option.map_some', Option.some.injEq] at hu
      show x.used_blocks = vd.blocks_per_chunk
      rw [← hu]
      by_cases hlast : j + 1 < vd.heap.length
      · exact hc.full j y hy hlast
      · have hjl : j = vd.heap.length - 1 := by omega
        rw [hjl] at hy
        have h1 := hfull y hy
        have h2 := (h.chunks y (List.getElem?_mem hy)).used_le
        omega
  blocks := by
    show vd.all_blocks + 1
      = ((relink vd.heap ++ [chunk_fresh vd.blocks_per_chunk b]).map
          (fun v => v.used_blocks)).sum
    rw [List.map_append, relink_used, List.sum_append, ← hc.blocks]
    rfl
  chunks := by
    show vd.all_chunks + 1 = (relink vd.heap ++ [chunk_fresh vd.blocks_per_chunk b]).length
    rw [List.length_append, relink_length, ← hc.chunks]
    rfl

/-- The two ways `virtdisk_allocate` places a block that is not stored yet. -/
theorem allocate_cases {total : Nat} {vd : virtdisk_st} (h : vdisk_inv total vd)
    {b : Nat} (hb : b < total) (hns : ¬ stored vd b) :
    ∃ loc vd1, virtdisk_allocate vd b = some (some loc, vd1) ∧ alloc_post total vd b loc vd1
      ∧ ((∃ t rm, vd.heap[vd.heap.length - 1]? = some t ∧ t.used_blocks < vd.blocks_per_chunk
            ∧ loc = (vd.heap.length, t.used_blocks)
            ∧ vd1 = { vd with heap := vd.heap.set (vd.heap.length - 1) (chunk_push t b)
                              all_blocks := vd.all_blocks + 1, range_map := rm })
        ∨ ((∀ t, vd.heap[vd.heap.length - 1]? = some t →
              ¬ t.used_blocks < vd.blocks_per_chunk)
            ∧ ∃ rm, loc = (vd.heap.length + 1, 0)
              ∧ vd1 = { vd with
                  heap := relink vd.heap ++ [chunk_fresh vd.blocks_per_chunk b]
                  all_chunks := vd.all_chunks + 1, tail := vd.heap.length + 1
                  head := if vd.head = 0 then vd.heap.length + 1 else vd.head
                  range_map := rm, all_blocks := vd.all_blocks + 1 })) := by
  by_cases hroom : ∃ t, vd.heap[vd.heap.length - 1]? = some t ∧ t.used_blocks < vd.blocks_per_chunk
  · obtain ⟨t, ht, hr⟩ := hroom
    have hlen : 0 < vd.heap.length := by
      have := (List.getElem?_eq_some.mp ht).1; omega
    obtain ⟨rm, hrm, heq⟩ := allocate_tail_eq h hb ht hlen hr
    exact ⟨_, _, heq,
      allocate_tail_post_aux h hb hns ht hlen hr hrm _ rfl rfl rfl rfl rfl rfl rfl rfl,
      Or.inl ⟨t, rm, ht, hr, rfl, rfl⟩⟩
  · have hfull : ∀ t, vd.heap[vd.heap.length - 1]? = some t →
        ¬ t.used_blocks < vd.blocks_per_chunk := fun t ht hr => hroom ⟨t, ht, hr⟩
    obtain ⟨rm, hrm, heq⟩ := allocate_fresh_eq h hb hfull
    exact ⟨_, _, heq,
      allocate_fresh_post_aux h hb hns hrm _ rfl rfl rfl rfl rfl rfl rfl rfl,
      Or.inr ⟨hfull, rm, rfl, rfl⟩⟩

/-- An allocation keeps the counters right. -/
theorem allocate_count_inv {total : Nat} {vd : virtdisk_st} (h : vdisk_inv total vd)
    (hc : count_inv vd) {b : Nat} (hb : b < total) (hns : ¬ stored vd b)
    {loc : Nat × Nat} {vd1 : virtdisk_st} (ha : virtdisk_allocate vd b = some (some loc, vd1)) :
    count_inv vd1 ∧ vdisk_inv total vd1 ∧ list_search b vd1.heap 1 = some loc := by
  obtain ⟨loc2, vd2, ha2, hpost, hcases⟩ := allocate_cases h hb hns
  rw [ha] at ha2
  cases ha2
  refine ⟨?_, hpost.inv, hpost.found⟩
  rcases hcases with ⟨t, rm, ht, _, _, hvd⟩ | ⟨hfull, rm, _, hvd⟩
  · rw [hvd]; exact count_inv_push hc ht b rm
  · rw [hvd]; exact count_inv_fresh h hc hfull b rm _ _

/-- A block write keeps the counters right. -/
theorem write_count_inv {total : Nat} {vd vd1 : virtdisk_st} (h : vdisk_inv total vd)
    (hc : count_inv vd) {b : Nat} (hb : b < total) (X : List Nat)
    (hw : virtdisk_write_block vd b X = some vd1) : count_inv vd1 := by
  cases hs : list_search b vd.heap 1 with
  | some loc =>
    obtain ⟨heap1, hstore, _⟩ := chunk_store_spec h hs (memcpy512 X)
    have heq : virtdisk_write_block vd b X = some { vd with heap := heap1 } := by
      unfold virtdisk_write_block
      rw [search_block_found h hb hs]
      simp [hstore]
    rw [heq] at hw
    cases hw
    obtain ⟨v, base, hv, hset⟩ := chunk_store_shape hstore
    rw [hset]
    exact count_inv_set hc hv rfl
  | none =>
    have hns : ¬ stored vd b := (list_search_none_iff_not_stored h b 1).mp hs
    cases hz : has_block_nonzero_byte X with
    | false =>
      have heq : virtdisk_write_block vd b X = some vd := by
        unfold virtdisk_write_block
        rw [hz, search_block_noalloc h hb, hs]
        rfl
      rw [heq] at hw
      cases hw
      exact hc
    | true =>
      obtain ⟨loc, vd2, halloc, _, _⟩ := allocate_cases h hb hns
      obtain ⟨hc2, hinv2, hfound⟩ := allocate_count_inv h hc hb hns halloc
      obtain ⟨heap1, hstore, _⟩ := chunk_store_spec hinv2 hfound (memcpy512 X)
      have heq : virtdisk_write_block vd b X = some { vd2 with heap := heap1 } := by
        unfold virtdisk_write_block
        rw [hz, search_block_alloc h hb hs, halloc]
        simp [hstore]
      rw [heq] at hw
      cases hw
      obtain ⟨v, base, hv, hset⟩ := chunk_store_shape hstore
      rw [hset]
      exact count_inv_set hc2 hv rfl

theorem virtdisk_init_count_inv (vd0 : virtdisk_st) (bpc total : Nat) :
    count_inv (virtdisk_init vd0 bpc total) where
  full := fun i v hv => by simp [virtdisk_init, virtdisk_destroy] at hv
  blocks := rfl
  chunks := rfl

/-- Every reachable store has its counters right and the chunk size it was given. -/
theorem vdisk_reachable_count {bpc total : Nat} (hbpc : 0 < bpc) {vd : virtdisk_st}
    (h : vdisk_reachable bpc total vd) : count_inv vd ∧ vd.blocks_per_chunk = bpc := by
  induction h with
  | init vd0 => exact ⟨virtdisk_init_count_inv vd0 bpc total, rfl⟩
  | write b X hr hb hw ih =>
    have hinv := vdisk_reachable_inv hbpc hr
    obtain ⟨vd2, hw2, hpost⟩ := virtdisk_write_block_spec hinv hb X
    rw [hw] at hw2
    cases hw2
    exact ⟨write_count_inv hinv ih.1 hb X hw, hpost.bpc_eq.trans ih.2⟩
  | read b buffer buffer1 hr hb hrd ih =>
    rw [virtdisk_read_block_eq (vdisk_reachable_inv hbpc hr) hb] at hrd
    cases hrd
    exact ih

/-- What holds of a store with the invariant and right counters, for chunk size `bpc`. -/
theorem chunk_policy_of_inv {total bpc : Nat} {vd : virtdisk_st} (h : vdisk_inv total vd)
    (hc : count_inv vd) (hbpc : vd.blocks_per_chunk = bpc) :
    ∃ chain, vdisk_chain vd = some chain
      ∧ (∀ v, v ∈ chain → 1 ≤ v.used_blocks ∧ v.used_blocks ≤ bpc)
      ∧ (∀ i v, chain[i]? = some v → i + 1 < chain.length → v.used_blocks = bpc)
      ∧ chain.getLast? = chunk_at vd.heap vd.tail
      ∧ vd.all_blocks = (chain.map (fun v => v.used_blocks)).sum
      ∧ vd.all_chunks = chain.length
      ∧ vd.all_chunks = (vd.all_blocks + bpc - 1) / bpc
      ∧ ((vd.head = 0 ∧ vd.tail = 0) ↔ vd.all_blocks = 0)
      ∧ (vd.head = 0 ↔ vd.tail = 0)
      ∧ ∀ b, b < total → ¬ stored vd b →
          ∃ loc vd1, virtdisk_search_block vd b true = some (some loc, vd1)
            ∧ (∀ t, chunk_at vd.heap vd.tail = some t → t.used_blocks < bpc →
                loc = (vd.tail, t.used_blocks) ∧ vd1.tail = vd.tail
                ∧ vd1.all_chunks = vd.all_chunks
                ∧ vdisk_chain vd1 = some (chain.set (chain.length - 1) (chunk_push t b)))
            ∧ ((∀ t, chunk_at vd.heap vd.tail = some t → ¬ t.used_blocks < bpc) →
                loc.1 ≠ 0 ∧ loc.2 = 0 ∧ vd1.tail = loc.1
                ∧ vd1.all_chunks = vd.all_chunks + 1
                ∧ vdisk_chain vd1 = some (relink chain ++ [chunk_fresh bpc b])
                ∧ ∀ t, chunk_at vd.heap vd.tail = some t →
                    chunk_at vd1.heap vd.tail = some { t with next := loc.1 }) := by
  subst hbpc
  have hbp := h.bpc_pos
  have hlastq : vd.heap.getLast? = chunk_at vd.heap vd.tail := by
    rw [List.getLast?_eq_getElem?, chunk_at, h.tail_eq]
    by_cases hl : vd.heap.length = 0
    · rw [if_pos hl, hl]
      have : vd.heap = [] := List.length_eq_zero.mp hl
      rw [this]; rfl
    · rw [if_neg hl]
  have hnil_iff : vd.heap = [] ↔ vd.all_blocks = 0 := by
    constructor
    · intro hn; rw [hc.blocks, hn]; rfl
    · intro h0
      by_contra hne
      have hs := sum_used_of_full vd.blocks_per_chunk vd.heap hne hc.full
      have h1 := (h.chunks _ (List.getLast_mem hne)).used_pos
      have := hc.blocks
      omega
  refine ⟨vd.heap, vdisk_chain_eq h, ?_, hc.full, hlastq, hc.blocks, hc.chunks, ?_, ?_, ?_, ?_⟩
  · intro v hv
    exact ⟨(h.chunks v hv).used_pos, (h.chunks v hv).used_le⟩
  · by_cases hne : vd.heap = []
    · have h0 := hnil_iff.mp hne
      rw [hc.chunks, h0, hne]
      exact (Nat.div_eq_of_lt (by simp; omega)).symm
    · have hs := sum_used_of_full vd.blocks_per_chunk vd.heap hne hc.full
      have h1 := h.chunks _ (List.getLast_mem hne)
      rw [hc.chunks, hc.blocks, hs]
      exact (ceil_div_chunks _ _ _ hbp h1.used_pos h1.used_le (List.length_pos.mpr hne)).symm
  · rw [← hnil_iff]
    constructor
    · intro hh; exact inv_heap_nil_of_head h hh.1
    · intro hn
      have h1 := h.head_eq
      have h2 := h.tail_eq
      rw [if_pos hn] at h1
      rw [hn] at h2
      exact ⟨h1, h2⟩
  · have h1 := h.head_eq
    have h2 := h.tail_eq
    constructor
    · intro hh
      rw [inv_heap_nil_of_head h hh] at h2
      exact h2
    · intro ht
      rw [ht] at h2
      rw [if_pos (List.length_eq_zero.mp h2.symm)] at h1
      exact h1
  · intro b hb hns
    obtain ⟨loc, vd1, halloc, hpost, hcases⟩ := allocate_cases h hb hns
    have hs := list_search_none_of_not_stored h hns 1
    refine ⟨loc, vd1, (search_block_alloc h hb hs).trans halloc, ?_, ?_⟩
    · intro t ht hroom
      rw [← hlastq, List.getLast?_eq_getElem?] at ht
      rcases hcases with ⟨t2, rm, ht2, _, hloc, hvd⟩ | ⟨hfull, _⟩
      · rw [ht] at ht2
        cases ht2
        refine ⟨by rw [hloc, h.tail_eq], by rw [hvd], by rw [hvd], ?_⟩
        rw [vdisk_chain_eq hpost.inv, hvd]
      · exact absurd hroom (hfull t ht)
    · intro hfull
      rcases hcases with ⟨t2, rm, ht2, hroom, _, _⟩ | ⟨_, rm, hloc, hvd⟩
      · rw [← List.getLast?_eq_getElem?, hlastq] at ht2
        exact absurd hroom (hfull t2 ht2)
      · refine ⟨by rw [hloc]; exact Nat.succ_ne_zero _, by rw [hloc], by rw [hvd, hloc],
          by rw [hvd], ?_, ?_⟩
        · rw [vdisk_chain_eq hpost.inv, hvd]
        · intro t ht
          have hlen : 0 < vd.heap.length := by
            by_contra hl
            have hz : vd.tail = 0 := by rw [h.tail_eq]; omega
            rw [chunk_at, if_pos hz] at ht
            cases ht
          rw [hvd, hloc]
          rw [chunk_at, h.tail_eq, if_neg (by omega)] at ht
          show chunk_at (relink vd.heap ++ [chunk_fresh vd.blocks_per_chunk b]) vd.tail = _
          rw [chunk_at, h.tail_eq, if_neg (by omega),
            List.getElem?_append_left (by rw [relink_length]; omega)]
          unfold relink
          rw [ht]
          simp only [List.getElem?_set, if_true]
          rw [if_pos (by omega)]

/-- C28. Chunk allocation policy: in every store reachable from
`virtdisk_init(blocks_per_chunk = N, total)` (N at least 1) by block writes and reads below
the capacity, the chain from `head` exists and every chunk of it holds between 1 and N
blocks, every chunk other than the last is full, `tail` points to the last chunk,
`all_blocks` is the sum of `used_blocks` over the chain, `all_chunks` is the length of the
chain and equals ceil(all_blocks / N), and `head` and `tail` are both null exactly when
`all_blocks` is 0 (and one is null exactly when the other is). Allocating a block that is
not stored appends it to the tail chunk at slot `used_blocks` when the tail has room, and
otherwise puts it in slot 0 of a new chunk that becomes the tail and to which the old
tail's `next` points. -/
theorem chunk_allocation_policy (bpc total : Nat) (hbpc : 0 < bpc) (vd : virtdisk_st)
    (hreach : vdisk_reachable bpc total vd) :
    ∃ chain, vdisk_chain vd = some chain
      ∧ (∀ v, v ∈ chain → 1 ≤ v.used_blocks ∧ v.used_blocks ≤ bpc)
      ∧ (∀ i v, chain[i]? = some v → i + 1 < chain.length → v.used_blocks = bpc)
      ∧ chain.getLast? = chunk_at vd.heap vd.tail
      ∧ vd.all_blocks = (chain.map (fun v => v.used_blocks)).sum
      ∧ vd.all_chunks = chain.length
      ∧ vd.all_chunks = (vd.all_blocks + bpc - 1) / bpc
      ∧ ((vd.head = 0 ∧ vd.tail = 0) ↔ vd.all_blocks = 0)
      ∧ (vd.head = 0 ↔ vd.tail = 0)
      ∧ ∀ b, b < total → ¬ stored vd b →
          ∃ loc vd1, virtdisk_search_block vd b true = some (some loc, vd1)
            ∧ (∀ t, chunk_at vd.heap vd.tail = some t → t.used_blocks < bpc →
                loc = (vd.tail, t.used_blocks) ∧ vd1.tail = vd.tail
                ∧ vd1.all_chunks = vd.all_chunks
                ∧ vdisk_chain vd1 = some (chain.set (chain.length - 1) (chunk_push t b)))
            ∧ ((∀ t, chunk_at vd.heap vd.tail = some t → ¬ t.used_blocks < bpc) →
                loc.1 ≠ 0 ∧ loc.2 = 0 ∧ vd1.tail = loc.1
                ∧ vd1.all_chunks = vd.all_chunks + 1
                ∧ vdisk_chain vd1 = some (relink chain ++ [chunk_fresh bpc b])
                ∧ ∀ t, chunk_at vd.heap vd.tail = some t →
                    chunk_at vd1.heap vd.tail = some { t with next := loc.1 }) :=
  chunk_policy_of_inv (vdisk_reachable_inv hbpc hreach) (vdisk_reachable_count hbpc hreach).1
    (vdisk_reachable_count hbpc hreach).2

theorem chunk_allocation_policy_witness :
    0 < 2 ∧ vdisk_reachable 2 64 vd_small_written ∧
    (∃ chain, vdisk_chain vd_small_written = some chain
      ∧ (∀ v, v ∈ chain → 1 ≤ v.used_blocks ∧ v.used_blocks ≤ 2)
      ∧ (∀ i v, chain[i]? = some v → i + 1 < chain.length → v.used_blocks = 2)
      ∧ chain.getLast? = chunk_at vd_small_written.heap vd_small_written.tail
      ∧ vd_small_written.all_blocks = (chain.map (fun v => v.used_blocks)).sum
      ∧ vd_small_written.all_chunks = chain.length
      ∧ vd_small_written.all_chunks = (vd_small_written.all_blocks + 2 - 1) / 2
      ∧ ((vd_small_written.head = 0 ∧ vd_small_written.tail = 0) ↔ vd_small_written.all_blocks = 0)
      ∧ (vd_small_written.head = 0 ↔ vd_small_written.tail = 0)
      ∧ ∀ b, b < 64 → ¬ stored vd_small_written b →
          ∃ loc vd1, virtdisk_search_block vd_small_written b true = some (some loc, vd1)
            ∧ (∀ t, chunk_at vd_small_written.heap vd_small_written.tail = some t → t.used_blocks < 2 →
                loc = (vd_small_written.tail, t.used_blocks) ∧ vd1.tail = vd_small_written.tail
                ∧ vd1.all_chunks = vd_small_written.all_chunks
                ∧ vdisk_chain vd1 = some (chain.set (chain.length - 1) (chunk_push t b)))
            ∧ ((∀ t, chunk_at vd_small_written.heap vd_small_written.tail = some t → ¬ t.used_blocks < 2) →
                loc.1 ≠ 0 ∧ loc.2 = 0 ∧ vd1.tail = loc.1
                ∧ vd1.all_chunks = vd_small_written.all_chunks + 1
                ∧ vdisk_chain vd1 = some (relink chain ++ [chunk_fresh 2 b])
                ∧ ∀ t, chunk_at vd_small_written.heap vd_small_written.tail = some t →
                    chunk_at vd1.heap vd_small_written.tail = some { t with next := loc.1 })) :=
  ⟨by decide, vd_small_written_reachable,
    chunk_allocation_policy 2 64 (by decide) vd_small_written vd_small_written_reachable⟩

/-- `some_mount` for a unit with a forced external name on a host where the attach of that
file succeeds: the unit ends external under that name. -/
theorem some_mount_body_forced_ok (im : mount_fn) {s : sd_state} (env : host_env) {u : Nat}
    (hwf : mount_wf s) (hu : u < 2) (m : mount_info_st) (d : d81_attachment)
    (p : Option String) (fn : String) (hforce : m.force_external_name = some fn)
    (hatt : env.attach_fsobj u fn = 0) :
    ∃ d1, some_mount_body im (mount_out s u m d p) env u
        = some (0, mount_out s u { m with current_name := fn, internal := 0 } d1 p) := by
  unfold some_mount_body
  simp only [Option.bind_eq_bind, arr_get_info_out hwf hu, Option.some_bind, hforce]
  by_cases hname : m.current_name = fn
  · refine ⟨d, ?_⟩
    simp only [hname, ne_eq, not_true_eq_false, if_false, mount_update_out hwf hu,
      Option.some_bind, Option.pure_def]
    rw [hforce]
  · refine ⟨d81_attachment.fsobj fn 0, ?_⟩
    simp only [ne_eq, hname, not_false_eq_true, if_true, hatt, not_true_eq_false, if_false,
      arr_set_d81_out hwf hu, Option.some_bind, mount_out_with_d81, mount_update_out hwf hu,
      Option.pure_def]
    rw [hforce]

theorem force_external_named_ok (im : mount_fn) {s : sd_state} (env : host_env) {u : Nat}
    (hwf : mount_wf s) (hu : u < 2) (m : mount_info_st) (d : d81_attachment)
    (p : Option String) (fn : String) (hfn : fn ≠ "") (hatt : env.attach_fsobj u fn = 0) :
    ∃ d1, sdcard_force_external_mount_body im (mount_out s u m d p) env u (some fn)
        = some (0, mount_out s u
            { m with force_external_name := some fn, current_name := fn, internal := 0 } d1 p) := by
  obtain ⟨d1, h1⟩ := some_mount_body_forced_ok im env hwf hu
    { m with force_external_name := some fn } d p fn rfl hatt
  refine ⟨d1, ?_⟩
  unfold sdcard_force_external_mount_body
  simp only [Option.bind_eq_bind, hfn, ne_eq, not_false_eq_true, if_true,
    mount_update_out hwf hu, Option.some_bind, h1, not_true_eq_false, if_false, Option.pure_def]

/-- `do_default_d81_mount_hack` on a host where the default image can be created (or
exists) and attached. -/
theorem default_d81_mount_hack_ok (im : mount_fn) {s : sd_state} (env : host_env) {u : Nat}
    (hwf : mount_wf s) (hu : u < 2) (m : mount_info_st) (d : d81_attachment)
    (p : Option String) (hp : p ≠ some "")
    (hcr : env.create_image_file (default_path env u p) ≠ -1)
    (hatt : env.attach_fsobj u (default_path env u p) = 0) :
    ∃ d1, do_default_d81_mount_hack_body im (mount_out s u m d p) env u
        = some (0, mount_out s u
            { m with force_external_name := some (default_path env u p)
                     current_name := default_path env u p, internal := 0 } d1
            (some (default_path env u p))) := by
  rw [default_d81_mount_hack_eq im env hwf hu, if_neg hcr]
  exact force_external_named_ok im env hwf hu m d (some (default_path env u p))
    (default_path env u p) (default_path_ok env hu p hp) hatt

theorem substitution_due_iff (s : sd_state) (m : mount_info_st) (sector : Nat) :
    (sector = (with_sector m sector).at_sector_initial ∧ s.default_d81_is_from_sd = 0)
      ↔ substitution_due s m sector := by
  unfold substitution_due
  by_cases hc : m.monitoring_initial ≠ 0 ∧ m.at_sector_initial = 0
  · show (sector = (if m.monitoring_initial ≠ 0 ∧ m.at_sector_initial = 0 then sector
        else m.at_sector_initial) ∧ _) ↔ _
    rw [if_pos hc]
    constructor
    · intro h; exact ⟨h.2, Or.inr hc⟩
    · intro h; exact ⟨rfl, h.1⟩
  · show (sector = (if m.monitoring_initial ≠ 0 ∧ m.at_sector_initial = 0 then sector
        else m.at_sector_initial) ∧ _) ↔ _
    rw [if_neg hc]
    constructor
    · intro h; exact ⟨h.2, Or.inl h.1.symm⟩
    · intro h
      rcases h.2 with h2 | h2
      · exact ⟨h2.symm, h.1⟩
      · exact absurd h2 hc

/-- `internal_mount` on a validated request: when the default image is substituted and
what the unit ends with. -/
theorem internal_mount_substitution (K : sd_consts) {s : sd_state}
    (env : host_env) {u : Nat} (hwf : mount_wf s) (hu : u = 0 ∨ u = 1) (regB : Nat)
    (m : mount_info_st) (d : d81_attachment) (p : Option String) (sector : Nat)
    (hB : s.sd_regs[0xB]? = some regB) (hunit : unit_is s u m d p)
    (hen : regB &&& enable_mask u = enable_mask u) (hforce : m.force_external_name = none)
    (hat : U8A_TO_U32 s.sd_regs (sector_reg u) = some sector)
    (hvalid : sector_valid K s sector) :
    (¬ substitution_due s m sector →
      internal_mount K s env u = some (1, mount_out s u
        { with_sector m sector with current_name := internal_name s sector, internal := 1 }
        (internal_attachment s sector) p))
    ∧ (substitution_due s m sector →
        env.create_image_file (default_path env u p) ≠ -1 →
        env.attach_fsobj u (default_path env u p) = 0 →
        ∃ d1, internal_mount K s env u = some (1, mount_out s u
          { with_sector m sector with
              force_external_name := some (default_path env u p)
              current_name := default_path env u p, internal := 0 } d1
          (some (default_path env u p))))
    ∧ (substitution_due s m sector →
        ∃ m3 d3, internal_mount K s env u
            = some (1, mount_out s u m3 d3 (some (default_path env u p)))
          ∧ m3.at_sector = sector
          ∧ ((m3.internal = 0 ∧ m3.force_external_name = some (default_path env u p)
                ∧ m3.current_name = default_path env u p)
            ∨ (m3.internal = 1 ∧ m3.force_external_name = none
                ∧ m3.current_name = internal_name s sector
                ∧ d3 = internal_attachment s sector))) := by
  have hu2 : u < 2 := by rcases hu with h | h <;> omega
  have hp := unit_is_path_ok hwf hunit
  have heq : internal_mount K s env u = _ :=
    internal_mount_body_valid_eq K (internal_mount_depth K 1) env hwf hu regB m d p sector hB
      hunit hen hforce hat hvalid
  have hq := substitution_due_iff s m sector
  refine ⟨?_, ?_, ?_⟩
  · intro hns
    rw [heq, if_neg (fun h => hns (hq.mp h))]
  · intro hsub hcr hatt
    obtain ⟨d1, h1⟩ := default_d81_mount_hack_ok (internal_mount_depth K 1) env hwf hu2
      (with_sector m sector) d p hp hcr hatt
    refine ⟨d1, ?_⟩
    rw [heq, if_pos (hq.mpr hsub), h1]
    rfl
  · intro hsub
    obtain ⟨r, m2, d2, h2, hm2, hcase⟩ := default_d81_mount_hack_spec
      (internal_mount_depth K 1) env hwf hu2 (with_sector m sector) d p hp
    have hsec : m2.at_sector = sector := by rw [hm2]; rfl
    have hfall : ∀ (hr : r = -1), internal_mount K s env u
        = some (1, mount_out s u
            { m2 with current_name := internal_name s sector, internal := 1 }
            (internal_attachment s sector) (some (default_path env u p))) := by
      intro hr
      rw [heq, if_pos (hq.mpr hsub), h2]
      subst hr
      simp only [Option.some_bind]
      rw [if_neg (by decide)]
      exact attach_internal_out hwf hu2 m2 d2 (some (default_path env u p)) sector
    rcases hcase with ⟨hr, hi, hn, hf⟩ | ⟨hr, hm, _⟩ | ⟨hr, _, _, hf, _⟩
    · refine ⟨m2, d2, ?_, hsec, Or.inl ⟨hi, hf, hn⟩⟩
      rw [heq, if_pos (hq.mpr hsub), h2, hr]
      rfl
    · refine ⟨_, _, hfall hr, hsec, Or.inr ⟨rfl, ?_, rfl, rfl⟩⟩
      show m2.force_external_name = none
      rw [hm]; exact hforce
    · exact ⟨_, _, hfall hr, hsec, Or.inr ⟨rfl, hf, rfl, rfl⟩⟩

theorem sd_boot_request_wf : mount_wf sd_boot_request :=
  ⟨by simp [sd_boot_request], rfl, rfl, rfl, paths_ok_none⟩

theorem sd_boot_request_sector :
    U8A_TO_U32 sd_boot_request.sd_regs (sector_reg 0) = some 0x1000 := by decide

theorem sd_boot_request_valid : sector_valid K_ref sd_boot_request 0x1000 :=
  ⟨by decide, by decide⟩

theorem sd_boot_request_due : substitution_due sd_boot_request monitoring_desc 0x1000 :=
  ⟨rfl, Or.inr ⟨by decide, rfl⟩⟩

/-- C29 (as the code has it): for a validated internal mount request of an enabled unit
without forced external name, with sector s, the default external image is substituted
if and only if the default-external-mount policy is active (`default_d81_is_from_sd` is 0)
and s equals the unit's boot-time sector as it stands after the capture step of this same
call: s is the sector captured earlier, or the unit is inside the monitoring window with
nothing captured yet, in which case this request is captured and substituted at once.
Without substitution the unit is mounted internally at sector s (origin internal,
`at_sector` = s, no forced name). With substitution, when the image file can be created
(or exists) and the external attach succeeds, the unit ends with origin external and its
forced external name and display name set to the default image path; in any case the call
returns 1 with `at_sector` = s, and a failed substitution falls back to the internal mount
at sector s. -/
theorem default_image_substitution (K : sd_consts) {s : sd_state}
    (env : host_env) {u : Nat} (hwf : mount_wf s) (hu : u = 0 ∨ u = 1) (regB : Nat)
    (m : mount_info_st) (d : d81_attachment) (p : Option String) (sector : Nat)
    (hB : s.sd_regs[0xB]? = some regB) (hunit : unit_is s u m d p)
    (hen : regB &&& enable_mask u = enable_mask u) (hforce : m.force_external_name = none)
    (hat : U8A_TO_U32 s.sd_regs (sector_reg u) = some sector)
    (hvalid : sector_valid K s sector) :
    (¬ substitution_due s m sector →
      internal_mount K s env u = some (1, mount_out s u
        { with_sector m sector with current_name := internal_name s sector, internal := 1 }
        (internal_attachment s sector) p))
    ∧ (substitution_due s m sector →
        env.create_image_file (default_path env u p) ≠ -1 →
        env.attach_fsobj u (default_path env u p) = 0 →
        ∃ d1, internal_mount K s env u = some (1, mount_out s u
          { with_sector m sector with
              force_external_name := some (default_path env u p)
              current_name := default_path env u p, internal := 0 } d1
          (some (default_path env u p))))
    ∧ (substitution_due s m sector →
        ∃ m3 d3, internal_mount K s env u
            = some (1, mount_out s u m3 d3 (some (default_path env u p)))
          ∧ m3.at_sector = sector
          ∧ ((m3.internal = 0 ∧ m3.force_external_name = some (default_path env u p)
                ∧ m3.current_name = default_path env u p)
            ∨ (m3.internal = 1 ∧ m3.force_external_name = none
                ∧ m3.current_name = internal_name s sector
                ∧ d3 = internal_attachment s sector))) :=
  internal_mount_substitution K env hwf hu regB m d p sector hB hunit hen hforce hat hvalid

theorem default_image_substitution_witness :
    mount_wf sd_boot_request ∧ sector_valid K_ref sd_boot_request 0x1000
    ∧ substitution_due sd_boot_request monitoring_desc 0x1000
    ∧ ∃ d1, internal_mount K_ref sd_boot_request env_ok 0 = some (1, mount_out sd_boot_request 0
          { with_sector monitoring_desc 0x1000 with
              force_external_name := some (default_path env_ok 0 none)
              current_name := default_path env_ok 0 none, internal := 0 } d1
          (some (default_path env_ok 0 none))) :=
  ⟨sd_boot_request_wf, sd_boot_request_valid, sd_boot_request_due,
    (default_image_substitution K_ref env_ok sd_boot_request_wf (Or.inl rfl) 3 monitoring_desc
      d81_attachment.empty none 0x1000 (by decide) ⟨rfl, rfl, rfl⟩ (by decide) rfl
      sd_boot_request_sector sd_boot_request_valid).2.1 sd_boot_request_due (by decide) rfl⟩

/-- C29, a request made before any sector was captured: inside the monitoring window, with
no sector captured for unit 0 (`at_sector_initial` = 0) and the policy active, the first
validated request (sector 0x1000) is captured and substituted in the same call, so the
unit ends external under the default image path instead of internal at sector 0x1000. -/
theorem first_boot_request_is_substituted :
    (sd_boot_request.mount_info[0]?).map (fun m => m.at_sector_initial) = some 0
    ∧ sd_boot_request.default_d81_is_from_sd = 0
    ∧ U8A_TO_U32 sd_boot_request.sd_regs (sector_reg 0) = some 0x1000
    ∧ sector_valid K_ref sd_boot_request 0x1000
    ∧ ∃ m3 d3, internal_mount K_ref sd_boot_request env_ok 0
          = some (1, mount_out sd_boot_request 0 m3 d3 (some (default_path env_ok 0 none)))
        ∧ m3.internal = 0
        ∧ m3.force_external_name = some (default_path env_ok 0 none)
        ∧ m3.at_sector_initial = 0x1000 := by
  obtain ⟨d1, h1⟩ := (internal_mount_substitution K_ref env_ok sd_boot_request_wf (Or.inl rfl) 3
    monitoring_desc d81_attachment.empty none 0x1000 (by decide) ⟨rfl, rfl, rfl⟩ (by decide)
    rfl sd_boot_request_sector sd_boot_request_valid).2.1 sd_boot_request_due (by decide) rfl
  exact ⟨rfl, rfl, sd_boot_request_sector, sd_boot_request_valid, _, d1, h1, rfl, rfl, rfl⟩

/-- C18. Boot-time sector capture happens once. `sdcard_notify_system_start_begin` clears
the initial mount sector of both units and starts monitoring. While a unit is monitored
and has no initial mount sector yet, an internal mount request of the unit that passes
validation, with sector `sector`, returns 1 and sets the initial mount sector of the unit
to `sector`, and after it every sequence of register writes (later internal mount
requests with any sector among them), forced external mounts, unmounts and ends of the
start window leaves the initial mount sector equal to `sector`, as long as there is no
further begin. `sdcard_notify_system_start_end` switches the monitoring of both units off
and changes nothing else in their descriptors. Over every sequence of operations without
a begin the monitoring of a unit is never switched on and its initial mount sector
changes at most once, from 0 while monitored to a validated sector. Outside the start
window the initial mount sector is never modified: from the end of the window on, over
every sequence of operations without a begin, it is what it was at the end of the window
(also when nothing was captured), and the unit stays unmonitored; the descriptors
`sdcard_init` installs are unmonitored as well. -/
theorem boot_sector_capture_once (K : sd_consts) (hK : K.WF) (u : Nat) (hu : u = 0 ∨ u = 1)
    (s : sd_state) (hwf : mount_wf s) :
    (∃ s1, sdcard_notify_system_start_begin s = some s1 ∧ mount_wf s1
        ∧ ∀ (v : Nat) m1, s1.mount_info[v]? = some m1 →
            m1.at_sector_initial = 0 ∧ m1.monitoring_initial = 1)
    ∧ (∀ env m regB sector, s.mount_info[u]? = some m →
        m.monitoring_initial ≠ 0 → m.at_sector_initial = 0 →
        s.sd_regs[0xB]? = some regB → regB &&& enable_mask u = enable_mask u →
        m.force_external_name = none →
        U8A_TO_U32 s.sd_regs (sector_reg u) = some sector → sector_valid K s sector →
        ∃ s1 m1, internal_mount K s env u = some (1, s1) ∧ mount_wf s1
          ∧ s1.mount_info[u]? = some m1 ∧ m1.at_sector_initial = sector
          ∧ m1.monitoring_initial = m.monitoring_initial
          ∧ ∀ ops s2, (∀ op, op ∈ ops → op.is_begin = false) → run_ops K s1 ops = some s2 →
              ∃ m2, s2.mount_info[u]? = some m2 ∧ m2.at_sector_initial = sector)
    ∧ (∃ s1, sdcard_notify_system_start_end s = some s1 ∧ mount_wf s1
        ∧ ∀ (v : Nat) m, s.mount_info[v]? = some m →
            s1.mount_info[v]? = some { m with monitoring_initial := 0 })
    ∧ (∀ ops s1 m, (∀ op, op ∈ ops → op.is_begin = false) → run_ops K s ops = some s1 →
        s.mount_info[u]? = some m →
        mount_wf s1
        ∧ ∃ m1, s1.mount_info[u]? = some m1
          ∧ (m1.monitoring_initial = m.monitoring_initial ∨ m1.monitoring_initial = 0)
          ∧ (m1.at_sector_initial = m.at_sector_initial
              ∨ (m.monitoring_initial ≠ 0 ∧ m.at_sector_initial = 0
                  ∧ MIN_MOUNT_SECTOR_NO ≤ m1.at_sector_initial))
          ∧ (m.at_sector_initial ≠ 0 ∨ m.monitoring_initial = 0 →
              m1.at_sector_initial = m.at_sector_initial))
    ∧ (∀ ops s1 m, (∀ op, op ∈ ops → op.is_begin = false) →
        run_ops K s (mount_op.start_end :: ops) = some s1 →
        s.mount_info[u]? = some m →
        ∃ m1, s1.mount_info[u]? = some m1
          ∧ m1.at_sector_initial = m.at_sector_initial ∧ m1.monitoring_initial = 0)
    ∧ mount_init.monitoring_initial = 0 := by
  have hu2 : u < 2 := by rcases hu with h | h <;> omega
  have hend : ∃ s1, sdcard_notify_system_start_end s = some s1 ∧ mount_wf s1
        ∧ ∀ (v : Nat) m, s.mount_info[v]? = some m →
            s1.mount_info[v]? = some { m with monitoring_initial := 0 } := by
    obtain ⟨m0, m1, hmi, heq⟩ := start_window_eq hwf (fun m => { m with monitoring_initial := 0 })
    refine ⟨_, heq, mount_wf_info hwf _ rfl, ?_⟩
    intro v x hx
    rw [hmi] at hx
    rcases pair_getElem? hx with ⟨h0, h⟩ | ⟨h0, h⟩ <;> subst h0 <;> subst h <;> rfl
  have hkept : ∀ (t : sd_state), mount_wf t → ∀ ops s1 m,
      (∀ op, op ∈ ops → op.is_begin = false) → run_ops K t ops = some s1 →
      t.mount_info[u]? = some m →
      mount_wf s1
      ∧ ∃ m1, s1.mount_info[u]? = some m1
        ∧ (m1.monitoring_initial = m.monitoring_initial ∨ m1.monitoring_initial = 0)
        ∧ (m1.at_sector_initial = m.at_sector_initial
            ∨ (m.monitoring_initial ≠ 0 ∧ m.at_sector_initial = 0
                ∧ MIN_MOUNT_SECTOR_NO ≤ m1.at_sector_initial))
        ∧ (m.at_sector_initial ≠ 0 ∨ m.monitoring_initial = 0 →
            m1.at_sector_initial = m.at_sector_initial) := by
    intro t hwft ops s1 m hops hrun hm
    obtain ⟨hwf1, hk⟩ := run_ops_kept K hK ops t s1 hops hwft hrun
    obtain ⟨m1, hm1, hmon, hi⟩ := hk u m hm
    refine ⟨hwf1, m1, hm1, hmon, hi, ?_⟩
    intro hq
    rcases hi with h | ⟨h1, h2, _⟩
    · exact h
    · rcases hq with h | h
      · exact absurd h2 h
      · exact absurd h h1
  refine ⟨?_, ?_, hend, hkept s hwf, ?_, rfl⟩
  · obtain ⟨m0, m1, hmi, heq⟩ := start_window_eq hwf
      (fun m => { m with at_sector_initial := 0, monitoring_initial := 1 })
    refine ⟨_, heq, mount_wf_info hwf _ rfl, ?_⟩
    intro v x hx
    rcases pair_getElem? hx with ⟨_, h⟩ | ⟨_, h⟩ <;> subst h <;> exact ⟨rfl, rfl⟩
  · intro env m regB sector hm hmon hinit hB hen hforce hat hvalid
    obtain ⟨m0, d, p, hunit⟩ := unit_is_exists hwf hu2
    have : m0 = m := by rw [hunit.1] at hm; exact Option.some.inj hm
    subst this
    obtain ⟨r, m3, d3, p3, h, hp3, hrel, _, _, hcap⟩ :=
      internal_mount_spec K env hwf hu m0 d p hunit
    obtain ⟨hr, _, hi⟩ := hcap regB sector hB hen hforce hat hvalid
    subst hr
    have hwf1 : mount_wf (mount_out s u m3 d3 p3) := mount_wf_out hwf m3 d3 p3 hp3
    have hget := (unit_is_out hwf hu2 m3 d3 p3).1
    have hsec : m3.at_sector_initial = sector := by
      rw [hi]
      show (if m0.monitoring_initial ≠ 0 ∧ m0.at_sector_initial = 0 then sector
            else m0.at_sector_initial) = sector
      rw [if_pos ⟨hmon, hinit⟩]
    refine ⟨_, m3, h, hwf1, hget, hsec, hrel.1, ?_⟩
    intro ops s2 hops hrun
    obtain ⟨_, m2, hm2, _, _, hstay⟩ := hkept _ hwf1 ops s2 m3 hops hrun hget
    refine ⟨m2, hm2, ?_⟩
    rw [hstay (Or.inl (by
      rw [hsec]
      have := hvalid.1
      unfold MIN_MOUNT_SECTOR_NO at this
      omega)), hsec]
  · intro ops s1 m hops hrun hm
    obtain ⟨sE, hE, hwfE, hmE⟩ := hend
    have hrun2 : run_ops K sE ops = some s1 := by
      unfold run_ops at hrun
      have hstep : mount_step K s mount_op.start_end = some sE := hE
      rw [hstep] at hrun
      exact hrun
    obtain ⟨_, m1, hm1, hmon, _, hstay⟩ := hkept sE hwfE ops s1 _ hops hrun2 (hmE u m hm)
    refine ⟨m1, hm1, hstay (Or.inr rfl), ?_⟩
    rcases hmon with h | h
    · exact h
    · exact h

theorem boot_sector_capture_once_witness :
    (∃ s1 m1, internal_mount K_ref sd_boot_request env_ok 0 = some (1, s1) ∧ mount_wf s1
      ∧ s1.mount_info[0]? = some m1 ∧ m1.at_sector_initial = 0x1000
      ∧ m1.monitoring_initial = monitoring_desc.monitoring_initial
      ∧ ∀ ops s2, (∀ op, op ∈ ops → op.is_begin = false) →
          run_ops K_ref s1 ops = some s2 →
          ∃ m2, s2.mount_info[0]? = some m2 ∧ m2.at_sector_initial = 0x1000)
    ∧ (∃ s1, sdcard_notify_system_start_end sd_boot_request = some s1 ∧ mount_wf s1
        ∧ ∀ (v : Nat) m, sd_boot_request.mount_info[v]? = some m →
            s1.mount_info[v]? = some { m with monitoring_initial := 0 })
    ∧ (∀ ops s1, (∀ op, op ∈ ops → op.is_begin = false) →
        run_ops K_ref sd_boot_request (mount_op.start_end :: ops) = some s1 →
        ∃ m1, s1.mount_info[0]? = some m1
          ∧ m1.at_sector_initial = monitoring_desc.at_sector_initial
          ∧ m1.monitoring_initial = 0) :=
  have h := boot_sector_capture_once K_ref (by decide) 0 (Or.inl rfl) sd_boot_request
    sd_boot_request_wf
  ⟨h.2.1 env_ok monitoring_desc 3 0x1000 rfl (by decide) rfl (by decide) (by decide) rfl
      sd_boot_request_sector sd_boot_request_valid,
    h.2.2.1,
    fun ops s1 hops hrun => h.2.2.2.2.1 ops s1 monitoring_desc hops hrun rfl⟩

theorem getD_set_self {l : List Nat} {i : Nat} (a d : Nat) (h : i < l.length) :
    (l.set i a).getD i d = a := by
  rw [List.getD_eq_getElem?_getD, List.getElem?_set, if_pos rfl, if_pos h]
  rfl

theorem getD_set_ne {l : List Nat} {i j : Nat} (a d : Nat) (h : i ≠ j) :
    (l.set i a).getD j d = l.getD j d := by
  rw [List.getD_eq_getElem?_getD, List.getD_eq_getElem?_getD, List.getElem?_set, if_neg h]

set_option maxRecDepth 100000 in
theorem vid_addr_keep : ∀ r5, r5 < 256 → ∀ b, b < 2 →
    (((((r5 &&& 0xF0) <<< 6) ||| (if b = 1 then 0x200 else 0)) &&& 0xFDFF)) = (r5 &&& 0xF0) <<< 6 := by
  decide

theorem arr_get_of_lt {α : Type} (xs : List α) (i : Nat) (h : i < xs.length) :
    arr_get xs i = some (xs.get ⟨i, h⟩) := by
  unfold arr_get
  exact List.getElem?_eq_getElem h

theorem and_7_lt (d : Nat) : d &&& 7 < 16 :=
  Nat.lt_of_le_of_lt Nat.and_le_right (by decide)

theorem shr4_lt {d : Nat} (h : d < 256) : d >>> 4 < 16 := by
  rw [Nat.shiftRight_eq_div_pow]
  exact Nat.div_lt_of_lt_mul (by omega)

/-- A register write with `addr` in 0..15 returns, and what it leaves. -/
theorem cpu_vic_reg_write_spec (K : vic_consts) (s : vic_state) (hwf : vic_wf s)
    (addr data : Nat) (haddr : addr < 16) :
    ∃ s1, cpu_vic_reg_write K s addr data = some s1
      ∧ vic_write_post K s addr (data % 256) s1 := by
  have hd : data % 256 < 256 := Nat.mod_lt _ (by decide)
  have hset : arr_set s.vic_registers addr (data % 256)
      = some (s.vic_registers.set addr (data % 256)) := by
    unfold arr_set; rw [if_pos (by rw [hwf.regs_len]; exact haddr)]
  have hp1 := arr_get_of_lt s.vic_palette ((data % 256) >>> 4)
    (by rw [hwf.palette_len]; exact shr4_lt hd)
  have hp2 := arr_get_of_lt s.vic_palette ((data % 256) &&& 7)
    (by rw [hwf.palette_len]; exact and_7_lt _)
  have hc : ∀ (l : List Nat) (i : Nat) (v : Nat), l.length = 4 → i < 4 →
      arr_set l i v = some (l.set i v) := by
    intro l i v hl hi
    unfold arr_set; rw [if_pos (by omega)]
  have hwf1 : ∀ t : vic_state, t.vic_registers = s.vic_registers.set addr (data % 256) →
      t.vic_palette = s.vic_palette → t.vic_cpal.length = 4 → t.sram_colour_index < 4 →
      vic_wf t := by
    intro t h1 h2 h3 h4
    exact ⟨by rw [h1, List.length_set]; exact hwf.regs_len, by rw [h2]; exact hwf.palette_len,
      h3, h4⟩
  unfold cpu_vic_reg_write
  simp only [Option.bind_eq_bind, hset, Option.some_bind, Option.pure_def]
  have h16 : addr = 0 ∨ addr = 1 ∨ addr = 2 ∨ addr = 3 ∨ addr = 4 ∨ addr = 5 ∨ addr = 6
      ∨ addr = 7 ∨ addr = 8 ∨ addr = 9 ∨ addr = 10 ∨ addr = 11 ∨ addr = 12 ∨ addr = 13
      ∨ addr = 14 ∨ addr = 15 := by omega
  rcases h16 with h | h | h | h | h | h | h | h | h | h | h | h | h | h | h | h <;> subst h
  all_goals first
    | exact ⟨_, rfl, ⟨rfl, hwf1 _ rfl rfl hwf.cpal_len hwf.sram_lt, rfl, rfl, rfl, rfl, rfl,
        rfl, rfl, rfl, rfl, rfl, rfl, rfl, rfl, rfl, rfl, rfl, rfl⟩⟩
    | skip
  · simp only [hp1, Option.some_bind, hc _ 3 _ hwf.cpal_len (by decide)]
    exact ⟨_, rfl, ⟨rfl, hwf1 _ rfl rfl (by simp [hwf.cpal_len]) hwf.sram_lt, rfl, rfl, rfl, rfl,
      rfl, rfl, rfl, rfl, rfl, rfl, rfl, rfl, rfl, rfl, rfl, rfl, rfl⟩⟩
  · simp only [hp1, hp2, Option.some_bind, hc _ 1 _ hwf.cpal_len (by decide)]
    by_cases h8 : (data % 256) &&& 8 ≠ 0
    · rw [if_pos h8, hc _ 0 _ (by simp [hwf.cpal_len]) (by decide)]
      exact ⟨_, rfl, ⟨rfl, hwf1 _ rfl rfl (by simp [hwf.cpal_len])
        (show (2 : Nat) < 4 by decide), rfl, rfl, rfl, rfl, rfl, rfl, rfl, rfl, rfl, rfl, rfl,
        rfl, rfl, rfl, rfl, rfl, rfl⟩⟩
    · rw [if_neg h8, hc _ 2 _ (by simp [hwf.cpal_len]) (by decide)]
      exact ⟨_, rfl, ⟨rfl, hwf1 _ rfl rfl (by simp [hwf.cpal_len])
        (show (0 : Nat) < 4 by decide), rfl, rfl, rfl, rfl, rfl, rfl, rfl, rfl, rfl, rfl, rfl,
        rfl, rfl, rfl, rfl, rfl, rfl⟩⟩

theorem min_eq_ite_32 (x : Nat) : (if x > 32 then 32 else x) = min x 32 := by
  by_cases h : x > 32
  · rw [if_pos h, Nat.min_eq_right (by omega)]
  · rw [if_neg h, Nat.min_eq_left (by omega)]

theorem shl1_eq (d : Nat) : d <<< 1 = d * 2 := by
  rw [Nat.shiftLeft_eq]

/-- A register write keeps the cached fields in step with the register file; writing
the next register not covered yet extends the cover. -/
theorem derived_upto_write (K : vic_consts) {n : Nat} {s s1 : vic_state} (hwf : vic_wf s)
    (hd : derived_upto K n s) {addr d : Nat} (haddr : addr < 16) (hn : addr ≤ n)
    (hdlt : d < 256) (hp : vic_write_post K s addr d s1) :
    derived_upto K (max n (addr + 1)) s1 := by
  have hlen : addr < s.vic_registers.length := by rw [hwf.regs_len]; exact haddr
  have hself : s1.vic_registers.getD addr 0 = d := by rw [hp.regs]; exact getD_set_self d 0 hlen
  have hne : ∀ j, addr ≠ j → s1.vic_registers.getD j 0 = s.vic_registers.getD j 0 :=
    fun j h => by rw [hp.regs]; exact getD_set_ne d 0 h
  have hlt : ∀ j, j < max n (addr + 1) → addr ≠ j → j < n := by
    intro j h1 h2
    rcases Nat.lt_or_ge n (addr + 1) with h | h
    · rw [Nat.max_eq_right (by omega)] at h1; omega
    · rw [Nat.max_eq_left h] at h1; exact h1
  have hb9 : ∀ x : Nat, (if x &&& 0x80 ≠ 0 then 0x200 else 0)
      = (if (if x &&& 0x80 ≠ 0 then 1 else 0) = 1 then 0x200 else 0) := by
    intro x; by_cases h : x &&& 0x80 ≠ 0
    · rw [if_pos h, if_pos h, if_pos rfl]
    · rw [if_neg h, if_neg h, if_neg (by decide)]
  refine ⟨?_, ?_, ?_, ?_, ?_, ?_, ?_, ?_, ?_, ?_⟩
  · intro hg
    rw [hp.dotpos]
    by_cases h : addr = 0
    · subst h; rw [if_pos rfl, hself]
    · rw [if_neg h, hne 0 h]; exact hd.dotpos (hlt 0 hg h)
  · intro hg
    rw [hp.scan]
    by_cases h : addr = 1
    · subst h; rw [if_pos rfl, hself, shl1_eq]
    · rw [if_neg h, hne 1 h]; exact hd.scan (hlt 1 hg h)
  · intro hg
    rw [hp.columns]
    by_cases h : addr = 2
    · subst h; rw [if_pos rfl, hself, min_eq_ite_32]
    · rw [if_neg h, hne 2 h]; exact hd.columns (hlt 2 hg h)
  · intro hg
    rw [hp.rows]
    by_cases h : addr = 3
    · subst h; rw [if_pos rfl, hself, min_eq_ite_32]
    · rw [if_neg h, hne 3 h]; exact hd.rows (hlt 3 hg h)
  · intro hg
    rw [hp.height]
    by_cases h : addr = 3
    · subst h; rw [if_pos rfl, hself]
    · rw [if_neg h, hne 3 h]; exact hd.height (hlt 3 hg h)
  · intro hg
    rw [hp.shift]
    by_cases h : addr = 3
    · subst h; rw [if_pos rfl, hself]
    · rw [if_neg h, hne 3 h]; exact hd.shift (hlt 3 hg h)
  · intro hg
    rw [hp.chr]
    by_cases h : addr = 5
    · subst h; rw [if_pos rfl, hself]
    · rw [if_neg h, hne 5 h]; exact hd.chr (hlt 5 hg h)
  · intro hg
    rw [hp.vid]
    by_cases h : addr = 2
    · subst h
      have h5 : 5 < n := hlt 5 hg (by decide)
      rw [if_pos rfl, hself, hne 5 (by decide), hd.vid h5, hb9 (s.vic_registers.getD 2 0)]
      rw [vid_addr_keep _ (hd.bytes 5 h5) _ (by split <;> decide)]
    · rw [if_neg h, hne 2 h]
      by_cases h5 : addr = 5
      · subst h5; rw [if_pos rfl, hself, hd.bit9 (by omega)]
      · rw [if_neg h5, hne 5 h5]; exact hd.vid (hlt 5 hg h5)
  · intro hg
    rw [hp.bit9]
    by_cases h : addr = 2
    · subst h; rw [if_pos rfl, hself]
    · rw [if_neg h, hne 2 h]; exact hd.bit9 (hlt 2 hg h)
  · intro r hr
    by_cases h : addr = r
    · subst h; rw [hself]; exact hdlt
    · rw [hne r h]; exact hd.bytes r (hlt r hr h)

theorem derived_upto_zero (K : vic_consts) (s : vic_state) : derived_upto K 0 s :=
  ⟨fun h => absurd h (by decide), fun h => absurd h (by decide), fun h => absurd h (by decide),
   fun h => absurd h (by decide), fun h => absurd h (by decide), fun h => absurd h (by decide),
   fun h => absurd h (by decide), fun h => absurd h (by decide), fun h => absurd h (by decide),
   fun r h => absurd h (Nat.not_lt_zero r)⟩

/-- The register writes of the loop of `vic_init`, from index `a` on. -/
theorem vic_init_loop_spec (K : vic_consts) :
    ∀ (n a : Nat) (s : vic_state), vic_wf s → a + n = 19 → derived_upto K (min a 16) s →
      ∃ s1, vic_init_loop K n a s = some s1 ∧ vic_wf s1 ∧ derived_upto K 16 s1
        ∧ s1.scanline = s.scanline ∧ s1.vic_vertical_area = s.vic_vertical_area
        ∧ s1.charline = s.charline ∧ s1.vic_vid_counter = s.vic_vid_counter
        ∧ s1.vic_row_counter = s.vic_row_counter := by
  intro n
  induction n with
  | zero =>
    intro a s hwf ha hd
    have h16 : min a 16 = 16 := Nat.min_eq_right (by omega)
    rw [h16] at hd
    exact ⟨s, rfl, hwf, hd, rfl, rfl, rfl, rfl, rfl⟩
  | succ n ih =>
    intro a s hwf ha hd
    have hlt : a &&& 15 < 16 := Nat.lt_of_le_of_lt Nat.and_le_right (by decide)
    obtain ⟨s1, h1, hp⟩ := cpu_vic_reg_write_spec K s hwf (a &&& 15) 0 hlt
    have hle : a &&& 15 ≤ min a 16 := by
      by_cases h : a < 16
      · have : a &&& 15 = a := by
          have h15 : (15 : Nat) = 2 ^ 4 - 1 := rfl
          rw [h15, Nat.and_pow_two_sub_one_eq_mod, Nat.mod_eq_of_lt h]
        rw [this, Nat.min_eq_left (by omega)]
      · rw [Nat.min_eq_right (by omega)]; omega
    have hd1 := derived_upto_write K hwf hd hlt hle (by decide) hp
    have hmax : max (min a 16) ((a &&& 15) + 1) = min (a + 1) 16 := by
      by_cases h : a < 16
      · have : a &&& 15 = a := by
          have h15 : (15 : Nat) = 2 ^ 4 - 1 := rfl
          rw [h15, Nat.and_pow_two_sub_one_eq_mod, Nat.mod_eq_of_lt h]
        rw [this, Nat.min_eq_left (by omega), Nat.min_eq_left (by omega),
          Nat.max_eq_right (by omega)]
      · rw [Nat.min_eq_right (by omega), Nat.min_eq_right (by omega),
          Nat.max_eq_left (by omega)]
    rw [hmax] at hd1
    obtain ⟨s2, h2, hwf2, hd2, e1, e2, e3, e4, e5⟩ := ih (a + 1) s1 hp.wf (by omega) hd1
    refine ⟨s2, ?_, hwf2, hd2, e1.trans hp.scanline_eq, e2.trans hp.area_eq,
      e3.trans hp.charline_eq, e4.trans hp.vid_counter_eq, e5.trans hp.row_counter_eq⟩
    show (cpu_vic_reg_write K s (a &&& 15) 0).bind (fun s1 => vic_init_loop K n (a + 1) s1) = _
    rw [h1]
    exact h2

theorem vic_vsync_wf {s : vic_state} (hwf : vic_wf s) (relock : Bool) (tail : Nat) :
    vic_wf (vic_vsync s relock tail) := by
  unfold vic_vsync
  cases relock
  · exact ⟨hwf.regs_len, hwf.palette_len, hwf.cpal_len, hwf.sram_lt⟩
  · exact ⟨hwf.regs_len, hwf.palette_len, hwf.cpal_len, hwf.sram_lt⟩

/-- `vic_init` returns and leaves every cached field in step with the register file. -/
theorem vic_init_spec (K : vic_consts) (s : vic_state) (hwf : vic_wf s) (lo8 hi4 : Nat → Nat)
    (tail : Nat) :
    ∃ s1, vic_init K s lo8 hi4 tail = some s1 ∧ vic_wf s1 ∧ derived_upto K 16 s1
      ∧ s1.scanline = 0 ∧ s1.vic_vertical_area = 1 ∧ s1.charline = 0
      ∧ s1.vic_vid_counter = 0 ∧ s1.vic_row_counter = 0 ∧ s1.lo8 = lo8 ∧ s1.hi4 = hi4 := by
  obtain ⟨s1, h1, hwf1, hd1, e1, e2, e3, e4, e5⟩ :=
    vic_init_loop_spec K 19 0 (vic_vsync s true tail) (vic_vsync_wf hwf true tail) rfl
      (derived_upto_zero K _)
  refine ⟨{ s1 with lo8 := lo8, hi4 := hi4 }, ?_,
    ⟨hwf1.regs_len, hwf1.palette_len, hwf1.cpal_len, hwf1.sram_lt⟩,
    ⟨hd1.dotpos, hd1.scan, hd1.columns, hd1.rows, hd1.height, hd1.shift, hd1.chr, hd1.vid,
      hd1.bit9, hd1.bytes⟩, e1, e2, e3, e4, e5, rfl, rfl⟩
  unfold vic_init
  show (vic_init_loop K 19 0 (vic_vsync s true tail)).bind _ = _
  rw [h1]
  rfl

/-- A sequence of register writes with indices in 0..15 returns; the register file holds
the bytes last written and the cached fields stay in step. -/
theorem vic_run_writes_spec (K : vic_consts) :
    ∀ (ws : List (Nat × Nat)) (s : vic_state), vic_wf s → derived_upto K 16 s →
      (∀ w, w ∈ ws → w.1 < 16) →
      ∃ s1, vic_run_writes K s ws = some s1 ∧ vic_wf s1 ∧ derived_upto K 16 s1
        ∧ (∀ r, r < 16 →
            s1.vic_registers.getD r 0 = last_written ws r (s.vic_registers.getD r 0))
        ∧ s1.scanline = s.scanline ∧ s1.vic_vertical_area = s.vic_vertical_area
  | [], s, hwf, hd, _ => ⟨s, rfl, hwf, hd, fun _ _ => rfl, rfl, rfl⟩
  | w :: ws, s, hwf, hd, hws => by
    have hw : w.1 < 16 := hws w (List.mem_cons_self _ _)
    obtain ⟨s1, h1, hp⟩ := cpu_vic_reg_write_spec K s hwf w.1 w.2 hw
    have hd1 := derived_upto_write K hwf hd hw (by omega) (Nat.mod_lt _ (by decide)) hp
    rw [Nat.max_eq_left (by omega)] at hd1
    obtain ⟨s2, h2, hwf2, hd2, hregs, e1, e2⟩ := vic_run_writes_spec K ws s1 hp.wf hd1
      (fun x hx => hws x (List.mem_cons_of_mem _ hx))
    refine ⟨s2, ?_, hwf2, hd2, ?_, e1.trans hp.scanline_eq, e2.trans hp.area_eq⟩
    · show (cpu_vic_reg_write K s w.1 w.2).bind (fun s1 => vic_run_writes K s1 ws) = _
      rw [h1]
      exact h2
    · intro r hr
      rw [hregs r hr]
      show _ = List.foldl _ (if w.1 = r then w.2 % 256 else s.vic_registers.getD r 0) ws
      have hlen : w.1 < s.vic_registers.length := by rw [hwf.regs_len]; exact hw
      by_cases h : w.1 = r
      · rw [if_pos h, hp.regs, ← h, getD_set_self _ 0 hlen]
        rfl
      · rw [if_neg h, hp.regs, getD_set_ne _ 0 h]
        rfl

theorem vic_static_wf : vic_wf vic_static := ⟨rfl, rfl, rfl, by decide⟩

theorem last_written_nil (r init : Nat) : last_written [] r init = init := rfl

theorem reg3_value (x scan : Nat) :
    ((x &&& 0x7F) ||| (if scan &&& 1 ≠ 0 then 0x80 else 0)) % 256
      = x % 128 + 128 * (scan % 2) := by
  have h1 : x &&& 0x7F = x % 128 := Nat.and_pow_two_sub_one_eq_mod x 7
  have h2 : scan &&& 1 = scan % 2 := Nat.and_pow_two_sub_one_eq_mod scan 1
  have h3 : x % 128 < 2 ^ 7 := Nat.mod_lt _ (by decide)
  have h4 := Nat.mul_add_lt_is_or h3 (scan % 2)
  have h5 : scan % 2 < 2 := Nat.mod_lt _ (by decide)
  rw [h1, h2]
  by_cases h : scan % 2 ≠ 0
  · rw [if_pos h]
    have h6 : scan % 2 = 1 := by omega
    rw [h6] at h4 ⊢
    have h7 : x % 128 ||| 128 = 128 + x % 128 := by
      rw [Nat.lor_comm]; exact h4.symm
    rw [h7]
    omega
  · rw [if_neg h]
    have h6 : scan % 2 = 0 := by omega
    rw [h6, Nat.or_zero]
    omega

/-- A sequence of register writes with indices in 0..15 returns, and the register file
holds the bytes last written. -/
theorem vic_run_writes_regs (K : vic_consts) :
    ∀ (ws : List (Nat × Nat)) (s : vic_state), vic_wf s → (∀ w, w ∈ ws → w.1 < 16) →
      ∃ s1, vic_run_writes K s ws = some s1 ∧ vic_wf s1
        ∧ (∀ r, r < 16 →
            s1.vic_registers.getD r 0 = last_written ws r (s.vic_registers.getD r 0))
  | [], s, hwf, _ => ⟨s, rfl, hwf, fun _ _ => rfl⟩
  | w :: ws, s, hwf, hws => by
    have hw : w.1 < 16 := hws w (List.mem_cons_self _ _)
    obtain ⟨s1, h1, hp⟩ := cpu_vic_reg_write_spec K s hwf w.1 w.2 hw
    obtain ⟨s2, h2, hwf2, hregs⟩ := vic_run_writes_regs K ws s1 hp.wf
      (fun x hx => hws x (List.mem_cons_of_mem _ hx))
    refine ⟨s2, ?_, hwf2, ?_⟩
    · show (cpu_vic_reg_write K s w.1 w.2).bind (fun s1 => vic_run_writes K s1 ws) = _
      rw [h1]
      exact h2
    · intro r hr
      rw [hregs r hr]
      show _ = List.foldl _ (if w.1 = r then w.2 % 256 else s.vic_registers.getD r 0) ws
      have hlen : w.1 < s.vic_registers.length := by rw [hwf.regs_len]; exact hw
      by_cases h : w.1 = r
      · rw [if_pos h, hp.regs, ← h, getD_set_self _ 0 hlen]
        rfl
      · rw [if_neg h, hp.regs, getD_set_ne _ 0 h]
        rfl

theorem reg_read_stored (s : vic_state) (hlen : s.vic_registers.length = 16) (r : Nat)
    (hr : r < 16) :
    cpu_vic_reg_read s r
      = some (if r = 4 then (s.scanline >>> 1) % 256
              else if r = 3 then s.vic_registers.getD 3 0 % 128 + 128 * (s.scanline % 2)
              else s.vic_registers.getD r 0) := by
  have hget : ∀ i, i < 16 → arr_get s.vic_registers i = some (s.vic_registers.getD i 0) := by
    intro i hi
    unfold arr_get
    rw [List.getD_eq_getElem?_getD, List.getElem?_eq_getElem (by omega)]
    rfl
  unfold cpu_vic_reg_read
  by_cases h4 : r = 4
  · rw [if_pos h4, if_pos h4]
  · rw [if_neg h4, if_neg h4]
    by_cases h3 : r = 3
    · rw [if_pos h3, if_pos h3, hget 3 (by decide)]
      simp only [Option.bind_eq_bind, Option.some_bind, Option.pure_def, reg3_value]
    · rw [if_neg h3, if_neg h3, hget r hr]

/-- C25. Video register 3 read: after any sequence of register writes and for every value
of the scanline counter, `cpu_vic_reg_read(3)` returns the low 7 bits of the byte last
written to register 3 with bit 7 equal to bit 0 of the scanline counter (so the written
bit 7 is never returned); for every register index in 0..15 other than 3 and 4 it returns
the byte last written to that register (the byte the register held before, if none was). -/
theorem video_register_3_read (K : vic_consts) (s0 : vic_state) (hwf : vic_wf s0)
    (ws : List (Nat × Nat)) (hws : ∀ w, w ∈ ws → w.1 < 16) (scan : Nat) :
    ∃ s, vic_run_writes K s0 ws = some s
      ∧ cpu_vic_reg_read { s with scanline := scan } 3
          = some (last_written ws 3 (s0.vic_registers.getD 3 0) % 128 + 128 * (scan % 2))
      ∧ (∀ r, r < 16 → r ≠ 3 → r ≠ 4 →
          cpu_vic_reg_read { s with scanline := scan } r
            = some (last_written ws r (s0.vic_registers.getD r 0))) := by
  obtain ⟨s, h1, hwf1, hregs⟩ := vic_run_writes_regs K ws s0 hwf hws
  refine ⟨s, h1, ?_, ?_⟩
  · refine (reg_read_stored { s with scanline := scan } hwf1.regs_len 3 (by decide)).trans ?_
    rw [if_neg (by decide), if_pos rfl]
    show some (s.vic_registers.getD 3 0 % 128 + 128 * (scan % 2)) = _
    rw [hregs 3 (by decide)]
  · intro r hr h3 h4
    refine (reg_read_stored { s with scanline := scan } hwf1.regs_len r hr).trans ?_
    rw [if_neg h4, if_neg h3]
    show some (s.vic_registers.getD r 0) = _
    rw [hregs r hr]

theorem video_register_3_read_witness :
    vic_wf vic_static ∧ (∀ w, w ∈ writes_22x23 → w.1 < 16)
    ∧ ∃ s, vic_run_writes K_vic vic_static writes_22x23 = some s
      ∧ cpu_vic_reg_read { s with scanline := 101 } 3
          = some (last_written writes_22x23 3 (vic_static.vic_registers.getD 3 0) % 128
              + 128 * (101 % 2))
      ∧ (∀ r, r < 16 → r ≠ 3 → r ≠ 4 →
          cpu_vic_reg_read { s with scanline := 101 } r
            = some (last_written writes_22x23 r (vic_static.vic_registers.getD r 0))) :=
  ⟨vic_static_wf, by decide,
    video_register_3_read K_vic vic_static vic_static_wf writes_22x23 (by decide) 101⟩

/-- C26. Derived video state is never stale: `vic_init` followed by any sequence of
`cpu_vic_reg_write` calls (register indices 0..15) returns, and the cached fields are then
these functions of the current register file: `first_active_dotpos` = (reg0 & 0x7F) * 4 +
`SCREEN_ORIGIN_DOTPOS`, `first_active_scanline` = reg1 * 2 + `SCREEN_ORIGIN_SCANLINE`,
`text_columns` = min(reg2 & 0x7F, 32), `text_rows` = min((reg3 >> 1) & 0x3F, 32),
`char_height_minus_one` = 15 if reg3 bit 0 else 7 (`char_height_shift` 4 or 3),
`vic_chr_addr` = (reg5 & 0x0F) << 10 and `vic_vid_addr` = ((reg5 & 0xF0) << 6) | (0x200
if reg2 bit 7 else 0); the register file holds the bytes last written. -/
theorem derived_state_never_stale (K : vic_consts) (s0 : vic_state) (hwf : vic_wf s0)
    (lo8 hi4 : Nat → Nat) (tail : Nat) (ws : List (Nat × Nat))
    (hws : ∀ w, w ∈ ws → w.1 < 16) :
    ∃ s1 s, vic_init K s0 lo8 hi4 tail = some s1 ∧ vic_run_writes K s1 ws = some s
      ∧ (∀ r, r < 16 →
          s.vic_registers.getD r 0 = last_written ws r (s1.vic_registers.getD r 0))
      ∧ s.first_active_dotpos
          = (s.vic_registers.getD 0 0 &&& 0x7F) * 4 + K.SCREEN_ORIGIN_DOTPOS
      ∧ s.first_active_scanline
          = s.vic_registers.getD 1 0 * 2 + K.SCREEN_ORIGIN_SCANLINE
      ∧ s.text_columns = min (s.vic_registers.getD 2 0 &&& 0x7F) 32
      ∧ s.text_rows = min ((s.vic_registers.getD 3 0 >>> 1) &&& 0x3F) 32
      ∧ s.char_height_minus_one = (if s.vic_registers.getD 3 0 &&& 1 ≠ 0 then 15 else 7)
      ∧ s.char_height_shift = (if s.vic_registers.getD 3 0 &&& 1 ≠ 0 then 4 else 3)
      ∧ s.vic_chr_addr = (s.vic_registers.getD 5 0 &&& 0x0F) <<< 10
      ∧ s.vic_vid_addr = ((s.vic_registers.getD 5 0 &&& 0xF0) <<< 6)
          ||| (if s.vic_registers.getD 2 0 &&& 0x80 ≠ 0 then 0x200 else 0) := by
  obtain ⟨s1, h1, hwf1, hd1, _⟩ := vic_init_spec K s0 hwf lo8 hi4 tail
  obtain ⟨s, h2, _, hd, hregs, _⟩ := vic_run_writes_spec K ws s1 hwf1 hd1 hws
  exact ⟨s1, s, h1, h2, hregs, hd.dotpos (by decide), hd.scan (by decide),
    hd.columns (by decide), hd.rows (by decide), hd.height (by decide), hd.shift (by decide),
    hd.chr (by decide), hd.vid (by decide)⟩

theorem derived_state_never_stale_witness :
    vic_wf vic_static ∧ (∀ w, w ∈ writes_22x23 → w.1 < 16)
    ∧ ∃ s1 s, vic_init K_vic vic_static (fun _ => 0) (fun _ => 0) 0 = some s1
      ∧ vic_run_writes K_vic s1 writes_22x23 = some s
      ∧ (∀ r, r < 16 →
          s.vic_registers.getD r 0 = last_written writes_22x23 r (s1.vic_registers.getD r 0))
      ∧ s.first_active_dotpos
          = (s.vic_registers.getD 0 0 &&& 0x7F) * 4 + K_vic.SCREEN_ORIGIN_DOTPOS
      ∧ s.first_active_scanline
          = s.vic_registers.getD 1 0 * 2 + K_vic.SCREEN_ORIGIN_SCANLINE
      ∧ s.text_columns = min (s.vic_registers.getD 2 0 &&& 0x7F) 32
      ∧ s.text_rows = min ((s.vic_registers.getD 3 0 >>> 1) &&& 0x3F) 32
      ∧ s.char_height_minus_one = (if s.vic_registers.getD 3 0 &&& 1 ≠ 0 then 15 else 7)
      ∧ s.char_height_shift = (if s.vic_registers.getD 3 0 &&& 1 ≠ 0 then 4 else 3)
      ∧ s.vic_chr_addr = (s.vic_registers.getD 5 0 &&& 0x0F) <<< 10
      ∧ s.vic_vid_addr = ((s.vic_registers.getD 5 0 &&& 0xF0) <<< 6)
          ||| (if s.vic_registers.getD 2 0 &&& 0x80 ≠ 0 then 0x200 else 0) :=
  ⟨vic_static_wf, by decide,
    derived_state_never_stale K_vic vic_static vic_static_wf (fun _ => 0) (fun _ => 0) 0
      writes_22x23 (by decide)⟩

theorem render_frame_refl (s : vic_state) : render_frame s s := ⟨rfl, rfl⟩

theorem render_frame_trans {s s1 s2 : vic_state} (h1 : render_frame s s1)
    (h2 : render_frame s1 s2) : render_frame s s2 := by
  unfold render_frame at *
  refine ⟨?_, h2.2.trans h1.2⟩
  rw [h2.1, h1.1]

theorem render_frame_put {s s1 : vic_state} (h : render_frame s s1) (c : Nat) :
    render_frame s (put_pixel s1 c) := by
  unfold render_frame at *
  unfold put_pixel
  refine ⟨?_, h.2⟩
  rw [h.1]

theorem arr_set_length {α : Type} {xs ys : List α} {i : Nat} {v : α}
    (h : arr_set xs i v = some ys) : ys.length = xs.length := by
  unfold arr_set at h
  split at h
  · cases h; exact List.length_set _ _ _
  · cases h

theorem dot_border_frame (s s1 : vic_state) (v : Bool) (h : dot_border s v = some s1) :
    render_frame s s1 := by
  unfold dot_border at h
  cases v
  · cases h; exact render_frame_refl s
  · simp only [if_true, Option.bind_eq_bind, Option.pure_def] at h
    cases hb : arr_get s.vic_cpal 1 with
    | none => rw [hb] at h; cases h
    | some b =>
      rw [hb] at h
      cases h
      exact render_frame_put (render_frame_refl s) b

theorem dot_fetch_frame (s : vic_state) (l : dot_locals) (f : dot_fetched)
    (h : dot_fetch s l = some f) :
    render_frame s f.s ∧ f.bitp ≤ max l.bitp 6
      ∧ f.v_vid = (if l.bitp = 128 then l.v_vid + 1 else l.v_vid)
      ∧ (l.bitp ≠ 128 → f.bitp = l.bitp)
      ∧ (l.bitp = 128 → (f.bitp = 128 ∧ f.mcm = 0) ∨ (f.bitp = 6 ∧ f.mcm ≠ 0)) := by
  unfold dot_fetch at h
  cases hvb : vic_read_mem_lo8 s (s.vic_vid_addr + l.v_vid) with
  | none => rw [hvb] at h; cases h
  | some vb =>
    rw [hvb] at h
    simp only [Option.bind_eq_bind, Option.some_bind] at h
    cases hchr : vic_read_mem_lo8 s
        ((vb <<< s.char_height_shift) + s.vic_chr_addr + s.charline) with
    | none => rw [hchr] at h; cases h
    | some chr =>
      rw [hchr] at h
      simp only [Option.some_bind] at h
      cases hm : vic_read_mem_hi4 s (s.vic_vid_addr + l.v_vid) with
      | none => rw [hm] at h; cases h
      | some mcm0 =>
        rw [hm] at h
        simp only [Option.some_bind] at h
        by_cases hb : l.bitp = 128
        · rw [if_pos hb] at h
          cases hc : arr_get s.vic_palette (mcm0 &&& 7) with
          | none => rw [hc] at h; cases h
          | some c =>
            rw [hc] at h
            simp only [Option.some_bind] at h
            cases hs : arr_set s.vic_cpal s.sram_colour_index c with
            | none => rw [hs] at h; cases h
            | some cpal =>
              rw [hs] at h
              simp only [Option.some_bind, Option.pure_def, Option.some.injEq] at h
              subst h
              refine ⟨⟨rfl, arr_set_length hs⟩, ?_, by rw [if_pos hb], fun hne => absurd hb hne, ?_⟩
              · show (if mcm0 &&& 8 ≠ 0 then 6 else l.bitp) ≤ _
                split
                · exact Nat.le_max_right _ _
                · exact Nat.le_max_left _ _
              · intro _
                show ((if mcm0 &&& 8 ≠ 0 then 6 else l.bitp) = 128 ∧ mcm0 &&& 8 = 0)
                  ∨ ((if mcm0 &&& 8 ≠ 0 then 6 else l.bitp) = 6 ∧ mcm0 &&& 8 ≠ 0)
                by_cases h8 : mcm0 &&& 8 ≠ 0
                · right; rw [if_pos h8]; exact ⟨rfl, h8⟩
                · left; rw [if_neg h8]; exact ⟨hb, not_not.mp h8⟩
        · rw [if_neg hb] at h
          simp only [Option.pure_def, Option.some.injEq] at h
          subst h
          exact ⟨render_frame_refl s, Nat.le_max_left _ _, by rw [if_neg hb], fun _ => rfl,
            fun h => absurd h hb⟩

theorem dot_emit_frame (f : dot_fetched) (v : Bool) (dotpos : Nat) (s1 : vic_state)
    (d1 : Nat) (h : dot_emit f v dotpos = some (s1, d1)) :
    render_frame f.s s1 ∧ dotpos ≤ d1 ∧ d1 ≤ dotpos + 1 := by
  unfold dot_emit at h
  cases v
  · simp only [Bool.false_eq_true, if_false, Option.pure_def, Option.some.injEq,
      Prod.mk.injEq] at h
    obtain ⟨h1, h2⟩ := h
    subst h1; subst h2
    exact ⟨render_frame_refl _, Nat.le_refl _, Nat.le_succ _⟩
  · simp only [if_true] at h
    by_cases hm : f.mcm ≠ 0
    · rw [if_pos hm] at h
      by_cases hb : f.bitp ≥ 32
      · rw [if_pos hb] at h; cases h
      · rw [if_neg hb] at h
        cases hc : arr_get f.s.vic_cpal ((f.chr >>> f.bitp) &&& 3) with
        | none => rw [hc] at h; cases h
        | some c =>
          rw [hc] at h
          simp only [Option.bind_eq_bind, Option.some_bind, Option.pure_def, Option.some.injEq,
            Prod.mk.injEq] at h
          obtain ⟨h1, h2⟩ := h
          subst h1; subst h2
          exact ⟨render_frame_put (render_frame_put (render_frame_refl _) c) c, Nat.le_succ _,
            Nat.le_refl _⟩
    · rw [if_neg hm] at h
      cases hc : arr_get f.s.vic_cpal (if f.chr &&& f.bitp ≠ 0 then 2 else 0) with
      | none => rw [hc] at h; cases h
      | some c =>
        rw [hc] at h
        simp only [Option.bind_eq_bind, Option.some_bind, Option.pure_def, Option.some.injEq,
          Prod.mk.injEq] at h
        obtain ⟨h1, h2⟩ := h
        subst h1; subst h2
        exact ⟨render_frame_put (render_frame_refl _) c, Nat.le_refl _, Nat.le_succ _⟩

theorem dot_advance_dotpos (f : dot_fetched) (c d : Nat) : (dot_advance f c d).dotpos = d := by
  unfold dot_advance
  split <;> rfl

theorem render_dot_frame (K : vic_consts) (v : Bool) (s : vic_state) (l : dot_locals)
    (s1 : vic_state) (l1 : dot_locals) (h : render_dot K v s l = some (s1, l1)) :
    render_frame s s1 ∧ l.dotpos ≤ l1.dotpos := by
  have hborder : (dot_border s (visible_dot K v l.dotpos)).map (fun s1 => (s1, l))
      = some (s1, l1) → render_frame s s1 ∧ l.dotpos ≤ l1.dotpos := by
    intro hb
    cases hd : dot_border s (visible_dot K v l.dotpos) with
    | none => rw [hd] at hb; cases hb
    | some s2 =>
      rw [hd] at hb
      cases hb
      exact ⟨dot_border_frame _ _ _ hd, Nat.le_refl _⟩
  unfold render_dot at h
  by_cases h1 : l.dotpos < s.first_active_dotpos
  · rw [if_pos h1] at h
    exact hborder h
  · rw [if_neg h1] at h
    by_cases h2 : l.v_columns ≠ 0
    · rw [if_pos h2] at h
      cases hf : dot_fetch s l with
      | none => rw [hf] at h; cases h
      | some f =>
        rw [hf] at h
        simp only [Option.bind_eq_bind, Option.some_bind] at h
        cases he : dot_emit f (visible_dot K v l.dotpos) l.dotpos with
        | none => rw [he] at h; cases h
        | some e =>
          rw [he] at h
          simp only [Option.some_bind, Option.pure_def, Option.some.injEq, Prod.mk.injEq] at h
          obtain ⟨h3, h4⟩ := h
          subst h3; subst h4
          obtain ⟨g1, g2, _⟩ := dot_emit_frame f _ _ e.1 e.2 he
          refine ⟨render_frame_trans (dot_fetch_frame s l f hf).1 g1, ?_⟩
          rw [dot_advance_dotpos]
          exact g2
    · rw [if_neg h2] at h
      exact hborder h

theorem render_dots_frame (K : vic_consts) (v : Bool) :
    ∀ (fuel : Nat) (s : vic_state) (l : dot_locals) (s1 : vic_state) (l1 : dot_locals),
      render_dots K v fuel s l = some (s1, l1) → render_frame s s1 := by
  intro fuel
  induction fuel with
  | zero =>
    intro s l s1 l1 h
    unfold render_dots at h
    split at h
    · cases h
    · cases h; exact render_frame_refl s
  | succ n ih =>
    intro s l s1 l1 h
    unfold render_dots at h
    split at h
    · cases hd : render_dot K v s l with
      | none => rw [hd] at h; cases h
      | some r =>
        rw [hd] at h
        simp only [Option.bind_eq_bind, Option.some_bind] at h
        exact render_frame_trans (render_dot_frame K v s l r.1 r.2 hd).1 (ih _ _ _ _ h)
    · cases h; exact render_frame_refl s

theorem dots_ok_frame {s s1 : vic_state} (h : render_frame s s1) (hs : dots_ok s) :
    dots_ok s1 := by
  have h1 := h.1
  exact ⟨by rw [h1]; exact hs.palette_len, h.2.trans hs.cpal_len, by rw [h1]; exact hs.sram_lt,
    by rw [h1]; exact hs.shift_le, by rw [h1]; exact hs.chr_le, by rw [h1]; exact hs.charline_le⟩

theorem shift_safe_frame {v : Bool} {s s1 : vic_state} (h : render_frame s s1)
    (hs : shift_safe v s) : shift_safe v s1 := by
  have h1 : s1.hi4 = s.hi4 := by rw [h.1]
  unfold shift_safe at *
  rw [h1]
  exact hs

theorem locals_ok_frame {v : Bool} {s s1 : vic_state} {l : dot_locals}
    (h : render_frame s s1) (hl : locals_ok v s l) : locals_ok v s1 l := by
  have h1 : s1.hi4 = s.hi4 := by rw [h.1]
  have h2 : s1.vic_vid_addr = s.vic_vid_addr := by rw [h.1]
  exact ⟨hl.bitp_le, by rw [h2]; exact hl.addr, by rw [h1]; exact hl.multi⟩

theorem vic_read_lo8_some (s : vic_state) (a : Nat) (h : a ≤ 19455) :
    ∃ b, vic_read_mem_lo8 s a = some b ∧ b < 256 := by
  unfold vic_read_mem_lo8
  have h1 : a % 65536 = a := Nat.mod_eq_of_lt (by omega)
  have h2 : a >>> 10 < 16 + 3 := by
    rw [Nat.shiftRight_eq_div_pow]
    exact Nat.div_lt_of_lt_mul (by omega)
  simp only [h1, if_pos h2]
  exact ⟨_, rfl, Nat.mod_lt _ (by decide)⟩

theorem vic_read_hi4_some (s : vic_state) (a : Nat) (h : a ≤ 19455) :
    ∃ b, vic_read_mem_hi4 s a = some b ∧ b < 256
      ∧ ((∀ x, s.hi4 x % 256 = 0) → b = 0)
      ∧ ((∀ x, (s.hi4 x % 256) &&& 8 ≠ 0) → b &&& 8 ≠ 0) := by
  unfold vic_read_mem_hi4
  have h1 : a % 65536 = a := Nat.mod_eq_of_lt (by omega)
  have h2 : a >>> 10 < 16 + 3 := by
    rw [Nat.shiftRight_eq_div_pow]
    exact Nat.div_lt_of_lt_mul (by omega)
  simp only [h1, if_pos h2]
  exact ⟨_, rfl, Nat.mod_lt _ (by decide), fun hz => hz _, fun hm => hm _⟩

theorem arr_get_some_of_lt {α : Type} (xs : List α) (i : Nat) (h : i < xs.length) :
    ∃ x, arr_get xs i = some x := ⟨_, arr_get_of_lt xs i h⟩

theorem dot_border_total (s : vic_state) (v : Bool) (hs : dots_ok s) :
    ∃ s1, dot_border s v = some s1 := by
  unfold dot_border
  cases v
  · exact ⟨s, rfl⟩
  · obtain ⟨b, hb⟩ := arr_get_some_of_lt s.vic_cpal 1 (by rw [hs.cpal_len]; decide)
    simp only [if_true, Option.bind_eq_bind, hb, Option.some_bind, Option.pure_def]
    exact ⟨_, rfl⟩

theorem shl_le_4080 (vb shift : Nat) (hvb : vb < 256) (hs : shift ≤ 4) :
    vb <<< shift ≤ 4080 := by
  rw [Nat.shiftLeft_eq]
  have h1 : 2 ^ shift ≤ 2 ^ 4 := Nat.pow_le_pow_right (by decide) hs
  have h2 : vb * 2 ^ shift ≤ 255 * 2 ^ 4 := Nat.mul_le_mul (by omega) h1
  exact h2

theorem dot_fetch_total (v : Bool) (s : vic_state) (l : dot_locals) (hs : dots_ok s)
    (hl : locals_ok v s l) (hc : l.v_columns ≠ 0) :
    ∃ f, dot_fetch s l = some f
      ∧ ((∀ x, s.hi4 x % 256 = 0) → f.mcm = 0)
      ∧ ((∀ x, (s.hi4 x % 256) &&& 8 ≠ 0) → f.mcm ≠ 0) := by
  have ha : s.vic_vid_addr + l.v_vid ≤ 19455 := by
    have := hl.addr
    split at this <;> omega
  obtain ⟨vb, hvb, hvblt⟩ := vic_read_lo8_some s _ ha
  have hca : (vb <<< s.char_height_shift) + s.vic_chr_addr + s.charline ≤ 19455 := by
    have h1 := shl_le_4080 vb _ hvblt hs.shift_le
    have h2 := hs.chr_le
    have h3 := hs.charline_le
    omega
  obtain ⟨chr, hchr, _⟩ := vic_read_lo8_some s _ hca
  obtain ⟨m, hm, _, hz, hmu⟩ := vic_read_hi4_some s _ ha
  unfold dot_fetch
  simp only [Option.bind_eq_bind, hvb, Option.some_bind, hchr, hm]
  by_cases hb : l.bitp = 128
  · rw [if_pos hb]
    obtain ⟨c, hcg⟩ := arr_get_some_of_lt s.vic_palette (m &&& 7)
      (Nat.lt_of_lt_of_le (Nat.lt_of_le_of_lt Nat.and_le_right (by decide)) hs.palette_len)
    have hset : arr_set s.vic_cpal s.sram_colour_index c
        = some (s.vic_cpal.set s.sram_colour_index c) := by
      unfold arr_set; rw [if_pos (by rw [hs.cpal_len]; exact hs.sram_lt)]
    simp only [hcg, Option.some_bind, hset, Option.pure_def]
    refine ⟨_, rfl, ?_, ?_⟩
    · intro h0
      show m &&& 8 = 0
      rw [hz h0]; rfl
    · intro h8
      exact hmu h8
  · rw [if_neg hb]
    refine ⟨_, rfl, ?_, ?_⟩
    · intro h0; exact hz h0
    · intro h8 h0
      have := hmu h8
      rw [show m = 0 from h0] at this
      exact this rfl

theorem visible_dot_true {K : vic_consts} {v : Bool} {d : Nat}
    (h : visible_dot K v d = true) : v = true := by
  unfold visible_dot at h
  cases v
  · simp at h
  · rfl

theorem shr_le_self (a b : Nat) : a >>> b ≤ a := by
  rw [Nat.shiftRight_eq_div_pow]
  exact Nat.div_le_self _ _

theorem dot_emit_total (K : vic_consts) (v : Bool) (f : dot_fetched) (d : Nat)
    (hlen : f.s.vic_cpal.length = 4)
    (hsafe : visible_dot K v d = true → f.mcm ≠ 0 → f.bitp < 32) :
    ∃ e, dot_emit f (visible_dot K v d) d = some e := by
  unfold dot_emit
  cases hv : visible_dot K v d
  · exact ⟨_, rfl⟩
  · simp only [if_true]
    by_cases hm : f.mcm ≠ 0
    · rw [if_pos hm, if_neg (by have := hsafe hv hm; omega)]
      obtain ⟨c, hc⟩ := arr_get_some_of_lt f.s.vic_cpal ((f.chr >>> f.bitp) &&& 3)
        (by rw [hlen]; exact Nat.lt_of_le_of_lt Nat.and_le_right (by decide))
      simp only [Option.bind_eq_bind, hc, Option.some_bind, Option.pure_def]
      exact ⟨_, rfl⟩
    · rw [if_neg hm]
      obtain ⟨c, hc⟩ := arr_get_some_of_lt f.s.vic_cpal (if f.chr &&& f.bitp ≠ 0 then 2 else 0)
        (by rw [hlen]; split <;> decide)
      simp only [Option.bind_eq_bind, hc, Option.some_bind, Option.pure_def]
      exact ⟨_, rfl⟩

/-- One pass through the loop body returns and keeps the invariant of the locals. -/
theorem render_dot_total (K : vic_consts) (v : Bool) (s : vic_state) (l : dot_locals)
    (hs : dots_ok s) (hsafe : shift_safe v s) (hl : locals_ok v s l) :
    ∃ s1 l1, render_dot K v s l = some (s1, l1) ∧ locals_ok v s l1 := by
  have hborder : ∃ s1 l1, (dot_border s (visible_dot K v l.dotpos)).map (fun s1 => (s1, l))
      = some (s1, l1) ∧ locals_ok v s l1 := by
    obtain ⟨s1, h1⟩ := dot_border_total s (visible_dot K v l.dotpos) hs
    exact ⟨s1, l, by rw [h1]; rfl, hl⟩
  unfold render_dot
  by_cases h1 : l.dotpos < s.first_active_dotpos
  · rw [if_pos h1]; exact hborder
  · rw [if_neg h1]
    by_cases h2 : l.v_columns ≠ 0
    · rw [if_pos h2]
      obtain ⟨f, hf, hz, hmu⟩ := dot_fetch_total v s l hs hl h2
      obtain ⟨hfr, hble, hvid, hbne, hb128⟩ := dot_fetch_frame s l f hf
      have hshift : visible_dot K v l.dotpos = true → f.mcm ≠ 0 → f.bitp < 32 := by
        intro hv hm
        have hvt := visible_dot_true hv
        rcases hsafe with h | h | h
        · rw [h] at hvt; cases hvt
        · exact absurd (hz h) hm
        · by_cases hb : l.bitp = 128
          · rcases hb128 hb with ⟨_, h0⟩ | ⟨h6, _⟩
            · exact absurd h0 hm
            · omega
          · rw [hbne hb]
            rcases hl.multi hvt h with h128 | h6
            · exact absurd h128 hb
            · omega
      obtain ⟨e, he⟩ := dot_emit_total K v f l.dotpos (hfr.2.trans hs.cpal_len) hshift
      refine ⟨e.1, dot_advance f l.v_columns e.2, ?_, ?_⟩
      · simp only [Option.bind_eq_bind, hf, Option.some_bind, he, Option.pure_def]
      · have haddr := hl.addr
        have hcols : 1 ≤ l.v_columns := Nat.pos_of_ne_zero h2
        unfold dot_advance
        by_cases hb : l.bitp = 128
        · rw [if_pos hb] at hvid
          rw [if_pos hb] at haddr
          rcases hb128 hb with ⟨hfb, hm0⟩ | ⟨hfb, hm1⟩
          · rw [if_neg (by omega), hfb, if_neg (not_not.mpr hm0)]
            refine ⟨?_, ?_, ?_⟩
            · show 128 >>> 1 ≤ 128
              decide
            · show s.vic_vid_addr + f.v_vid + l.v_columns
                ≤ 19455 + (if 128 >>> 1 = 128 then 0 else 1)
              rw [if_neg (by decide), hvid]; omega
            · intro hv h8
              exact absurd hm0 (hmu h8)
          · rw [if_neg (by omega), hfb, if_pos hm1]
            refine ⟨by show 6 - 2 ≤ 128; decide, ?_, fun _ _ => Or.inr (by show 6 - 2 ≤ 6; decide)⟩
            show s.vic_vid_addr + f.v_vid + l.v_columns
              ≤ 19455 + (if 6 - 2 = 128 then 0 else 1)
            rw [if_neg (by decide), hvid]; omega
        · rw [if_neg hb] at hvid
          rw [if_neg hb] at haddr
          have hfb := hbne hb
          have hlt : f.bitp < 128 := by have := hl.bitp_le; omega
          by_cases h1 : f.bitp ≤ 1
          · rw [if_pos h1]
            refine ⟨Nat.le_refl _, ?_, fun _ _ => Or.inl rfl⟩
            show s.vic_vid_addr + f.v_vid + (l.v_columns - 1)
              ≤ 19455 + (if 128 = 128 then 0 else 1)
            rw [if_pos rfl, hvid]; omega
          · rw [if_neg h1]
            have hnew : (if f.mcm ≠ 0 then f.bitp - 2 else f.bitp >>> 1) ≤ f.bitp := by
              split
              · omega
              · exact shr_le_self _ _
            refine ⟨by show (if f.mcm ≠ 0 then f.bitp - 2 else f.bitp >>> 1) ≤ 128; omega, ?_, ?_⟩
            · show s.vic_vid_addr + f.v_vid + l.v_columns
                ≤ 19455 + (if (if f.mcm ≠ 0 then f.bitp - 2 else f.bitp >>> 1) = 128 then 0 else 1)
              rw [if_neg (by omega), hvid]; omega
            · intro hv h8
              right
              show (if f.mcm ≠ 0 then f.bitp - 2 else f.bitp >>> 1) ≤ 6
              rcases hl.multi hv h8 with h128 | h6
              · exact absurd h128 hb
              · omega
    · rw [if_neg h2]; exact hborder

/-- The dot loop returns when it is given as many iterations as there are dots left. -/
theorem render_dots_total (K : vic_consts) (v : Bool) :
    ∀ (fuel : Nat) (s : vic_state) (l : dot_locals), dots_ok s → shift_safe v s →
      locals_ok v s l → K.CYCLES_PER_SCANLINE * 4 ≤ l.dotpos + fuel →
      ∃ r, render_dots K v fuel s l = some r := by
  intro fuel
  induction fuel with
  | zero =>
    intro s l _ _ _ hf
    unfold render_dots
    rw [if_neg (by omega)]
    exact ⟨_, rfl⟩
  | succ n ih =>
    intro s l hs hsafe hl hf
    unfold render_dots
    by_cases hd : l.dotpos < K.CYCLES_PER_SCANLINE * 4
    · rw [if_pos hd]
      obtain ⟨s1, l1, h1, hl1⟩ := render_dot_total K v s l hs hsafe hl
      obtain ⟨hfr, hle⟩ := render_dot_frame K v s l s1 l1 h1
      have hl2 : locals_ok v s1 { l1 with dotpos := l1.dotpos + 1 } :=
        locals_ok_frame hfr ⟨hl1.bitp_le, hl1.addr, hl1.multi⟩
      obtain ⟨r, hr⟩ := ih s1 { l1 with dotpos := l1.dotpos + 1 } (dots_ok_frame hfr hs)
        (shift_safe_frame hfr hsafe) hl2 (by show _ ≤ l1.dotpos + 1 + n; omega)
      refine ⟨r, ?_⟩
      simp only [Option.bind_eq_bind, h1, Option.some_bind]
      exact hr
    · rw [if_neg hd]
      exact ⟨_, rfl⟩

theorem fill_border_frame (b : Nat) : ∀ (n : Nat) (s : vic_state),
    render_frame s (fill_border b n s)
  | 0, s => render_frame_refl s
  | n + 1, s => by
    unfold fill_border
    exact render_frame_trans (render_frame_put (render_frame_refl s) b)
      (fill_border_frame b n _)

theorem vic_line_end_spec (s0 s : vic_state) (h : render_frame s0 s) :
    (vic_line_end s).vic_vertical_area = s0.vic_vertical_area
    ∧ line_counters s0 (vic_line_end s) 0 := by
  have e1 : s.charline = s0.charline := by rw [h.1]
  have e2 : s.char_height_minus_one = s0.char_height_minus_one := by rw [h.1]
  have e3 : s.vic_vid_counter = s0.vic_vid_counter := by rw [h.1]
  have e4 : s.vic_row_counter = s0.vic_row_counter := by rw [h.1]
  have e5 : s.text_columns = s0.text_columns := by rw [h.1]
  have e6 : s.vic_vertical_area = s0.vic_vertical_area := by rw [h.1]
  unfold vic_line_end
  by_cases hc : s.charline ≥ s.char_height_minus_one
  · simp only [if_pos hc]
    refine ⟨e6, ?_, ?_, fun h0 => absurd rfl h0⟩
    · intro _ _
      exact ⟨rfl, by show s.vic_vid_counter + s.text_columns = _; rw [e3, e5],
        by show s.vic_row_counter + 1 = _; rw [e4]⟩
    · intro _ hlt
      rw [e1, e2] at hc
      omega
  · simp only [if_neg hc]
    refine ⟨e6, ?_, ?_, fun h0 => absurd rfl h0⟩
    · intro _ hle
      rw [e1, e2] at hc
      omega
    · intro _ _
      exact ⟨by show s.charline + 1 = _; rw [e1], e3, e4⟩

/-- Every result of `vic_render_line` has the vertical area of the first statement and
the counters of the bookkeeping. -/
theorem vic_render_line_result (K : vic_consts) (s s1 : vic_state)
    (h : vic_render_line K s = some s1) :
    s1.vic_vertical_area = vic_area_step s ∧ line_counters s s1 (vic_area_step s) := by
  unfold vic_render_line at h
  simp only [] at h
  by_cases ha : vic_area_step s ≠ 0
  · rw [if_pos ha] at h
    have hkeep : ∀ t : vic_state, render_frame { s with vic_vertical_area := vic_area_step s } t →
        t.vic_vertical_area = vic_area_step s ∧ line_counters s t (vic_area_step s) := by
      intro t ht
      have e := ht.1
      refine ⟨by rw [e], fun h0 => absurd h0 ha, fun h0 => absurd h0 ha, fun _ => ?_⟩
      exact ⟨by rw [e], by rw [e], by rw [e]⟩
    split at h
    · split at h
      · cases h
      · cases hb : arr_get s.vic_cpal 1 with
        | none =>
          simp only [Option.bind_eq_bind] at h
          rw [hb] at h; cases h
        | some b =>
          simp only [Option.bind_eq_bind] at h
          rw [hb] at h
          simp only [Option.some_bind, Option.pure_def, Option.some.injEq] at h
          subst h
          have hf := fill_border_frame b
            (K.SCREEN_LAST_VISIBLE_DOTPOS + 1 - K.SCREEN_FIRST_VISIBLE_DOTPOS)
            { s with vic_vertical_area := vic_area_step s }
          have e := hf.1
          refine ⟨?_, fun h0 => absurd h0 ha, fun h0 => absurd h0 ha, fun _ => ⟨?_, ?_, ?_⟩⟩
          · show (fill_border b _ _).vic_vertical_area = _
            rw [e]
          · show (fill_border b _ _).charline = _
            rw [e]
          · show (fill_border b _ _).vic_vid_counter = _
            rw [e]
          · show (fill_border b _ _).vic_row_counter = _
            rw [e]
    · simp only [Option.pure_def, Option.some.injEq] at h
      subst h
      exact hkeep _ (render_frame_refl _)
  · rw [if_neg ha] at h
    have ha0 : vic_area_step s = 0 := not_not.mp ha
    simp only [Option.bind_eq_bind] at h
    cases hr : render_dots K
        (decide (s.scanline ≥ K.SCREEN_FIRST_VISIBLE_SCANLINE
          ∧ s.scanline ≤ K.SCREEN_LAST_VISIBLE_SCANLINE))
        (K.CYCLES_PER_SCANLINE * 4) { s with vic_vertical_area := vic_area_step s }
        { dotpos := 0, bitp := 128, v_columns := s.text_columns, v_vid := s.vic_vid_counter } with
    | none => rw [hr] at h; cases h
    | some r =>
      rw [hr] at h
      simp only [Option.some_bind, Option.pure_def, Option.some.injEq] at h
      subst h
      have hf := render_dots_frame K _ _ _ _ r.1 r.2 hr
      obtain ⟨g1, g2⟩ := vic_line_end_spec _ _ hf
      rw [ha0]
      refine ⟨g1.trans ha0, ?_⟩
      exact g2

/-- `vic_render_line` returns: always in a border area (given the four colour slots and a
non-negative width of the visible window), and in the active area when the state is in
range for the dot loop and no pixel needs a shift by 32 or more. -/
theorem vic_render_line_total (K : vic_consts) (s : vic_state) (hs : dots_ok s)
    (hwin : K.SCREEN_FIRST_VISIBLE_DOTPOS ≤ K.SCREEN_LAST_VISIBLE_DOTPOS + 1)
    (hact : vic_area_step s = 0 →
      shift_safe (visible_line K s) s
      ∧ s.vic_vid_addr + s.vic_vid_counter + s.text_columns ≤ 19455) :
    ∃ s1, vic_render_line K s = some s1 := by
  unfold vic_render_line
  simp only []
  by_cases ha : vic_area_step s ≠ 0
  · rw [if_pos ha]
    split
    · rw [if_neg (by omega)]
      obtain ⟨b, hb⟩ := arr_get_some_of_lt s.vic_cpal 1 (by rw [hs.cpal_len]; decide)
      simp only [Option.bind_eq_bind]
      rw [hb]
      exact ⟨_, rfl⟩
    · exact ⟨_, rfl⟩
  · rw [if_neg ha]
    obtain ⟨hsafe, haddr⟩ := hact (not_not.mp ha)
    have hs1 : dots_ok { s with vic_vertical_area := vic_area_step s } :=
      ⟨hs.palette_len, hs.cpal_len, hs.sram_lt, hs.shift_le, hs.chr_le, hs.charline_le⟩
    have hl1 : locals_ok (visible_line K s) { s with vic_vertical_area := vic_area_step s }
        { dotpos := 0, bitp := 128, v_columns := s.text_columns, v_vid := s.vic_vid_counter } :=
      ⟨Nat.le_refl _, by show _ ≤ 19455 + (if 128 = 128 then 0 else 1); rw [if_pos rfl]; exact haddr,
        fun _ _ => Or.inl rfl⟩
    obtain ⟨r, hr⟩ := render_dots_total K (visible_line K s) (K.CYCLES_PER_SCANLINE * 4)
      { s with vic_vertical_area := vic_area_step s }
      { dotpos := 0, bitp := 128, v_columns := s.text_columns, v_vid := s.vic_vid_counter }
      hs1 hsafe hl1 (by show _ ≤ 0 + _; omega)
    refine ⟨vic_line_end r.1, ?_⟩
    simp only [Option.bind_eq_bind]
    have hr2 : render_dots K
        (decide (s.scanline ≥ K.SCREEN_FIRST_VISIBLE_SCANLINE
          ∧ s.scanline ≤ K.SCREEN_LAST_VISIBLE_SCANLINE))
        (K.CYCLES_PER_SCANLINE * 4) { s with vic_vertical_area := vic_area_step s }
        { dotpos := 0, bitp := 128, v_columns := s.text_columns, v_vid := s.vic_vid_counter }
        = some r := hr
    rw [hr2]
    rfl

theorem vic_hires_line_ok : dots_ok vic_hires_line :=
  ⟨by decide, rfl, by decide, by decide, by decide, by decide⟩

theorem vic_top_line_ok : dots_ok vic_top_line :=
  ⟨by decide, rfl, by decide, by decide, by decide, by decide⟩

theorem vic_area_step_top (s : vic_state) (h : s.vic_vertical_area = 1) :
    vic_area_step s = if s.scanline = s.first_active_scanline then 0 else 1 := by
  unfold vic_area_step
  rw [if_neg (by rw [h]; exact fun hh => absurd hh.2 (by decide))]
  by_cases hs : s.scanline = s.first_active_scanline
  · rw [if_pos ⟨hs, h⟩, if_pos hs]
  · rw [if_neg (fun hh => hs hh.1), if_neg hs, h]

theorem vic_area_step_active (s : vic_state) (h : s.vic_vertical_area = 0) :
    vic_area_step s = if s.vic_row_counter ≥ s.text_rows then 2 else 0 := by
  unfold vic_area_step
  by_cases hr : s.vic_row_counter ≥ s.text_rows
  · rw [if_pos ⟨hr, h⟩, if_pos hr]
  · rw [if_neg (fun hh => hr hh.1), if_neg hr,
      if_neg (by rw [h]; exact fun hh => absurd hh.2 (by decide)), h]

theorem vic_area_step_other (s : vic_state) (h0 : s.vic_vertical_area ≠ 0)
    (h1 : s.vic_vertical_area ≠ 1) : vic_area_step s = s.vic_vertical_area := by
  unfold vic_area_step
  rw [if_neg (fun hh => h0 hh.2), if_neg (fun hh => h1 hh.2)]

/-- C24. Vertical-area state machine (1 = top border, 0 = active display, 2 = bottom
border): `vic_vsync` sets the area to top border with scanline, character line, video
address counter and displayed-row counter zero; every result of `vic_render_line` has the
area `vic_area_step` computes from the state at the call, which is: from top border,
active display exactly when scanline == first_active_scanline and top border otherwise
(never bottom border); from active display, bottom border exactly when the displayed-row
counter >= text_rows and active display otherwise; from bottom border, bottom border. A
register write does not change the area. `vic_render_line` returns in every border area,
and in the active area when the state is in range and no pixel needs an undefined
shift. -/
theorem vertical_area_state_machine (K : vic_consts) (s : vic_state) :
    (∀ (relock : Bool) (tail : Nat),
      (vic_vsync s relock tail).vic_vertical_area = 1 ∧ (vic_vsync s relock tail).scanline = 0
      ∧ (vic_vsync s relock tail).charline = 0 ∧ (vic_vsync s relock tail).vic_vid_counter = 0
      ∧ (vic_vsync s relock tail).vic_row_counter = 0)
    ∧ (∀ s1, vic_render_line K s = some s1 → s1.vic_vertical_area = vic_area_step s)
    ∧ (s.vic_vertical_area = 1 →
        vic_area_step s = if s.scanline = s.first_active_scanline then 0 else 1)
    ∧ (s.vic_vertical_area = 0 →
        vic_area_step s = if s.vic_row_counter ≥ s.text_rows then 2 else 0)
    ∧ (s.vic_vertical_area = 2 → vic_area_step s = 2)
    ∧ (∀ addr data, vic_wf s → addr < 16 →
        ∃ s1, cpu_vic_reg_write K s addr data = some s1
          ∧ s1.vic_vertical_area = s.vic_vertical_area)
    ∧ (dots_ok s → K.SCREEN_FIRST_VISIBLE_DOTPOS ≤ K.SCREEN_LAST_VISIBLE_DOTPOS + 1 →
        (vic_area_step s = 0 → shift_safe (visible_line K s) s
          ∧ s.vic_vid_addr + s.vic_vid_counter + s.text_columns ≤ 19455) →
        ∃ s1, vic_render_line K s = some s1) := by
  refine ⟨?_, ?_, vic_area_step_top s, vic_area_step_active s, ?_, ?_, ?_⟩
  · intro relock tail
    cases relock <;> exact ⟨rfl, rfl, rfl, rfl, rfl⟩
  · intro s1 h
    exact (vic_render_line_result K s s1 h).1
  · intro h
    rw [vic_area_step_other s (by rw [h]; decide) (by rw [h]; decide), h]
  · intro addr data hwf haddr
    obtain ⟨s1, h1, hp⟩ := cpu_vic_reg_write_spec K s hwf addr data haddr
    exact ⟨s1, h1, hp.area_eq⟩
  · intro hs hwin hact
    exact vic_render_line_total K s hs hwin hact

theorem vertical_area_state_machine_witness :
    vic_top_line.vic_vertical_area = 1
    ∧ vic_top_line.scanline = vic_top_line.first_active_scanline
    ∧ ∃ s1, vic_render_line K_vic vic_top_line = some s1 ∧ s1.vic_vertical_area = 0 := by
  have h := vertical_area_state_machine K_vic vic_top_line
  obtain ⟨s1, h1⟩ := h.2.2.2.2.2.2 vic_top_line_ok (by decide)
    (fun _ => ⟨Or.inr (Or.inl (fun _ => rfl)), by decide⟩)
  refine ⟨rfl, rfl, s1, h1, ?_⟩
  rw [h.2.1 s1 h1, h.2.2.1 rfl]
  rfl

/-- C30. End-of-scanline bookkeeping: every result of `vic_render_line` for a scanline
rendered in the active display area has, if the character line had reached
`char_height_minus_one`, character line 0, the video address counter advanced by
`text_columns` and the displayed-row counter increased by 1, and otherwise the character
line increased by 1 and both counters unchanged; a scanline rendered in the top or bottom
border changes none of the three. `vic_render_line` returns in every border area, and in
the active area when the state is in range and no pixel needs an undefined shift. -/
theorem end_of_scanline_bookkeeping (K : vic_consts) (s : vic_state) :
    (∀ s1, vic_render_line K s = some s1 →
      (vic_area_step s = 0 → s.char_height_minus_one ≤ s.charline →
        s1.charline = 0 ∧ s1.vic_vid_counter = s.vic_vid_counter + s.text_columns
          ∧ s1.vic_row_counter = s.vic_row_counter + 1)
      ∧ (vic_area_step s = 0 → s.charline < s.char_height_minus_one →
        s1.charline = s.charline + 1 ∧ s1.vic_vid_counter = s.vic_vid_counter
          ∧ s1.vic_row_counter = s.vic_row_counter)
      ∧ (vic_area_step s ≠ 0 → s1.charline = s.charline
          ∧ s1.vic_vid_counter = s.vic_vid_counter
          ∧ s1.vic_row_counter = s.vic_row_counter))
    ∧ (dots_ok s → K.SCREEN_FIRST_VISIBLE_DOTPOS ≤ K.SCREEN_LAST_VISIBLE_DOTPOS + 1 →
        (vic_area_step s = 0 → shift_safe (visible_line K s) s
          ∧ s.vic_vid_addr + s.vic_vid_counter + s.text_columns ≤ 19455) →
        ∃ s1, vic_render_line K s = some s1) :=
  ⟨fun s1 h => (vic_render_line_result K s s1 h).2,
    fun hs hwin hact => vic_render_line_total K s hs hwin hact⟩

theorem end_of_scanline_bookkeeping_witness :
    vic_area_step vic_hires_line = 0
    ∧ vic_hires_line.char_height_minus_one ≤ vic_hires_line.charline
    ∧ ∃ s1, vic_render_line K_vic vic_hires_line = some s1
      ∧ s1.charline = 0 ∧ s1.vic_vid_counter = 44 + 22 ∧ s1.vic_row_counter = 2 + 1 := by
  have h := end_of_scanline_bookkeeping K_vic vic_hires_line
  obtain ⟨s1, h1⟩ := h.2 vic_hires_line_ok (by decide)
    (fun _ => ⟨Or.inr (Or.inl (fun _ => rfl)), by decide⟩)
  exact ⟨by decide, by decide, s1, h1, (h.1 s1 h1).1 (by decide) (by decide)⟩

set_option maxRecDepth 1000000 in
/-- The registers, colour slots and cached fields of `vic_hires_line` are the ones
`vic_init` followed by the writes `writes_22x23` leaves. -/
theorem vic_hires_line_setup :
    ((vic_init K_vic vic_static (fun _ => 0) (fun _ => 0) 0).bind
        (fun s => vic_run_writes K_vic s writes_22x23)).map vic_setup_fields
      = some (vic_setup_fields vic_hires_line) := by
  decide

/-- What the fetch of the loop body reads, for every dot of a cell. -/
theorem dot_fetch_reads (s : vic_state) (l : dot_locals) (f : dot_fetched)
    (h : dot_fetch s l = some f) :
    ∃ vb m, vic_read_mem_lo8 s (s.vic_vid_addr + l.v_vid) = some vb
      ∧ vic_read_mem_lo8 s ((vb <<< s.char_height_shift) + s.vic_chr_addr + s.charline)
          = some f.chr
      ∧ vic_read_mem_hi4 s (s.vic_vid_addr + l.v_vid) = some m
      ∧ f.mcm = (if l.bitp = 128 then m &&& 8 else m)
      ∧ f.v_vid = (if l.bitp = 128 then l.v_vid + 1 else l.v_vid)
      ∧ f.bitp = (if l.bitp = 128 then (if m &&& 8 ≠ 0 then 6 else 128) else l.bitp) := by
  unfold dot_fetch at h
  cases hvb : vic_read_mem_lo8 s (s.vic_vid_addr + l.v_vid) with
  | none => rw [hvb] at h; cases h
  | some vb =>
    rw [hvb] at h
    simp only [Option.bind_eq_bind, Option.some_bind] at h
    cases hchr : vic_read_mem_lo8 s
        ((vb <<< s.char_height_shift) + s.vic_chr_addr + s.charline) with
    | none => rw [hchr] at h; cases h
    | some chr =>
      rw [hchr] at h
      simp only [Option.some_bind] at h
      cases hm : vic_read_mem_hi4 s (s.vic_vid_addr + l.v_vid) with
      | none => rw [hm] at h; cases h
      | some mcm0 =>
        rw [hm] at h
        simp only [Option.some_bind] at h
        refine ⟨vb, mcm0, rfl, ?_, rfl, ?_⟩
        · by_cases hb : l.bitp = 128
          · rw [if_pos hb] at h
            cases hc : arr_get s.vic_palette (mcm0 &&& 7) with
            | none => rw [hc] at h; cases h
            | some c =>
              rw [hc] at h
              simp only [Option.some_bind] at h
              cases hs : arr_set s.vic_cpal s.sram_colour_index c with
              | none => rw [hs] at h; cases h
              | some cpal =>
                rw [hs] at h
                simp only [Option.some_bind, Option.pure_def, Option.some.injEq] at h
                subst h
                exact hchr
          · rw [if_neg hb] at h
            simp only [Option.pure_def, Option.some.injEq] at h
            subst h
            exact hchr
        · by_cases hb : l.bitp = 128
          · rw [if_pos hb] at h
            cases hc : arr_get s.vic_palette (mcm0 &&& 7) with
            | none => rw [hc] at h; cases h
            | some c =>
              rw [hc] at h
              simp only [Option.some_bind] at h
              cases hs : arr_set s.vic_cpal s.sram_colour_index c with
              | none => rw [hs] at h; cases h
              | some cpal =>
                rw [hs] at h
                simp only [Option.some_bind, Option.pure_def, Option.some.injEq] at h
                subst h
                rw [if_pos hb, if_pos hb, if_pos hb]
                exact ⟨rfl, rfl, by rw [hb]⟩
          · rw [if_neg hb] at h
            simp only [Option.pure_def, Option.some.injEq] at h
            subst h
            rw [if_neg hb, if_neg hb, if_neg hb]
            exact ⟨rfl, rfl, rfl⟩

theorem second_dot_ok : locals_ok true vic_hires_line second_dot :=
  ⟨by decide, by decide, fun _ h => absurd rfl (h 0)⟩

/-- The multicolour pair stored for a visible dot, and the locals after it. -/
theorem dot_emit_multicolour (f : dot_fetched) (d n : Nat) (hm : f.mcm ≠ 0)
    (hb : f.bitp < 32) (hlen : f.s.vic_cpal.length = 4) :
    ∃ c, arr_get f.s.vic_cpal ((f.chr >>> f.bitp) &&& 3) = some c
      ∧ dot_emit f true d = some (put_pixel (put_pixel f.s c) c, d + 1)
      ∧ dot_emit f false d = some (f.s, d)
      ∧ dot_advance f n d
          = (if f.bitp ≤ 1 then
              { dotpos := d, bitp := 128, v_columns := n - 1, v_vid := f.v_vid }
             else { dotpos := d, bitp := f.bitp - 2, v_columns := n, v_vid := f.v_vid }) := by
  obtain ⟨c, hc⟩ := arr_get_some_of_lt f.s.vic_cpal ((f.chr >>> f.bitp) &&& 3)
    (by rw [hlen]; exact Nat.lt_of_le_of_lt Nat.and_le_right (by decide))
  refine ⟨c, hc, ?_, rfl, ?_⟩
  · unfold dot_emit
    simp only [if_true]
    rw [if_pos hm, if_neg (by omega)]
    simp only [Option.bind_eq_bind, hc, Option.some_bind, Option.pure_def]
  · unfold dot_advance
    by_cases h1 : f.bitp ≤ 1
    · rw [if_pos h1, if_pos h1]
    · rw [if_neg h1, if_neg h1, if_pos hm]

/-- C22 (what the code does): in the cell branch of the dot loop `chr` and `mcm` are read
for every dot, at the video address `vic_vid_addr + v_vid` current at that dot:
the character-generator byte is read at (video byte << height shift) + character base +
character line and the colour byte at the same video address. `v_vid` is incremented at the
first dot of a cell (`bitp` = 128), where the colour byte is masked with 8; at the other
dots of the cell the bytes are those of the next video address and the colour byte is used
unmasked. -/
theorem hires_scanline_reference (s : vic_state) (l : dot_locals) (f : dot_fetched)
    (h : dot_fetch s l = some f) :
    ∃ vb m, vic_read_mem_lo8 s (s.vic_vid_addr + l.v_vid) = some vb
      ∧ vic_read_mem_lo8 s ((vb <<< s.char_height_shift) + s.vic_chr_addr + s.charline)
          = some f.chr
      ∧ vic_read_mem_hi4 s (s.vic_vid_addr + l.v_vid) = some m
      ∧ f.mcm = (if l.bitp = 128 then m &&& 8 else m)
      ∧ f.v_vid = (if l.bitp = 128 then l.v_vid + 1 else l.v_vid)
      ∧ f.bitp = (if l.bitp = 128 then (if m &&& 8 ≠ 0 then 6 else 128) else l.bitp) :=
  dot_fetch_reads s l f h

theorem hires_scanline_reference_witness :
    ∃ f, dot_fetch vic_hires_line second_dot = some f
      ∧ ∃ vb m, vic_read_mem_lo8 vic_hires_line
            (vic_hires_line.vic_vid_addr + second_dot.v_vid) = some vb
        ∧ vic_read_mem_lo8 vic_hires_line
            ((vb <<< vic_hires_line.char_height_shift) + vic_hires_line.vic_chr_addr
              + vic_hires_line.charline) = some f.chr
        ∧ vic_read_mem_hi4 vic_hires_line
            (vic_hires_line.vic_vid_addr + second_dot.v_vid) = some m
        ∧ f.mcm = (if second_dot.bitp = 128 then m &&& 8 else m)
        ∧ f.v_vid = (if second_dot.bitp = 128 then second_dot.v_vid + 1 else second_dot.v_vid)
        ∧ f.bitp = (if second_dot.bitp = 128 then (if m &&& 8 ≠ 0 then 6 else 128)
                    else second_dot.bitp) := by
  obtain ⟨f, hf, _⟩ := dot_fetch_total true vic_hires_line second_dot vic_hires_line_ok
    second_dot_ok (by decide)
  exact ⟨f, hf, hires_scanline_reference vic_hires_line second_dot f hf⟩

set_option maxRecDepth 1000000 in
/-- C22, the reference row is not what is rendered: on the visible active scanline
`vic_hires_line` (22 columns, normal colour mode, first active dot 60, every colour byte 0)
cell 0 has the character-generator byte 0xFF, so all of its eight dots, texture positions
22..29, should show the palette colour of colour 0 (pixel value 1); the renderer stores
that colour for the first dot only and the screen colour (2) for the other seven, which
it takes from the byte of cell 1. Position 21 is the last border dot (4). -/
theorem hires_cell_rendered_from_next_cell :
    vic_read_mem_lo8 vic_hires_line
        (vic_hires_line.vic_vid_addr + vic_hires_line.vic_vid_counter + 0) = some 1
    ∧ vic_read_mem_lo8 vic_hires_line
        ((1 <<< vic_hires_line.char_height_shift) + vic_hires_line.vic_chr_addr
          + vic_hires_line.charline) = some 0xFF
    ∧ vic_read_mem_hi4 vic_hires_line
        (vic_hires_line.vic_vid_addr + vic_hires_line.vic_vid_counter + 0) = some 0
    ∧ arr_get vic_hires_line.vic_palette (0 &&& 7) = some 1
    ∧ (vic_render_line K_vic vic_hires_line).map (fun s => texture_row s 21)
        = some [4, 1, 2, 2, 2, 2, 2, 2, 2, 2] := by
  decide

/-- C23 (what the code does): a dot of the cell branch whose `mcm` is non-zero stores, when
it is visible, two pixels of the colour slot `(chr >> bitp) & 3` and skips one dot
position; when it is not visible it stores nothing and skips no dot position, so the pair
takes one dot. After the dot `bitp` is lowered by 2, or the cell ends when `bitp` <= 1.
The bytes `chr` and `mcm` of the dot are the ones `dot_fetch` has read for this dot. -/
theorem multicolour_cell_unpacking (f : dot_fetched) (d n : Nat) (hm : f.mcm ≠ 0)
    (hb : f.bitp < 32) (hlen : f.s.vic_cpal.length = 4) :
    ∃ c, arr_get f.s.vic_cpal ((f.chr >>> f.bitp) &&& 3) = some c
      ∧ dot_emit f true d = some (put_pixel (put_pixel f.s c) c, d + 1)
      ∧ dot_emit f false d = some (f.s, d)
      ∧ dot_advance f n d
          = (if f.bitp ≤ 1 then
              { dotpos := d, bitp := 128, v_columns := n - 1, v_vid := f.v_vid }
             else { dotpos := d, bitp := f.bitp - 2, v_columns := n, v_vid := f.v_vid }) :=
  dot_emit_multicolour f d n hm hb hlen

theorem multicolour_cell_unpacking_witness :
    ∃ c, arr_get vic_multi_line.vic_cpal ((0xE4 >>> 6) &&& 3) = some c
      ∧ dot_emit { s := vic_multi_line, chr := 0xE4, mcm := 8, bitp := 6, v_vid := 45 } true 60
          = some (put_pixel (put_pixel vic_multi_line c) c, 60 + 1)
      ∧ dot_emit { s := vic_multi_line, chr := 0xE4, mcm := 8, bitp := 6, v_vid := 45 } false 60
          = some (vic_multi_line, 60)
      ∧ dot_advance { s := vic_multi_line, chr := 0xE4, mcm := 8, bitp := 6, v_vid := 45 } 22 60
          = (if 6 ≤ 1 then
              { dotpos := 60, bitp := 128, v_columns := 22 - 1, v_vid := 45 }
             else { dotpos := 60, bitp := 6 - 2, v_columns := 22, v_vid := 45 }) :=
  multicolour_cell_unpacking
    { s := vic_multi_line, chr := 0xE4, mcm := 8, bitp := 6, v_vid := 45 } 60 22
    (by decide) (by decide) rfl

set_option maxRecDepth 1000000 in
/-- C23, the four pairs are not the four bit pairs of the cell's byte: on the visible
active scanline `vic_multi_line` every cell is multicolour (colour byte 8) and cell 0 has
the character-generator byte 0xE4, bit pairs 3, 2, 1, 0, so texture positions 22..29
should show the colour slots 3, 3, 2, 2, 1, 1, 0, 0, that is the pixel values 3, 3, 1, 1,
4, 4, 2, 2; the renderer stores slot 3 for the first pair and slot 0 (pixel value 2) for
the other three pairs, which it takes from the byte of cell 1. -/
theorem multicolour_pairs_from_next_cell :
    vic_read_mem_lo8 vic_multi_line
        ((1 <<< vic_multi_line.char_height_shift) + vic_multi_line.vic_chr_addr
          + vic_multi_line.charline) = some 0xE4
    ∧ vic_read_mem_hi4 vic_multi_line
        (vic_multi_line.vic_vid_addr + vic_multi_line.vic_vid_counter + 0) = some 8
    ∧ ((0xE4 >>> 6) &&& 3, (0xE4 >>> 4) &&& 3, (0xE4 >>> 2) &&& 3, 0xE4 &&& 3) = (3, 2, 1, 0)
    ∧ arr_get vic_multi_line.vic_palette (8 &&& 7) = some 1
    ∧ vic_multi_line.vic_cpal.take 2 = [2, 4] ∧ vic_multi_line.vic_cpal.drop 3 = [3]
    ∧ (vic_render_line K_vic vic_multi_line).map (fun s => texture_row s 21)
        = some [4, 3, 3, 2, 2, 2, 2, 2, 2, 2] := by
  decide

/-- C33. Write independence in the virtual store: in every store reachable from
`virtdisk_init(bpc, total)` (bpc at least 1) by writes and reads below the capacity, for
two distinct block numbers `b` and `b1` below the capacity, a write of any content `X` to
`b` returns and the content a read of `b1` delivers afterwards is the content it delivered
before, whether the write overwrote a stored block, allocated a slot in the tail chunk or
a new chunk, or stored nothing; and a read of any block below the capacity returns and
leaves the whole store (chunks, counters, range map) as it was. -/
theorem write_independence (bpc total : Nat) (hbpc : 0 < bpc) (vd : virtdisk_st)
    (hreach : vdisk_reachable bpc total vd) (b b1 : Nat) (hb : b < total) (hb1 : b1 < total)
    (hne : b ≠ b1) (X buffer : List Nat) :
    (∃ vd1 D, virtdisk_write_block vd b X = some vd1
      ∧ virtdisk_read_block vd b1 buffer = some (D, vd)
      ∧ virtdisk_read_block vd1 b1 buffer = some (D, vd1))
    ∧ (∀ c buf, c < total → ∃ D, virtdisk_read_block vd c buf = some (D, vd)) := by
  have hinv := vdisk_reachable_inv hbpc hreach
  obtain ⟨vd1, hw, hpost⟩ := virtdisk_write_block_spec hinv hb X
  refine ⟨⟨vd1, buffer_fill buffer (vdisk_block vd b1), hw, virtdisk_read_block_eq hinv hb1 buffer,
    ?_⟩, fun c buf hc => ⟨_, virtdisk_read_block_eq hinv hc buf⟩⟩
  rw [virtdisk_read_block_eq hpost.inv hb1 buffer, hpost.others b1 (fun h => hne h.symm)]

theorem write_independence_witness :
    0 < 2 ∧ vdisk_reachable 2 64 vd_small_written ∧ 6 < 64 ∧ 5 < 64 ∧ 6 ≠ 5
    ∧ ∃ vd1 D, virtdisk_write_block vd_small_written 6 (List.replicate 512 9) = some vd1
      ∧ virtdisk_read_block vd_small_written 5 zero_block = some (D, vd_small_written)
      ∧ virtdisk_read_block vd1 5 zero_block = some (D, vd1) :=
  ⟨by decide, vd_small_written_reachable, by decide, by decide, by decide,
    (write_independence 2 64 (by decide) vd_small_written vd_small_written_reachable 6 5
      (by decide) (by decide) (by decide) (List.replicate 512 9) zero_block).1⟩

theorem heap_tags_append : ∀ (l m : List virtdisk_chunk_st),
    heap_tags (l ++ m) = heap_tags l ++ heap_tags m
  | [], m => rfl
  | v :: l, m => by
    show chunk_tags v ++ heap_tags (l ++ m) = (chunk_tags v ++ heap_tags l) ++ heap_tags m
    rw [heap_tags_append l m, List.append_assoc]

theorem mem_chunk_tags (v : virtdisk_chunk_st) (b : Nat) :
    b ∈ chunk_tags v ↔ stored_in v b := by
  unfold chunk_tags stored_in
  rw [List.mem_iff_getElem?]
  constructor
  · rintro ⟨a, ha⟩
    rw [List.getElem?_take] at ha
    split at ha
    · exact ⟨a, by assumption, ha⟩
    · cases ha
  · rintro ⟨a, ha, hb⟩
    exact ⟨a, by rw [List.getElem?_take, if_pos ha]; exact hb⟩

theorem mem_heap_tags (b : Nat) : ∀ (l : List virtdisk_chunk_st),
    b ∈ heap_tags l ↔ ∃ v, v ∈ l ∧ stored_in v b
  | [] => by simp [heap_tags]
  | v :: l => by
    show b ∈ chunk_tags v ++ heap_tags l ↔ _
    rw [List.mem_append, mem_chunk_tags, mem_heap_tags b l]
    constructor
    · rintro (h | ⟨w, hw, hs⟩)
      · exact ⟨v, List.mem_cons_self _ _, h⟩
      · exact ⟨w, List.mem_cons_of_mem _ hw, hs⟩
    · rintro ⟨w, hw, hs⟩
      rcases List.mem_cons.mp hw with h | h
      · left; rw [← h]; exact hs
      · right; exact ⟨w, h, hs⟩

theorem mem_vdisk_tags (vd : virtdisk_st) (b : Nat) : b ∈ vdisk_tags vd ↔ stored vd b :=
  mem_heap_tags b vd.heap

/-- Replacing a chunk by one with the same recorded block numbers. -/
theorem heap_tags_set : ∀ (l : List virtdisk_chunk_st) (i : Nat) (v w : virtdisk_chunk_st),
    l[i]? = some v → chunk_tags w = chunk_tags v → heap_tags (l.set i w) = heap_tags l
  | [], i, v, w, h, _ => by simp at h
  | a :: l, 0, v, w, h, hw => by
    simp only [List.getElem?_cons_zero, Option.some.injEq] at h
    subst h
    show chunk_tags w ++ heap_tags l = chunk_tags a ++ heap_tags l
    rw [hw]
  | a :: l, i + 1, v, w, h, hw => by
    simp only [List.getElem?_cons_succ] at h
    show chunk_tags a ++ heap_tags (l.set i w) = chunk_tags a ++ heap_tags l
    rw [heap_tags_set l i v w h hw]

/-- Replacing the last chunk by one that records one more block number. -/
theorem heap_tags_set_last (w : virtdisk_chunk_st) (b : Nat) :
    ∀ (l : List virtdisk_chunk_st) (t : virtdisk_chunk_st), l[l.length - 1]? = some t →
      chunk_tags w = chunk_tags t ++ [b] →
      heap_tags (l.set (l.length - 1) w) = heap_tags l ++ [b]
  | [], t, h, _ => by simp at h
  | [a], t, h, hw => by
    simp only [List.length_singleton, Nat.sub_self, List.getElem?_cons_zero,
      Option.some.injEq] at h
    subst h
    show chunk_tags w ++ [] = (chunk_tags a ++ []) ++ [b]
    rw [hw, List.append_nil, List.append_nil]
  | a :: c :: l, t, h, hw => by
    have hlen : (a :: c :: l).length - 1 = (c :: l).length - 1 + 1 := rfl
    rw [hlen] at h ⊢
    simp only [List.getElem?_cons_succ] at h
    show chunk_tags a ++ heap_tags ((c :: l).set ((c :: l).length - 1) w)
      = (chunk_tags a ++ heap_tags (c :: l)) ++ [b]
    rw [heap_tags_set_last w b (c :: l) t h hw, List.append_assoc]

theorem take_set_self (l : List Nat) (u b : Nat) : (l.set u b).take u = l.take u :=
  List.ext_getElem? fun i => by
    rw [List.getElem?_take, List.getElem?_take]
    split
    · next h => rw [List.getElem?_set_ne (by omega)]
    · rfl

theorem chunk_tags_push (t : virtdisk_chunk_st) (b : Nat) (h : t.used_blocks < t.list.length) :
    chunk_tags (chunk_push t b) = chunk_tags t ++ [b] := by
  unfold chunk_tags chunk_push
  show (t.list.set t.used_blocks b).take (t.used_blocks + 1) = t.list.take t.used_blocks ++ [b]
  rw [List.take_succ, take_set_self, List.getElem?_set_self h]
  rfl

theorem chunk_tags_fresh (bpc b : Nat) (h : 0 < bpc) : chunk_tags (chunk_fresh bpc b) = [b] := by
  unfold chunk_tags chunk_fresh
  obtain ⟨k, rfl⟩ : ∃ k, bpc = k + 1 := ⟨bpc - 1, by omega⟩
  rfl

theorem heap_tags_relink (heap : List virtdisk_chunk_st) :
    heap_tags (relink heap) = heap_tags heap := by
  unfold relink
  split
  · rename_i t ht
    exact heap_tags_set heap _ t _ ht rfl
  · rfl

/-- What a block write does to the recorded block numbers and to `all_blocks`: nothing, or
the block number, not recorded before, is appended and counted. -/
theorem write_tags {total : Nat} {vd vd1 : virtdisk_st} (h : vdisk_inv total vd)
    {b : Nat} (hb : b < total) (X : List Nat)
    (hw : virtdisk_write_block vd b X = some vd1) :
    (vdisk_tags vd1 = vdisk_tags vd ∧ vd1.all_blocks = vd.all_blocks)
    ∨ (¬ stored vd b ∧ vdisk_tags vd1 = vdisk_tags vd ++ [b]
        ∧ vd1.all_blocks = vd.all_blocks + 1) := by
  cases hs : list_search b vd.heap 1 with
  | some loc =>
    obtain ⟨heap1, hstore, _⟩ := chunk_store_spec h hs (memcpy512 X)
    have heq : virtdisk_write_block vd b X = some { vd with heap := heap1 } := by
      unfold virtdisk_write_block
      rw [search_block_found h hb hs]
      simp [hstore]
    rw [heq] at hw
    cases hw
    obtain ⟨v, base, hv, hset⟩ := chunk_store_shape hstore
    left
    refine ⟨?_, rfl⟩
    show heap_tags heap1 = heap_tags vd.heap
    rw [hset]
    exact heap_tags_set vd.heap _ v _ hv rfl
  | none =>
    have hns : ¬ stored vd b := (list_search_none_iff_not_stored h b 1).mp hs
    cases hz : has_block_nonzero_byte X with
    | false =>
      have heq : virtdisk_write_block vd b X = some vd := by
        unfold virtdisk_write_block
        rw [hz, search_block_noalloc h hb, hs]
        rfl
      rw [heq] at hw
      cases hw
      exact Or.inl ⟨rfl, rfl⟩
    | true =>
      obtain ⟨loc, vd2, halloc, hpost, hcases⟩ := allocate_cases h hb hns
      obtain ⟨heap1, hstore, _⟩ := chunk_store_spec hpost.inv hpost.found (memcpy512 X)
      have heq : virtdisk_write_block vd b X = some { vd2 with heap := heap1 } := by
        unfold virtdisk_write_block
        rw [hz, search_block_alloc h hb hs, halloc]
        simp [hstore]
      rw [heq] at hw
      cases hw
      obtain ⟨v, base, hv, hset⟩ := chunk_store_shape hstore
      right
      refine ⟨hns, ?_, hpost.count⟩
      show heap_tags heap1 = heap_tags vd.heap ++ [b]
      rw [hset, heap_tags_set vd2.heap _ v { v with base := base } hv rfl]
      rcases hcases with ⟨t, rm, ht, hroom, _, hvd⟩ | ⟨hfull, rm, _, hvd⟩
      · rw [hvd]
        have htok := h.chunks t (List.getElem?_mem ht)
        exact heap_tags_set_last _ b vd.heap t ht
          (chunk_tags_push t b (by rw [htok.list_len]; exact hroom))
      · rw [hvd]
        show heap_tags (relink vd.heap ++ [chunk_fresh vd.blocks_per_chunk b]) = _
        rw [heap_tags_append, heap_tags_relink]
        show heap_tags vd.heap ++ (chunk_tags (chunk_fresh vd.blocks_per_chunk b) ++ []) = _
        rw [chunk_tags_fresh _ b h.bpc_pos, List.append_nil]

/-- Every reachable store records no block number twice, and `all_blocks` counts the
recorded block numbers. -/
theorem vdisk_reachable_tags {bpc total : Nat} (hbpc : 0 < bpc) {vd : virtdisk_st}
    (h : vdisk_reachable bpc total vd) :
    (vdisk_tags vd).Nodup ∧ vd.all_blocks = (vdisk_tags vd).length := by
  induction h with
  | init vd0 => exact ⟨List.nodup_nil, rfl⟩
  | write b X hr hb hw ih =>
    have hinv := vdisk_reachable_inv hbpc hr
    rcases write_tags hinv hb X hw with ⟨ht, hc⟩ | ⟨hns, ht, hc⟩
    · rw [ht, hc]; exact ih
    · rw [ht, hc, List.length_append, ih.2]
      refine ⟨?_, rfl⟩
      rw [List.nodup_append]
      refine ⟨ih.1, List.nodup_singleton b, ?_⟩
      intro x hx hx1
      rw [List.mem_singleton] at hx1
      subst hx1
      exact hns ((mem_vdisk_tags _ _).mp hx)
  | read b buffer buffer1 hr hb hrd ih =>
    rw [virtdisk_read_block_eq (vdisk_reachable_inv hbpc hr) hb] at hrd
    cases hrd
    exact ih

/-- C34. No duplicate blocks: in every store reachable from `virtdisk_init(bpc, total)`
(bpc at least 1) by block writes and reads below the capacity, no block number occurs
twice over the used entries of the lists of all chunks; a block number occurs there exactly
when some chunk records it; `all_blocks` is the number of used entries and so the number
of distinct recorded block numbers; and a write to a recorded block returns and changes
neither `all_blocks` nor the recorded block numbers. -/
theorem no_duplicate_blocks (bpc total : Nat) (hbpc : 0 < bpc) (vd : virtdisk_st)
    (hreach : vdisk_reachable bpc total vd) :
    (vdisk_tags vd).Nodup
    ∧ (∀ b, b ∈ vdisk_tags vd
        ↔ ∃ v, v ∈ vd.heap ∧ ∃ a, a < v.used_blocks ∧ v.list[a]? = some b)
    ∧ vd.all_blocks = (vdisk_tags vd).length
    ∧ vd.all_blocks = (vdisk_tags vd).toFinset.card
    ∧ (∀ b X, b < total → b ∈ vdisk_tags vd →
        ∃ vd1, virtdisk_write_block vd b X = some vd1 ∧ vd1.all_blocks = vd.all_blocks
          ∧ vdisk_tags vd1 = vdisk_tags vd) := by
  obtain ⟨hnd, hlen⟩ := vdisk_reachable_tags hbpc hreach
  have hinv := vdisk_reachable_inv hbpc hreach
  refine ⟨hnd, fun b => mem_vdisk_tags vd b, hlen, ?_, ?_⟩
  · rw [List.toFinset_card_of_nodup hnd]; exact hlen
  · intro b X hb hmem
    obtain ⟨vd1, hw, _⟩ := virtdisk_write_block_spec hinv hb X
    refine ⟨vd1, hw, ?_⟩
    rcases write_tags hinv hb X hw with ⟨ht, hc⟩ | ⟨hns, _, _⟩
    · exact ⟨hc, ht⟩
    · exact absurd ((mem_vdisk_tags vd b).mp hmem) hns

set_option maxRecDepth 100000 in
theorem no_duplicate_blocks_witness :
    0 < 2 ∧ vdisk_reachable 2 64 vd_small_written
    ∧ (vdisk_tags vd_small_written).Nodup ∧ vdisk_tags vd_small_written = [5]
    ∧ vd_small_written.all_blocks = (vdisk_tags vd_small_written).toFinset.card :=
  ⟨by decide, vd_small_written_reachable,
    (no_duplicate_blocks 2 64 (by decide) vd_small_written vd_small_written_reachable).1,
    by decide,
    (no_duplicate_blocks 2 64 (by decide) vd_small_written vd_small_written_reachable).2.2.2.1⟩

set_option maxRecDepth 100000 in
/-- A block number at or beyond the declared capacity can select a byte outside the range
map: capacity 1, block 2048. -/
theorem range_byte_beyond_capacity :
    range_byte (virtdisk_init vdisk_static 1 1) 2048 = 256
    ∧ virtdisk_search_block (virtdisk_init vdisk_static 1 1) 2048 true = none := by
  decide

/-- C35. Range-map indexing is in bounds: for every declared capacity `total` passed to
`virtdisk_init` and every block number `block < total`, the range index
`block / (total / 2048 + 1)` is below 2048, the byte index `range_index >> 3` used by
`virtdisk_search_block` is below `RANGE_MAP_SIZE` = 256, the range map has an entry there,
and the search, with or without allocation, returns. For a block number at or beyond the
capacity this need not hold: with capacity 1 block 2048 selects byte 256 and the search
with allocation has no defined result. -/
theorem range_map_index_in_bounds (vd0 : virtdisk_st) (bpc total block : Nat)
    (hbpc : 0 < bpc) (hb : block < total) :
    (virtdisk_init vd0 bpc total).range_map_divisor = total / 2048 + 1
    ∧ block / (total / 2048 + 1) < 2048
    ∧ range_byte (virtdisk_init vd0 bpc total) block = (block / (total / 2048 + 1)) >>> 3
    ∧ range_byte (virtdisk_init vd0 bpc total) block < RANGE_MAP_SIZE
    ∧ RANGE_MAP_SIZE = 256
    ∧ (∃ m, arr_get (virtdisk_init vd0 bpc total).range_map
        (range_byte (virtdisk_init vd0 bpc total) block) = some m)
    ∧ (∀ alloc, ∃ r, virtdisk_search_block (virtdisk_init vd0 bpc total) block alloc = some r)
    ∧ (∃ total1 block1, 1 ≤ total1 ∧ total1 ≤ block1 ∧ block1 < 2 ^ 32
        ∧ ¬ range_byte (virtdisk_init vdisk_static 1 total1) block1 < RANGE_MAP_SIZE
        ∧ virtdisk_search_block (virtdisk_init vdisk_static 1 total1) block1 true = none) := by
  have hinv := virtdisk_init_inv vd0 bpc total hbpc
  have hlt := hinv.div_ok block hb
  refine ⟨rfl, range_index_lt total block hb, rfl, hlt, rfl, ?_, ?_, ?_⟩
  · exact ⟨_, arr_get_of_lt _ _ (by rw [hinv.map_len]; exact hlt)⟩
  · intro alloc
    cases alloc
    · exact ⟨_, search_block_noalloc hinv hb⟩
    · have hns : ¬ stored (virtdisk_init vd0 bpc total) block := by
        rintro ⟨v, hv, _⟩
        simp [virtdisk_init, virtdisk_destroy] at hv
      have hs := (list_search_none_iff_not_stored hinv block 1).mpr hns
      obtain ⟨loc, vd1, ha, _⟩ := allocate_cases hinv hb hns
      exact ⟨_, (search_block_alloc hinv hb hs).trans ha⟩
  · refine ⟨1, 2048, by decide, by decide, by decide, ?_, range_byte_beyond_capacity.2⟩
    rw [range_byte_beyond_capacity.1]
    decide

theorem range_map_index_in_bounds_witness :
    0 < 2048 ∧ 8388607 < 8388608
    ∧ range_byte (virtdisk_init vdisk_static 2048 8388608) 8388607 < RANGE_MAP_SIZE :=
  ⟨by decide, by decide,
    (range_map_index_in_bounds vdisk_static 2048 8388608 8388607 (by decide) (by decide)).2.2.2.1⟩

set_option maxRecDepth 100000 in
theorem and_128_eq : ∀ b0, b0 < 256 →
    b0 &&& 0x80 = (if b0.testBit 7 = true then 0x80 else 0) := by
  decide

theorem host_read_three (image : List Nat) (pos io : Nat) (h3 : 3 ≤ io)
    (hlen : pos + 3 ≤ image.length) :
    ∃ b0 b1 b2, image[pos]? = some b0 ∧ image[pos + 1]? = some b1 ∧ image[pos + 2]? = some b2
      ∧ host_read image pos 3 io = [b0, b1, b2] := by
  have h0 : pos < image.length := by omega
  have h1 : pos + 1 < image.length := by omega
  have h2 : pos + 2 < image.length := by omega
  refine ⟨image[pos], image[pos + 1], image[pos + 2], List.getElem?_eq_getElem h0,
    List.getElem?_eq_getElem h1, List.getElem?_eq_getElem h2, ?_⟩
  unfold host_read
  rw [List.take_take, Nat.min_eq_right h3, List.drop_eq_getElem_cons h0,
    List.drop_eq_getElem_cons h1, List.drop_eq_getElem_cons h2]
  rfl

/-- `host_seek` on a compressed image whose index entry reads as the bytes `b0 b1 b2`. -/
theorem host_seek_compressed (s : sd_state) (env : host_env) (block b0 b1 b2 : Nat)
    (hfd : 0 ≤ s.sdfd) (hc : s.sd_compressed ≠ 0) (hoff : 3 * block + 0x22 < 2 ^ 32)
    (h1 : b1 < 256) (h2 : b2 < 256)
    (hread : host_read s.sd_image (0x22 + 3 * block) 3 env.io_limit = [b0, b1, b2]) :
    host_seek s env block
      = some (0, { s with compressed_block := b0 &&& 0x80
                          sd_image_pos := s.sd_bdata_start + 512 * index_pointer b0 b1 b2 }) := by
  have hmod : (block * 3 + 0x22) % 2 ^ 32 = 0x22 + 3 * block := by
    rw [Nat.mod_eq_of_lt (by omega)]; omega
  have h7 : b0 &&& 0x7F = b0 % 128 := by
    have : (0x7F : Nat) = 2 ^ 7 - 1 := rfl
    rw [this, Nat.and_pow_two_sub_one_eq_mod]
  unfold host_seek
  rw [if_neg (by omega), if_pos hc]
  simp only [hmod, hread]
  rw [or_shift_eq_be _ _ _ h1 h2, h7, Nat.shiftLeft_eq]
  unfold index_pointer
  have e : ((b0 % 128) * 65536 + b1 * 256 + b2) * 2 ^ 9 + s.sd_bdata_start
      = s.sd_bdata_start + 512 * ((b0 % 128) * 65536 + b1 * 256 + b2) := by
    have : (2 : Nat) ^ 9 = 512 := rfl
    rw [this]; omega
  rw [e]

/-- C32. Host offset arithmetic: for every block number below a capacity of at most 2^26
blocks (the largest `sdcard_init` accepts), `host_seek` on a direct image positions the
file at byte offset `block * 512`, computed without truncation; on a compressed image it
reads the 3-byte index entry at byte offset `0x22 + 3 * block` (it returns when the file
holds the entry and the host read delivers 3 bytes), stores bit 7 of the first byte as the
is-compressed flag, takes the remaining 23 bits, big-endian, as pointer `p` and positions
the file at `sd_bdata_start + 512 * p`; and `detect_compressed_image`, on a header with the
marker and version 3 that declares `n` blocks, sets `sd_bdata_start` to `0x22 + 3 * n`. -/
theorem host_offset_arithmetic (C : init_consts) (s : sd_state) (env : host_env) (block : Nat)
    (hfd : 0 ≤ s.sdfd) (hb : block < s.sdcard_size_in_blocks)
    (hcap : s.sdcard_size_in_blocks ≤ 67108864) :
    (s.sd_compressed = 0 →
      host_seek s env block = some (0, { s with sd_image_pos := block * 512 }))
    ∧ (s.sd_compressed ≠ 0 → 0x22 + 3 * block + 3 ≤ s.sd_image.length → 3 ≤ env.io_limit →
        (∀ x ∈ s.sd_image, x < 256) →
        ∃ b0 b1 b2, s.sd_image[0x22 + 3 * block]? = some b0
          ∧ s.sd_image[0x22 + 3 * block + 1]? = some b1
          ∧ s.sd_image[0x22 + 3 * block + 2]? = some b2
          ∧ host_seek s env block
            = some (0, { s with
                compressed_block := (if b0.testBit 7 = true then 0x80 else 0)
                sd_image_pos := s.sd_bdata_start + 512 * index_pointer b0 b1 b2 }))
    ∧ (∀ (hdr rest : List Nat) (io_limit : Nat), hdr.length = 512 → (∀ b ∈ hdr, b < 256) →
        s.sd_image = hdr ++ rest → 512 ≤ io_limit → hdr.take 28 = compressed_marker →
        be24 hdr 0x1C = 3 →
        (detect_compressed_image C s true io_limit).1 = 1
        ∧ (detect_compressed_image C s true io_limit).2.1.sd_bdata_start
            = 0x22 + 3 * be24 hdr 0x1F) := by
  refine ⟨?_, ?_, ?_⟩
  · intro hc
    unfold host_seek
    rw [if_neg (by omega), if_neg (not_not.mpr hc), Nat.shiftLeft_eq]
  · intro hc hlen hio hbytes
    obtain ⟨b0, b1, b2, g0, g1, g2, hread⟩ := host_read_three s.sd_image _ env.io_limit hio hlen
    have hlt : ∀ i x, s.sd_image[i]? = some x → x < 256 :=
      fun i x hx => hbytes x (List.getElem?_mem hx)
    refine ⟨b0, b1, b2, g0, g1, g2, ?_⟩
    rw [← and_128_eq b0 (hlt _ _ g0)]
    exact host_seek_compressed s env block b0 b1 b2 hfd hc (by omega) (hlt _ _ g1) (hlt _ _ g2)
      hread
  · intro hdr rest io_limit hlen hbytes himg hio hmagic hver
    have h := (detect_compressed_image_header C s io_limit hdr rest hlen hbytes himg hio).2.2
      hmagic hver
    rw [h]
    exact ⟨rfl, rfl⟩

set_option maxRecDepth 100000 in
theorem host_offset_arithmetic_witness :
    (0 : Int) ≤ sd_index_small.sdfd ∧ 1 < sd_index_small.sdcard_size_in_blocks
    ∧ sd_index_small.sdcard_size_in_blocks ≤ 67108864
    ∧ ∃ b0 b1 b2, sd_index_small.sd_image[0x22 + 3 * 1]? = some b0
        ∧ sd_index_small.sd_image[0x22 + 3 * 1 + 1]? = some b1
        ∧ sd_index_small.sd_image[0x22 + 3 * 1 + 2]? = some b2
        ∧ host_seek sd_index_small env_ok 1
          = some (0, { sd_index_small with
              compressed_block := (if b0.testBit 7 = true then 0x80 else 0)
              sd_image_pos := sd_index_small.sd_bdata_start + 512 * index_pointer b0 b1 b2 }) :=
  ⟨by decide, by decide, by decide,
    (host_offset_arithmetic C_ref sd_index_small env_ok 1 (by decide) (by decide)
      (by decide)).2.1 (by decide) (by decide) (by decide) (by decide)⟩

theorem st_tst_clr_busy_ext {K : sd_consts} (hK : K.WF) (st : Nat) :
    st_tst (st_clr st (K.SD_ST_BUSY1 ||| K.SD_ST_BUSY0)) K.SD_ST_EXT_BUS
      = st_tst st K.SD_ST_EXT_BUS := by
  have h1 : K.SD_ST_BUSY1 &&& K.SD_ST_EXT_BUS = 0 :=
    (hK.disj (i := 5) (j := 7) (by decide) (by decide)).1
  have h0 : K.SD_ST_BUSY0 &&& K.SD_ST_EXT_BUS = 0 :=
    (hK.disj (i := 6) (j := 7) (by decide) (by decide)).1
  have hb : K.SD_ST_EXT_BUS < 256 := (hK.bound (i := 7) (by decide)).2
  unfold st_tst
  rw [st_clr_and_keep _ _ _ hb (or_and_disj h1 h0)]

/-- The status byte the external-bus exit of `sdcard_block_io` leaves has the two error
flags and the two busy flags set and keeps the external-bus flag. -/
theorem external_exit_status {K : sd_consts} (hK : K.WF) (st : Nat)
    (hext : st_tst st K.SD_ST_EXT_BUS = true) :
    st_tst (st_set st (K.SD_ST_ERROR ||| K.SD_ST_FSM_ERROR ||| K.SD_ST_BUSY1 ||| K.SD_ST_BUSY0))
      (K.SD_ST_ERROR ||| K.SD_ST_FSM_ERROR) = true
    ∧ st_tst (st_set st (K.SD_ST_ERROR ||| K.SD_ST_FSM_ERROR ||| K.SD_ST_BUSY1 ||| K.SD_ST_BUSY0))
      K.SD_ST_ERROR = true
    ∧ st_tst (st_set st (K.SD_ST_ERROR ||| K.SD_ST_FSM_ERROR ||| K.SD_ST_BUSY1 ||| K.SD_ST_BUSY0))
      K.SD_ST_FSM_ERROR = true
    ∧ st_tst (st_set st (K.SD_ST_ERROR ||| K.SD_ST_FSM_ERROR ||| K.SD_ST_BUSY1 ||| K.SD_ST_BUSY0))
      K.SD_ST_BUSY1 = true
    ∧ st_tst (st_set st (K.SD_ST_ERROR ||| K.SD_ST_FSM_ERROR ||| K.SD_ST_BUSY1 ||| K.SD_ST_BUSY0))
      K.SD_ST_BUSY0 = true
    ∧ st_tst (st_set st (K.SD_ST_ERROR ||| K.SD_ST_FSM_ERROR ||| K.SD_ST_BUSY1 ||| K.SD_ST_BUSY0))
      K.SD_ST_EXT_BUS = true := by
  have he := st_tst_error_set hK st (K.SD_ST_BUSY1 ||| K.SD_ST_BUSY0)
  rw [← Nat.lor_assoc] at he
  obtain ⟨i1, hi1, hb1⟩ := exists_bit hK.busy1.1 hK.busy1.2
  obtain ⟨i0, hi0, hb0⟩ := exists_bit hK.busy0.1 hK.busy0.2
  refine ⟨he.1, he.2.1, he.2.2, st_tst_set_of_bit hi1 ?_ hb1, st_tst_set_of_bit hi0 ?_ hb0,
    st_tst_set_mono _ (hK.bound (i := 7) (by decide)).2 hext⟩
  · simp only [Nat.testBit_or, hb1, Bool.or_true, Bool.true_or]
  · simp only [Nat.testBit_or, hb0, Bool.or_true]

/-- `sdcard_block_io` with the external bus selected, when the protection of important
blocks lets the command through: the external-bus exit is taken. -/
theorem block_io_external (K : sd_consts) (x : sd_state) (env : host_env) (block : Nat)
    (w : Bool) (hext : st_tst x.sd_status K.SD_ST_EXT_BUS = true)
    (hp : w = false
      ∨ ¬ ((block = 0 ∨ block = K.XEMU_INFO_SDCARD_BLOCK_NO) ∧ 0 ≤ x.sdfd
            ∧ x.protect_important_blocks ≠ 0)
      ∨ (x.protect_important_blocks ≠ 2 ∧ env.answer ≠ 0 ∧ env.answer ≠ 1)) :
    ∃ p, sdcard_block_io K x env block w
      = some { x with
          sd_status := st_set x.sd_status
            (K.SD_ST_ERROR ||| K.SD_ST_FSM_ERROR ||| K.SD_ST_BUSY1 ||| K.SD_ST_BUSY0)
          keep_busy := 1, protect_important_blocks := p } := by
  have plain : ∀ y : sd_state, st_tst y.sd_status K.SD_ST_EXT_BUS = true →
      block_io_transfer K y env block w
        = some { y with
            sd_status := st_set y.sd_status
              (K.SD_ST_ERROR ||| K.SD_ST_FSM_ERROR ||| K.SD_ST_BUSY1 ||| K.SD_ST_BUSY0)
            keep_busy := 1 } := by
    intro y hy
    unfold block_io_transfer
    rw [if_pos hy]
  unfold sdcard_block_io
  split
  · rename_i hguard
    obtain ⟨hw, hblk, hfd, hp0⟩ := hguard
    rcases hp with h | h | ⟨h2, ha0, ha1⟩
    · rw [h] at hw; cases hw
    · exact absurd ⟨hblk, hfd, hp0⟩ h
    · rw [if_neg h2]
      split
      · rename_i h0; exact absurd h0 ha0
      · rename_i h1; exact absurd h1 ha1
      · exact ⟨_, plain x hext⟩
      · exact ⟨0, plain { x with protect_important_blocks := 0 } hext⟩
      · exact ⟨_, plain x hext⟩
  · exact ⟨_, plain x hext⟩

/-- The `switch` of `sdcard_command` for a block command at an accepted place of its
sequence: the call of `sdcard_block_io` it makes. -/
theorem command_switch_block (K : sd_consts) (x : sd_state) (env : host_env) (cmd block : Nat)
    (hcb : command_block x cmd = some block)
    (hseq : cmd = 2 ∨ cmd = 3 ∨ (cmd = 4 ∧ x.sd_last_ok_cmd ≠ 4)
      ∨ ((cmd = 5 ∨ cmd = 6)
          ∧ (x.sd_last_ok_cmd = 4 ∨ x.sd_last_ok_cmd = 5 ∨ x.sd_last_ok_cmd = 0x57))) :
    ∃ m, sdcard_command_switch K x env cmd
      = sdcard_block_io K { x with multi_io_block := m } env block (decide (cmd ≠ 2)) := by
  unfold command_block at hcb
  rcases hseq with h | h | ⟨h, hl⟩ | ⟨h | h, hl⟩
  · subst h
    rw [if_neg (by decide)] at hcb
    refine ⟨x.multi_io_block, ?_⟩
    show (U8A_TO_U32 x.sd_regs 1).bind (fun b => sdcard_block_io K x env b false) = _
    rw [hcb]
    rfl
  · subst h
    rw [if_neg (by decide)] at hcb
    refine ⟨x.multi_io_block, ?_⟩
    show (U8A_TO_U32 x.sd_regs 1).bind (fun b => sdcard_block_io K x env b true) = _
    rw [hcb]
    rfl
  · subst h
    rw [if_neg (by decide)] at hcb
    refine ⟨block, ?_⟩
    show (if x.sd_last_ok_cmd ≠ 0x04 then
        (U8A_TO_U32 x.sd_regs 1).bind
          (fun b => sdcard_block_io K { x with multi_io_block := b } env b true)
      else _) = _
    rw [if_pos hl, hcb]
    rfl
  · subst h
    rw [if_pos (Or.inl rfl)] at hcb
    cases hcb
    refine ⟨(x.multi_io_block + 1) % 2 ^ 32, ?_⟩
    show (if x.sd_last_ok_cmd = 0x04 ∨ x.sd_last_ok_cmd = 0x05 ∨ x.sd_last_ok_cmd = 0x57 then
        sdcard_block_io K { x with multi_io_block := (x.multi_io_block + 1) % 2 ^ 32 } env
          ((x.multi_io_block + 1) % 2 ^ 32) true
      else _) = _
    rw [if_pos hl]
    rfl
  · subst h
    rw [if_pos (Or.inr rfl)] at hcb
    cases hcb
    refine ⟨(x.multi_io_block + 1) % 2 ^ 32, ?_⟩
    show (if x.sd_last_ok_cmd = 0x04 ∨ x.sd_last_ok_cmd = 0x05 ∨ x.sd_last_ok_cmd = 0x57 then
        sdcard_block_io K { x with multi_io_block := (x.multi_io_block + 1) % 2 ^ 32 } env
          ((x.multi_io_block + 1) % 2 ^ 32) true
      else _) = _
    rw [if_pos hl]
    rfl

/-- Status reads while the keep-busy latch is engaged and the external bus is selected:
the state does not change and every value read has both busy bits set. -/
theorem status_reads_latched (K : sd_consts) (hK : K.WF) (s : sd_state)
    (hregs : 0 < s.sd_regs.length) (hkeep : s.keep_busy ≠ 0)
    (hext : st_tst s.sd_status K.SD_ST_EXT_BUS = true) :
    ∀ n, ∃ vs, status_reads K n s = some (vs, s) ∧ vs.length = n
      ∧ ∀ v, v ∈ vs → st_tst v K.SD_ST_BUSY1 = true ∧ st_tst v K.SD_ST_BUSY0 = true := by
  have hread : sdcard_read_register K s 0
      = some (st_set s.sd_status (K.SD_ST_BUSY1 ||| K.SD_ST_BUSY0), s) := by
    rw [sdcard_read_register_zero K s hregs]
    unfold sdcard_read_status
    simp only [hext, if_true, if_neg hkeep]
  intro n
  induction n with
  | zero => exact ⟨[], rfl, rfl, fun v hv => by cases hv⟩
  | succ n ih =>
    obtain ⟨vs, h1, h2, h3⟩ := ih
    refine ⟨st_set s.sd_status (K.SD_ST_BUSY1 ||| K.SD_ST_BUSY0) :: vs, ?_, ?_, ?_⟩
    · show (sdcard_read_register K s 0).bind _ = _
      rw [hread]
      show (status_reads K n s).bind _ = _
      rw [h1]
      rfl
    · rw [List.length_cons, h2]
    · intro v hv
      rcases List.mem_cons.mp hv with h | h
      · rw [h]
        refine ⟨st_tst_set_left _ _ _ hK.busy1.1 hK.busy1.2, ?_⟩
        rw [Nat.lor_comm]
        exact st_tst_set_left _ _ _ hK.busy0.1 hK.busy0.2
      · exact h3 v h

/-- C36. Block I/O on the external bus: in every state with the external-bus flag set,
a block read or write command that reaches the transfer stage (0x02, 0x03, or 0x04, 0x05,
0x06 at an accepted place of a multi-block sequence; not stopped by the protection of
important blocks) returns with the error, FSM-error and both busy flags set and the
keep-busy latch engaged, and with the stored blocks (virtual store and image file) and
the disk buffer as before the command; after it, any number of reads of register 0
return values with both busy bits set and leave the state, its stored busy bits and the
latch included, as the command left it. -/
theorem external_bus_block_io (K : sd_consts) (hK : K.WF) (s : sd_state) (env : host_env)
    (cmd block : Nat) (hregs : s.sd_regs.length = 0x30)
    (hext : st_tst s.sd_status K.SD_ST_EXT_BUS = true)
    (hblock : command_block s cmd = some block)
    (hreach : reaches_transfer K s env cmd block) :
    ∃ s1, sdcard_command K s env cmd = some s1
      ∧ st_tst s1.sd_status K.SD_ST_ERROR = true
      ∧ st_tst s1.sd_status K.SD_ST_FSM_ERROR = true
      ∧ st_tst s1.sd_status K.SD_ST_BUSY1 = true
      ∧ st_tst s1.sd_status K.SD_ST_BUSY0 = true
      ∧ s1.keep_busy = 1
      ∧ s1.vdisk = s.vdisk ∧ s1.sd_image = s.sd_image ∧ s1.disk_buffers = s.disk_buffers
      ∧ ∀ n, ∃ vs, status_reads K n s1 = some (vs, s1) ∧ vs.length = n
          ∧ ∀ v, v ∈ vs → st_tst v K.SD_ST_BUSY1 = true ∧ st_tst v K.SD_ST_BUSY0 = true := by
  obtain ⟨hseq, hprot⟩ := hreach
  obtain ⟨m, hsw⟩ := command_switch_block K
    { s with sd_status := st_clr s.sd_status (K.SD_ST_BUSY1 ||| K.SD_ST_BUSY0), keep_busy := 0 }
    env cmd block hblock hseq
  have hext0 : st_tst (st_clr s.sd_status (K.SD_ST_BUSY1 ||| K.SD_ST_BUSY0)) K.SD_ST_EXT_BUS
      = true := by rw [st_tst_clr_busy_ext hK]; exact hext
  have hp : decide (cmd ≠ 2) = false
      ∨ ¬ ((block = 0 ∨ block = K.XEMU_INFO_SDCARD_BLOCK_NO) ∧ 0 ≤ s.sdfd
            ∧ s.protect_important_blocks ≠ 0)
      ∨ (s.protect_important_blocks ≠ 2 ∧ env.answer ≠ 0 ∧ env.answer ≠ 1) := by
    rcases hprot with h | h | h
    · left; rw [h]; rfl
    · right; left; exact h
    · right; right; exact h
  obtain ⟨p, hio⟩ := block_io_external K
    { s with sd_status := st_clr s.sd_status (K.SD_ST_BUSY1 ||| K.SD_ST_BUSY0), keep_busy := 0,
             multi_io_block := m } env block (decide (cmd ≠ 2)) hext0 hp
  obtain ⟨e1, e2, e3, e4, e5, e6⟩ := external_exit_status hK
    (st_clr s.sd_status (K.SD_ST_BUSY1 ||| K.SD_ST_BUSY0)) hext0
  have hcmd : sdcard_command K s env cmd
      = some { s with
          sd_status := st_set (st_clr s.sd_status (K.SD_ST_BUSY1 ||| K.SD_ST_BUSY0))
            (K.SD_ST_ERROR ||| K.SD_ST_FSM_ERROR ||| K.SD_ST_BUSY1 ||| K.SD_ST_BUSY0)
          keep_busy := 1, protect_important_blocks := p, multi_io_block := m
          sd_last_ok_cmd := 0xFF } := by
    unfold sdcard_command
    simp only [Option.bind_eq_bind]
    rw [hsw, hio]
    simp only [Option.some_bind, e1, if_true, Option.pure_def]
  refine ⟨_, hcmd, e2, e3, e4, e5, rfl, rfl, rfl, rfl, ?_⟩
  exact status_reads_latched K hK _ (by show 0 < s.sd_regs.length; omega)
    (show (1 : Nat) ≠ 0 by decide) e6

set_option maxRecDepth 100000 in
theorem external_bus_block_io_witness :
    st_tst sd_external_sector.sd_status K_ref.SD_ST_EXT_BUS = true
    ∧ command_block sd_external_sector 3 = some 5
    ∧ reaches_transfer K_ref sd_external_sector env_ok 3 5
    ∧ ∃ s1, sdcard_command K_ref sd_external_sector env_ok 3 = some s1
      ∧ st_tst s1.sd_status K_ref.SD_ST_ERROR = true
      ∧ st_tst s1.sd_status K_ref.SD_ST_FSM_ERROR = true
      ∧ st_tst s1.sd_status K_ref.SD_ST_BUSY1 = true
      ∧ st_tst s1.sd_status K_ref.SD_ST_BUSY0 = true
      ∧ s1.keep_busy = 1
      ∧ s1.vdisk = sd_external_sector.vdisk ∧ s1.sd_image = sd_external_sector.sd_image
      ∧ s1.disk_buffers = sd_external_sector.disk_buffers
      ∧ ∀ n, ∃ vs, status_reads K_ref n s1 = some (vs, s1) ∧ vs.length = n
          ∧ ∀ v, v ∈ vs → st_tst v K_ref.SD_ST_BUSY1 = true
              ∧ st_tst v K_ref.SD_ST_BUSY0 = true :=
  ⟨by decide, by decide, ⟨Or.inr (Or.inl rfl), Or.inr (Or.inl (by decide))⟩,
    external_bus_block_io K_ref (by decide) sd_external_sector env_ok 3 5 (by decide) (by decide)
      (by decide) ⟨Or.inr (Or.inl rfl), Or.inr (Or.inl (by decide))⟩⟩

/-- The lookup part of the store never changes the store. -/
theorem virtdisk_read_block_store {vd vd1 : virtdisk_st} {b : Nat} {buffer d : List Nat}
    (h : virtdisk_read_block vd b buffer = some (d, vd1)) : vd1 = vd := by
  unfold virtdisk_read_block virtdisk_search_block at h
  cases hl : virtdisk_lookup vd b with
  | none => rw [hl] at h; cases h
  | some found =>
    rw [hl] at h
    cases found with
    | none =>
      simp only [Option.bind_eq_bind, Option.some_bind, Bool.not_false, if_true,
        Option.pure_def, Option.some.injEq, Prod.mk.injEq] at h
      exact h.2.symm
    | some loc =>
      simp only [Option.bind_eq_bind, Option.some_bind, Option.pure_def] at h
      cases hc : chunk_load vd.heap loc with
      | none => rw [hc] at h; cases h
      | some data =>
        rw [hc] at h
        simp only [Option.some_bind, Option.some.injEq, Prod.mk.injEq] at h
        exact h.2.symm

/-- A block read leaves the stored blocks as they were. -/
theorem read_block_keeps {x x1 : sd_state} {env : host_env} {b : Nat} {buf buf1 : List Nat}
    {r : Int} (h : sdcard_read_block x env b buf = some (r, x1, buf1)) :
    x1.vdisk = x.vdisk ∧ x1.sd_image = x.sd_image := by
  refine ⟨?_, (sdcard_read_block_frame h).2⟩
  unfold sdcard_read_block at h
  split at h
  · cases h; rfl
  · split at h
    · cases hw : virtdisk_read_block x.vdisk b buf with
      | none => simp [hw] at h
      | some p =>
        obtain ⟨d, vd⟩ := p
        simp only [hw, Option.bind_eq_bind, Option.some_bind, Option.pure_def,
          Option.some.injEq, Prod.mk.injEq] at h
        rw [← h.2.1]
        exact virtdisk_read_block_store hw
    · cases hs : host_seek x env b with
      | none => simp [hs] at h
      | some p =>
        obtain ⟨r1, s0⟩ := p
        obtain ⟨hf, hr0, _⟩ := host_seek_frame hs
        have hv : s0.vdisk = x.vdisk := by
          unfold host_seek at hs
          split at hs
          · cases hs
          · split at hs
            · simp only at hs
              split at hs
              · cases hs; rfl
              · cases hs
            · cases hs; rfl
        simp only [hs, Option.bind_eq_bind, Option.some_bind, Option.pure_def, hr0,
          ne_eq, not_true_eq_false, if_false] at h
        split at h
        · cases h; exact hv
        · cases h; exact hv

/-- A block write that reports failure, on a host that transfers whole blocks and from a
buffer of at least 512 bytes, has not changed the stored blocks. -/
theorem write_block_fail_keeps {x x1 : sd_state} {env : host_env} {b : Nat} {buf : List Nat}
    {r : Int} (h : sdcard_write_block x env b buf = some (r, x1)) (hr : r ≠ 0)
    (hbuf : 512 ≤ buf.length) (hio : x.vdisk.mode = 0 → 512 ≤ env.io_limit) :
    x1.vdisk = x.vdisk ∧ x1.sd_image = x.sd_image := by
  unfold sdcard_write_block at h
  split at h
  · cases h; exact ⟨rfl, rfl⟩
  · split at h
    · cases h; exact ⟨rfl, rfl⟩
    · split at h
      · cases hw : virtdisk_write_block x.vdisk b buf with
        | none => simp [hw] at h
        | some vd =>
          simp only [hw, Option.bind_eq_bind, Option.some_bind, Option.pure_def,
            Option.some.injEq, Prod.mk.injEq] at h
          exact absurd h.1.symm hr
      · rename_i hmode
        have hm : x.vdisk.mode = 0 := not_not.mp hmode
        cases hs : host_seek x env b with
        | none => simp [hs] at h
        | some p =>
          obtain ⟨r1, s0⟩ := p
          obtain ⟨_, hr0, _⟩ := host_seek_frame hs
          have hlen : ((buf.take 512).take env.io_limit).length = 512 := by
            have := hio hm
            rw [List.length_take, List.length_take]
            omega
          simp only [hs, Option.bind_eq_bind, Option.some_bind, Option.pure_def, hr0,
            ne_eq, not_true_eq_false, if_false, hlen, if_true, Option.some.injEq,
            Prod.mk.injEq] at h
          exact absurd h.1.symm hr

/-- The transfer stage of a block command that ends with the error flag set has not
changed the stored blocks, provided that for a write SDHC mode is on, the host transfers
whole blocks and the write buffer holds 512 bytes. -/
theorem block_io_transfer_error_keeps {K : sd_consts} {x x1 : sd_state} {env : host_env}
    {b : Nat} {w : Bool} (h : block_io_transfer K x env b w = some x1)
    (herr : st_tst x1.sd_status K.SD_ST_ERROR = true)
    (hsafe : w = true → x.sdhc_mode ≠ 0 ∧ (x.vdisk.mode = 0 → 512 ≤ env.io_limit)
      ∧ 512 ≤ (write_buffer x).length) :
    x1.vdisk = x.vdisk ∧ x1.sd_image = x.sd_image := by
  unfold block_io_transfer at h
  split at h
  · cases h; exact ⟨rfl, rfl⟩
  · simp only [Option.bind_eq_bind, Option.pure_def] at h
    cases w with
    | true =>
      obtain ⟨hsdhc, hio, hlen⟩ := hsafe rfl
      have hbuf : (if (true && x.sd_fill_mode != 0) = true then x.sd_fill_buffer
          else x.disk_buffers.drop SD_BUFFER_POS) = write_buffer x := by
        unfold write_buffer
        by_cases hf : x.sd_fill_mode = 0 <;> simp [hf]
      rw [hbuf, if_pos rfl] at h
      cases hw : sdcard_write_block x env b (write_buffer x) with
      | none => rw [hw] at h; cases h
      | some p =>
        obtain ⟨r, s2⟩ := p
        have hc := sdcard_write_block_frame hw
        have hf : s2.sdhc_mode = x.sdhc_mode := by
          unfold ctrl_eq at hc; rw [hc]
        rw [hw] at h
        simp only [Option.some_bind] at h
        by_cases hr : r ≠ 0
        · rw [if_pos (Or.inl hr)] at h
          cases h
          exact (show s2.vdisk = x.vdisk ∧ s2.sd_image = x.sd_image from
            write_block_fail_keeps hw hr hlen hio)
        · rw [if_neg (by rw [hf]; exact fun hh => hh.elim hr hsdhc)] at h
          cases h
          have : st_tst (st_clr s2.sd_status (K.SD_ST_ERROR ||| K.SD_ST_FSM_ERROR))
              K.SD_ST_ERROR = false := st_tst_sub_left _ _ _
          rw [this] at herr
          cases herr
    | false =>
      generalize (if (false && x.sd_fill_mode != 0) = true then x.sd_fill_buffer
        else x.disk_buffers.drop SD_BUFFER_POS) = buf at h
      rw [if_neg (by decide)] at h
      cases hw : sdcard_read_block x env b buf with
      | none => rw [hw] at h; cases h
      | some p =>
        obtain ⟨r, s2, buf1⟩ := p
        have hk := read_block_keeps hw
        rw [hw] at h
        simp only [Option.some_bind] at h
        split at h
        · cases h; exact hk
        · cases h; exact hk

theorem sdcard_block_io_error_keeps {K : sd_consts} {x x1 : sd_state} {env : host_env}
    {b : Nat} {w : Bool} (h : sdcard_block_io K x env b w = some x1)
    (herr : st_tst x1.sd_status K.SD_ST_ERROR = true)
    (hsafe : w = true → x.sdhc_mode ≠ 0 ∧ (x.vdisk.mode = 0 → 512 ≤ env.io_limit)
      ∧ 512 ≤ (write_buffer x).length) :
    x1.vdisk = x.vdisk ∧ x1.sd_image = x.sd_image := by
  unfold sdcard_block_io at h
  split at h
  · split at h
    · cases h; exact ⟨rfl, rfl⟩
    · split at h
      · cases h; exact ⟨rfl, rfl⟩
      · cases h; exact ⟨rfl, rfl⟩
      · exact block_io_transfer_error_keeps h herr hsafe
      · exact block_io_transfer_error_keeps (x := { x with protect_important_blocks := 0 })
          h herr hsafe
      · exact block_io_transfer_error_keeps h herr hsafe
  · exact block_io_transfer_error_keeps h herr hsafe

/-- What the `switch` of `sdcard_command` does for a block command: the bad-sequence exit,
or one call of `sdcard_block_io`. -/
theorem command_switch_block_cases {K : sd_consts} {x x1 : sd_state} {env : host_env}
    {cmd : Nat} (hcmd : cmd = 2 ∨ cmd = 3 ∨ cmd = 4 ∨ cmd = 5 ∨ cmd = 6)
    (h : sdcard_command_switch K x env cmd = some x1) :
    x1 = { x with sd_status := st_set x.sd_status (K.SD_ST_ERROR ||| K.SD_ST_FSM_ERROR) }
    ∨ ∃ m block, sdcard_block_io K { x with multi_io_block := m } env block (decide (cmd ≠ 2))
        = some x1 := by
  rcases hcmd with hc | hc | hc | hc | hc <;> subst hc
  · right
    have h2 : (U8A_TO_U32 x.sd_regs 1).bind (fun b => sdcard_block_io K x env b false)
        = some x1 := h
    cases hb : U8A_TO_U32 x.sd_regs 1 with
    | none => rw [hb] at h2; cases h2
    | some block => rw [hb] at h2; exact ⟨x.multi_io_block, block, h2⟩
  · right
    have h2 : (U8A_TO_U32 x.sd_regs 1).bind (fun b => sdcard_block_io K x env b true)
        = some x1 := h
    cases hb : U8A_TO_U32 x.sd_regs 1 with
    | none => rw [hb] at h2; cases h2
    | some block => rw [hb] at h2; exact ⟨x.multi_io_block, block, h2⟩
  · have h2 : (if x.sd_last_ok_cmd ≠ 0x04 then
          (U8A_TO_U32 x.sd_regs 1).bind
            (fun b => sdcard_block_io K { x with multi_io_block := b } env b true)
        else some
          { x with sd_status := st_set x.sd_status (K.SD_ST_ERROR ||| K.SD_ST_FSM_ERROR) })
        = some x1 := h
    split at h2
    · right
      cases hb : U8A_TO_U32 x.sd_regs 1 with
      | none => rw [hb] at h2; cases h2
      | some block => rw [hb] at h2; exact ⟨block, block, h2⟩
    · left; cases h2; rfl
  · have h2 : (if x.sd_last_ok_cmd = 0x04 ∨ x.sd_last_ok_cmd = 0x05 ∨ x.sd_last_ok_cmd = 0x57
        then sdcard_block_io K { x with multi_io_block := (x.multi_io_block + 1) % 2 ^ 32 } env
          ((x.multi_io_block + 1) % 2 ^ 32) true
        else some
          { x with sd_status := st_set x.sd_status (K.SD_ST_ERROR ||| K.SD_ST_FSM_ERROR) })
        = some x1 := h
    split at h2
    · right; exact ⟨_, _, h2⟩
    · left; cases h2; rfl
  · have h2 : (if x.sd_last_ok_cmd = 0x04 ∨ x.sd_last_ok_cmd = 0x05 ∨ x.sd_last_ok_cmd = 0x57
        then sdcard_block_io K { x with multi_io_block := (x.multi_io_block + 1) % 2 ^ 32 } env
          ((x.multi_io_block + 1) % 2 ^ 32) true
        else some
          { x with sd_status := st_set x.sd_status (K.SD_ST_ERROR ||| K.SD_ST_FSM_ERROR) })
        = some x1 := h
    split at h2
    · right; exact ⟨_, _, h2⟩
    · left; cases h2; rfl

/-- C37 (what holds). Error atomicity of block commands: for every controller state, a
block read command (0x02) that returns leaves the stored blocks (virtual store and image
file) as they were, whatever its outcome; a block write command (0x03, 0x04, 0x05, 0x06)
that returns with the error flag set leaves them as they were provided that SDHC mode is on
when the command is issued, the host transfers whole blocks and the write buffer holds 512
bytes. With SDHC mode off a write command stores the block first and reports the error
afterwards. -/
theorem block_command_error_atomicity (K : sd_consts) (s : sd_state) (env : host_env)
    (cmd : Nat) (s1 : sd_state) (hcmd : cmd = 2 ∨ cmd = 3 ∨ cmd = 4 ∨ cmd = 5 ∨ cmd = 6)
    (hres : sdcard_command K s env cmd = some s1)
    (herr : st_tst s1.sd_status K.SD_ST_ERROR = true)
    (hsafe : cmd = 2 ∨ (s.sdhc_mode ≠ 0 ∧ (s.vdisk.mode = 0 → 512 ≤ env.io_limit)
      ∧ 512 ≤ (write_buffer s).length)) :
    s1.vdisk = s.vdisk ∧ s1.sd_image = s.sd_image := by
  unfold sdcard_command at hres
  simp only [Option.bind_eq_bind, Option.pure_def] at hres
  cases hs : sdcard_command_switch K
      { s with sd_status := st_clr s.sd_status (K.SD_ST_BUSY1 ||| K.SD_ST_BUSY0)
               keep_busy := 0 } env cmd with
  | none => rw [hs] at hres; cases hres
  | some s2 =>
    rw [hs] at hres
    simp only [Option.some_bind] at hres
    have hst : s1.sd_status = s2.sd_status ∧ s1.vdisk = s2.vdisk ∧ s1.sd_image = s2.sd_image := by
      split at hres <;> cases hres <;> exact ⟨rfl, rfl, rfl⟩
    rw [hst.1] at herr
    rw [hst.2.1, hst.2.2]
    rcases command_switch_block_cases hcmd hs with h | ⟨m, block, h⟩
    · rw [h]; exact ⟨rfl, rfl⟩
    · have key := sdcard_block_io_error_keeps h herr (by
        intro hw
        rcases hsafe with h2 | h2
        · rw [h2] at hw; cases hw
        · exact h2)
      exact key

set_option maxRecDepth 100000 in
theorem block_command_error_atomicity_witness :
    ∃ s1, sdcard_command K_ref sd_far_sector env_ok 3 = some s1
      ∧ st_tst s1.sd_status K_ref.SD_ST_ERROR = true
      ∧ s1.vdisk = sd_far_sector.vdisk ∧ s1.sd_image = sd_far_sector.sd_image :=
  ⟨{ sd_far_sector with sd_status := 0x63, sd_last_ok_cmd := 0xFF }, by rfl, by decide,
    block_command_error_atomicity K_ref sd_far_sector env_ok 3
      { sd_far_sector with sd_status := 0x63, sd_last_ok_cmd := 0xFF }
      (Or.inr (Or.inl rfl)) (by rfl) (by decide)
      (Or.inr ⟨by decide, fun h => absurd h (by decide), by decide⟩)⟩

set_option maxRecDepth 1000000 in
/-- C37, a block command that ends with the error flag set and has changed the stored
blocks: on the small virtual disk, where block 5 reads as zeros, command 0x40 switches
SDHC mode off and the write command 0x03 for block 5 then ends with the error and
FSM-error flags set and the bytes-read counter 0, yet block 5 now holds the 512 bytes of
the SD buffer. `sdcard_block_io` calls `sdcard_write_block` first and tests `sdhc_mode`
together with its return value afterwards. -/
theorem failed_write_changes_block :
    block_content sd_small_sevens 5 = some zero_block
    ∧ (sdcard_command K_ref sd_small_sevens env_ok 0x40).bind (fun s1 =>
        (sdcard_command K_ref s1 env_ok 0x03).map (fun s2 =>
          (s1.sdhc_mode, st_tst s2.sd_status K_ref.SD_ST_ERROR,
           st_tst s2.sd_status K_ref.SD_ST_FSM_ERROR, s2.sdcard_bytes_read,
           block_content s2 5)))
      = some (0, true, true, 0, some (List.replicate 512 7)) := by
  decide

theorem fill_kept_of_ctrl_eq {s s1 : sd_state} (h : ctrl_eq s s1) : fill_kept s s1 := by
  unfold ctrl_eq at h
  rw [h]
  exact ⟨rfl, rfl⟩

theorem block_io_transfer_fill_kept {K : sd_consts} {s s1 : sd_state} {env : host_env}
    {b : Nat} {w : Bool} (h : block_io_transfer K s env b w = some s1) : fill_kept s s1 := by
  unfold block_io_transfer at h
  split at h
  · cases h; exact ⟨rfl, rfl⟩
  · simp only [Option.bind_eq_bind, Option.pure_def] at h
    generalize (if (w && s.sd_fill_mode != 0) = true then s.sd_fill_buffer
      else s.disk_buffers.drop SD_BUFFER_POS) = buf at h
    cases w with
    | true =>
      rw [if_pos rfl] at h
      cases hw : sdcard_write_block s env b buf with
      | none => rw [hw] at h; cases h
      | some p =>
        obtain ⟨r, s2⟩ := p
        have hc := fill_kept_of_ctrl_eq (sdcard_write_block_frame hw)
        rw [hw] at h
        simp only [Option.some_bind] at h
        split at h <;> (cases h; exact hc)
    | false =>
      rw [if_neg (by decide)] at h
      cases hw : sdcard_read_block s env b buf with
      | none => rw [hw] at h; cases h
      | some p =>
        obtain ⟨r, s2, buf1⟩ := p
        have hc := fill_kept_of_ctrl_eq (sdcard_read_block_frame hw).1
        rw [hw] at h
        simp only [Option.some_bind] at h
        split at h <;> (cases h; exact hc)

theorem sdcard_block_io_fill_kept {K : sd_consts} {s s1 : sd_state} {env : host_env}
    {b : Nat} {w : Bool} (h : sdcard_block_io K s env b w = some s1) : fill_kept s s1 := by
  unfold sdcard_block_io at h
  split at h
  · split at h
    · cases h; exact ⟨rfl, rfl⟩
    · split at h
      · cases h; exact ⟨rfl, rfl⟩
      · cases h; exact ⟨rfl, rfl⟩
      · exact block_io_transfer_fill_kept h
      · have := block_io_transfer_fill_kept h
        exact ⟨this.1, this.2⟩
      · exact block_io_transfer_fill_kept h
  · exact block_io_transfer_fill_kept h

theorem fill_kept_bind_io {K : sd_consts} {s s0 s1 : sd_state} {env : host_env}
    {w : Bool} {ob : Option Nat} (h0 : fill_kept s s0)
    (h : (ob.bind fun block => sdcard_block_io K s0 env block w) = some s1) :
    fill_kept s s1 := by
  cases ob with
  | none => cases h
  | some b =>
    have := sdcard_block_io_fill_kept (show sdcard_block_io K s0 env b w = some s1 from h)
    exact ⟨this.1.trans h0.1, this.2.trans h0.2⟩

theorem fill_kept_congr {s0 s s1 : sd_state} (h : fill_kept s0 s1)
    (h0 : s0.sd_fill_buffer = s.sd_fill_buffer ∧ s0.sd_fill_value = s.sd_fill_value
      := by exact ⟨rfl, rfl⟩) :
    fill_kept s s1 :=
  ⟨h.1.trans h0.1, h.2.trans h0.2⟩

theorem sdcard_command_switch_fill_kept {K : sd_consts} {s s1 : sd_state}
    {env : host_env} {cmd : Nat} (h : sdcard_command_switch K s env cmd = some s1) :
    fill_kept s s1 := by
  unfold sdcard_command_switch at h
  split at h
  all_goals first
    | (cases h; exact ⟨rfl, rfl⟩)
    | exact fill_kept_bind_io ⟨rfl, rfl⟩ h
    | (simp only [Option.bind_eq_bind, Option.pure_def, Option.bind_eq_some] at h
       obtain ⟨r1, _, r2, _, r3, _, r4, _, h⟩ := h
       cases h; exact ⟨rfl, rfl⟩)
    | (split at h
       · first
         | exact fill_kept_congr (sdcard_block_io_fill_kept h)
         | (simp only [Option.bind_eq_bind, Option.bind_eq_some] at h
            obtain ⟨block, _, h⟩ := h
            exact fill_kept_congr (sdcard_block_io_fill_kept h))
       · cases h; exact ⟨rfl, rfl⟩)

theorem sdcard_command_fill_kept {K : sd_consts} {s s1 : sd_state}
    {env : host_env} {cmd : Nat} (h : sdcard_command K s env cmd = some s1) :
    fill_kept s s1 := by
  unfold sdcard_command at h
  simp only [Option.bind_eq_bind, Option.pure_def, Option.bind_eq_some] at h
  obtain ⟨s2, h2, h⟩ := h
  have := sdcard_command_switch_fill_kept h2
  split at h <;> (cases h; exact ⟨this.1, this.2⟩)

/-- The mount functions change only the objects of the mount manager. -/
theorem some_mount_fill_kept (K : sd_consts) {s : sd_state} (env : host_env) {v : Nat}
    (hwf : mount_wf s) (hv : v = 0 ∨ v = 1) :
    ∃ r s1, some_mount K s env v = some (r, s1) ∧ mount_wf s1 ∧ fill_kept s s1 := by
  have hv2 : v < 2 := by rcases hv with h | h <;> omega
  obtain ⟨m, d, p, hunit⟩ := unit_is_exists hwf hv2
  obtain ⟨r, m3, d3, p3, h, hp3, _⟩ := some_mount_spec K env hwf hv m d p hunit
  exact ⟨r, _, h, mount_wf_out hwf m3 d3 p3 hp3, rfl, rfl⟩

theorem internal_mount_fill_kept (K : sd_consts) {s : sd_state} (env : host_env) {v : Nat}
    (hwf : mount_wf s) (hv : v = 0 ∨ v = 1) :
    ∃ r s1, internal_mount K s env v = some (r, s1) ∧ mount_wf s1 ∧ fill_kept s s1 := by
  have hv2 : v < 2 := by rcases hv with h | h <;> omega
  obtain ⟨m, d, p, hunit⟩ := unit_is_exists hwf hv2
  obtain ⟨r, m3, d3, p3, h, hp3, _⟩ := internal_mount_spec K env hwf hv m d p hunit
  exact ⟨r, _, h, mount_wf_out hwf m3 d3 p3 hp3, rfl, rfl⟩

/-- A write to one of the mount registers 0x0B..0x13 leaves the fill buffer and the fill
value as they were. -/
theorem write_mount_register_fill (K : sd_consts) {s : sd_state} (env : host_env)
    (reg data : Nat) (hwf : mount_wf s) (hreg : 0x0B ≤ reg ∧ reg ≤ 0x13) :
    ∃ s1, sdcard_write_register K s env reg data = some s1 ∧ fill_kept s s1 := by
  have hlt : reg < s.sd_regs.length := by rw [hwf.regs_len]; omega
  have hwf1 := mount_wf_regs hwf (s.sd_regs.set reg (data % 256))
    (by rw [List.length_set]; exact hwf.regs_len)
  have hcases : reg = 0x0B ∨ (0x0C ≤ reg ∧ reg ≤ 0x0F) ∨ (0x10 ≤ reg ∧ reg ≤ 0x13) := by omega
  unfold sdcard_write_register
  simp only [Option.bind_eq_bind, arr_get, List.getElem?_eq_getElem hlt, Option.some_bind,
    arr_set_of_lt _ _ _ hlt]
  rcases hcases with h | h | h
  · subst h
    simp only [Option.pure_def]
    obtain ⟨r0, t0, ht0, hw0, hk0⟩ := some_mount_fill_kept K env (v := 0) hwf1 (Or.inl rfl)
    have hsecond : ∀ t, mount_wf t → fill_kept s t →
        ∃ s1, (if (data % 256 ^^^ s.sd_regs[11]) &&& 56 ≠ 0
          then Option.map Prod.snd (some_mount K t env 1) else some t) = some s1
          ∧ fill_kept s s1 := by
      intro t hwt hkt
      obtain ⟨r1, t1, ht1, _, hk1⟩ := some_mount_fill_kept K env (v := 1) hwt (Or.inr rfl)
      by_cases hc : (data % 256 ^^^ s.sd_regs[11]) &&& 56 ≠ 0
      · rw [if_pos hc, ht1]
        exact ⟨t1, rfl, hk1.1.trans hkt.1, hk1.2.trans hkt.2⟩
      · rw [if_neg hc]
        exact ⟨t, rfl, hkt⟩
    by_cases hc : (data % 256 ^^^ s.sd_regs[11]) &&& 7 ≠ 0
    · rw [if_pos hc, ht0]
      exact hsecond t0 hw0 hk0
    · rw [if_neg hc]
      exact hsecond _ hwf1 ⟨rfl, rfl⟩
  · obtain ⟨r0, t0, ht0, _, hk0⟩ := internal_mount_fill_kept K env (v := 0) hwf1 (Or.inl rfl)
    have hr : reg = 0x0C ∨ reg = 0x0D ∨ reg = 0x0E ∨ reg = 0x0F := by omega
    rcases hr with h | h | h | h <;> subst h <;>
    · simp only [Option.pure_def]
      split
      · rw [ht0]; exact ⟨t0, rfl, hk0⟩
      · exact ⟨_, rfl, rfl, rfl⟩
  · obtain ⟨r0, t0, ht0, _, hk0⟩ := internal_mount_fill_kept K env (v := 1) hwf1 (Or.inr rfl)
    have hr : reg = 0x10 ∨ reg = 0x11 ∨ reg = 0x12 ∨ reg = 0x13 := by omega
    rcases hr with h | h | h | h <;> subst h <;>
    · simp only [Option.pure_def]
      split
      · rw [ht0]; exact ⟨t0, rfl, hk0⟩
      · exact ⟨_, rfl, rfl, rfl⟩

/-- What a register write does to the fill buffer and the fill value: a write to register
6 stores the byte as fill value and refills the buffer when its first byte differs; every
other write leaves both as they were. -/
theorem write_register_fill (K : sd_consts) {s s1 : sd_state} (env : host_env)
    (reg data : Nat) (hwf : mount_wf s)
    (h : sdcard_write_register K s env reg data = some s1) :
    (reg ≠ 6 → fill_kept s s1)
    ∧ (reg = 6 → s1.sd_fill_value = data % 256
        ∧ ∃ first, s.sd_fill_buffer[0]? = some first
          ∧ s1.sd_fill_buffer = (if data % 256 ≠ first then List.replicate 512 (data % 256)
                                 else s.sd_fill_buffer)) := by
  by_cases hreg : 0x0B ≤ reg ∧ reg ≤ 0x13
  · obtain ⟨s2, h2, hk⟩ := write_mount_register_fill K env reg data hwf hreg
    rw [h] at h2
    cases h2
    exact ⟨fun _ => hk, fun h6 => by omega⟩
  · unfold sdcard_write_register at h
    simp only [Option.bind_eq_bind, Option.bind_eq_some] at h
    obtain ⟨prev, _, regs, hregs, h⟩ := h
    split at h
    · have h1 := sdcard_command_fill_kept h
      exact ⟨fun _ => ⟨h1.1, h1.2⟩, fun h6 => by cases h6⟩
    · simp only [Option.pure_def, Option.bind_eq_some] at h
      obtain ⟨first, hfirst, h⟩ := h
      cases h
      exact ⟨fun h6 => absurd rfl h6, fun _ => ⟨rfl, first, hfirst, rfl⟩⟩
    · simp only [Option.pure_def, Option.bind_eq_some] at h
      obtain ⟨_, _, h⟩ := h
      cases h
      exact ⟨fun _ => ⟨rfl, rfl⟩, fun h6 => by cases h6⟩
    all_goals first
      | (exfalso; omega)
      | (cases h; exact ⟨fun _ => ⟨rfl, rfl⟩, fun h6 => absurd h6 (by assumption)⟩)

/-- Every register write that returns keeps the fill buffer 512 copies of the fill value. -/
theorem write_register_fill_inv (K : sd_consts) {s s1 : sd_state} (env : host_env)
    (reg data : Nat) (hwf : mount_wf s) (hinv : fill_inv s)
    (h : sdcard_write_register K s env reg data = some s1) :
    fill_inv s1 ∧ s1.sd_fill_value = (if reg = 6 then data % 256 else s.sd_fill_value) := by
  obtain ⟨h1, h2⟩ := write_register_fill K env reg data hwf h
  unfold fill_inv at *
  by_cases h6 : reg = 6
  · obtain ⟨hv, first, hfirst, hb⟩ := h2 h6
    rw [if_pos h6, hv, hb]
    refine ⟨?_, rfl⟩
    rw [hinv] at hfirst
    have hf : first = s.sd_fill_value := by
      rw [List.getElem?_replicate] at hfirst
      simp only [show (0 : Nat) < 512 by decide, if_true, Option.some.injEq] at hfirst
      exact hfirst.symm
    by_cases hd : data % 256 ≠ first
    · rw [if_pos hd]
    · rw [if_neg hd, hinv, not_not.mp hd, hf]
  · obtain ⟨hb, hv⟩ := h1 h6
    rw [if_neg h6, hb, hv]
    exact ⟨hinv, rfl⟩

theorem detect_compressed_image_fill (C : init_consts) (s : sd_state) (seek_ok : Bool)
    (io_limit : Nat) :
    fill_kept s (detect_compressed_image C s seek_ok io_limit).2.1 := by
  unfold detect_compressed_image
  simp only []
  split
  · exact ⟨rfl, rfl⟩
  · split
    · exact ⟨rfl, rfl⟩
    · split
      · exact ⟨rfl, rfl⟩
      · split
        · exact ⟨rfl, rfl⟩
        · exact ⟨rfl, rfl⟩

theorem sdcard_init_tail_fill (C : init_consts) (H : init_host) (v : Bool) (t : sd_state)
    (jc : Bool) (log : List ui_window) :
    fill_kept t (sdcard_init_tail C H v t jc log).2.1 := by
  unfold sdcard_init_tail
  by_cases hfd : t.sdfd ≥ 0
  · rw [if_pos hfd]
    cases v
    · rw [if_pos (by rfl)]
      exact ⟨rfl, rfl⟩
    · rw [if_neg (by decide)]
      cases jc <;> exact ⟨rfl, rfl⟩
  · rw [if_neg hfd]
    exact ⟨rfl, rfl⟩

/-- The part of `sdcard_init` after `retry:` for a file that opens: the fill buffer and
the fill value of the result are those of the state it started from. -/
theorem sdcard_init_open_file_fill (C : init_consts) (H : init_host) (v : Bool)
    (s0 : sd_state) (jc : Bool) (log0 : List ui_window) (a : open_attempt)
    (rest : List open_attempt) (hfd : 0 ≤ a.fd)
    (r : Int × sd_state × List ui_window)
    (h : sdcard_init_open C H v (a :: rest) jc s0 log0 = some r) : fill_kept s0 r.2.1 := by
  have hnfd : ¬ a.fd < 0 := by omega
  cases hsize : H.size_known with
  | false =>
    have e : sdcard_init_open C H v (a :: rest) jc s0 log0
        = some (-1, { s0 with sdfd := -1, sd_is_read_only := if a.first_mode_used then 0 else 1,
                              sd_image := a.image, sd_image_pos := 0 },
            (if (if a.first_mode_used then (0 : Int) else 1) ≠ 0 then
                log0 ++ [ui_window.info ("SDCARD: image file " ++ a.fnbuf
                  ++ " could be open only in R/O mode!")]
              else log0)
              ++ [ui_window.error ("Cannot query the size of the SD-card image " ++ H.fn
                ++ ", SD-card access won't work! ERROR: " ++ H.size_strerror)]) := by
      unfold sdcard_init_open
      simp only [hnfd, if_false, hsize, Bool.not_false, if_true]
    rw [e] at h
    cases h
    exact ⟨rfl, rfl⟩
  | true =>
    have hdf := detect_compressed_image_fill C
      { s0 with sdfd := a.fd, sd_is_read_only := if a.first_mode_used then 0 else 1,
                sd_image := a.image, sd_image_pos := 0 } H.seek_ok H.io_limit
    generalize hd : detect_compressed_image C
      { s0 with sdfd := a.fd, sd_is_read_only := if a.first_mode_used then 0 else 1,
                sd_image := a.image, sd_image_pos := 0 } H.seek_ok H.io_limit = d
      at hdf
    have ht : fill_kept s0
        { (if d.1 < 0 then { { d.2.1 with sd_compressed := d.1 } with
              sdcard_size_in_blocks := 0 }
           else { d.2.1 with sd_compressed := d.1 }) with
            sdcard_size_in_blocks := (a.image.length >>> 9) % 2 ^ 32 } := by
      constructor
      · show (if d.1 < 0 then _ else _ : sd_state).sd_fill_buffer = _
        split <;> exact hdf.1
      · show (if d.1 < 0 then _ else _ : sd_state).sd_fill_value = _
        split <;> exact hdf.2
    have e : sdcard_init_open C H v (a :: rest) jc s0 log0
        = (match size_window a.image.length with
          | some w => some (-1,
              { ({ (if d.1 < 0 then { { d.2.1 with sd_compressed := d.1 } with
                      sdcard_size_in_blocks := 0 }
                   else { d.2.1 with sd_compressed := d.1 }) with
                    sdcard_size_in_blocks := (a.image.length >>> 9) % 2 ^ 32 } : sd_state) with
                sdfd := -1 },
              (if d.1 < 0 then
                ((if (if a.first_mode_used then (0 : Int) else 1) ≠ 0 then
                    log0 ++ [ui_window.info ("SDCARD: image file " ++ a.fnbuf
                      ++ " could be open only in R/O mode!")]
                  else log0) ++ d.2.2)
                  ++ [ui_window.error "Error while trying to detect compressed SD-image"]
              else (if (if a.first_mode_used then (0 : Int) else 1) ≠ 0 then
                    log0 ++ [ui_window.info ("SDCARD: image file " ++ a.fnbuf
                      ++ " could be open only in R/O mode!")]
                  else log0) ++ d.2.2) ++ [w])
          | none => some (sdcard_init_tail C H v
              { (if d.1 < 0 then { { d.2.1 with sd_compressed := d.1 } with
                    sdcard_size_in_blocks := 0 }
                 else { d.2.1 with sd_compressed := d.1 }) with
                  sdcard_size_in_blocks := (a.image.length >>> 9) % 2 ^ 32 } jc
              (if d.1 < 0 then
                ((if (if a.first_mode_used then (0 : Int) else 1) ≠ 0 then
                    log0 ++ [ui_window.info ("SDCARD: image file " ++ a.fnbuf
                      ++ " could be open only in R/O mode!")]
                  else log0) ++ d.2.2)
                  ++ [ui_window.error "Error while trying to detect compressed SD-image"]
              else (if (if a.first_mode_used then (0 : Int) else 1) ≠ 0 then
                    log0 ++ [ui_window.info ("SDCARD: image file " ++ a.fnbuf
                      ++ " could be open only in R/O mode!")]
                  else log0) ++ d.2.2))) := by
      unfold sdcard_init_open size_window
      simp only [hnfd, if_false, hsize, Bool.not_true, Bool.false_eq_true, hd]
      by_cases h1 : a.image.length < 67108864
      · simp only [if_pos h1]
        by_cases hneg : d.1 < 0 <;> simp only [hneg, if_true, if_false] <;> rfl
      · simp only [if_neg h1]
        by_cases h2 : a.image.length &&& 511 ≠ 0
        · simp only [if_pos h2]
          by_cases hneg : d.1 < 0 <;> simp only [hneg, if_true, if_false] <;> rfl
        · simp only [if_neg h2]
          by_cases h3 : a.image.length > 34359738368
          · simp only [if_pos h3]
            by_cases hneg : d.1 < 0 <;> simp only [hneg, if_true, if_false] <;> rfl
          · simp only [if_neg h3]
    rw [e] at h
    cases hw : size_window a.image.length with
    | some w =>
      rw [hw] at h
      cases h
      exact ⟨ht.1, ht.2⟩
    | none =>
      rw [hw] at h
      cases h
      have hk := sdcard_init_tail_fill C H v
        { (if d.1 < 0 then { { d.2.1 with sd_compressed := d.1 } with
              sdcard_size_in_blocks := 0 }
           else { d.2.1 with sd_compressed := d.1 }) with
            sdcard_size_in_blocks := (a.image.length >>> 9) % 2 ^ 32 } jc
        (if d.1 < 0 then
          ((if (if a.first_mode_used then (0 : Int) else 1) ≠ 0 then
              log0 ++ [ui_window.info ("SDCARD: image file " ++ a.fnbuf
                ++ " could be open only in R/O mode!")]
            else log0) ++ d.2.2)
            ++ [ui_window.error "Error while trying to detect compressed SD-image"]
        else (if (if a.first_mode_used then (0 : Int) else 1) ≠ 0 then
              log0 ++ [ui_window.info ("SDCARD: image file " ++ a.fnbuf
                ++ " could be open only in R/O mode!")]
            else log0) ++ d.2.2)
      exact ⟨hk.1.trans ht.1, hk.2.trans ht.2⟩

theorem sdcard_init_open_fill (C : init_consts) (H : init_host) (v : Bool) :
    ∀ (attempts : List open_attempt) (jc : Bool) (s : sd_state) (log : List ui_window)
      (r : Int × sd_state × List ui_window),
      sdcard_init_open C H v attempts jc s log = some r → fill_kept s r.2.1
  | [], _, _, _, _, h => by
    unfold sdcard_init_open at h
    cases h
  | a :: rest, jc, s, log, r, h => by
    by_cases hfd : a.fd < 0
    · unfold sdcard_init_open at h
      simp only [hfd, if_true] at h
      split at h
      · split at h
        · split at h
          · cases h
            exact fill_kept_congr (sdcard_init_tail_fill C H v _ jc _)
          · exact fill_kept_congr (sdcard_init_open_fill C H v rest true _ _ r h)
        · cases h
          exact fill_kept_congr (sdcard_init_tail_fill C H v _ jc _)
      · cases h
        exact fill_kept_congr (sdcard_init_tail_fill C H v _ jc _)
    · exact sdcard_init_open_file_fill C H v s jc log a rest (by omega) r h

theorem sdcard_init_eq (C : init_consts) (H : init_host) (s : sd_state) (v : Bool) (d : Nat) :
    sdcard_init C H s v d
      = (let s1 := sdcard_init_setup s v d
         if s1.vdisk.mode ≠ 0 then
           let s2 := { s1 with sdfd := -1, sd_is_read_only := 0,
                               sdcard_size_in_blocks := VIRTUAL_DISK_SIZE_IN_BLOCKS,
                               sd_compressed := 0 }
           some (0, if C.SD_CONTENT_SUPPORT then with_storage s2 (H.storage s2) else s2, [])
         else sdcard_init_open C H v H.attempts false s1 []) := rfl

theorem sdcard_init_setup_fill (s : sd_state) (v : Bool) (d : Nat) :
    (sdcard_init_setup s v d).sd_fill_buffer = List.replicate 512 s.sd_fill_value
    ∧ (sdcard_init_setup s v d).sd_fill_value = s.sd_fill_value := by
  cases v <;> exact ⟨rfl, rfl⟩

/-- `sdcard_init` fills the fill buffer with the fill value and leaves the value alone. -/
theorem sdcard_init_fill (C : init_consts) (H : init_host) (s : sd_state) (v : Bool) (d : Nat)
    (r : Int × sd_state × List ui_window) (h : sdcard_init C H s v d = some r) :
    fill_inv r.2.1 ∧ r.2.1.sd_fill_value = s.sd_fill_value := by
  obtain ⟨hb, hv⟩ := sdcard_init_setup_fill s v d
  rw [sdcard_init_eq] at h
  simp only [] at h
  unfold fill_inv
  by_cases hm : (sdcard_init_setup s v d).vdisk.mode ≠ 0
  · rw [if_pos hm] at h
    cases h
    cases C.SD_CONTENT_SUPPORT
    · exact ⟨by show (sdcard_init_setup s v d).sd_fill_buffer
          = List.replicate 512 (sdcard_init_setup s v d).sd_fill_value; rw [hb, hv], hv⟩
    · exact ⟨by show (sdcard_init_setup s v d).sd_fill_buffer
          = List.replicate 512 (sdcard_init_setup s v d).sd_fill_value; rw [hb, hv], hv⟩
  · rw [if_neg hm] at h
    have hk := sdcard_init_open_fill C H v _ _ _ _ r h
    rw [hk.1, hk.2, hb, hv]
    exact ⟨rfl, rfl⟩

theorem block_io_transfer_write_buffers {K : sd_consts} {s s1 : sd_state} {env : host_env}
    {b : Nat} (h : block_io_transfer K s env b true = some s1) :
    s1.disk_buffers = s.disk_buffers := by
  unfold block_io_transfer at h
  split at h
  · cases h; rfl
  · simp only [Option.bind_eq_bind, Option.pure_def] at h
    generalize (if (true && s.sd_fill_mode != 0) = true then s.sd_fill_buffer
      else s.disk_buffers.drop SD_BUFFER_POS) = buf at h
    rw [if_pos True.intro] at h
    cases hw : sdcard_write_block s env b buf with
    | none => rw [hw] at h; cases h
    | some p =>
      obtain ⟨r, s2⟩ := p
      have hc : s2.disk_buffers = s.disk_buffers := by
        have := sdcard_write_block_frame hw
        unfold ctrl_eq at this
        rw [this]
      rw [hw] at h
      simp only [Option.some_bind] at h
      split at h <;> (cases h; exact hc)

theorem sdcard_block_io_write_buffers {K : sd_consts} {s s1 : sd_state} {env : host_env}
    {b : Nat} (h : sdcard_block_io K s env b true = some s1) :
    s1.disk_buffers = s.disk_buffers := by
  unfold sdcard_block_io at h
  split at h
  · split at h
    · cases h; rfl
    · split at h
      · cases h; rfl
      · cases h; rfl
      · exact block_io_transfer_write_buffers h
      · have := block_io_transfer_write_buffers h
        exact this
      · exact block_io_transfer_write_buffers h
  · exact block_io_transfer_write_buffers h

/-- A driver program keeps the fill buffer 512 copies of the byte last written to
register 6. -/
theorem run_trace_fill (K : sd_consts) (hK : K.WF) (ws : List (host_env × Nat × Nat)) :
    ∀ (s : sd_state) (sts : List sd_state) (s1 : sd_state), mount_wf s → fill_inv s →
      run_trace K s ws = some (sts, s1) →
      mount_wf s1 ∧ fill_inv s1 ∧ s1.sd_fill_value = last_fill_write ws s.sd_fill_value := by
  induction ws with
  | nil =>
    intro s sts s1 hwf hinv h
    cases h
    exact ⟨hwf, hinv, rfl⟩
  | cons w rest ih =>
    intro s sts s1 hwf hinv h
    obtain ⟨env, reg, data⟩ := w
    cases hw : sdcard_write_register K s env reg data with
    | none =>
      have : run_trace K s ((env, reg, data) :: rest) = none := by
        show (sdcard_write_register K s env reg data).bind _ = none
        rw [hw]; rfl
      rw [this] at h
      cases h
    | some s2 =>
      rw [run_trace_cons K s s2 env reg data rest hw] at h
      cases hr : run_trace K s2 rest with
      | none => rw [hr] at h; cases h
      | some p =>
        obtain ⟨sts2, s3⟩ := p
        rw [hr] at h
        cases h
        obtain ⟨hinv2, hv2⟩ := write_register_fill_inv K env reg data hwf hinv hw
        have hwf2 := (write_register_kept K hK env reg data hwf hw).1
        obtain ⟨a, b, c⟩ := ih s2 sts2 s3 hwf2 hinv2 hr
        refine ⟨a, b, ?_⟩
        rw [c, hv2]
        rfl

/-- Commands 0x83 and 0x84 set and clear the fill mode and leave the buffers and the
stored blocks alone. -/
theorem fill_mode_command (K : sd_consts) (s : sd_state) (env : host_env) (cmd : Nat)
    (hcmd : cmd = 0x83 ∨ cmd = 0x84) :
    ∃ s1, sdcard_command K s env cmd = some s1
      ∧ s1.sd_fill_mode = (if cmd = 0x83 then 1 else 0)
      ∧ s1.sd_fill_buffer = s.sd_fill_buffer ∧ s1.sd_fill_value = s.sd_fill_value
      ∧ s1.disk_buffers = s.disk_buffers ∧ s1.vdisk = s.vdisk ∧ s1.sd_image = s.sd_image := by
  rcases hcmd with h | h <;> subst h
  · unfold sdcard_command sdcard_command_switch
    simp only [Option.bind_eq_bind, Option.some_bind, Option.pure_def]
    split <;> exact ⟨_, rfl, rfl, rfl, rfl, rfl, rfl, rfl⟩
  · unfold sdcard_command sdcard_command_switch
    simp only [Option.bind_eq_bind, Option.some_bind, Option.pure_def]
    split <;> exact ⟨_, rfl, rfl, rfl, rfl, rfl, rfl, rfl⟩

/-- Write command 0x03 on a ready controller: no error, the block addressed by the
sector registers holds the write buffer of the state before, and the disk buffers are
unchanged. -/
theorem write_command_stores {bpc : Nat} (hbpc : 0 < bpc) (K : sd_consts)
    {size : Nat} {m : Nat} {fd : Int} {s : sd_state} (env : host_env) (b : Nat)
    (hr : multi_ready K bpc size (write_buffer s) m fd s)
    (hB : (write_buffer s).length = 512)
    (hblock : U8A_TO_U32 s.sd_regs 1 = some b) (hb : b < size) (henv : env_good s env) :
    ∃ s1, sdcard_command K s env 3 = some s1
      ∧ st_tst s1.sd_status (K.SD_ST_ERROR ||| K.SD_ST_FSM_ERROR) = false
      ∧ s1.disk_buffers = s.disk_buffers
      ∧ block_content s1 b = some (write_buffer s) := by
  have hr0 : multi_ready K bpc size (write_buffer s) m fd
      { s with sd_status := st_clr s.sd_status (K.SD_ST_BUSY1 ||| K.SD_ST_BUSY0)
               keep_busy := 0 } :=
    multi_ready_congr hr (st_tst_clr_of_false _ hr.internal) rfl rfl rfl rfl rfl rfl rfl rfl rfl
      rfl hr.protect
  obtain ⟨s1, hio, hpost, _, _⟩ :=
    block_io_write_ok hbpc K env hr0 hB hb (env_good_congr henv rfl rfl)
  have hbuf := sdcard_block_io_write_buffers hio
  refine ⟨{ s1 with sd_last_ok_cmd := 3 }, ?_, hpost.no_error, hbuf, ?_⟩
  · unfold sdcard_command sdcard_command_switch
    simp only [Option.bind_eq_bind, hblock, Option.some_bind, hio, hpost.no_error,
      Option.pure_def]
    rfl
  · rw [block_content_congr b rfl rfl rfl rfl rfl]
    exact hpost.content

/-- C38. Fill-mode writes: `sdcard_init` leaves the fill buffer 512 copies of the fill
value, which it does not change (0 at program start); after any driver program of
register writes run from there, the fill buffer is 512 copies of the byte last written to
register 6; commands 0x83 and 0x84 set and clear the fill mode and change neither
buffer; and write command 0x03 on a ready controller ends without error, leaves the disk
buffers unchanged, and stores at the block addressed by the sector registers 512 copies
of that byte when the fill mode is set, and the content of the SD buffer when it is
clear. -/
theorem fill_mode_writes (K : sd_consts) (hK : K.WF) (C : init_consts) (H : init_host)
    (s0 : sd_state) (v : Bool) (d : Nat) (r : Int × sd_state × List ui_window)
    (hinit : sdcard_init C H s0 v d = some r) (hwf : mount_wf r.2.1)
    (ws : List (host_env × Nat × Nat)) (sts : List sd_state) (s : sd_state)
    (hrun : run_trace K r.2.1 ws = some (sts, s))
    (bpc size m : Nat) (fd : Int) (hbpc : 0 < bpc) (env : host_env) (b : Nat)
    (hready : multi_ready K bpc size (write_buffer s) m fd s)
    (hbufs : s.disk_buffers.length = 0x1000)
    (hblock : U8A_TO_U32 s.sd_regs 1 = some b) (hb : b < size) (henv : env_good s env) :
    (r.2.1.sd_fill_buffer = List.replicate 512 s0.sd_fill_value
      ∧ r.2.1.sd_fill_value = s0.sd_fill_value ∧ sd_static.sd_fill_value = 0)
    ∧ (s.sd_fill_buffer = List.replicate 512 (last_fill_write ws s0.sd_fill_value)
      ∧ s.sd_fill_value = last_fill_write ws s0.sd_fill_value)
    ∧ (∀ cmd, cmd = 0x83 ∨ cmd = 0x84 →
        ∃ s1, sdcard_command K s env cmd = some s1
          ∧ s1.sd_fill_mode = (if cmd = 0x83 then 1 else 0)
          ∧ s1.sd_fill_buffer = s.sd_fill_buffer ∧ s1.sd_fill_value = s.sd_fill_value
          ∧ s1.disk_buffers = s.disk_buffers ∧ s1.vdisk = s.vdisk
          ∧ s1.sd_image = s.sd_image)
    ∧ ∃ s1, sdcard_command K s env 3 = some s1
        ∧ st_tst s1.sd_status (K.SD_ST_ERROR ||| K.SD_ST_FSM_ERROR) = false
        ∧ s1.disk_buffers = s.disk_buffers
        ∧ s1.sd_fill_buffer = s.sd_fill_buffer
        ∧ block_content s1 b
            = some (if s.sd_fill_mode ≠ 0
                    then List.replicate 512 (last_fill_write ws s0.sd_fill_value)
                    else s.disk_buffers.drop SD_BUFFER_POS) := by
  obtain ⟨hi1, hi2⟩ := sdcard_init_fill C H s0 v d r hinit
  obtain ⟨_, hf1, hf2⟩ := run_trace_fill K hK ws r.2.1 sts s hwf hi1 hrun
  rw [hi2] at hf2
  have hfb : s.sd_fill_buffer = List.replicate 512 (last_fill_write ws s0.sd_fill_value) := by
    unfold fill_inv at hf1
    rw [hf1, hf2]
  have hlen : (write_buffer s).length = 512 :=
    write_buffer_length s hbufs (by rw [hfb]; exact List.length_replicate _ _)
  refine ⟨⟨?_, hi2, rfl⟩, ⟨hfb, hf2⟩, fun cmd hcmd => fill_mode_command K s env cmd hcmd, ?_⟩
  · unfold fill_inv at hi1
    rw [hi1, hi2]
  · obtain ⟨s1, h1, h2, h3, h4⟩ := write_command_stores hbpc K env b hready hlen hblock hb henv
    refine ⟨s1, h1, h2, h3, (sdcard_command_fill_kept h1).1, ?_⟩
    rw [h4]
    unfold write_buffer
    rw [hfb]

set_option maxRecDepth 20000 in
theorem fill_mode_writes_witness :
    ∃ s1, sdcard_command K_ref sd_fill_sevens env_ok 3 = some s1
      ∧ s1.disk_buffers = sd_fill_sevens.disk_buffers
      ∧ block_content s1 0 = some (List.replicate 512 7) :=
  have h := fill_mode_writes K_ref (by decide) C_ref (host_plain []) sd_static true 0
    (0, sd_virtual_boot, []) (by rfl) virtual_boot_wf
    [(env_ok, 6, 7), (env_ok, 0, 0x83)] [sd_value_seven, sd_fill_sevens] sd_fill_sevens
    (by rw [run_trace_cons K_ref _ sd_value_seven env_ok 6 7 _ (by rfl),
          run_trace_cons K_ref _ sd_fill_sevens env_ok 0 0x83 _ (by rfl)]; rfl)
    2048 8388608 1 (-1) (by decide) env_ok 0
    ⟨by decide, by decide, rfl, rfl, rfl, rfl,
      Or.inl ⟨by decide, vdisk_reachable.init _⟩, rfl, by rfl,
      Or.inl (by decide)⟩
    (List.length_replicate _ _) (by rfl) (by decide)
    ⟨fun h => absurd h (by decide), fun h => absurd h (by decide)⟩
  let ⟨s1, h1, _, h3, _, h5⟩ := h.2.2.2
  ⟨s1, h1, h3, h5⟩

/-- The three ways `vic_render_line` returns: a border scanline that is not visible, a
visible border scanline, and a scanline of the active area. -/
theorem vic_render_line_cases (K : vic_consts) (s s1 : vic_state)
    (h : vic_render_line K s = some s1) :
    (vic_area_step s ≠ 0 ∧ visible_line K s = false
      ∧ s1 = { s with vic_vertical_area := vic_area_step s })
    ∨ (vic_area_step s ≠ 0 ∧ visible_line K s = true
      ∧ K.SCREEN_FIRST_VISIBLE_DOTPOS ≤ K.SCREEN_LAST_VISIBLE_DOTPOS + 1
      ∧ ∃ b t, arr_get s.vic_cpal 1 = some b
        ∧ t = fill_border b (K.SCREEN_LAST_VISIBLE_DOTPOS + 1 - K.SCREEN_FIRST_VISIBLE_DOTPOS)
                { s with vic_vertical_area := vic_area_step s }
        ∧ s1 = { t with pixels := t.pixels + t.pixels_tail })
    ∨ (vic_area_step s = 0
      ∧ ∃ t l, render_dots K (visible_line K s) (K.CYCLES_PER_SCANLINE * 4)
            { s with vic_vertical_area := vic_area_step s }
            { dotpos := 0, bitp := 128, v_columns := s.text_columns,
              v_vid := s.vic_vid_counter } = some (t, l)
        ∧ s1 = vic_line_end t) := by
  unfold vic_render_line at h
  simp only [] at h
  by_cases ha : vic_area_step s ≠ 0
  · rw [if_pos ha] at h
    cases hv : visible_line K s with
    | false =>
      left
      unfold visible_line at hv
      rw [hv] at h
      simp only [Bool.false_eq_true, if_false, Option.pure_def, Option.some.injEq] at h
      exact ⟨ha, rfl, h.symm⟩
    | true =>
      right; left
      unfold visible_line at hv
      rw [hv] at h
      simp only [if_true] at h
      by_cases hw : K.SCREEN_LAST_VISIBLE_DOTPOS + 1 < K.SCREEN_FIRST_VISIBLE_DOTPOS
      · rw [if_pos hw] at h; cases h
      · rw [if_neg hw] at h
        cases hb : arr_get s.vic_cpal 1 with
        | none =>
          simp only [Option.bind_eq_bind] at h
          rw [hb] at h; cases h
        | some b =>
          simp only [Option.bind_eq_bind] at h
          rw [hb] at h
          simp only [Option.some_bind, Option.pure_def, Option.some.injEq] at h
          exact ⟨ha, rfl, by omega, b, _, rfl, rfl, h.symm⟩
  · rw [if_neg ha] at h
    right; right
    refine ⟨not_not.mp ha, ?_⟩
    simp only [Option.bind_eq_bind] at h
    cases hr : render_dots K
        (decide (s.scanline ≥ K.SCREEN_FIRST_VISIBLE_SCANLINE
          ∧ s.scanline ≤ K.SCREEN_LAST_VISIBLE_SCANLINE))
        (K.CYCLES_PER_SCANLINE * 4) { s with vic_vertical_area := vic_area_step s }
        { dotpos := 0, bitp := 128, v_columns := s.text_columns, v_vid := s.vic_vid_counter } with
    | none => rw [hr] at h; cases h
    | some r =>
      rw [hr] at h
      simp only [Option.some_bind, Option.pure_def, Option.some.injEq] at h
      exact ⟨r.1, r.2, hr, h.symm⟩

theorem line_frame_of_render {s0 s t : vic_state}
    (h0 : s0 = { s with vic_vertical_area := s0.vic_vertical_area })
    (h : render_frame s0 t) : line_frame s t := by
  obtain ⟨e, hl⟩ := h
  constructor
  · rw [e, h0]
  · rw [hl, h0]

theorem line_frame_end {s t : vic_state} (h : line_frame s t) :
    line_frame s (vic_line_end t) := by
  obtain ⟨e, hl⟩ := h
  unfold vic_line_end
  constructor
  · split
    · rw [e]
    · rw [e]
  · split
    · exact hl
    · exact hl

/-- Every result of `vic_render_line` differs from the state at the call only in the
texture, the `pixels` pointer, the colour slots, the area, the character line and the two
counters. -/
theorem vic_render_line_frame (K : vic_consts) (s s1 : vic_state)
    (h : vic_render_line K s = some s1) : line_frame s s1 := by
  rcases vic_render_line_cases K s s1 h with ⟨_, _, e⟩ | ⟨_, _, _, b, t, _, ht, e⟩
    | ⟨_, t, l, hr, e⟩
  · rw [e]
    exact ⟨rfl, rfl⟩
  · have hf := fill_border_frame b
      (K.SCREEN_LAST_VISIBLE_DOTPOS + 1 - K.SCREEN_FIRST_VISIBLE_DOTPOS)
      { s with vic_vertical_area := vic_area_step s }
    rw [← ht] at hf
    have hl := line_frame_of_render (s := s) rfl hf
    rw [e]
    obtain ⟨e1, e2⟩ := hl
    constructor
    · show _ = _
      rw [e1]
    · exact e2
  · have hf := render_dots_frame K _ _ _ _ t l hr
    have hl := line_frame_of_render (s := s) rfl hf
    rw [e]
    exact line_frame_end hl

theorem shr1_eq (x : Nat) : x >>> 1 = x / 2 := by
  rw [Nat.shiftRight_eq_div_pow, Nat.pow_one]

/-- The locals after one pass through the loop body: `bitp` stays at most 128, and
`v_vid + v_columns` stays at most its value at the start of the scanline, plus one while a
cell is being drawn. -/
theorem render_dot_locals (K : vic_consts) (v : Bool) (s : vic_state) (l : dot_locals)
    (s1 : vic_state) (l1 : dot_locals) (h : render_dot K v s l = some (s1, l1)) (B : Nat)
    (hb : l.bitp ≤ 128) (hsum : l.v_vid + l.v_columns ≤ B + (if l.bitp = 128 then 0 else 1)) :
    l1.bitp ≤ 128 ∧ l1.v_vid + l1.v_columns ≤ B + (if l1.bitp = 128 then 0 else 1) := by
  have hborder : (dot_border s (visible_dot K v l.dotpos)).map (fun s1 => (s1, l))
      = some (s1, l1) →
      l1.bitp ≤ 128 ∧ l1.v_vid + l1.v_columns ≤ B + (if l1.bitp = 128 then 0 else 1) := by
    intro hh
    cases hd : dot_border s (visible_dot K v l.dotpos) with
    | none => rw [hd] at hh; cases hh
    | some s2 =>
      rw [hd] at hh
      cases hh
      exact ⟨hb, hsum⟩
  unfold render_dot at h
  by_cases h1 : l.dotpos < s.first_active_dotpos
  · rw [if_pos h1] at h
    exact hborder h
  · rw [if_neg h1] at h
    by_cases h2 : l.v_columns ≠ 0
    · rw [if_pos h2] at h
      cases hf : dot_fetch s l with
      | none => rw [hf] at h; cases h
      | some f =>
        rw [hf] at h
        simp only [Option.bind_eq_bind, Option.some_bind] at h
        cases he : dot_emit f (visible_dot K v l.dotpos) l.dotpos with
        | none => rw [he] at h; cases h
        | some e =>
          rw [he] at h
          simp only [Option.some_bind, Option.pure_def, Option.some.injEq, Prod.mk.injEq] at h
          obtain ⟨_, h4⟩ := h
          subst h4
          obtain ⟨_, _, hv, hne, heq⟩ := dot_fetch_frame s l f hf
          unfold dot_advance
          by_cases hl : l.bitp = 128
          · rw [if_pos hl] at hv hsum
            rcases heq hl with ⟨hfb, hm⟩ | ⟨hfb, hm⟩
            · rw [if_neg (by omega), if_neg (not_not.mpr hm), hfb]
              show (128 : Nat) >>> 1 ≤ 128
                ∧ f.v_vid + l.v_columns ≤ B + (if (128 : Nat) >>> 1 = 128 then 0 else 1)
              rw [shr1_eq, hv]
              exact ⟨by decide, by rw [if_neg (by decide)]; omega⟩
            · rw [if_neg (by omega), if_pos hm, hfb]
              show (6 : Nat) - 2 ≤ 128
                ∧ f.v_vid + l.v_columns ≤ B + (if (6 : Nat) - 2 = 128 then 0 else 1)
              rw [hv]
              exact ⟨by decide, by rw [if_neg (by decide)]; omega⟩
          · rw [if_neg hl] at hv hsum
            have hfb := hne hl
            by_cases h01 : f.bitp ≤ 1
            · rw [if_pos h01]
              show (128 : Nat) ≤ 128
                ∧ f.v_vid + (l.v_columns - 1) ≤ B + (if (128 : Nat) = 128 then 0 else 1)
              rw [if_pos rfl, hv]
              exact ⟨Nat.le_refl _, by omega⟩
            · rw [if_neg h01]
              by_cases hm : f.mcm ≠ 0
              · rw [if_pos hm]
                show f.bitp - 2 ≤ 128
                  ∧ f.v_vid + l.v_columns ≤ B + (if f.bitp - 2 = 128 then 0 else 1)
                rw [if_neg (by omega), hv]
                exact ⟨by omega, by omega⟩
              · rw [if_neg hm]
                show f.bitp >>> 1 ≤ 128
                  ∧ f.v_vid + l.v_columns ≤ B + (if f.bitp >>> 1 = 128 then 0 else 1)
                rw [shr1_eq, if_neg (by omega), hv]
                exact ⟨by omega, by omega⟩
    · rw [if_neg h2] at h
      exact hborder h

set_option maxRecDepth 100000 in
theorem vid_addr_le : ∀ r5, r5 < 256 → ∀ b, b < 2 →
    ((r5 &&& 0xF0) <<< 6) ||| (if b = 1 then 0x200 else 0) ≤ 15872 := by
  decide

set_option maxRecDepth 100000 in
theorem chr_addr_le : ∀ r5, r5 < 256 → (r5 &&& 0x0F) <<< 10 ≤ 15360 := by
  decide

/-- The ranges of the cached fields that follow from their being in step with the
register file. -/
theorem derived_ranges {K : vic_consts} {s : vic_state} (hd : derived_upto K 16 s) :
    s.text_columns ≤ 32 ∧ s.text_rows ≤ 32 ∧ s.char_height_minus_one ≤ 15
    ∧ s.char_height_shift ≤ 4 ∧ s.vic_chr_addr ≤ 15360 ∧ s.vic_vid_addr ≤ 15872 := by
  refine ⟨?_, ?_, ?_, ?_, ?_, ?_⟩
  · rw [hd.columns (by decide)]; exact Nat.min_le_right _ _
  · rw [hd.rows (by decide)]; exact Nat.min_le_right _ _
  · rw [hd.height (by decide)]; split <;> decide
  · rw [hd.shift (by decide)]; split <;> decide
  · rw [hd.chr (by decide)]; exact chr_addr_le _ (hd.bytes 5 (by decide))
  · rw [hd.vid (by decide)]
    by_cases h : s.vic_registers.getD 2 0 &&& 0x80 ≠ 0
    · rw [if_pos h]
      exact vid_addr_le _ (hd.bytes 5 (by decide)) 1 (by decide)
    · rw [if_neg h]
      exact vid_addr_le _ (hd.bytes 5 (by decide)) 0 (by decide)

theorem vic_area_step_zero {s : vic_state} (h : vic_area_step s = 0) :
    s.vic_vertical_area = 1 ∨ (s.vic_vertical_area = 0 ∧ s.vic_row_counter < s.text_rows) := by
  unfold vic_area_step at h
  split at h
  · cases h
  · rename_i h1
    split at h
    · rename_i h2; exact Or.inl h2.2
    · right
      refine ⟨h, ?_⟩
      by_contra hc
      exact h1 ⟨by omega, h⟩

theorem vic_area_step_one {s : vic_state} (h : vic_area_step s = 1) :
    s.vic_vertical_area = 1 := by
  unfold vic_area_step at h
  split at h
  · cases h
  · split at h
    · cases h
    · exact h

theorem fetch_inv_render (K : vic_consts) {s s1 : vic_state} (hi : fetch_inv K s)
    (h : vic_render_line K s = some s1) : fetch_inv K s1 := by
  obtain ⟨e, hlen⟩ := vic_render_line_frame K s s1 h
  obtain ⟨harea, hc1, hc2, hc3⟩ := vic_render_line_result K s s1 h
  obtain ⟨hcols, hrows, hh, _, _, _⟩ := derived_ranges hi.derived
  have hwf : vic_wf s1 :=
    ⟨by rw [e]; exact hi.wf.regs_len, by rw [e]; exact hi.wf.palette_len,
      hlen.trans hi.wf.cpal_len, by rw [e]; exact hi.wf.sram_lt⟩
  have hregs : s1.vic_registers = s.vic_registers := by rw [e]
  have hd : derived_upto K 16 s1 := by
    have d := hi.derived
    exact ⟨fun hn => by rw [hregs, ← d.dotpos hn, e], fun hn => by rw [hregs, ← d.scan hn, e],
      fun hn => by rw [hregs, ← d.columns hn, e], fun hn => by rw [hregs, ← d.rows hn, e],
      fun hn => by rw [hregs, ← d.height hn, e], fun hn => by rw [hregs, ← d.shift hn, e],
      fun hn => by rw [hregs, ← d.chr hn, e], fun hn => by rw [hregs, ← d.vid hn, e],
      fun hn => by rw [hregs, ← d.bit9 hn, e], fun r hr => by rw [hregs]; exact d.bytes r hr⟩
  by_cases ha : vic_area_step s = 0
  · have hrow : s.vic_row_counter < 32 := by
      rcases vic_area_step_zero ha with h1 | ⟨_, h2⟩
      · have := (hi.top h1).1
        omega
      · omega
    have hvid := hi.vid_le
    by_cases hcl : s.char_height_minus_one ≤ s.charline
    · obtain ⟨g1, g2, g3⟩ := hc1 ha hcl
      refine ⟨hwf, hd, by omega, by omega, by rw [g2, g3]; omega, fun h1 => ?_⟩
      rw [harea, ha] at h1
      cases h1
    · obtain ⟨g1, g2, g3⟩ := hc2 ha (by omega)
      refine ⟨hwf, hd, by omega, by omega, by rw [g2, g3]; exact hvid, fun h1 => ?_⟩
      rw [harea, ha] at h1
      cases h1
  · obtain ⟨g1, g2, g3⟩ := hc3 ha
    refine ⟨hwf, hd, by rw [g1]; exact hi.charline_le, by rw [g3]; exact hi.row_le,
      by rw [g2, g3]; exact hi.vid_le, fun h1 => ?_⟩
    rw [harea] at h1
    rw [g2, g3]
    exact hi.top (vic_area_step_one h1)

/-- Every reachable state of the video chip has its arrays sized, its cached fields in
step with the registers, and its counters in range. -/
theorem vic_reachable_inv (K : vic_consts) (s : vic_state) (hr : vic_reachable K s) :
    fetch_inv K s := by
  induction hr with
  | init s lo8 hi4 tail s1 hwf h =>
    obtain ⟨s2, h2, hwf2, hd2, _, e2, e3, e4, e5, _, _⟩ := vic_init_spec K s hwf lo8 hi4 tail
    rw [h] at h2
    cases h2
    exact ⟨hwf2, hd2, by omega, by omega, by omega, fun _ => ⟨e5, e4⟩⟩
  | write s addr data s1 _ haddr h ih =>
    obtain ⟨s2, h2, hp⟩ := cpu_vic_reg_write_spec K s ih.wf addr data haddr
    rw [h] at h2
    cases h2
    have hd := derived_upto_write K ih.wf ih.derived haddr (by omega)
      (Nat.mod_lt _ (by decide)) hp
    rw [Nat.max_eq_left (by omega)] at hd
    refine ⟨hp.wf, hd, by rw [hp.charline_eq]; exact ih.charline_le,
      by rw [hp.row_counter_eq]; exact ih.row_le,
      by rw [hp.vid_counter_eq, hp.row_counter_eq]; exact ih.vid_le, fun h1 => ?_⟩
    rw [hp.area_eq] at h1
    rw [hp.vid_counter_eq, hp.row_counter_eq]
    exact ih.top h1
  | vsync s relock tail _ ih =>
    have d := ih.derived
    refine ⟨vic_vsync_wf ih.wf relock tail, ?_, ?_, ?_, ?_, ?_⟩
    · cases relock
      · exact ⟨d.dotpos, d.scan, d.columns, d.rows, d.height, d.shift, d.chr, d.vid, d.bit9,
          d.bytes⟩
      · exact ⟨d.dotpos, d.scan, d.columns, d.rows, d.height, d.shift, d.chr, d.vid, d.bit9,
          d.bytes⟩
    · show (0 : Nat) ≤ 15
      decide
    · show (0 : Nat) ≤ 32
      decide
    · show (0 : Nat) ≤ 32 * 0
      decide
    · exact fun _ => ⟨rfl, rfl⟩
  | render s s1 _ h ih => exact fetch_inv_render K ih h
  | emulator s n lo8 hi4 _ ih =>
    have d := ih.derived
    exact ⟨⟨ih.wf.regs_len, ih.wf.palette_len, ih.wf.cpal_len, ih.wf.sram_lt⟩,
      ⟨d.dotpos, d.scan, d.columns, d.rows, d.height, d.shift, d.chr, d.vid, d.bit9, d.bytes⟩,
      ih.charline_le, ih.row_le, ih.vid_le, ih.top⟩

/-- Every state and locals the dot loop is entered with: the state is the one at the
start of the loop up to texture, `pixels` and colour slots, `bitp` is at most 128 and
`v_vid + v_columns` at most the video counter plus the text columns, plus one while a cell
is being drawn. -/
theorem dot_reached_inv (K : vic_consts) (s t : vic_state) (l : dot_locals)
    (h : dot_reached K s t l) :
    render_frame { s with vic_vertical_area := vic_area_step s } t
    ∧ l.bitp ≤ 128
    ∧ l.v_vid + l.v_columns
        ≤ s.vic_vid_counter + s.text_columns + (if l.bitp = 128 then 0 else 1) := by
  induction h with
  | first _ =>
    refine ⟨render_frame_refl _, Nat.le_refl _, ?_⟩
    show s.vic_vid_counter + s.text_columns ≤ _ + (if (128 : Nat) = 128 then 0 else 1)
    rw [if_pos rfl]
    omega
  | next t l t1 l1 _ _ hd ih =>
    obtain ⟨hf, hb, hsum⟩ := ih
    obtain ⟨g1, g2⟩ := render_dot_locals K _ t l t1 l1 hd _ hb hsum
    exact ⟨render_frame_trans hf (render_dot_frame K _ t l t1 l1 hd).1, g1, g2⟩

theorem page_of_le {a : Nat} (h : a ≤ 19455) : a < 65536 ∧ a >>> 10 < 16 + 3 := by
  refine ⟨by omega, ?_⟩
  rw [Nat.shiftRight_eq_div_pow]
  exact Nat.div_lt_of_lt_mul (by omega)

/-- C40. Video memory fetches stay inside the mapped address window: in every state
reachable from `vic_init` by register writes (index 0..15), `vic_vsync`,
`vic_render_line` and changes of the scanline counter and of the memory contents by the
emulator, the character line is at most 15, the displayed-row counter at most 32 and the
video address counter at most 32 * 32; and for every state and locals with which the dot
loop of a call of `vic_render_line` in such a state is entered, every address the loop
body passes to `vic_read_mem_lo8` or `vic_read_mem_hi4` is below 65536 and has a page
index `addr >> 10` below 16 + 3. -/
theorem video_fetch_in_window (K : vic_consts) (s : vic_state) (hr : vic_reachable K s) :
    s.charline ≤ 15 ∧ s.vic_row_counter ≤ 32 ∧ s.vic_vid_counter ≤ 32 * 32
    ∧ ∀ t l, dot_reached K s t l →
        ∀ a, a ∈ fetch_addresses t l → a < 65536 ∧ a >>> 10 < 16 + 3 := by
  have hi := vic_reachable_inv K s hr
  have hvid := hi.vid_le
  have hrow := hi.row_le
  refine ⟨hi.charline_le, hrow, by omega, ?_⟩
  intro t l hd a ha
  obtain ⟨hcols, _, _, hshift, hchr, hva⟩ := derived_ranges hi.derived
  obtain ⟨hf, _, hsum⟩ := dot_reached_inv K s t l hd
  have e := hf.1
  have e1 : t.vic_vid_addr = s.vic_vid_addr := by rw [e]
  have e2 : t.char_height_shift = s.char_height_shift := by rw [e]
  have e3 : t.vic_chr_addr = s.vic_chr_addr := by rw [e]
  have e4 : t.charline = s.charline := by rw [e]
  have hv : t.vic_vid_addr + l.v_vid ≤ 19455 := by
    rw [e1]
    split at hsum <;> omega
  apply page_of_le
  unfold fetch_addresses at ha
  obtain ⟨vb, hvb, hlt⟩ := vic_read_lo8_some t _ hv
  rw [hvb] at ha
  simp only [List.mem_cons, List.mem_singleton, List.not_mem_nil, or_false] at ha
  rcases ha with h | h | h
  · rw [h]; exact hv
  · rw [h, e2, e3, e4]
    have h1 := shl_le_4080 vb _ hlt hshift
    have h2 := hi.charline_le
    omega
  · rw [h]; exact hv

theorem video_fetch_in_window_witness :
    vic_columns_22.charline ≤ 15 ∧ vic_columns_22.vic_row_counter ≤ 32
    ∧ vic_columns_22.vic_vid_counter ≤ 32 * 32
    ∧ ∀ a, a ∈ fetch_addresses
          { vic_columns_22 with vic_vertical_area := vic_area_step vic_columns_22 }
          { dotpos := 0, bitp := 128, v_columns := vic_columns_22.text_columns,
            v_vid := vic_columns_22.vic_vid_counter } →
        a < 65536 ∧ a >>> 10 < 16 + 3 :=
  have h := video_fetch_in_window K_vic vic_columns_22
    (vic_reachable.write vic_booted 2 22 vic_columns_22
      (vic_reachable.init vic_static (fun _ => 0) (fun _ => 0) 0 vic_booted vic_static_wf
        (by rfl))
      (by decide) (by rfl))
  ⟨h.1, h.2.1, h.2.2.1, h.2.2.2 _ _ (dot_reached.first (by decide))⟩

/-- One call of `vic_render_line` and the increment of the scanline counter. -/
theorem line_phase_step (K : vic_consts) {fas rows h i : Nat} {s s1 : vic_state}
    (hp : line_phase fas rows h i s) (hr : vic_render_line K s = some s1) :
    s1.vic_vertical_area = line_area fas (max 1 (rows * h)) i
    ∧ line_phase fas rows h (i + 1) { s1 with scanline := s1.scanline + 1 } := by
  obtain ⟨e, _⟩ := vic_render_line_frame K s s1 hr
  obtain ⟨harea, hc1, hc2, hc3⟩ := vic_render_line_result K s s1 hr
  have e1 : s1.scanline = s.scanline := by rw [e]
  have e2 : s1.first_active_scanline = s.first_active_scanline := by rw [e]
  have e3 : s1.text_rows = s.text_rows := by rw [e]
  have e4 : s1.char_height_minus_one = s.char_height_minus_one := by rw [e]
  obtain ⟨hscan, hfas, hrows, hh, hphase⟩ := hp
  have mk : ((i + 1 ≤ fas ∧ s1.vic_vertical_area = 1 ∧ s1.charline = 0
          ∧ s1.vic_row_counter = 0)
        ∨ (fas < i + 1 ∧ s1.vic_vertical_area = 0
          ∧ s1.vic_row_counter * h + s1.charline = i + 1 - fas ∧ s1.charline < h)
        ∨ (s1.vic_vertical_area = 2 ∧ fas + max 1 (rows * h) < i + 1)) →
      line_phase fas rows h (i + 1) { s1 with scanline := s1.scanline + 1 } := by
    intro hph
    have a1 : s1.scanline + 1 = i + 1 := by rw [e1, hscan]
    have a2 : s1.first_active_scanline = fas := by rw [e2, hfas]
    have a3 : s1.text_rows = rows := by rw [e3, hrows]
    have a4 : s1.char_height_minus_one + 1 = h := by rw [e4, hh]
    exact ⟨a1, a2, a3, a4, hph⟩
  unfold line_area
  rcases hphase with ⟨hi, ha, hcl, hrow⟩ | ⟨hi, ha, hsum, hlt⟩ | ⟨ha, hi⟩
  · have hstep := vic_area_step_top s ha
    by_cases hs : s.scanline = s.first_active_scanline
    · rw [if_pos hs] at hstep
      have hif : i = fas := by rw [← hscan, ← hfas]; exact hs
      have hA : s1.vic_vertical_area = 0 := by rw [harea, hstep]
      refine ⟨by rw [hA, if_neg (by omega), if_pos (by omega)], mk (Or.inr (Or.inl ?_))⟩
      by_cases hcm : s.char_height_minus_one ≤ s.charline
      · obtain ⟨g1, _, g3⟩ := hc1 hstep hcm
        have h1 : h = 1 := by omega
        rw [hA, g1, g3, hrow, h1]
        exact ⟨by omega, rfl, by omega, by omega⟩
      · obtain ⟨g1, _, g3⟩ := hc2 hstep (by omega)
        rw [hA, g1, g3, hrow, hcl]
        exact ⟨by omega, rfl, by omega, by omega⟩
    · rw [if_neg hs] at hstep
      have hne : i ≠ fas := by rw [← hscan, ← hfas]; exact hs
      obtain ⟨g1, _, g3⟩ := hc3 (by rw [hstep]; decide)
      have hA : s1.vic_vertical_area = 1 := by rw [harea, hstep]
      exact ⟨by rw [hA, if_pos (by omega)],
        mk (Or.inl ⟨by omega, hA, by rw [g1, hcl], by rw [g3, hrow]⟩)⟩
  · have hstep := vic_area_step_active s ha
    by_cases hr : s.vic_row_counter ≥ s.text_rows
    · rw [if_pos hr] at hstep
      have hmul : rows * h ≤ s.vic_row_counter * h :=
        Nat.mul_le_mul_right h (by rw [← hrows]; exact hr)
      have hN : fas + max 1 (rows * h) ≤ i := by
        rcases Nat.le_total 1 (rows * h) with hc | hc
        · rw [Nat.max_eq_right hc]; omega
        · rw [Nat.max_eq_left hc]; omega
      have hA : s1.vic_vertical_area = 2 := by rw [harea, hstep]
      exact ⟨by rw [hA, if_neg (by omega), if_neg (by omega)],
        mk (Or.inr (Or.inr ⟨hA, by omega⟩))⟩
    · rw [if_neg hr] at hstep
      have hmul : (s.vic_row_counter + 1) * h ≤ rows * h :=
        Nat.mul_le_mul_right h (by rw [← hrows]; omega)
      rw [Nat.succ_mul] at hmul
      have hN : i < fas + max 1 (rows * h) := by
        have := Nat.le_max_right 1 (rows * h)
        omega
      have hA : s1.vic_vertical_area = 0 := by rw [harea, hstep]
      refine ⟨by rw [hA, if_neg (by omega), if_pos hN], mk (Or.inr (Or.inl ?_))⟩
      by_cases hcm : s.char_height_minus_one ≤ s.charline
      · obtain ⟨g1, _, g3⟩ := hc1 hstep hcm
        rw [hA, g1, g3, Nat.succ_mul]
        exact ⟨by omega, rfl, by omega, by omega⟩
      · obtain ⟨g1, _, g3⟩ := hc2 hstep (by omega)
        rw [hA, g1, g3]
        exact ⟨by omega, rfl, by omega, by omega⟩
  · have hstep := vic_area_step_other s (by rw [ha]; decide) (by rw [ha]; decide)
    rw [ha] at hstep
    have hA : s1.vic_vertical_area = 2 := by rw [harea, hstep]
    exact ⟨by rw [hA, if_neg (by omega), if_neg (by omega)],
      mk (Or.inr (Or.inr ⟨hA, by omega⟩))⟩

/-- The areas of a run of scanlines that starts at scanline `i`. -/
theorem vic_run_lines_phase (K : vic_consts) (fas rows h : Nat) :
    ∀ (n i : Nat) (s : vic_state) (areas : List Nat) (s2 : vic_state),
      line_phase fas rows h i s → vic_run_lines K n s = some (areas, s2) →
      areas = (List.range' i n).map (line_area fas (max 1 (rows * h))) := by
  intro n
  induction n with
  | zero =>
    intro i s areas s2 _ hr
    cases hr
    rfl
  | succ n ih =>
    intro i s areas s2 hp hr
    unfold vic_run_lines at hr
    cases h1 : vic_render_line K s with
    | none => rw [h1] at hr; cases hr
    | some s1 =>
      rw [h1] at hr
      simp only [Option.bind_eq_bind, Option.some_bind] at hr
      cases h2 : vic_run_lines K n { s1 with scanline := s1.scanline + 1 } with
      | none => rw [h2] at hr; cases hr
      | some r =>
        rw [h2] at hr
        simp only [Option.some_bind, Option.pure_def, Option.some.injEq, Prod.mk.injEq] at hr
        obtain ⟨g1, g2⟩ := line_phase_step K hp h1
        have := ih (i + 1) _ r.1 r.2 g2 h2
        rw [← hr.1, this, g1]
        rfl

theorem map_range'_const {f : Nat → Nat} {c : Nat} :
    ∀ (m a : Nat), (∀ i, a ≤ i → i < a + m → f i = c) →
      (List.range' a m).map f = List.replicate m c := by
  intro m
  induction m with
  | zero => intro a _; rfl
  | succ m ih =>
    intro a hf
    rw [List.range'_succ, List.map_cons, List.replicate_succ, hf a (Nat.le_refl _) (by omega),
      ih (a + 1) (fun i h1 h2 => hf i (by omega) (by omega))]

theorem range'_split (m k : Nat) : ∀ a : Nat,
    List.range' a (m + k) = List.range' a m ++ List.range' (a + m) k := by
  induction m with
  | zero => intro a; simp
  | succ m ih =>
    intro a
    rw [Nat.add_right_comm m 1 k, List.range'_succ, List.range'_succ, ih (a + 1),
      Nat.add_assoc a 1 m, Nat.add_comm 1 m]
    rfl

/-- The areas of a whole frame: `fas` scanlines of top border, `N` scanlines of active
display, bottom border after that. -/
theorem map_line_area (fas N k : Nat) :
    (List.range' 0 (fas + N + k)).map (line_area fas N)
      = List.replicate fas 1 ++ List.replicate N 0 ++ List.replicate k 2 := by
  rw [range'_split (fas + N) k 0, range'_split fas N 0, List.map_append, List.map_append,
    map_range'_const fas 0 (fun i _ h => by unfold line_area; rw [if_pos (by omega)]),
    map_range'_const N (0 + fas)
      (fun i h1 h2 => by unfold line_area; rw [if_neg (by omega), if_pos (by omega)]),
    map_range'_const k (0 + (fas + N))
      (fun i h1 _ => by unfold line_area; rw [if_neg (by omega), if_neg (by omega)])]

theorem count_frame (fas N k : Nat) :
    (List.replicate fas 1 ++ List.replicate N 0 ++ List.replicate k 2).count 0 = N := by
  simp [List.count_append, List.count_replicate]

/-- The areas of a run of scanlines from the state `vic_vsync` leaves. -/
theorem vic_run_lines_areas (K : vic_consts) (s0 : vic_state) (relock : Bool) (tail n : Nat)
    (areas : List Nat) (s2 : vic_state)
    (h : vic_run_lines K n (vic_vsync s0 relock tail) = some (areas, s2)) :
    areas = (List.range n).map (line_area s0.first_active_scanline (active_height s0))
    ∧ (s0.first_active_scanline + active_height s0 ≤ n →
        areas = List.replicate s0.first_active_scanline 1
                  ++ List.replicate (active_height s0) 0
                  ++ List.replicate (n - s0.first_active_scanline - active_height s0) 2
        ∧ areas.count 0 = active_height s0) := by
  have hp : line_phase s0.first_active_scanline s0.text_rows (s0.char_height_minus_one + 1) 0
      (vic_vsync s0 relock tail) := by
    unfold vic_vsync
    cases relock
    · exact ⟨rfl, rfl, rfl, rfl, Or.inl ⟨Nat.zero_le _, rfl, rfl, rfl⟩⟩
    · exact ⟨rfl, rfl, rfl, rfl, Or.inl ⟨Nat.zero_le _, rfl, rfl, rfl⟩⟩
  have h1 := vic_run_lines_phase K _ _ _ n 0 _ areas s2 hp h
  have h2 : areas
      = (List.range' 0 n).map (line_area s0.first_active_scanline (active_height s0)) := h1
  refine ⟨by rw [h2, List.range_eq_range'], fun hn => ?_⟩
  have hn2 : n = s0.first_active_scanline + active_height s0
      + (n - s0.first_active_scanline - active_height s0) := by omega
  have h3 : areas = List.replicate s0.first_active_scanline 1
                  ++ List.replicate (active_height s0) 0
                  ++ List.replicate (n - s0.first_active_scanline - active_height s0) 2 := by
    rw [h2]
    conv => lhs; rw [hn2]
    exact map_line_area _ _ _
  exact ⟨h3, by rw [h3]; exact count_frame _ _ _⟩

theorem fetch_inv_dots_ok {K : vic_consts} {s : vic_state} (hi : fetch_inv K s) : dots_ok s := by
  obtain ⟨_, _, _, hshift, hchr, _⟩ := derived_ranges hi.derived
  exact ⟨by rw [hi.wf.palette_len]; decide, hi.wf.cpal_len, hi.wf.sram_lt, hshift, hchr,
    hi.charline_le⟩

/-- In every reachable state `vic_render_line` returns, when the visible window has a
non-negative width and the colour memory is all zero or has bit 3 set everywhere. -/
theorem vic_render_line_reachable_total (K : vic_consts) {s : vic_state} (hi : fetch_inv K s)
    (hwin : K.SCREEN_FIRST_VISIBLE_DOTPOS ≤ K.SCREEN_LAST_VISIBLE_DOTPOS + 1)
    (hmem : (∀ a, s.hi4 a % 256 = 0) ∨ (∀ a, (s.hi4 a % 256) &&& 8 ≠ 0)) :
    ∃ s1, vic_render_line K s = some s1 := by
  obtain ⟨hcols, _, _, _, _, hva⟩ := derived_ranges hi.derived
  have hvid := hi.vid_le
  have hrow := hi.row_le
  exact vic_render_line_total K s (fetch_inv_dots_ok hi) hwin
    (fun _ => ⟨Or.inr hmem, by omega⟩)

theorem fetch_inv_scanline {K : vic_consts} {s : vic_state} (hi : fetch_inv K s) (n : Nat) :
    fetch_inv K { s with scanline := n } := by
  have d := hi.derived
  exact ⟨⟨hi.wf.regs_len, hi.wf.palette_len, hi.wf.cpal_len, hi.wf.sram_lt⟩,
    ⟨d.dotpos, d.scan, d.columns, d.rows, d.height, d.shift, d.chr, d.vid, d.bit9, d.bytes⟩,
    hi.charline_le, hi.row_le, hi.vid_le, hi.top⟩

/-- A run of scanlines from a reachable state returns. -/
theorem vic_run_lines_total (K : vic_consts)
    (hwin : K.SCREEN_FIRST_VISIBLE_DOTPOS ≤ K.SCREEN_LAST_VISIBLE_DOTPOS + 1) :
    ∀ (n : Nat) (s : vic_state), fetch_inv K s →
      ((∀ a, s.hi4 a % 256 = 0) ∨ (∀ a, (s.hi4 a % 256) &&& 8 ≠ 0)) →
      ∃ r, vic_run_lines K n s = some r := by
  intro n
  induction n with
  | zero => intro s _ _; exact ⟨_, rfl⟩
  | succ n ih =>
    intro s hi hmem
    obtain ⟨s1, h1⟩ := vic_render_line_reachable_total K hi hwin hmem
    have hi1 := fetch_inv_scanline (fetch_inv_render K hi h1) (s1.scanline + 1)
    have e := (vic_render_line_frame K s s1 h1).1
    have hh : s1.hi4 = s.hi4 := by rw [e]
    obtain ⟨r, hr⟩ := ih { s1 with scanline := s1.scanline + 1 } hi1
      (by show (∀ a, s1.hi4 a % 256 = 0) ∨ (∀ a, (s1.hi4 a % 256) &&& 8 ≠ 0)
          rw [hh]; exact hmem)
    refine ⟨(s1.vic_vertical_area :: r.1, r.2), ?_⟩
    unfold vic_run_lines
    simp only [Option.bind_eq_bind, h1, Option.some_bind, hr, Option.pure_def]

theorem vic_booted_reachable : vic_reachable K_vic vic_booted :=
  vic_reachable.init vic_static (fun _ => 0) (fun _ => 0) 0 vic_booted vic_static_wf (by rfl)

theorem vic_one_row_reachable : vic_reachable K_vic vic_one_row :=
  vic_reachable.write
    { vic_booted with
        vic_registers := [0, 1, 0, 0, 0, 0, 0, 0, 0, 0, 0, 0, 0, 0, 0, 0],
        first_active_scanline := 2 } 3 2 vic_one_row
    (vic_reachable.write vic_booted 1 1 _ vic_booted_reachable (by decide) (by rfl))
    (by decide) (by rfl)

/-- C31 (amended). Active-area height: with the video registers held constant, after
`vic_vsync` and with `vic_render_line` called once for each scanline 0, 1, 2, ..., every
run of `n` scanlines renders scanline `i` in the top border when `i` is below
first_active_scanline, in the active display for the next max(1, text_rows * character
height) scanlines, and in the bottom border after that; so a run that goes beyond them
renders exactly max(1, text_rows * character height) scanlines in the active display,
consecutive from first_active_scanline: one scanline, not none, when text_rows is 0. The
run returns from every reachable state when the visible window has a non-negative width
and the colour memory is all zero or has bit 3 set everywhere. -/
theorem active_area_height (K : vic_consts) (s0 : vic_state) (relock : Bool) (tail n : Nat) :
    (∀ areas s2, vic_run_lines K n (vic_vsync s0 relock tail) = some (areas, s2) →
      areas = (List.range n).map (line_area s0.first_active_scanline (active_height s0))
      ∧ (s0.first_active_scanline + active_height s0 ≤ n →
          areas = List.replicate s0.first_active_scanline 1
                    ++ List.replicate (active_height s0) 0
                    ++ List.replicate (n - s0.first_active_scanline - active_height s0) 2
          ∧ areas.count 0 = active_height s0))
    ∧ (vic_reachable K s0 →
        K.SCREEN_FIRST_VISIBLE_DOTPOS ≤ K.SCREEN_LAST_VISIBLE_DOTPOS + 1 →
        ((∀ a, s0.hi4 a % 256 = 0) ∨ (∀ a, (s0.hi4 a % 256) &&& 8 ≠ 0)) →
        ∃ r, vic_run_lines K n (vic_vsync s0 relock tail) = some r) := by
  refine ⟨fun areas s2 h => vic_run_lines_areas K s0 relock tail n areas s2 h, ?_⟩
  intro hr hwin hmem
  have hi := vic_reachable_inv K _ (vic_reachable.vsync s0 relock tail hr)
  refine vic_run_lines_total K hwin n _ hi ?_
  unfold vic_vsync
  cases relock <;> exact hmem

theorem active_area_height_witness :
    ∃ areas s2, vic_run_lines K_vic 12 (vic_vsync vic_one_row false 0) = some (areas, s2)
      ∧ areas = [1, 1, 0, 0, 0, 0, 0, 0, 0, 0, 2, 2] ∧ areas.count 0 = 1 * 8 :=
  have h := active_area_height K_vic vic_one_row false 0 12
  let ⟨r, hr⟩ := h.2 vic_one_row_reachable (by decide) (Or.inl (fun _ => rfl))
  ⟨r.1, r.2, hr, ((h.1 r.1 r.2 hr).2 (by decide)).1, ((h.1 r.1 r.2 hr).2 (by decide)).2⟩

/-- C31, counterexample to the claim as stated: in the state `vic_init` leaves (every
register 0: no text rows, character height 8, first active scanline 0), a run of three
scanlines after `vic_vsync` renders scanline 0 in the active display and scanlines 1 and
2 in the bottom border: one active scanline, where text_rows * character height is 0. -/
theorem active_scanline_without_rows :
    vic_booted.text_rows = 0 ∧ vic_booted.char_height_minus_one + 1 = 8
    ∧ ∃ areas s2, vic_run_lines K_vic 3 (vic_vsync vic_booted false 0) = some (areas, s2)
      ∧ areas = [0, 2, 2] ∧ areas.count 0 = 1
      ∧ areas.count 0 ≠ vic_booted.text_rows * (vic_booted.char_height_minus_one + 1) := by
  refine ⟨rfl, rfl, ?_⟩
  have hi := vic_reachable_inv K_vic _ (vic_reachable.vsync vic_booted false 0 vic_booted_reachable)
  obtain ⟨r, hr⟩ := vic_run_lines_total K_vic (by decide) 3 _ hi (Or.inl (fun _ => rfl))
  have h := (vic_run_lines_areas K_vic vic_booted false 0 3 r.1 r.2 hr).2 (by decide)
  have h1 : r.1 = [0, 2, 2] := h.1
  exact ⟨r.1, r.2, hr, h1, by rw [h1]; decide, by rw [h1]; decide⟩

theorem pixels_written_refl (s : vic_state) : pixels_written s s 0 :=
  ⟨rfl, fun _ _ => rfl⟩

theorem pixels_written_trans {s s1 s2 : vic_state} {n m : Nat}
    (h1 : pixels_written s s1 n) (h2 : pixels_written s1 s2 m) :
    pixels_written s s2 (n + m) := by
  obtain ⟨a1, b1⟩ := h1
  obtain ⟨a2, b2⟩ := h2
  refine ⟨by rw [a2, a1]; omega, fun q hq => ?_⟩
  rw [b2 q (by rw [a1]; omega), b1 q (by omega)]

theorem pixels_written_put (s : vic_state) (c : Nat) : pixels_written s (put_pixel s c) 1 := by
  refine ⟨rfl, fun q hq => ?_⟩
  show Function.update s.texture s.pixels c q = s.texture q
  rw [Function.update_noteq (by omega)]

theorem pixels_written_congr {s s1 t : vic_state} {n : Nat} (h : pixels_written s s1 n)
    (hp : t.pixels = s.pixels) (ht : t.texture = s.texture) : pixels_written t s1 n := by
  unfold pixels_written
  rw [hp, ht]
  exact h

theorem dot_border_pixels (s s1 : vic_state) (v : Bool) (h : dot_border s v = some s1) :
    pixels_written s s1 (if v then 1 else 0) := by
  unfold dot_border at h
  cases v
  · cases h; exact pixels_written_refl s
  · simp only [if_true, Option.bind_eq_bind, Option.pure_def] at h
    cases hb : arr_get s.vic_cpal 1 with
    | none => rw [hb] at h; cases h
    | some b =>
      rw [hb] at h
      cases h
      exact pixels_written_put s b

/-- The fetch of a dot leaves the texture and the `pixels` pointer alone. -/
theorem dot_fetch_pixels (s : vic_state) (l : dot_locals) (f : dot_fetched)
    (h : dot_fetch s l = some f) : f.s.pixels = s.pixels ∧ f.s.texture = s.texture := by
  unfold dot_fetch at h
  cases hvb : vic_read_mem_lo8 s (s.vic_vid_addr + l.v_vid) with
  | none => rw [hvb] at h; cases h
  | some vb =>
    rw [hvb] at h
    simp only [Option.bind_eq_bind, Option.some_bind] at h
    cases hchr : vic_read_mem_lo8 s
        ((vb <<< s.char_height_shift) + s.vic_chr_addr + s.charline) with
    | none => rw [hchr] at h; cases h
    | some chr =>
      rw [hchr] at h
      simp only [Option.some_bind] at h
      cases hm : vic_read_mem_hi4 s (s.vic_vid_addr + l.v_vid) with
      | none => rw [hm] at h; cases h
      | some mcm0 =>
        rw [hm] at h
        simp only [Option.some_bind] at h
        by_cases hb : l.bitp = 128
        · rw [if_pos hb] at h
          cases hc : arr_get s.vic_palette (mcm0 &&& 7) with
          | none => rw [hc] at h; cases h
          | some c =>
            rw [hc] at h
            simp only [Option.some_bind] at h
            cases hs : arr_set s.vic_cpal s.sram_colour_index c with
            | none => rw [hs] at h; cases h
            | some cpal =>
              rw [hs] at h
              simp only [Option.some_bind, Option.pure_def, Option.some.injEq] at h
              subst h
              exact ⟨rfl, rfl⟩
        · rw [if_neg hb] at h
          simp only [Option.pure_def, Option.some.injEq] at h
          subst h
          exact ⟨rfl, rfl⟩

/-- The pixels of a dot of a cell: none when the dot is not visible, one in hires mode,
two (and one more step of `dotpos`) in multicolour mode, where the shift is below 32. -/
theorem dot_emit_pixels (f : dot_fetched) (v : Bool) (d : Nat) (s1 : vic_state) (d1 : Nat)
    (h : dot_emit f v d = some (s1, d1)) :
    pixels_written f.s s1 (if v then (if f.mcm ≠ 0 then 2 else 1) else 0)
    ∧ d1 = (if v = true ∧ f.mcm ≠ 0 then d + 1 else d)
    ∧ (v = true → f.mcm ≠ 0 → f.bitp < 32) := by
  unfold dot_emit at h
  cases v
  · simp only [Bool.false_eq_true, if_false, Option.pure_def, Option.some.injEq,
      Prod.mk.injEq] at h
    obtain ⟨h1, h2⟩ := h
    subst h1; subst h2
    exact ⟨pixels_written_refl _, by rw [if_neg (fun hh => absurd hh.1 (by decide))],
      fun hh => absurd hh (by decide)⟩
  · simp only [if_true] at h
    by_cases hm : f.mcm ≠ 0
    · rw [if_pos hm] at h
      by_cases hb : f.bitp ≥ 32
      · rw [if_pos hb] at h; cases h
      · rw [if_neg hb] at h
        cases hc : arr_get f.s.vic_cpal ((f.chr >>> f.bitp) &&& 3) with
        | none => rw [hc] at h; cases h
        | some c =>
          rw [hc] at h
          simp only [Option.bind_eq_bind, Option.some_bind, Option.pure_def, Option.some.injEq,
            Prod.mk.injEq] at h
          obtain ⟨h1, h2⟩ := h
          subst h1; subst h2
          refine ⟨?_, by rw [if_pos ⟨rfl, hm⟩], fun _ _ => by omega⟩
          rw [if_pos rfl, if_pos hm]
          exact pixels_written_trans (pixels_written_put f.s c) (pixels_written_put _ c)
    · rw [if_neg hm] at h
      cases hc : arr_get f.s.vic_cpal (if f.chr &&& f.bitp ≠ 0 then 2 else 0) with
      | none => rw [hc] at h; cases h
      | some c =>
        rw [hc] at h
        simp only [Option.bind_eq_bind, Option.some_bind, Option.pure_def, Option.some.injEq,
          Prod.mk.injEq] at h
        obtain ⟨h1, h2⟩ := h
        subst h1; subst h2
        refine ⟨?_, by rw [if_neg (fun hh => hm hh.2)], fun _ hh => absurd hh hm⟩
        rw [if_pos rfl, if_neg hm]
        exact pixels_written_put f.s c

/-- One pass through the loop body, in its two branches: a border dot, and a dot of a
cell with what was fetched for it. -/
theorem render_dot_pixels (K : vic_consts) (v : Bool) (s : vic_state) (l : dot_locals)
    (s1 : vic_state) (l1 : dot_locals) (h : render_dot K v s l = some (s1, l1)) :
    ((l.dotpos < s.first_active_dotpos ∨ l.v_columns = 0)
      ∧ pixels_written s s1 (if visible_dot K v l.dotpos then 1 else 0) ∧ l1 = l)
    ∨ (s.first_active_dotpos ≤ l.dotpos ∧ l.v_columns ≠ 0
      ∧ ∃ f m, vic_read_mem_hi4 s (s.vic_vid_addr + l.v_vid) = some m
        ∧ f.mcm = (if l.bitp = 128 then m &&& 8 else m)
        ∧ f.v_vid = (if l.bitp = 128 then l.v_vid + 1 else l.v_vid)
        ∧ f.bitp = (if l.bitp = 128 then (if m &&& 8 ≠ 0 then 6 else 128) else l.bitp)
        ∧ pixels_written s s1
            (if visible_dot K v l.dotpos then (if f.mcm ≠ 0 then 2 else 1) else 0)
        ∧ (visible_dot K v l.dotpos = true → f.mcm ≠ 0 → f.bitp < 32)
        ∧ l1 = dot_advance f l.v_columns
            (if visible_dot K v l.dotpos = true ∧ f.mcm ≠ 0 then l.dotpos + 1
             else l.dotpos)) := by
  have hborder : (dot_border s (visible_dot K v l.dotpos)).map (fun s1 => (s1, l))
      = some (s1, l1) →
      pixels_written s s1 (if visible_dot K v l.dotpos then 1 else 0) ∧ l1 = l := by
    intro hh
    cases hd : dot_border s (visible_dot K v l.dotpos) with
    | none => rw [hd] at hh; cases hh
    | some s2 =>
      rw [hd] at hh
      cases hh
      exact ⟨dot_border_pixels _ _ _ hd, rfl⟩
  unfold render_dot at h
  by_cases h1 : l.dotpos < s.first_active_dotpos
  · rw [if_pos h1] at h
    exact Or.inl ⟨Or.inl h1, hborder h⟩
  · rw [if_neg h1] at h
    by_cases h2 : l.v_columns ≠ 0
    · rw [if_pos h2] at h
      right
      refine ⟨by omega, h2, ?_⟩
      cases hf : dot_fetch s l with
      | none => rw [hf] at h; cases h
      | some f =>
        rw [hf] at h
        simp only [Option.bind_eq_bind, Option.some_bind] at h
        cases he : dot_emit f (visible_dot K v l.dotpos) l.dotpos with
        | none => rw [he] at h; cases h
        | some e =>
          rw [he] at h
          simp only [Option.some_bind, Option.pure_def, Option.some.injEq, Prod.mk.injEq] at h
          obtain ⟨h3, h4⟩ := h
          obtain ⟨_, m, _, _, hm, g1, g2, g3⟩ := dot_fetch_reads s l f hf
          obtain ⟨p1, p2⟩ := dot_fetch_pixels s l f hf
          obtain ⟨q1, q2, q3⟩ := dot_emit_pixels f _ _ e.1 e.2 he
          refine ⟨f, m, hm, g1, g2, g3, ?_, q3, ?_⟩
          · rw [← h3]
            exact pixels_written_congr q1 p1.symm p2.symm
          · rw [← h4, q2]
    · rw [if_neg h2] at h
      exact Or.inl ⟨Or.inr (not_not.mp h2), hborder h⟩

theorem visible_dot_iff (K : vic_consts) (v : Bool) (d : Nat) :
    visible_dot K v d = true
      ↔ v = true ∧ K.SCREEN_FIRST_VISIBLE_DOTPOS ≤ d ∧ d ≤ K.SCREEN_LAST_VISIBLE_DOTPOS := by
  unfold visible_dot
  rw [Bool.and_eq_true, decide_eq_true_iff]
  constructor
  · intro h; exact ⟨h.2, h.1.1, h.1.2⟩
  · intro h; exact ⟨⟨h.2.1, h.2.2⟩, h.1⟩

/-- The count of visible dots after a dot that is not visible, after a visible dot, and
after a visible pair of dots. -/
theorem visible_count_step (K : vic_consts) (v : Bool) (d : Nat)
    (hwin : K.SCREEN_FIRST_VISIBLE_DOTPOS ≤ K.SCREEN_LAST_VISIBLE_DOTPOS + 1) :
    visible_count K v (d + 1)
      = visible_count K v d + (if visible_dot K v d then 1 else 0) := by
  by_cases hv : visible_dot K v d = true
  · rw [if_pos hv]
    obtain ⟨h1, h2, h3⟩ := (visible_dot_iff K v d).mp hv
    unfold visible_count
    rw [if_pos h1, if_pos h1]
    omega
  · rw [if_neg hv]
    have hn := (not_congr (visible_dot_iff K v d)).mp hv
    unfold visible_count
    cases v
    · rfl
    · rw [if_pos rfl, if_pos rfl]
      have : ¬ (K.SCREEN_FIRST_VISIBLE_DOTPOS ≤ d ∧ d ≤ K.SCREEN_LAST_VISIBLE_DOTPOS) :=
        fun hh => hn ⟨rfl, hh⟩
      omega

theorem visible_count_pair (K : vic_consts) (v : Bool) (d : Nat)
    (hv : visible_dot K v d = true) (hd : d + 1 ≤ K.SCREEN_LAST_VISIBLE_DOTPOS) :
    visible_count K v (d + 1 + 1) = visible_count K v d + 2 := by
  obtain ⟨h1, h2, h3⟩ := (visible_dot_iff K v d).mp hv
  unfold visible_count
  rw [if_pos h1, if_pos h1]
  omega

theorem dot_advance_v_vid (f : dot_fetched) (c d : Nat) : (dot_advance f c d).v_vid = f.v_vid := by
  unfold dot_advance
  split <;> rfl

theorem vic_read_mem_hi4_frame {s0 s : vic_state} (h : render_frame s0 s) (a : Nat) :
    vic_read_mem_hi4 s a = vic_read_mem_hi4 s0 a := by
  have e : s.hi4 = s0.hi4 := by rw [h.1]
  unfold vic_read_mem_hi4
  rw [e]

/-- One pass through the loop body and the `dotpos++` of the loop header keep the
invariant. -/
theorem dots_inv_step (K : vic_consts) (v : Bool)
    (hF : K.SCREEN_FIRST_VISIBLE_DOTPOS % 2 = 0) (hL : K.SCREEN_LAST_VISIBLE_DOTPOS % 2 = 1)
    (hwin : K.SCREEN_FIRST_VISIBLE_DOTPOS ≤ K.SCREEN_LAST_VISIBLE_DOTPOS + 1)
    (s0 s : vic_state) (l : dot_locals) (hfad : s0.first_active_dotpos % 2 = 0)
    (hi : dots_inv K v s0 s l) (s1 : vic_state) (l1 : dot_locals)
    (h : render_dot K v s l = some (s1, l1)) :
    dots_inv K v s0 s1 { l1 with dotpos := l1.dotpos + 1 } := by
  obtain ⟨hfr, hw, hpar⟩ := hi
  have hfr1 := render_frame_trans hfr (render_dot_frame K v s l s1 l1 h).1
  have efad : s.first_active_dotpos = s0.first_active_dotpos := by rw [hfr.1]
  have evid : s.vic_vid_addr = s0.vic_vid_addr := by rw [hfr.1]
  rcases render_dot_pixels K v s l s1 l1 h with ⟨hb, hp, hl⟩ | ⟨hc1, hc2, f, m, hm, g1, g2, g3,
    hp, hsh, hl⟩
  · subst hl
    refine ⟨hfr1, ?_, ?_⟩
    · show pixels_written s0 s1 (visible_count K v (l1.dotpos + 1))
      rw [visible_count_step K v _ hwin]
      exact pixels_written_trans hw hp
    · intro _ _ _ h4 h5 h6
      exfalso
      rw [efad] at hb
      rcases hb with hb | hb
      · have h4' : s0.first_active_dotpos ≤ l1.dotpos + 1 := h4
        have h6' : (l1.dotpos + 1) % 2 = 1 := h6
        omega
      · exact h5 hb
  · rw [vic_read_mem_hi4_frame hfr, evid] at hm
    rw [efad] at hc1
    by_cases hpair : visible_dot K v l.dotpos = true ∧ f.mcm ≠ 0
    · rw [if_pos hpair] at hl
      rw [if_pos hpair.1, if_pos hpair.2] at hp
      obtain ⟨hv1, hv2, hv3⟩ := (visible_dot_iff K v l.dotpos).mp hpair.1
      have hlt := hsh hpair.1 hpair.2
      have heven : l.dotpos % 2 = 0 := by
        by_contra hodd
        rcases hpar hv1 hv2 hv3 hc1 hc2 (by omega) with h0 | ⟨h32, h128⟩
        · rw [h0] at hm
          cases hm
          have : f.mcm = 0 := by
            rw [g1]
            split
            · exact Nat.zero_and 8
            · rfl
          exact hpair.2 this
        · rw [if_neg h128] at g3
          omega
      have hd1 : l1.dotpos = l.dotpos + 1 := by rw [hl, dot_advance_dotpos]
      refine ⟨hfr1, ?_, ?_⟩
      · show pixels_written s0 s1 (visible_count K v (l1.dotpos + 1))
        rw [hd1, visible_count_pair K v _ hpair.1 (by omega)]
        exact pixels_written_trans hw hp
      · intro _ _ _ _ _ h6
        exfalso
        have h6' : (l1.dotpos + 1) % 2 = 1 := h6
        omega
    · rw [if_neg hpair] at hl
      have hd1 : l1.dotpos = l.dotpos := by rw [hl, dot_advance_dotpos]
      have hn : (if visible_dot K v l.dotpos = true then (if f.mcm ≠ 0 then 2 else 1) else 0)
          = (if visible_dot K v l.dotpos = true then 1 else 0) := by
        by_cases hv : visible_dot K v l.dotpos = true
        · rw [if_pos hv, if_pos hv, if_neg (fun hh => hpair ⟨hv, hh⟩)]
        · rw [if_neg hv, if_neg hv]
      rw [hn] at hp
      refine ⟨hfr1, ?_, ?_⟩
      · show pixels_written s0 s1 (visible_count K v (l1.dotpos + 1))
        rw [hd1, visible_count_step K v _ hwin]
        exact pixels_written_trans hw hp
      · intro h1 h2 h3 _ _ h6
        have h2' : K.SCREEN_FIRST_VISIBLE_DOTPOS ≤ l1.dotpos + 1 := h2
        have h3' : l1.dotpos + 1 ≤ K.SCREEN_LAST_VISIBLE_DOTPOS := h3
        have h6' : (l1.dotpos + 1) % 2 = 1 := h6
        rw [hd1] at h2' h3' h6'
        have hvis : visible_dot K v l.dotpos = true :=
          (visible_dot_iff K v l.dotpos).mpr ⟨h1, by omega, by omega⟩
        have hm0 : f.mcm = 0 := by
          by_contra hh
          exact hpair ⟨hvis, hh⟩
        show vic_read_mem_hi4 s0 (s0.vic_vid_addr + l1.v_vid) = some 0
          ∨ (32 ≤ l1.bitp ∧ l1.bitp ≠ 128)
        by_cases hb : l.bitp = 128
        · right
          rw [if_pos hb] at g1 g3
          rw [g1] at hm0
          rw [if_neg (by rw [hm0]; decide)] at g3
          rw [hl]
          unfold dot_advance
          rw [if_neg (by omega), if_neg (by rw [g1, hm0]; decide), g3]
          exact ⟨(by decide : 32 ≤ 128 >>> 1), (by decide : 128 >>> 1 ≠ 128)⟩
        · left
          rw [if_neg hb] at g1 g2
          rw [hl, dot_advance_v_vid, g2, hm, ← g1, hm0]

theorem visible_count_zero (K : vic_consts) (v : Bool) : visible_count K v 0 = 0 := by
  unfold visible_count
  cases v
  · rfl
  · rw [if_pos rfl, Nat.zero_min, Nat.zero_min]

theorem visible_count_end (K : vic_consts) (v : Bool) (d : Nat)
    (hwin : K.SCREEN_FIRST_VISIBLE_DOTPOS ≤ K.SCREEN_LAST_VISIBLE_DOTPOS + 1)
    (hd : K.SCREEN_LAST_VISIBLE_DOTPOS < d) :
    visible_count K v d
      = if v then K.SCREEN_LAST_VISIBLE_DOTPOS + 1 - K.SCREEN_FIRST_VISIBLE_DOTPOS else 0 := by
  unfold visible_count
  cases v
  · rfl
  · rw [if_pos rfl, if_pos rfl]
    omega

/-- The dot loop keeps its invariant and ends at or beyond the last dot. -/
theorem render_dots_inv (K : vic_consts) (v : Bool)
    (hF : K.SCREEN_FIRST_VISIBLE_DOTPOS % 2 = 0) (hL : K.SCREEN_LAST_VISIBLE_DOTPOS % 2 = 1)
    (hwin : K.SCREEN_FIRST_VISIBLE_DOTPOS ≤ K.SCREEN_LAST_VISIBLE_DOTPOS + 1)
    (s0 : vic_state) (hfad : s0.first_active_dotpos % 2 = 0) :
    ∀ (fuel : Nat) (s : vic_state) (l : dot_locals) (s1 : vic_state) (l1 : dot_locals),
      dots_inv K v s0 s l → render_dots K v fuel s l = some (s1, l1) →
      dots_inv K v s0 s1 l1 ∧ K.CYCLES_PER_SCANLINE * 4 ≤ l1.dotpos := by
  intro fuel
  induction fuel with
  | zero =>
    intro s l s1 l1 hi h
    unfold render_dots at h
    split at h
    · cases h
    · cases h; exact ⟨hi, by omega⟩
  | succ n ih =>
    intro s l s1 l1 hi h
    unfold render_dots at h
    split at h
    · cases hd : render_dot K v s l with
      | none => rw [hd] at h; cases h
      | some r =>
        rw [hd] at h
        simp only [Option.bind_eq_bind, Option.some_bind] at h
        exact ih _ _ _ _ (dots_inv_step K v hF hL hwin s0 s l hfad hi r.1 r.2 hd) h
    · cases h; exact ⟨hi, by omega⟩

theorem fill_border_pixels (b : Nat) : ∀ (n : Nat) (s : vic_state),
    pixels_written s (fill_border b n s) n
  | 0, s => pixels_written_refl s
  | n + 1, s => by
    unfold fill_border
    have h := pixels_written_trans (pixels_written_put s b) (fill_border_pixels b n _)
    rw [Nat.add_comm 1 n] at h
    exact h

/-- The pixels of one call of `vic_render_line`: a visible scanline writes
`SCREEN_LAST_VISIBLE_DOTPOS + 1 - SCREEN_FIRST_VISIBLE_DOTPOS` pixels from the `pixels`
pointer on, a scanline that is not visible writes none; the pointer is then advanced by
`pixels_tail` when the scanline is visible, and also when it is a scanline of the active
display that is not visible. -/
theorem vic_render_line_pixels (K : vic_consts)
    (hF : K.SCREEN_FIRST_VISIBLE_DOTPOS % 2 = 0) (hL : K.SCREEN_LAST_VISIBLE_DOTPOS % 2 = 1)
    (hC : K.SCREEN_LAST_VISIBLE_DOTPOS < K.CYCLES_PER_SCANLINE * 4)
    (hwin : K.SCREEN_FIRST_VISIBLE_DOTPOS ≤ K.SCREEN_LAST_VISIBLE_DOTPOS + 1)
    (s : vic_state) (hfad : s.first_active_dotpos % 2 = 0) (s1 : vic_state)
    (h : vic_render_line K s = some s1) :
    s1.pixels = s.pixels
        + (if visible_line K s = true
           then K.SCREEN_LAST_VISIBLE_DOTPOS + 1 - K.SCREEN_FIRST_VISIBLE_DOTPOS else 0)
        + (if visible_line K s = true ∨ vic_area_step s = 0 then s.pixels_tail else 0)
    ∧ ∀ q, q < s.pixels ∨ s.pixels
          + (if visible_line K s = true
             then K.SCREEN_LAST_VISIBLE_DOTPOS + 1 - K.SCREEN_FIRST_VISIBLE_DOTPOS else 0) ≤ q →
        s1.texture q = s.texture q := by
  rcases vic_render_line_cases K s s1 h with ⟨ha, hv, e⟩ | ⟨ha, hv, _, b, t, _, ht, e⟩
    | ⟨ha, t, l, hr, e⟩
  · rw [hv, e]
    rw [if_neg (by decide), if_neg (fun hh => hh.elim (fun h1 => absurd h1 (by decide)) ha)]
    exact ⟨rfl, fun _ _ => rfl⟩
  · have hp := fill_border_pixels b
      (K.SCREEN_LAST_VISIBLE_DOTPOS + 1 - K.SCREEN_FIRST_VISIBLE_DOTPOS)
      { s with vic_vertical_area := vic_area_step s }
    rw [← ht] at hp
    have hf := fill_border_frame b
      (K.SCREEN_LAST_VISIBLE_DOTPOS + 1 - K.SCREEN_FIRST_VISIBLE_DOTPOS)
      { s with vic_vertical_area := vic_area_step s }
    rw [← ht] at hf
    have htail : t.pixels_tail = s.pixels_tail := by rw [hf.1]
    obtain ⟨p1, p2⟩ := hp
    rw [hv, e, if_pos rfl, if_pos (Or.inl rfl)]
    refine ⟨?_, fun q hq => p2 q hq⟩
    show t.pixels + t.pixels_tail = _
    rw [p1, htail]
  · have hi0 : dots_inv K (visible_line K s) { s with vic_vertical_area := vic_area_step s }
        { s with vic_vertical_area := vic_area_step s }
        { dotpos := 0, bitp := 128, v_columns := s.text_columns, v_vid := s.vic_vid_counter } := by
      refine ⟨render_frame_refl _, ?_, fun _ _ _ _ _ h6 => absurd h6 (show ¬ (0 : Nat) % 2 = 1 by decide)⟩
      show pixels_written _ _ (visible_count K (visible_line K s) 0)
      rw [visible_count_zero]
      exact pixels_written_refl _
    obtain ⟨hi, hend⟩ := render_dots_inv K (visible_line K s) hF hL hwin
      { s with vic_vertical_area := vic_area_step s } hfad _ _ _ t l hi0 hr
    have hw := hi.written
    rw [visible_count_end K _ _ hwin (by omega)] at hw
    have htail : t.pixels_tail = s.pixels_tail := by rw [hi.frame.1]
    obtain ⟨p1, p2⟩ := hw
    have e1 : s1.pixels = t.pixels + t.pixels_tail := by
      rw [e]; unfold vic_line_end; split <;> rfl
    have e2 : s1.texture = t.texture := by
      rw [e]; unfold vic_line_end; split <;> rfl
    rw [if_pos (Or.inr ha), e1, e2, p1, htail]
    exact ⟨rfl, fun q hq => p2 q hq⟩

/-- C39 (as the code behaves). Pixel rows: given an even SCREEN_ORIGIN_DOTPOS, an even
SCREEN_FIRST_VISIBLE_DOTPOS, an odd SCREEN_LAST_VISIBLE_DOTPOS below
CYCLES_PER_SCANLINE * 4 and a visible window of non-negative width, for every state whose
first_active_dotpos is the one register 0 gives, every memory content and every vertical
area, every result of `vic_render_line` has: on a visible scanline exactly
SCREEN_LAST_VISIBLE_DOTPOS + 1 - SCREEN_FIRST_VISIBLE_DOTPOS pixels written from the
`pixels` pointer on (the texture is unchanged elsewhere) and the pointer advanced by that
number and then by `pixels_tail`; on a scanline that is not visible no pixel written, and
the pointer unchanged in a border area but advanced by `pixels_tail` in the active
display. The call returns in every border area, and in the active display when the state
is in range and no pixel needs a shift by 32 or more. -/
theorem pixel_row_width (K : vic_consts)
    (hO : K.SCREEN_ORIGIN_DOTPOS % 2 = 0)
    (hF : K.SCREEN_FIRST_VISIBLE_DOTPOS % 2 = 0) (hL : K.SCREEN_LAST_VISIBLE_DOTPOS % 2 = 1)
    (hC : K.SCREEN_LAST_VISIBLE_DOTPOS < K.CYCLES_PER_SCANLINE * 4)
    (hwin : K.SCREEN_FIRST_VISIBLE_DOTPOS ≤ K.SCREEN_LAST_VISIBLE_DOTPOS + 1)
    (s : vic_state)
    (hd : s.first_active_dotpos
      = (s.vic_registers.getD 0 0 &&& 0x7F) * 4 + K.SCREEN_ORIGIN_DOTPOS) :
    (∀ s1, vic_render_line K s = some s1 →
      s1.pixels = s.pixels
          + (if visible_line K s = true
             then K.SCREEN_LAST_VISIBLE_DOTPOS + 1 - K.SCREEN_FIRST_VISIBLE_DOTPOS else 0)
          + (if visible_line K s = true ∨ vic_area_step s = 0 then s.pixels_tail else 0)
      ∧ ∀ q, q < s.pixels ∨ s.pixels
            + (if visible_line K s = true
               then K.SCREEN_LAST_VISIBLE_DOTPOS + 1 - K.SCREEN_FIRST_VISIBLE_DOTPOS
               else 0) ≤ q →
          s1.texture q = s.texture q)
    ∧ (dots_ok s →
        (vic_area_step s = 0 →
          shift_safe (visible_line K s) s
          ∧ s.vic_vid_addr + s.vic_vid_counter + s.text_columns ≤ 19455) →
        ∃ s1, vic_render_line K s = some s1) := by
  have hfad : s.first_active_dotpos % 2 = 0 := by
    rw [hd]
    omega
  exact ⟨fun s1 h => vic_render_line_pixels K hF hL hC hwin s hfad s1 h,
    fun hs hact => vic_render_line_total K s hs hwin hact⟩

theorem pixel_row_width_witness :
    ∃ s1, vic_render_line K_vic vic_hires_line = some s1
      ∧ visible_line K_vic vic_hires_line = true
      ∧ s1.pixels = vic_hires_line.pixels + 224 + vic_hires_line.pixels_tail :=
  have h := pixel_row_width K_vic (by decide) (by decide) (by decide) (by decide) (by decide)
    vic_hires_line (by decide)
  let ⟨s1, h1⟩ := h.2 vic_hires_line_ok
    (fun _ => ⟨Or.inr (Or.inl (fun _ => rfl)), by decide⟩)
  ⟨s1, h1, by decide, (h.1 s1 h1).1⟩

/-- C39, counterexample to the claim as stated: with SCREEN_ORIGIN_DOTPOS 12, first
visible dot 38, last visible dot 261, 71 cycles per scanline and visible scanlines
28..311, right after `vic_init` and `vic_vsync(1)` with a texture tail of 5, scanline 0 is
rendered in the active display (every register is 0, so the first active scanline is 0)
and is not visible: no pixel is written, and the `pixels` pointer has moved by the
tail. -/
theorem tail_added_on_hidden_scanline :
    K_vic.SCREEN_ORIGIN_DOTPOS % 2 = 0 ∧ K_vic.SCREEN_FIRST_VISIBLE_DOTPOS % 2 = 0
    ∧ K_vic.SCREEN_LAST_VISIBLE_DOTPOS % 2 = 1
    ∧ K_vic.SCREEN_LAST_VISIBLE_DOTPOS < K_vic.CYCLES_PER_SCANLINE * 4
    ∧ visible_line K_vic (vic_vsync vic_booted true 5) = false
    ∧ vic_area_step (vic_vsync vic_booted true 5) = 0
    ∧ ∃ s1, vic_render_line K_vic (vic_vsync vic_booted true 5) = some s1
      ∧ (∀ q, s1.texture q = (vic_vsync vic_booted true 5).texture q)
      ∧ s1.pixels = (vic_vsync vic_booted true 5).pixels + 5
      ∧ s1.pixels ≠ (vic_vsync vic_booted true 5).pixels := by
  refine ⟨by decide, by decide, by decide, by decide, by decide, by decide, ?_⟩
  have hi := vic_reachable_inv K_vic _ (vic_reachable.vsync vic_booted true 5 vic_booted_reachable)
  obtain ⟨s1, h1⟩ := vic_render_line_reachable_total K_vic hi (by decide)
    (Or.inl (fun _ => rfl))
  obtain ⟨p1, p2⟩ := vic_render_line_pixels K_vic (by decide) (by decide) (by decide)
    (by decide) _ (by decide) s1 h1
  have hp : s1.pixels = (vic_vsync vic_booted true 5).pixels + 5 := p1
  exact ⟨s1, h1, fun q => p2 q (by
      have : (vic_vsync vic_booted true 5).pixels = 0 := rfl
      rw [this]
      exact Or.inr (Nat.zero_le q)), hp, by rw [hp]; omega⟩

end Xemu
